import Mathlib

/-!
# libkdumpfile address translation: read cache and PPC64 page-table step

A shallow embedding of `src/addrxlat/ctx.c` (read cache, raw reads) and
`src/addrxlat/ppc64.c` (Linux/ppc64 page-table step function), with the
properties of the specification proved about the embedded code.

Conventions of the embedding:

* machine integers are natural numbers; 64-bit arithmetic is written with an
  explicit reduction modulo `2 ^ 64`;
* pointers into the fixed slot array of the read cache are slot indices;
* the C structures are declared in headers outside the translated sources; they
  are given here with the members that the translated code uses, under the names
  used there;
* the user callbacks are functions of the history of callback invocations
  (the field `log` of the context), which is how a deterministic host is seen
  from the library; every callback invocation is appended to that history.
-/

namespace Kdumpfile

/-! ## Data model -/

/-- Modelled from the spec: the status codes `addrxlat_status`, whose declaration
is in a header outside the translated sources: OK, the dedicated error kinds, and
the range of other codes that callbacks may return. -/
inductive addrxlat_status where
  | OK
  | ERR_NOTIMPL
  | ERR_NOTPRESENT
  | ERR_INVALID
  | ERR_NOMEM
  | ERR_NODATA
  | ERR_NOMETH
  | ERR_CUSTOM (code : Nat)
  deriving DecidableEq, Repr

/-- Modelled from the spec: the address spaces `addrxlat_addrspace_t`, whose
declaration is in a header outside the translated sources. -/
inductive addrxlat_addrspace_t where
  | KPHYSADDR
  | MACHPHYSADDR
  | KVADDR
  | NOADDR
  deriving DecidableEq, Repr

/-- Full address: a value together with its address space. -/
structure addrxlat_fulladdr_t where
  addr : Nat
  as : addrxlat_addrspace_t
  deriving DecidableEq, Repr

/-- Byte order recorded in a buffer (`addrxlat_byte_order_t`). -/
inductive addrxlat_byte_order_t where
  | BIG_ENDIAN
  | LITTLE_ENDIAN
  | HOST_ENDIAN
  deriving DecidableEq, Repr

/-- Read buffer (`addrxlat_buffer_t`).  The field `ptr` is the host address of
the first byte of the data. -/
structure addrxlat_buffer_t where
  addr : addrxlat_fulladdr_t
  ptr : Nat
  size : Nat
  byte_order : addrxlat_byte_order_t
  deriving DecidableEq, Repr

/-- One invocation of a user callback, as recorded in the history. -/
inductive cb_event where
  /-- Call `put_page(data, buf)`. -/
  | put_page (buf : addrxlat_buffer_t)
  /-- Call `get_page(data, buf)` with the buffer `req` on entry; it returned the
  status `status` and left the buffer as `res`. -/
  | get_page (req : addrxlat_buffer_t) (status : addrxlat_status)
      (res : addrxlat_buffer_t)
  deriving DecidableEq, Repr

/-- Modelled from the spec: the types of symbolic information
(`addrxlat_sym_type_t`), whose declaration is in a header outside the translated
sources; `ctx.c` uses these six names. -/
inductive addrxlat_sym_type_t where
  | SYM_NONE
  | SYM_REG
  | SYM_VALUE
  | SYM_SIZEOF
  | SYM_OFFSETOF
  | SYM_NUMBER
  deriving DecidableEq, Repr

/-- The request part of `addrxlat_sym_t`: the type of information and the
arguments `args[]` that are filled in.  The member `val` is the second component
of the result of the callback. -/
structure addrxlat_sym_t where
  type : addrxlat_sym_type_t
  args : List String
  deriving DecidableEq, Repr

/-- Callback definitions (`addrxlat_cb_t`), restricted to the members used by
the read path and the symbol resolvers.  `get_page` is `none` when the function pointer is NULL.  The
`put_page` callback returns nothing and takes the buffer read-only, so all that
the library sees of it is whether it is installed.  `sym` is `none` when the
function pointer is NULL; it gets the earlier requests and the request, and gives
the status and the value it stores in `sym->val`.  `data` is the pointer handed to
every callback, and `cb_hook` is the address of the hook function, `none` when the
function pointer is NULL. -/
structure addrxlat_cb_t where
  get_page : Option (List cb_event → addrxlat_buffer_t →
    addrxlat_status × addrxlat_buffer_t)
  put_page : Bool
  read_caps : Nat
  sym : Option (List addrxlat_sym_t → addrxlat_sym_t → addrxlat_status × Nat) := none
  data : Nat := 0
  cb_hook : Option Nat := none

/-- Modelled from the spec: READ_CACHE_SLOTS, the number of slots of the read
cache (the macro is defined in a header outside the translated sources; the
specification fixes N = 4). -/
abbrev READ_CACHE_SLOTS : Nat := 4

/-- Index of a cache slot; stands for a `struct read_cache_slot *` into
`cache->slot[]`. -/
abbrev slot_ptr : Type := Fin READ_CACHE_SLOTS

/-- Read cache (`struct read_cache`).  The array of slots
`{ next, prev, buffer }` is kept as three arrays indexed by slot. -/
structure read_cache where
  mru : slot_ptr
  next : slot_ptr → slot_ptr
  prev : slot_ptr → slot_ptr
  buffer : slot_ptr → addrxlat_buffer_t

/-- One invocation of a callback hook: the address of the hook function, the
`data` pointer it was given and the callbacks at `&ctx->cb` on entry. -/
structure hook_event where
  hook : Nat
  data : Nat
  cb : addrxlat_cb_t

/-- Translation context (`addrxlat_ctx_t`).  `err` is the error message as a
list of clauses, outermost first; `log` is the history of the invocations of
the page callbacks, `symlog` that of the requests to the `sym` callback and
`hooklog` that of the invocations of callback hooks; `cb` holds the effective
callbacks and `orig_cb` the callbacks as installed. -/
structure addrxlat_ctx_t where
  refcnt : Nat
  cache : read_cache
  cb : addrxlat_cb_t
  err : List String
  noerr_notpresent : Bool
  log : List cb_event
  symlog : List addrxlat_sym_t := []
  orig_cb : addrxlat_cb_t := { get_page := none, put_page := false, read_caps := 0 }
  hooklog : List hook_event := []

/-! ## Read cache (`ctx.c`) -/

/-- Pointer update `cache->slot[i].next = v`. -/
def read_cache.set_next (c : read_cache) (i v : slot_ptr) : read_cache :=
  { c with next := fun j => if j = i then v else c.next j }

/-- Pointer update `cache->slot[i].prev = v`. -/
def read_cache.set_prev (c : read_cache) (i v : slot_ptr) : read_cache :=
  { c with prev := fun j => if j = i then v else c.prev j }

/-- Buffer update `cache->slot[i].buffer = b`. -/
def read_cache.set_buffer (c : read_cache) (i : slot_ptr)
    (b : addrxlat_buffer_t) : read_cache :=
  { c with buffer := fun j => if j = i then b else c.buffer j }

/-- One iteration of the loop of `init_cache` for slot `i`:
`slot->next = slot + 1 < end ? slot + 1 : &cache->slot[0]; slot->next->prev = slot`. -/
def init_cache_iter (c : read_cache) (i : slot_ptr) : read_cache :=
  let nx : slot_ptr :=
    if h : i.val + 1 < READ_CACHE_SLOTS then ⟨i.val + 1, h⟩ else ⟨0, by decide⟩
  let c1 := c.set_next i nx
  c1.set_prev (c1.next i) i

/-- The function `init_cache`: the MRU pointer is slot 0 and the slots are linked
into a ring in array order. -/
def init_cache (c : read_cache) : read_cache :=
  (List.finRange READ_CACHE_SLOTS).foldl init_cache_iter
    { c with mru := ⟨0, by decide⟩ }

/-- The function `touch_cache_slot`: mark a slot as most recently used. -/
def touch_cache_slot (c : read_cache) (slot : slot_ptr) : read_cache :=
  if slot = c.mru then c
  else
    let c5 :=
      if c.next slot ≠ c.mru then
        -- slot->prev->next = slot->next
        let c1 := c.set_next (c.prev slot) (c.next slot)
        -- slot->next->prev = slot->prev
        let c2 := c1.set_prev (c1.next slot) (c1.prev slot)
        -- slot->next = cache->mru
        let c3 := c2.set_next slot c2.mru
        -- slot->prev = cache->mru->prev
        let c4 := c3.set_prev slot (c3.prev c3.mru)
        -- slot->prev->next = slot->next->prev = slot
        let c4a := c4.set_prev (c4.next slot) slot
        c4a.set_next (c4a.prev slot) slot
      else c
    { c5 with mru := slot }

/-- Unsigned 64-bit subtraction `a - b`. -/
def u64_sub (a b : Nat) : Nat := (a % 2 ^ 64 + (2 ^ 64 - b % 2 ^ 64)) % 2 ^ 64

/-- The test of the cache scan:
`buf->size > addr->addr - buf->addr.addr && buf->addr.as == addr->as`. -/
def buf_contains (buf : addrxlat_buffer_t) (addr : addrxlat_fulladdr_t) : Bool :=
  decide (buf.size > u64_sub addr.addr buf.addr.addr) && decide (buf.addr.as = addr.as)

/-- The scan `do { ... } while (++slot < &cache->slot[READ_CACHE_SLOTS])` shared
by `get_cache_buf` and `bury_cache_buffer`: the first slot, in array order,
whose buffer contains the address. -/
def cache_scan (c : read_cache) (addr : addrxlat_fulladdr_t) : Option slot_ptr :=
  (List.finRange READ_CACHE_SLOTS).find? (fun s => buf_contains (c.buffer s) addr)

/-- Result of `get_cache_buf`: the status, the slot whose buffer `*pbuf`
points to (`none` when `*pbuf` is not written) and the context afterwards. -/
structure cache_result where
  status : addrxlat_status
  pbuf : Option slot_ptr
  ctx : addrxlat_ctx_t

/-- The function `get_cache_buf`.  The result is `none` when the code calls the
NULL `get_page` pointer. -/
def get_cache_buf (ctx : addrxlat_ctx_t) (addr : addrxlat_fulladdr_t) :
    Option cache_result :=
  match cache_scan ctx.cache addr with
  | some slot =>
    -- out:
    some { status := .OK, pbuf := some slot,
           ctx := { ctx with cache := touch_cache_slot ctx.cache slot } }
  | none =>
    -- Not found - use the LRU slot
    let slot := ctx.cache.prev ctx.cache.mru
    let old := ctx.cache.buffer slot
    -- Free up the slot if necessary
    let log1 :=
      if old.size ≠ 0 ∧ ctx.cb.put_page = true then ctx.log ++ [cb_event.put_page old]
      else ctx.log
    -- Get the new page
    let req := { old with addr := addr }
    match ctx.cb.get_page with
    | none => none
    | some gp =>
      let r := gp log1 req
      let log2 := log1 ++ [cb_event.get_page req r.1 r.2]
      if r.1 ≠ .OK then
        some { status := r.1, pbuf := none,
               ctx := { ctx with
                 cache := ctx.cache.set_buffer slot { r.2 with size := 0 },
                 log := log2 } }
      else
        let c1 := ctx.cache.set_buffer slot r.2
        some { status := .OK, pbuf := some slot,
               ctx := { ctx with cache := touch_cache_slot c1 slot, log := log2 } }

/-- The body of the FOUND branch of `bury_cache_buffer` for the slot `slot`. -/
def bury_slot (c : read_cache) (slot : slot_ptr) : read_cache :=
  -- If already marked, do nothing.
  if c.next slot = c.mru then c
  -- Reorder the MRU chain if needed
  else if slot ≠ c.mru then
    -- slot->prev->next = slot->next
    let c1 := c.set_next (c.prev slot) (c.next slot)
    -- slot->next->prev = slot->prev
    let c2 := c1.set_prev (c1.next slot) (c1.prev slot)
    -- slot->next = cache->mru
    let c3 := c2.set_next slot c2.mru
    -- slot->prev = cache->mru->prev
    let c4 := c3.set_prev slot (c3.prev c3.mru)
    -- slot->prev->next = slot->next->prev = slot
    let c4a := c4.set_prev (c4.next slot) slot
    c4a.set_next (c4a.prev slot) slot
  else
    -- Move the MRU pointer.
    { c with mru := c.next slot }

/-- The function `bury_cache_buffer`: move the slot holding `addr` to the end of
the MRU chain. -/
def bury_cache_buffer (c : read_cache) (addr : addrxlat_fulladdr_t) : read_cache :=
  match cache_scan c addr with
  | none => c
  | some slot => bury_slot c slot

/-- One iteration of the loop of `cleanup_cache`:
`if (buf->size) cb->put_page(cb->data, buf)`. -/
def cleanup_cache_iter (c : read_cache) (log : List cb_event) (s : slot_ptr) :
    List cb_event :=
  if (c.buffer s).size ≠ 0 then log ++ [cb_event.put_page (c.buffer s)] else log

/-- The function `cleanup_cache`: release all cached pages; returns the history
of callback invocations afterwards. -/
def cleanup_cache (c : read_cache) (cb : addrxlat_cb_t) (log : List cb_event) :
    List cb_event :=
  if cb.put_page = false then log
  else (List.finRange READ_CACHE_SLOTS).foldl (cleanup_cache_iter c) log

/-- The function `addrxlat_ctx_decref`: the returned count, whether the context
was destroyed, and the context state (with the callback history) afterwards.
Releasing the error message and the memory of the context has no effect on the
modelled state. -/
def addrxlat_ctx_decref (ctx : addrxlat_ctx_t) : Nat × Bool × addrxlat_ctx_t :=
  let refcnt := (ctx.refcnt + (2 ^ 64 - 1)) % 2 ^ 64
  if refcnt = 0 then
    (refcnt, true,
      { ctx with refcnt := refcnt, log := cleanup_cache ctx.cache ctx.cb ctx.log })
  else (refcnt, false, { ctx with refcnt := refcnt })

/-! ## Ring structure of the cache -/

/-- The slots in MRU order: `mru`, `mru->next`, `mru->next->next`, ... -/
def ring_order (c : read_cache) : List slot_ptr :=
  [c.mru, c.next c.mru, c.next (c.next c.mru), c.next (c.next (c.next c.mru))]

/-- Well-formed ring: `next` and `prev` are mutually inverse and following `next`
from `mru` visits pairwise different slots (hence all of them). -/
def ring_wf (c : read_cache) : Prop :=
  (∀ s, c.prev (c.next s) = s) ∧ (∀ s, c.next (c.prev s) = s) ∧ (ring_order c).Nodup

instance (c : read_cache) : Decidable (ring_wf c) := by
  unfold ring_wf; infer_instance

/-- The all-zero buffer left by `calloc` in a fresh context. -/
def zero_buffer : addrxlat_buffer_t :=
  { addr := { addr := 0, as := .KPHYSADDR }, ptr := 0, size := 0,
    byte_order := .BIG_ENDIAN }

/-- The ring with MRU order `a, b, c, d`. -/
def mk_ring (a b c d : slot_ptr) (buf : slot_ptr → addrxlat_buffer_t) : read_cache :=
  { mru := a
    next := fun x => if x = a then b else if x = b then c else if x = c then d else a
    prev := fun x => if x = a then d else if x = b then a else if x = c then b else c
    buffer := buf }

/-- The callback history of a miss of `get_cache_buf` right before `get_page` is
called: `put_page` has been called on the buffer of the LRU slot if that slot
is occupied and `put_page` is installed. -/
def miss_log (ctx : addrxlat_ctx_t) : List cb_event :=
  if (ctx.cache.buffer (ctx.cache.prev ctx.cache.mru)).size ≠ 0 ∧ ctx.cb.put_page = true
  then ctx.log ++ [cb_event.put_page (ctx.cache.buffer (ctx.cache.prev ctx.cache.mru))]
  else ctx.log

/-- The buffer passed to `get_page` on a miss of `get_cache_buf`: the buffer of
the LRU slot after `slot->buffer.addr = *addr`. -/
def miss_req (ctx : addrxlat_ctx_t) (addr : addrxlat_fulladdr_t) : addrxlat_buffer_t :=
  { ctx.cache.buffer (ctx.cache.prev ctx.cache.mru) with addr := addr }

/-! ## Runs of cache operations -/

/-- What is observed of one `get_cache_buf` call of a run: whether the scan
missed, the slot returned in `*pbuf` (on a miss: the slot that was evicted and
refilled), and, for every slot, the number of the call of its most recent hit or
fill before this call (calls are numbered from 1; 0 means the slot was never
used). -/
structure lru_obs where
  miss : Bool
  slot : slot_ptr
  stamp : slot_ptr → Nat

/-- A run of `get_cache_buf` calls, one per requested address, all of which
return OK; `stamp` and `clock` record the use of the slots so far.  The result is
`none` when some call does not return OK. -/
def lru_run (ctx : addrxlat_ctx_t) (stamp : slot_ptr → Nat) (clock : Nat) :
    List addrxlat_fulladdr_t → Option (List lru_obs × addrxlat_ctx_t)
  | [] => some ([], ctx)
  | a :: rest =>
    match get_cache_buf ctx a with
    | some { status := .OK, pbuf := some s, ctx := ctx1 } =>
      match lru_run ctx1 (fun j => if j = s then clock + 1 else stamp j) (clock + 1) rest with
      | some (obs, ctxN) =>
        some ({ miss := (cache_scan ctx.cache a).isNone, slot := s, stamp := stamp } :: obs,
              ctxN)
      | none => none
    | _ => none

/-- An operation on the read cache. -/
inductive cache_op where
  | get (addr : addrxlat_fulladdr_t)
  | bury (addr : addrxlat_fulladdr_t)

/-- A run of `get_cache_buf` and `bury_cache_buffer` calls; the statuses of the
reads are ignored.  The result is `none` when a call goes through the NULL
`get_page` pointer. -/
def run_ops (ctx : addrxlat_ctx_t) : List cache_op → Option addrxlat_ctx_t
  | [] => some ctx
  | .get a :: rest =>
    match get_cache_buf ctx a with
    | some res => run_ops res.ctx rest
    | none => none
  | .bury a :: rest =>
    run_ops { ctx with cache := bury_cache_buffer ctx.cache a } rest

/-- The buffers passed to `put_page` in a callback history, in call order. -/
def released_buffers : List cb_event → List addrxlat_buffer_t
  | [] => []
  | .put_page b :: rest => b :: released_buffers rest
  | .get_page _ _ _ :: rest => released_buffers rest

/-- The buffers returned by the successful `get_page` calls of a callback history
with a non-zero size, in call order. -/
def acquired_buffers : List cb_event → List addrxlat_buffer_t
  | [] => []
  | .put_page _ :: rest => acquired_buffers rest
  | .get_page _ st b :: rest =>
    if st = .OK ∧ b.size ≠ 0 then b :: acquired_buffers rest else acquired_buffers rest

/-- The MRU order lists the slots by decreasing time of last use, the slots that
were never used coming last. -/
def stamp_sorted (c : read_cache) (stamp : slot_ptr → Nat) : Prop :=
  (ring_order c).Pairwise (fun a b => stamp b = 0 ∨ stamp b < stamp a)

/-- The buffer of a slot as a multiset: empty when the slot is empty
(`size == 0`). -/
def held (b : addrxlat_buffer_t) : Multiset addrxlat_buffer_t :=
  if b.size ≠ 0 then {b} else 0

/-- The buffers held by the occupied slots of the cache. -/
def cached_buffers (buf : slot_ptr → addrxlat_buffer_t) : Multiset addrxlat_buffer_t :=
  held (buf 0) + held (buf 1) + held (buf 2) + held (buf 3)

/-- The balance invariant: what was released plus what is still cached is what was
acquired, and no empty buffer was released. -/
def balanced (ctx : addrxlat_ctx_t) : Prop :=
  ((released_buffers ctx.log : List addrxlat_buffer_t) : Multiset addrxlat_buffer_t)
      + cached_buffers ctx.cache.buffer
    = ((acquired_buffers ctx.log : List addrxlat_buffer_t) : Multiset addrxlat_buffer_t) ∧
  ∀ b ∈ released_buffers ctx.log, b.size ≠ 0

/-! ## Raw reads (`ctx.c`) -/

/-- The byte stored at a host address (host memory is a map from addresses to
byte values). -/
def load_byte (mem : Nat → Nat) (p : Nat) : Nat := mem p % 256

/-- The load `*(const uint32_t *)p` on a host that is big-endian (`host_big`) or
little-endian. -/
def load32 (host_big : Bool) (mem : Nat → Nat) (p : Nat) : Nat :=
  if host_big then
    load_byte mem p * 256 ^ 3 + load_byte mem (p + 1) * 256 ^ 2
      + load_byte mem (p + 2) * 256 + load_byte mem (p + 3)
  else
    load_byte mem p + load_byte mem (p + 1) * 256
      + load_byte mem (p + 2) * 256 ^ 2 + load_byte mem (p + 3) * 256 ^ 3

/-- The load `*(const uint64_t *)p` on the host. -/
def load64 (host_big : Bool) (mem : Nat → Nat) (p : Nat) : Nat :=
  if host_big then
    load_byte mem p * 256 ^ 7 + load_byte mem (p + 1) * 256 ^ 6
      + load_byte mem (p + 2) * 256 ^ 5 + load_byte mem (p + 3) * 256 ^ 4
      + load_byte mem (p + 4) * 256 ^ 3 + load_byte mem (p + 5) * 256 ^ 2
      + load_byte mem (p + 6) * 256 + load_byte mem (p + 7)
  else
    load_byte mem p + load_byte mem (p + 1) * 256
      + load_byte mem (p + 2) * 256 ^ 2 + load_byte mem (p + 3) * 256 ^ 3
      + load_byte mem (p + 4) * 256 ^ 4 + load_byte mem (p + 5) * 256 ^ 5
      + load_byte mem (p + 6) * 256 ^ 6 + load_byte mem (p + 7) * 256 ^ 7

/-- Byte swap of a 32-bit value (`bswap_32` of the C library). -/
def bswap32 (v : Nat) : Nat :=
  v % 256 * 256 ^ 3 + v / 256 % 256 * 256 ^ 2 + v / 256 ^ 2 % 256 * 256 + v / 256 ^ 3 % 256

/-- Byte swap of a 64-bit value (`bswap_64` of the C library). -/
def bswap64 (v : Nat) : Nat :=
  v % 256 * 256 ^ 7 + v / 256 % 256 * 256 ^ 6 + v / 256 ^ 2 % 256 * 256 ^ 5
    + v / 256 ^ 3 % 256 * 256 ^ 4 + v / 256 ^ 4 % 256 * 256 ^ 3
    + v / 256 ^ 5 % 256 * 256 ^ 2 + v / 256 ^ 6 % 256 * 256 + v / 256 ^ 7 % 256

/-- The C library conversion `be32toh`. -/
def be32toh (host_big : Bool) (v : Nat) : Nat := if host_big then v else bswap32 v

/-- The C library conversion `le32toh`. -/
def le32toh (host_big : Bool) (v : Nat) : Nat := if host_big then bswap32 v else v

/-- The C library conversion `be64toh`. -/
def be64toh (host_big : Bool) (v : Nat) : Nat := if host_big then v else bswap64 v

/-- The C library conversion `le64toh`. -/
def le64toh (host_big : Bool) (v : Nat) : Nat := if host_big then bswap64 v else v

/-- The tail of `do_read32` after `get_cache_buf` succeeded:
`ptr = buf->ptr + (addr->addr - buf->addr.addr)` and the switch on
`buf->byte_order`. -/
def decode32 (host_big : Bool) (mem : Nat → Nat) (buf : addrxlat_buffer_t)
    (addr : addrxlat_fulladdr_t) : Nat :=
  let ptr := buf.ptr + u64_sub addr.addr buf.addr.addr
  match buf.byte_order with
  | .BIG_ENDIAN => be32toh host_big (load32 host_big mem ptr)
  | .LITTLE_ENDIAN => le32toh host_big (load32 host_big mem ptr)
  | .HOST_ENDIAN => load32 host_big mem ptr

/-- The tail of `do_read64` after `get_cache_buf` succeeded. -/
def decode64 (host_big : Bool) (mem : Nat → Nat) (buf : addrxlat_buffer_t)
    (addr : addrxlat_fulladdr_t) : Nat :=
  let ptr := buf.ptr + u64_sub addr.addr buf.addr.addr
  match buf.byte_order with
  | .BIG_ENDIAN => be64toh host_big (load64 host_big mem ptr)
  | .LITTLE_ENDIAN => le64toh host_big (load64 host_big mem ptr)
  | .HOST_ENDIAN => load64 host_big mem ptr

/-- Result of a raw read: the status, the value stored in `*val` (`none` when
`*val` is not written) and the context afterwards. -/
structure read_result where
  status : addrxlat_status
  val : Option Nat
  ctx : addrxlat_ctx_t

/-- The function `do_read32`: read a 32-bit entity using the get-page callback.
The result is `none` when `get_cache_buf` goes through a NULL `get_page`. -/
def do_read32 (host_big : Bool) (mem : Nat → Nat) (ctx : addrxlat_ctx_t)
    (addr : addrxlat_fulladdr_t) : Option read_result :=
  match get_cache_buf ctx addr with
  | none => none
  | some res =>
    if res.status ≠ .OK then some { status := res.status, val := none, ctx := res.ctx }
    else
      match res.pbuf with
      | none => none
      | some s =>
        some { status := .OK,
               val := some (decode32 host_big mem (res.ctx.cache.buffer s) addr),
               ctx := res.ctx }

/-- The function `do_read64`: read a 64-bit entity using the get-page callback. -/
def do_read64 (host_big : Bool) (mem : Nat → Nat) (ctx : addrxlat_ctx_t)
    (addr : addrxlat_fulladdr_t) : Option read_result :=
  match get_cache_buf ctx addr with
  | none => none
  | some res =>
    if res.status ≠ .OK then some { status := res.status, val := none, ctx := res.ctx }
    else
      match res.pbuf with
      | none => none
      | some s =>
        some { status := .OK,
               val := some (decode64 host_big mem (res.ctx.cache.buffer s) addr),
               ctx := res.ctx }

/-! ## Translation methods and step state -/

/-- Modelled from the spec: the PTE formats `addrxlat_pte_format_t`, whose
declaration is in a header outside the translated sources. -/
inductive addrxlat_pte_format_t where
  | NONE | PFN32 | PFN64 | AARCH64 | AARCH64_LPA | AARCH64_LPA2
  | IA32 | IA32_PAE | X86_64 | S390X | PPC64_LINUX_RPN30
  deriving DecidableEq, Repr

/-- Paging form (`addrxlat_paging_form_t`): `fieldsz i` is the width in bits of
field `i`, field 0 being the page offset. -/
structure addrxlat_paging_form_t where
  pte_format : addrxlat_pte_format_t
  nfields : Nat
  fieldsz : Nat → Nat

/-- Modelled from the spec: the kinds of translation methods `addrxlat_kind_t`,
whose declaration is in a header outside the translated sources. -/
inductive addrxlat_kind_t where
  | NOMETH | CUSTOM | LINEAR | PGT | LOOKUP | MEMARR
  deriving DecidableEq, Repr

/-- Parameters of a page-table method (`addrxlat_param_pgt_t`). -/
structure addrxlat_param_pgt_t where
  root : addrxlat_fulladdr_t
  pte_mask : Nat
  pf : addrxlat_paging_form_t

/-- Element of a lookup table (`addrxlat_lookup_elem_t`). -/
structure addrxlat_lookup_elem_t where
  orig : Nat
  dest : Nat
  deriving DecidableEq, Repr

/-- Parameters of a table lookup method (`addrxlat_param_lookup_t`). -/
structure addrxlat_param_lookup_t where
  endoff : Nat
  nelem : Nat
  tbl : List addrxlat_lookup_elem_t

/-- Translation method (`addrxlat_meth_t`).  The members of the C union `param`
used by the translated code are kept side by side. -/
structure addrxlat_meth_t where
  kind : addrxlat_kind_t
  target_as : addrxlat_addrspace_t
  pgt : addrxlat_param_pgt_t
  lookup : addrxlat_param_lookup_t

/-- Step state (`addrxlat_step_t`).  The context and the method, which the C
structure holds by pointer, are carried in the state; `raw` is `raw.pte`. -/
structure addrxlat_step_t where
  ctx : addrxlat_ctx_t
  meth : addrxlat_meth_t
  base : addrxlat_fulladdr_t
  remain : Nat
  elemsz : Nat
  idx : Nat → Nat
  raw : Nat

/-- Modelled from the spec: set_error, which is defined outside the translated
sources.  "When a lower layer returns `status`, the higher layer prepends its own
context to the message": the message gets a new outermost clause and the status
passed in is returned. -/
def set_error (ctx : addrxlat_ctx_t) (status : addrxlat_status) (msg : String) :
    addrxlat_status × addrxlat_ctx_t :=
  (status, { ctx with err := msg :: ctx.err })

/-- What a PTE read delivers: the status, the raw PTE, the PTE after `pte_mask`
was applied, and the context afterwards. -/
structure pte_read where
  status : addrxlat_status
  raw : Nat
  pte : Nat
  ctx : addrxlat_ctx_t

/-- Modelled from the spec: read_pte64, which is defined outside the translated
sources.  "Read the PTE [...]; apply `pte_mask`.  Store the raw PTE."  The read
through the callbacks is the parameter `rd`; on success the raw PTE is stored in
the step and the masked PTE is delivered, and nothing else of the step state
changes. -/
def read_pte64 (rd : addrxlat_step_t → pte_read) (step : addrxlat_step_t) :
    addrxlat_status × addrxlat_step_t × Nat :=
  let r := rd step
  if r.status = .OK then (.OK, { step with ctx := r.ctx, raw := r.raw }, r.pte)
  else (r.status, { step with ctx := r.ctx }, 0)

/-- The loop `while (--i) { off |= step->idx[i]; off <<= pf->fieldsz[i - 1]; }`
with `n` iterations left, the next one being for `i = n`. -/
def squash_loop (idx fieldsz : Nat → Nat) : Nat → Nat → Nat
  | 0, off => off
  | n + 1, off => squash_loop idx fieldsz n (((off ||| idx (n + 1)) <<< fieldsz n) % 2 ^ 64)

/-- Modelled from the spec: pgt_huge_page, which is defined outside the
translated sources.  It "skips all lower paging levels and updates the state so
that the next page table translation step adds the correct page offset and
terminates" (squash `idx[0..remain-1]` into an intra-huge-page offset); it
always returns OK. -/
def pgt_huge_page (step : addrxlat_step_t) : addrxlat_status × addrxlat_step_t :=
  let off := squash_loop step.idx step.meth.pgt.pf.fieldsz (step.remain - 1) 0
  (.OK, { step with
    remain := if step.remain > 1 then 1 else step.remain
    elemsz := 1
    idx := fun i => if i = 0 then step.idx 0 ||| off else step.idx i })

/-! ## IBM POWER (`ppc64.c`) -/

/-- PTE size in bits. -/
def PTE_SHIFT : Nat := 3

/-- Page entry flag for a huge page directory: the entry is huge if the most
significant bit is zero. -/
def PD_HUGE : Nat := 1 <<< 63

/-- Mask of the huge page shift in a huge page directory entry. -/
def HUGEPD_SHIFT_MASK : Nat := 0x3f

/-- A page table entry is huge if the bottom two bits != 00. -/
def HUGE_PTE_MASK : Nat := 0x03

/-- Number of MMU page sizes. -/
def MMU_PAGE_COUNT : Nat := 14

/-- Map from MMU page size to page shift. -/
def mmu_pshift : List Nat := [12, 14, 16, 16, 18, 20, 22, 23, 24, 26, 28, 30, 34, 36]

/-- Bitwise complement of a 64-bit value. -/
def u64_not (x : Nat) : Nat := 2 ^ 64 - 1 - x % 2 ^ 64

/-- The function `is_hugepd_linux`: `!(pte & PD_HUGE)`. -/
def is_hugepd_linux (pte : Nat) : Bool := pte &&& PD_HUGE = 0

/-- The function `hugepd_shift`: the huge page directory shift. -/
def hugepd_shift (hpde : Nat) : Nat :=
  let mmu_psize := ((hpde &&& HUGEPD_SHIFT_MASK) >>> 2) % 2 ^ 32
  if mmu_psize < MMU_PAGE_COUNT then mmu_pshift.getD mmu_psize 0 else 0

/-- The function `huge_pd_linux`: translate a Linux huge page using its directory
entry. -/
def huge_pd_linux (step : addrxlat_step_t) (pte : Nat) :
    addrxlat_status × addrxlat_step_t :=
  let pf := step.meth.pgt.pf
  let pdshift := hugepd_shift pte
  if pdshift = 0 then
    let r := set_error step.ctx .ERR_INVALID "Invalid hugepd shift"
    (r.1, { step with ctx := r.2 })
  else
    let base : addrxlat_fulladdr_t :=
      { addr := (pte &&& u64_not HUGEPD_SHIFT_MASK) ||| PD_HUGE, as := .KVADDR }
    -- Calculate the total byte offset below current table.
    let off := squash_loop step.idx pf.fieldsz ((step.remain + 65535) % 65536) 0
    -- Calculate the index in the huge page table.
    let idx1 := off >>> pdshift
    -- Update the page byte offset.
    let off1 := off &&& u64_sub ((1 <<< pdshift) % 2 ^ 64) 1
    (.OK, { step with
      base := base
      idx := fun i => if i = 0 then step.idx 0 ||| off1 else if i = 1 then idx1 else step.idx i
      remain := 2 })

/-- The function `is_hugepte_linux`: `(pte & HUGE_PTE_MASK) != 0x0`. -/
def is_hugepte_linux (pte : Nat) : Bool := pte &&& HUGE_PTE_MASK ≠ 0

/-- The function `huge_page_linux`: update the step state for a Linux huge page. -/
def huge_page_linux (step : addrxlat_step_t) (pte : Nat) (rpn_shift : Nat) :
    addrxlat_status × addrxlat_step_t :=
  let pf := step.meth.pgt.pf
  pgt_huge_page { step with
    base := { addr := ((pte >>> rpn_shift) <<< pf.fieldsz 0) % 2 ^ 64,
              as := step.meth.target_as } }

/-- Names of the page table levels used in the messages of `pgt_ppc64_linux`. -/
def pte_name : List String := ["pte", "pmd", "pud", "pgd"]

/-- The function `pgt_ppc64_linux`: the Linux page table step function for IBM
POWER, the read of the PTE going through `rd`. -/
def pgt_ppc64_linux (rd : addrxlat_step_t → pte_read) (step0 : addrxlat_step_t)
    (rpn_shift : Nat) : addrxlat_status × addrxlat_step_t :=
  let r := read_pte64 rd step0
  let status := r.1
  let step := r.2.1
  let pte := r.2.2
  let pf := step.meth.pgt.pf
  if status ≠ .OK then (status, step)
  else if pte = 0 then
    if step.ctx.noerr_notpresent = false then
      let e := set_error step.ctx .ERR_NOTPRESENT
        (pte_name.getD (step.remain - 1) "" ++ "[" ++
          toString (step.idx step.remain % 2 ^ 32) ++ "] is none")
      (e.1, { step with ctx := e.2 })
    else (.ERR_NOTPRESENT, step)
  else if step.remain > 1 then
    if is_hugepte_linux pte then huge_page_linux step pte rpn_shift
    else if is_hugepd_linux pte then huge_pd_linux step pte
    else
      let table_size := ((1 <<< PTE_SHIFT) <<< pf.fieldsz (step.remain - 1)) % 2 ^ 64
      (.OK, { step with
        base := { addr := pte &&& u64_not (u64_sub table_size 1), as := .KVADDR } })
  else
    (.OK, { step with
      base := { addr := ((pte >>> rpn_shift) <<< pf.fieldsz 0) % 2 ^ 64,
                as := step.meth.target_as }
      elemsz := 1 })

/-- The function `pgt_ppc64_linux_rpn30`: the step function with RPN shift 30. -/
def pgt_ppc64_linux_rpn30 (rd : addrxlat_step_t → pte_read) (step : addrxlat_step_t) :
    addrxlat_status × addrxlat_step_t :=
  pgt_ppc64_linux rd step 30

/-! ## Contexts and hosts used as concrete instances -/

/-- The function `addrxlat_ctx_new` when the allocation succeeds: a zeroed
context with reference count 1 and an initialised cache. -/
def addrxlat_ctx_new : addrxlat_ctx_t :=
  { refcnt := 1
    cache := init_cache
      { mru := 0, next := fun _ => 0, prev := fun _ => 0, buffer := fun _ => zero_buffer }
    cb := { get_page := none, put_page := false, read_caps := 0 }
    err := []
    noerr_notpresent := false
    log := [] }

/-- A host that serves every request with the aligned 4 KiB page around the
requested address, in little-endian byte order. -/
def page_host (_ : List cb_event) (req : addrxlat_buffer_t) :
    addrxlat_status × addrxlat_buffer_t :=
  (.OK, { addr := { addr := req.addr.addr / 4096 * 4096, as := req.addr.as },
          ptr := req.addr.addr / 4096 * 4096, size := 4096,
          byte_order := .LITTLE_ENDIAN })

/-- The page buffer that `page_host` returns for the page number `n` of the
kernel physical address space. -/
def kphys_page (n : Nat) : addrxlat_buffer_t :=
  { addr := { addr := n * 4096, as := .KPHYSADDR }, ptr := n * 4096, size := 4096,
    byte_order := .LITTLE_ENDIAN }

/-- Callbacks of `page_host`, with `put_page` installed and all address spaces
readable. -/
def page_cb : addrxlat_cb_t :=
  { get_page := some page_host, put_page := true, read_caps := 7 }

/-- A context whose four slots hold the pages 0, 1, 2, 3 (slot `i` holds page
`i`), slot 0 being the most and slot 3 the least recently used. -/
def full_ctx : addrxlat_ctx_t :=
  { refcnt := 1
    cache := mk_ring 0 1 2 3 (fun i => kphys_page i.val)
    cb := page_cb
    err := []
    noerr_notpresent := false
    log := [] }

/-- A fresh context on which the callbacks `page_cb` have been installed. -/
def fresh_page_ctx : addrxlat_ctx_t :=
  { addrxlat_ctx_new with cb := page_cb }

/-- The buffer that `page_host` returns for a requested address. -/
def page_of (a : addrxlat_fulladdr_t) : addrxlat_buffer_t :=
  (page_host [] { zero_buffer with addr := a }).2

/-- Five addresses in five different pages of the kernel physical space. -/
def five_addrs (i : Fin 5) : addrxlat_fulladdr_t :=
  { addr := (i.val + 1) * 4096 + 8, as := .KPHYSADDR }

/-- A sequence of cache operations over the five pages of `five_addrs`. -/
def five_ops : List cache_op :=
  [.get (five_addrs 0), .get (five_addrs 1), .bury (five_addrs 0), .get (five_addrs 2),
   .get (five_addrs 3), .get (five_addrs 4), .get (five_addrs 0)]

/-- The paging form of Linux/ppc64 with 64 KB pages (`ppc64_pf_64k` in
`map_linux_ppc64`). -/
def ppc64_pf_64k : addrxlat_paging_form_t :=
  { pte_format := .PPC64_LINUX_RPN30
    nfields := 4
    fieldsz := fun i => [16, 12, 12, 4].getD i 0 }

/-- A page-table method with the 64 KB paging form and target `MACHPHYSADDR`. -/
def ppc64_meth : addrxlat_meth_t :=
  { kind := .PGT
    target_as := .MACHPHYSADDR
    pgt := { root := { addr := 0, as := .NOADDR }, pte_mask := 0, pf := ppc64_pf_64k }
    lookup := { endoff := 0, nelem := 0, tbl := [] } }

/-- A step of `ppc64_meth` with `remain` levels left, on the context `ctx`. -/
def ppc64_step (ctx : addrxlat_ctx_t) (remain : Nat) : addrxlat_step_t :=
  { ctx := ctx
    meth := ppc64_meth
    base := { addr := 0x10000, as := .KVADDR }
    remain := remain
    elemsz := 8
    idx := fun i => [0x1234, 5, 6, 7].getD i 0
    raw := 0 }

/-- A PTE read that succeeds and delivers `pte`, leaving the context alone. -/
def const_read (pte : Nat) (step : addrxlat_step_t) : pte_read :=
  { status := .OK, raw := pte, pte := pte, ctx := step.ctx }

/-! ## C strings and the C library conversions used by `opt.c`

A C string is the list of its characters; the terminating NUL is the end of the
list, and a NULL string pointer is `none`. -/

/-- The NUL character. -/
def NUL : Char := Char.ofNat 0

/-- The single quote character. -/
def SQUOTE : Char := Char.ofNat 39

/-- The double quote character. -/
def DQUOTE : Char := Char.ofNat 34

/-- The characters of a C string that starts with the given characters: those
before the first NUL. -/
def cstr (s : List Char) : List Char := s.takeWhile (fun c => c != NUL)

/-- The C library function `isspace` in the C locale. -/
def c_isspace (c : Char) : Bool :=
  c == ' ' || c == Char.ofNat 12 || c == '\n' || c == '\r' || c == '\t' || c == Char.ofNat 11

/-- The C library comparison `strcasecmp(a, b) == 0` in the C locale. -/
def strcasecmp_eq (a b : List Char) : Bool :=
  a.map Char.toLower == b.map Char.toLower

/-- The C library comparison `strncasecmp(a, b, n) == 0` in the C locale. -/
def strncasecmp_eq (a b : List Char) (n : Nat) : Bool :=
  (a.take n).map Char.toLower == (b.take n).map Char.toLower

/-- Value of a character as a digit in bases up to 36, as the C library
conversions read it. -/
def digit_val (c : Char) : Option Nat :=
  if '0' ≤ c ∧ c ≤ '9' then some (c.toNat - 48)
  else if 'a' ≤ c ∧ c ≤ 'z' then some (c.toNat - 87)
  else if 'A' ≤ c ∧ c ≤ 'Z' then some (c.toNat - 55)
  else none

/-- Whether a character is a digit of the given base. -/
def is_digit_of (base : Nat) (c : Char) : Bool :=
  match digit_val c with
  | some d => decide (d < base)
  | none => false

/-- Value of a string of digits of the given base. -/
def digits_value (base : Nat) (ds : List Char) : Nat :=
  ds.foldl (fun acc c => acc * base + (digit_val c).getD 0) 0

/-- The subject sequence of `strtol` and friends with base 0, after white space
and sign: a hexadecimal number after `0x` or `0X`, an octal number after `0`, a
decimal number otherwise.  The result is the magnitude and the unread rest, or
`none` when there is no digit. -/
def strto_digits (s : List Char) : Option (Nat × List Char) :=
  match s with
  | '0' :: x :: h :: t =>
    if (x == 'x' || x == 'X') && is_digit_of 16 h then
      some (digits_value 16 ((h :: t).takeWhile (is_digit_of 16)),
            (h :: t).dropWhile (is_digit_of 16))
    else
      some (digits_value 8 (('0' :: x :: h :: t).takeWhile (is_digit_of 8)),
            ('0' :: x :: h :: t).dropWhile (is_digit_of 8))
  | '0' :: t =>
    some (digits_value 8 (('0' :: t).takeWhile (is_digit_of 8)),
          ('0' :: t).dropWhile (is_digit_of 8))
  | _ =>
    if (s.takeWhile (is_digit_of 10)).isEmpty then none
    else some (digits_value 10 (s.takeWhile (is_digit_of 10)),
               s.dropWhile (is_digit_of 10))

/-- The sign and the subject sequence of `strtol` and friends. -/
def strto_signed (s : List Char) : Option (Bool × Nat × List Char) :=
  match s with
  | '-' :: t => (strto_digits t).map (fun r => (true, r.1, r.2))
  | '+' :: t => (strto_digits t).map (fun r => (false, r.1, r.2))
  | _ => (strto_digits s).map (fun r => (false, r.1, r.2))

/-- The text recognised by `strtol` and friends with base 0: optional white
space, an optional sign and the digits.  The result is whether the number is
negative, its magnitude and the unread rest, or `none` when no conversion can be
performed. -/
def strto_core (s : List Char) : Option (Bool × Nat × List Char) :=
  strto_signed (s.dropWhile c_isspace)

/-- The C library function `strtol(str, &endp, 0)` with a 64-bit `long`: the
value, clamped to the range of `long`, and the rest of the string at `endp`. -/
def strtol (s : List Char) : Int × List Char :=
  match strto_core s with
  | none => (0, s)
  | some (neg, m, rest) =>
    if neg then (if m > 2 ^ 63 then -(2 ^ 63 : Int) else -(m : Int), rest)
    else (if m > 2 ^ 63 - 1 then (2 ^ 63 - 1 : Int) else (m : Int), rest)

/-- The C library function `strtoul(str, &endp, 0)` with a 64-bit
`unsigned long`: the value and the rest of the string at `endp`. -/
def strtoul (s : List Char) : Nat × List Char :=
  match strto_core s with
  | none => (0, s)
  | some (neg, m, rest) =>
    if m > 2 ^ 64 - 1 then (2 ^ 64 - 1, rest)
    else if neg then ((2 ^ 64 - m) % 2 ^ 64, rest)
    else (m, rest)

/-- The C library function `strtoull(str, &endp, 0)`. -/
def strtoull (s : List Char) : Nat × List Char := strtoul s

/-! ## Option parser (`opt.c`) -/

/-- The function `is_posix_space`. -/
def is_posix_space (c : Char) : Bool :=
  c == ' ' || c == Char.ofNat 12 || c == '\n' || c == '\r' || c == '\t' || c == Char.ofNat 11

/-- The function `is_posix_digit`. -/
def is_posix_digit (c : Char) : Bool :=
  c == '0' || c == '1' || c == '2' || c == '3' || c == '4' ||
  c == '5' || c == '6' || c == '7' || c == '8' || c == '9'

/-- The function `is_posix_lower`. -/
def is_posix_lower (c : Char) : Bool :=
  c == 'a' || c == 'b' || c == 'c' || c == 'd' || c == 'e' ||
  c == 'f' || c == 'g' || c == 'h' || c == 'i' || c == 'j' ||
  c == 'k' || c == 'l' || c == 'm' || c == 'n' || c == 'o' ||
  c == 'p' || c == 'q' || c == 'r' || c == 's' || c == 't' ||
  c == 'u' || c == 'v' || c == 'w' || c == 'x' || c == 'y' ||
  c == 'z'

/-- The function `is_posix_upper`. -/
def is_posix_upper (c : Char) : Bool :=
  c == 'A' || c == 'B' || c == 'C' || c == 'D' || c == 'E' ||
  c == 'F' || c == 'G' || c == 'H' || c == 'I' || c == 'J' ||
  c == 'K' || c == 'L' || c == 'M' || c == 'N' || c == 'O' ||
  c == 'P' || c == 'Q' || c == 'R' || c == 'S' || c == 'T' ||
  c == 'U' || c == 'V' || c == 'W' || c == 'X' || c == 'Y' ||
  c == 'Z'

/-- The function `is_posix_alpha`. -/
def is_posix_alpha (c : Char) : Bool := is_posix_upper c || is_posix_lower c

/-- The function `is_posix_alnum`. -/
def is_posix_alnum (c : Char) : Bool := is_posix_alpha c || is_posix_digit c

/-- The value of a variable of type `addrxlat_addrspace_t` as the option parser
produces it: one of the named address spaces, or the number given in the option
string (the numbering of the named spaces is in a header outside the translated
sources). -/
inductive as_value where
  | named (a : addrxlat_addrspace_t)
  | numeric (code : Nat)
  deriving DecidableEq, Repr

/-- A full address as the option parser produces it. -/
structure opt_fulladdr where
  addr : Nat
  as : as_value
  deriving DecidableEq, Repr

/-- The function `strtoas`: convert an address space string to its enumeration
value; the second component is the rest of the string at `*endptr`. -/
def strtoas (str : List Char) : as_value × List Char :=
  if (str.head?.map is_posix_digit).getD false then
    (.numeric ((strtoul str).1 % 2 ^ 32), (strtoul str).2)
  else
    let name := str.takeWhile is_posix_alnum
    let p := str.dropWhile is_posix_alnum
    if name.length = 6 ∧ strncasecmp_eq str "KVADDR".toList 6 then
      (.named .KVADDR, p)
    else if name.length = 9 ∧ strncasecmp_eq str "KPHYSADDR".toList 9 then
      (.named .KPHYSADDR, p)
    else if name.length = 12 ∧ strncasecmp_eq str "MACHPHYSADDR".toList 12 then
      (.named .MACHPHYSADDR, p)
    else (.named .NOADDR, str)

/-- Modelled from the spec: the option indices `enum optidx`, whose declaration
is in a header outside the translated sources: the six options of the option
table of `opt.c` and `OPT_pte_mask`, which `ppc64.c` reads. -/
inductive optidx where
  | OPT_levels
  | OPT_pagesize
  | OPT_phys_base
  | OPT_rootpgt
  | OPT_xen_p2m_mfn
  | OPT_xen_xlat
  | OPT_pte_mask
  deriving DecidableEq, Repr

/-- The option tables `opt6`, `opt7`, `opt8`, `opt9`, `opt11` as indexed by
`options[]`: the options whose name has the given length, in table order.  A
length outside the table or without options gives the empty list. -/
def options (klen : Nat) : List (optidx × List Char) :=
  match klen with
  | 6 => [(.OPT_levels, "levels".toList)]
  | 7 => [(.OPT_rootpgt, "rootpgt".toList)]
  | 8 => [(.OPT_pagesize, "pagesize".toList), (.OPT_xen_xlat, "xen_xlat".toList)]
  | 9 => [(.OPT_phys_base, "phys_base".toList)]
  | 11 => [(.OPT_xen_p2m_mfn, "xen_p2m_mfn".toList)]
  | _ => []

/-- Result of parsing a single value (`parse_status`). -/
inductive parse_status where
  | PARSE_OK
  | PARSE_UNKNOWN
  | PARSE_NOVAL
  | PARSE_BADVAL
  deriving DecidableEq, Repr

/-- Human-readable option names (`optnames`); options without an entry have the
empty name. -/
def optnames (idx : optidx) : String :=
  match idx with
  | .OPT_levels => "levels"
  | .OPT_pagesize => "pagesize"
  | .OPT_phys_base => "phys_base"
  | .OPT_rootpgt => "rootpgt"
  | .OPT_xen_p2m_mfn => "xen_p2m_mfn"
  | .OPT_xen_xlat => "xen_xlat"
  | .OPT_pte_mask => ""

/-- Parsed options (`struct parsed_opts`); its declaration is in a header outside
the translated sources.  The option string buffer `buf` is not kept. -/
structure parsed_opts where
  isset : optidx → Bool
  levels : Int
  pagesize : Int
  phys_base : Nat
  rootpgt : opt_fulladdr
  xen_p2m_mfn : Int
  xen_xlat : Bool
  pte_mask : Int

/-- The function `parse_bool`: the status and the value of `*var` afterwards. -/
def parse_bool (str : Option (List Char)) (_var : Bool) : parse_status × Bool :=
  match str with
  | none => (.PARSE_OK, true)
  | some s =>
    if strcasecmp_eq s "yes".toList || strcasecmp_eq s "true".toList then
      (.PARSE_OK, true)
    else if strcasecmp_eq s "no".toList || strcasecmp_eq s "false".toList then
      (.PARSE_OK, false)
    else
      let v := decide ((strtol s).1 ≠ 0)
      if s.isEmpty || !(strtol s).2.isEmpty then (.PARSE_BADVAL, v)
      else (.PARSE_OK, v)

/-- The function `parse_number`: the status and the value of `*var` afterwards. -/
def parse_number (str : Option (List Char)) (var : Int) : parse_status × Int :=
  match str with
  | none => (.PARSE_NOVAL, var)
  | some s =>
    if s.isEmpty || !(strtol s).2.isEmpty then (.PARSE_BADVAL, (strtol s).1)
    else (.PARSE_OK, (strtol s).1)

/-- The function `parse_addr`: the status and the value of `*var` afterwards. -/
def parse_addr (str : Option (List Char)) (var : Nat) : parse_status × Nat :=
  match str with
  | none => (.PARSE_NOVAL, var)
  | some s =>
    if s.isEmpty || !(strtoull s).2.isEmpty then (.PARSE_BADVAL, (strtoull s).1)
    else (.PARSE_OK, (strtoull s).1)

/-- The function `parse_fulladdr`: the status and the value of `*var`
afterwards. -/
def parse_fulladdr (str : Option (List Char)) (var : opt_fulladdr) :
    parse_status × opt_fulladdr :=
  match str with
  | none => (.PARSE_NOVAL, var)
  | some s =>
    let r := strtoas s
    let var1 : opt_fulladdr := { var with as := r.1 }
    if s.head? = some ':' ∨ r.2.head? ≠ some ':' then (.PARSE_BADVAL, var1)
    else
      let s2 := r.2.tail
      let var2 : opt_fulladdr := { var1 with addr := (strtoull s2).1 }
      if s2.isEmpty || !(strtoull s2).2.isEmpty then (.PARSE_BADVAL, var2)
      else (.PARSE_OK, var2)

/-- The function `parse_val`: parse a single option value into its field. -/
def parse_val (popt : parsed_opts) (opt : optidx) (val : Option (List Char)) :
    parse_status × parsed_opts :=
  match opt with
  | .OPT_levels =>
    let r := parse_number val popt.levels
    (r.1, { popt with levels := r.2 })
  | .OPT_pagesize =>
    let r := parse_number val popt.pagesize
    (r.1, { popt with pagesize := r.2 })
  | .OPT_phys_base =>
    let r := parse_addr val popt.phys_base
    (r.1, { popt with phys_base := r.2 })
  | .OPT_rootpgt =>
    let r := parse_fulladdr val popt.rootpgt
    (r.1, { popt with rootpgt := r.2 })
  | .OPT_xen_p2m_mfn =>
    let r := parse_number val popt.xen_p2m_mfn
    (r.1, { popt with xen_p2m_mfn := r.2 })
  | .OPT_xen_xlat =>
    let r := parse_bool val popt.xen_xlat
    (r.1, { popt with xen_xlat := r.2 })
  | _ => (.PARSE_UNKNOWN, popt)

/-- Modelled from the spec: the number of an option index, as printed by
`parse_error` for an unknown option (the numbering is that of the declaration of
`enum optidx`, in a header outside the translated sources). -/
def optidx_num (idx : optidx) : Nat :=
  match idx with
  | .OPT_levels => 0
  | .OPT_pagesize => 1
  | .OPT_phys_base => 2
  | .OPT_rootpgt => 3
  | .OPT_xen_p2m_mfn => 4
  | .OPT_xen_xlat => 5
  | .OPT_pte_mask => 6

/-- The function `parse_error`: turn a parsing error code into a status and an
error message. -/
def parse_error (ctx : addrxlat_ctx_t) (opt : optidx) (val : Option (List Char))
    (err : parse_status) : addrxlat_status × addrxlat_ctx_t :=
  let q := String.singleton SQUOTE
  match err with
  | .PARSE_UNKNOWN =>
    set_error ctx .ERR_NOTIMPL ("Unknown option: " ++ toString (optidx_num opt))
  | .PARSE_NOVAL =>
    set_error ctx .ERR_INVALID ("Missing value for option " ++ q ++ optnames opt ++ q)
  | .PARSE_BADVAL =>
    set_error ctx .ERR_INVALID
      (q ++ String.mk (val.getD []) ++ q ++ " is not a valid value for option " ++
        q ++ optnames opt ++ q)
  | _ => set_error ctx .ERR_NOTIMPL "Unknown parser error"

/-- The loop of `parse_opt` over the options of one table. -/
def parse_opt_loop (popt : parsed_opts) (ctx : addrxlat_ctx_t) (key : List Char)
    (val : Option (List Char)) :
    List (optidx × List Char) → addrxlat_status × parsed_opts × addrxlat_ctx_t
  | [] => ((set_error ctx .ERR_NOTIMPL ("Unknown option: " ++ String.mk key)).1, popt,
           (set_error ctx .ERR_NOTIMPL ("Unknown option: " ++ String.mk key)).2)
  | (idx, name) :: rest =>
    if strcasecmp_eq key name then
      let r := parse_val popt idx val
      if r.1 ≠ .PARSE_OK then
        ((parse_error ctx idx val r.1).1, r.2, (parse_error ctx idx val r.1).2)
      else
        (.OK, { r.2 with isset := fun i => if i = idx then true else r.2.isset i }, ctx)
    else parse_opt_loop popt ctx key val rest

/-- The function `parse_opt`: parse a single option. -/
def parse_opt (popt : parsed_opts) (ctx : addrxlat_ctx_t) (key : List Char)
    (klen : Nat) (val : Option (List Char)) :
    addrxlat_status × parsed_opts × addrxlat_ctx_t :=
  parse_opt_loop popt ctx key val (options klen)

/-- State of the inner loop of `parse_opts`: the open quote (`quot`), the
characters written to the buffer since `key`, and the offset of `val` from `key`
when `val` is set. -/
structure tok_state where
  quot : Option Char
  buf : List Char
  val : Option Nat

/-- The inner loop of `parse_opts`, which copies one token to the buffer; the
second component is the unread input at `p`. -/
def scan_token : List Char → tok_state → tok_state × List Char
  | [], st => (st, [])
  | c :: rest, st =>
    if c = NUL then (st, c :: rest)
    else
      match st.quot with
      | some q =>
        if c = q then scan_token rest { st with quot := none }
        else scan_token rest { st with buf := st.buf ++ [c] }
      | none =>
        if c = SQUOTE ∨ c = DQUOTE then scan_token rest { st with quot := some c }
        else if is_posix_space c then (st, c :: rest)
        else if c = '=' then
          scan_token rest { st with buf := st.buf ++ [NUL], val := some (st.buf.length + 1) }
        else scan_token rest { st with buf := st.buf ++ [c] }

/-- The outer loop `while (*p)` of `parse_opts`, with a bound on the number of
iterations; the result is `none` when the bound is reached. -/
def parse_opts_loop : Nat → List Char → parsed_opts → addrxlat_ctx_t →
    Option (addrxlat_status × parsed_opts × addrxlat_ctx_t)
  | 0, _, _, _ => none
  | fuel + 1, p, popt, ctx =>
    if p.isEmpty || p.head? = some NUL then some (.OK, popt, ctx)
    else
      let r := scan_token p { quot := none, buf := [], val := none }
      let st := r.1
      match st.quot with
      | some q =>
        let e := set_error ctx .ERR_INVALID
          ("Unterminated " ++ (if q = DQUOTE then "double" else "single") ++ " quotes")
        some (e.1, popt, e.2)
      | none =>
        let buf := st.buf ++ [NUL]
        let key := cstr buf
        let val := st.val.map (fun off => cstr (buf.drop off))
        let keylen := (match st.val with
          | some off => off
          | none => buf.length) - 1
        let o := parse_opt popt ctx key keylen val
        if o.1 ≠ .OK then some o
        else parse_opts_loop fuel (r.2.dropWhile is_posix_space) o.2.1 o.2.2

/-- The function `parse_opts`: the OS map option parser.  `alloc_ok` tells whether
the allocation of the buffer succeeds.  Every iteration of the outer loop reads
at least one character, so the length of the string bounds the number of
iterations. -/
def parse_opts (alloc_ok : Bool) (popt : parsed_opts) (ctx : addrxlat_ctx_t)
    (opts : Option (List Char)) :
    Option (addrxlat_status × parsed_opts × addrxlat_ctx_t) :=
  let popt0 : parsed_opts := { popt with isset := fun _ => false }
  match opts with
  | none => some (.OK, popt0, ctx)
  | some s =>
    if alloc_ok = false then
      some ((set_error ctx .ERR_NOMEM "Cannot allocate options").1, popt0,
            (set_error ctx .ERR_NOMEM "Cannot allocate options").2)
    else
      parse_opts_loop (s.length + 1) (s.dropWhile is_posix_space) popt0 ctx

/-- The options of a zeroed `struct parsed_opts`. -/
def zero_opts : parsed_opts :=
  { isset := fun _ => false
    levels := 0
    pagesize := 0
    phys_base := 0
    rootpgt := { addr := 0, as := .numeric 0 }
    xen_p2m_mfn := 0
    xen_xlat := false
    pte_mask := 0 }

/-! ## Option strings made of plain tokens -/

/-- A character that the tokenizer of `parse_opts` copies as it is outside
quotes: not a NUL, a quote, a POSIX white space or `=`. -/
def is_plain (c : Char) : Bool :=
  !(c == NUL) && !(c == SQUOTE) && !(c == DQUOTE) && !(is_posix_space c) && !(c == '=')

/-- A token of an option string: the key, the value after `=` when there is one,
and the white space that follows the token. -/
structure opt_token where
  key : List Char
  val : Option (List Char)
  sep : List Char

/-- The text of a token without the white space after it. -/
def opt_token.word (t : opt_token) : List Char :=
  match t.val with
  | none => t.key
  | some v => t.key ++ '=' :: v

/-- The option string made of the given tokens, each followed by its white
space. -/
def render : List opt_token → List Char
  | [] => []
  | t :: rest => t.word ++ t.sep ++ render rest

/-- Tokens made of plain characters and separated by white space: the key is not
empty, and the white space after a token is not empty unless it is the last. -/
def tokens_plain : List opt_token → Bool
  | [] => true
  | t :: rest =>
    !t.key.isEmpty && t.key.all is_plain && (t.val.getD []).all is_plain &&
    t.sep.all is_posix_space && (!t.sep.isEmpty || rest.isEmpty) && tokens_plain rest

/-- The option named by a key, ignoring letter case, among the options of the
option table. -/
def key_option (key : List Char) : Option optidx :=
  ((options key.length).find? (fun e => strcasecmp_eq key e.2)).map (fun e => e.1)

/-- The C-style signed number written by a string: present when the whole,
non-empty string is read by `strtol` with base 0. -/
def number_of (v : List Char) : Option Int :=
  if v ≠ [] ∧ (strtol v).2 = [] then some (strtol v).1 else none

/-- The C-style unsigned number written by a string: present when the whole,
non-empty string is read by `strtoull` with base 0. -/
def unsigned_of (v : List Char) : Option Nat :=
  if v ≠ [] ∧ (strtoull v).2 = [] then some (strtoull v).1 else none

/-- The boolean written by a string: `yes`, `true`, `no`, `false` in any letter
case, or a C-style number, which is true when it is not zero. -/
def bool_of (v : List Char) : Option Bool :=
  if v.map Char.toLower = "yes".toList ∨ v.map Char.toLower = "true".toList then some true
  else if v.map Char.toLower = "no".toList ∨ v.map Char.toLower = "false".toList then
    some false
  else (number_of v).map (fun n => decide (n ≠ 0))

/-- The address space written by the part of a full address before the `:`: one
of the names `KVADDR`, `KPHYSADDR`, `MACHPHYSADDR` in any letter case, or a
C-style number that starts with a digit. -/
def space_of (S : List Char) : Option as_value :=
  if (S.head?.map is_posix_digit).getD false then
    if (strtoul S).2 = [] then some (.numeric ((strtoul S).1 % 2 ^ 32)) else none
  else if S.map Char.toLower = "kvaddr".toList then some (.named .KVADDR)
  else if S.map Char.toLower = "kphysaddr".toList then some (.named .KPHYSADDR)
  else if S.map Char.toLower = "machphysaddr".toList then some (.named .MACHPHYSADDR)
  else none

/-- The full address written by a string `S:V`, where `S` is the text before the
first `:`. -/
def fulladdr_of (v : List Char) : Option opt_fulladdr :=
  match v.dropWhile (fun c => c != ':') with
  | [] => none
  | _ :: V =>
    match space_of (v.takeWhile (fun c => c != ':')), unsigned_of V with
    | some a, some n => some { addr := n, as := a }
    | _, _ => none

/-- The options after a well-formed value `v` was given for the option `idx`: the
value stored in the field of that option and the option marked as set; `none`
when the value is not well formed. -/
def store_option (popt : parsed_opts) (idx : optidx) (v : List Char) :
    Option parsed_opts :=
  let set : optidx → Bool := fun i => if i = idx then true else popt.isset i
  match idx with
  | .OPT_levels => (number_of v).map (fun n => { popt with levels := n, isset := set })
  | .OPT_pagesize => (number_of v).map (fun n => { popt with pagesize := n, isset := set })
  | .OPT_phys_base =>
    (unsigned_of v).map (fun n => { popt with phys_base := n, isset := set })
  | .OPT_rootpgt => (fulladdr_of v).map (fun a => { popt with rootpgt := a, isset := set })
  | .OPT_xen_p2m_mfn =>
    (number_of v).map (fun n => { popt with xen_p2m_mfn := n, isset := set })
  | .OPT_xen_xlat => (bool_of v).map (fun b => { popt with xen_xlat := b, isset := set })
  | .OPT_pte_mask => none

/-- The options after a list of tokens `key=value` with recognised keys and
well-formed values was given, in order; `none` when some token has no value, an
unknown key or a value that is not well formed. -/
def store_tokens (popt : parsed_opts) : List opt_token → Option parsed_opts
  | [] => some popt
  | t :: rest =>
    match key_option t.key, t.val with
    | some idx, some v =>
      match store_option popt idx v with
      | some popt1 => store_tokens popt1 rest
      | none => none
    | _, _ => none

/-- The function `addrspace_name` of `ctx.c`: the name of an address space. -/
def addrspace_name (as : addrxlat_addrspace_t) : String :=
  match as with
  | .KPHYSADDR => "KPHYSADDR"
  | .MACHPHYSADDR => "MACHPHYSADDR"
  | .KVADDR => "KVADDR"
  | .NOADDR => "NOADDR"

/-- The hexadecimal digit of a value below 16, in lower case. -/
def hex_digit_char (d : Nat) : Char :=
  if d < 10 then Char.ofNat (48 + d) else Char.ofNat (87 + d)

/-- The digits of `v` in base 16, most significant first, put before `acc`; at
most `fuel` digits are produced. -/
def format_hex_aux : Nat → Nat → List Char → List Char
  | 0, _, acc => acc
  | fuel + 1, v, acc =>
    if v / 16 = 0 then hex_digit_char (v % 16) :: acc
    else format_hex_aux fuel (v / 16) (hex_digit_char (v % 16) :: acc)

/-- The text printed by the C library for a 64-bit value with the conversion
`%llx`: the hexadecimal digits without leading zeros. -/
def format_hex (v : Nat) : List Char := format_hex_aux 16 v []

/-- The function `print_fulladdr` of the test program `xlat-os.c`: the text it
prints for a full address. -/
def print_fulladdr (addr : addrxlat_fulladdr_t) : List Char :=
  (addrspace_name addr.as).toList ++
    (if addr.as ≠ .NOADDR then ":0x".toList ++ format_hex addr.addr else [])

/-- The value of the last token with the key of the option `i`, if there is one. -/
def last_value : List opt_token → optidx → Option (List Char)
  | [], _ => none
  | t :: rest, i =>
    match last_value rest i with
    | some v => some v
    | none => if key_option t.key = some i then t.val else none

/-- The field of the option `i` holds the value written by the string `v`. -/
def field_holds (p : parsed_opts) (i : optidx) (v : List Char) : Prop :=
  match i with
  | .OPT_levels => number_of v = some p.levels
  | .OPT_pagesize => number_of v = some p.pagesize
  | .OPT_phys_base => unsigned_of v = some p.phys_base
  | .OPT_rootpgt => fulladdr_of v = some p.rootpgt
  | .OPT_xen_p2m_mfn => number_of v = some p.xen_p2m_mfn
  | .OPT_xen_xlat => bool_of v = some p.xen_xlat
  | .OPT_pte_mask => False

/-- The field of the option `i` is the same in `p` and `q`. -/
def field_same (p q : parsed_opts) (i : optidx) : Prop :=
  match i with
  | .OPT_levels => p.levels = q.levels
  | .OPT_pagesize => p.pagesize = q.pagesize
  | .OPT_phys_base => p.phys_base = q.phys_base
  | .OPT_rootpgt => p.rootpgt = q.rootpgt
  | .OPT_xen_p2m_mfn => p.xen_p2m_mfn = q.xen_p2m_mfn
  | .OPT_xen_xlat => p.xen_xlat = q.xen_xlat
  | .OPT_pte_mask => p.pte_mask = q.pte_mask

/-- The recognised option names: the names of the option tables of `opt.c`. -/
def option_names : List (List Char) :=
  ["levels".toList, "rootpgt".toList, "pagesize".toList, "xen_xlat".toList,
   "phys_base".toList, "xen_p2m_mfn".toList]

/-- A key that is equal to a recognised option name when letter case is
ignored. -/
def key_known (key : List Char) : Bool :=
  option_names.any (fun name => decide (key.map Char.toLower = name.map Char.toLower))

/-! ## Symbol resolvers and checked reads (`ctx.c`) -/

/-- Result of a symbol resolver: the status, the value stored in the output
parameter (`none` when it is not written) and the context afterwards. -/
structure sym_result where
  status : addrxlat_status
  val : Option Nat
  ctx : addrxlat_ctx_t

/-- The function `get_symval`: resolve a symbol value through the `sym`
callback. -/
def get_symval (ctx : addrxlat_ctx_t) (name : String) : sym_result :=
  match ctx.cb.sym with
  | none =>
    { status := (set_error ctx .ERR_NODATA "No symbolic information callback").1
      val := none
      ctx := (set_error ctx .ERR_NODATA "No symbolic information callback").2 }
  | some cb =>
    let sym : addrxlat_sym_t := { type := .SYM_VALUE, args := [name] }
    let r := cb ctx.symlog sym
    let ctx1 := { ctx with symlog := ctx.symlog ++ [sym] }
    let q := String.singleton DQUOTE
    if r.1 ≠ .OK then
      { status := (set_error ctx1 r.1 ("Cannot resolve " ++ q ++ name ++ q)).1
        val := none
        ctx := (set_error ctx1 r.1 ("Cannot resolve " ++ q ++ name ++ q)).2 }
    else { status := r.1, val := some r.2, ctx := ctx1 }

/-- The function `get_offsetof`: get the relative offset of a member inside a
type through the `sym` callback. -/
def get_offsetof (ctx : addrxlat_ctx_t) (type memb : String) : sym_result :=
  match ctx.cb.sym with
  | none =>
    { status := (set_error ctx .ERR_NODATA "No symbolic information callback").1
      val := none
      ctx := (set_error ctx .ERR_NODATA "No symbolic information callback").2 }
  | some cb =>
    let sym : addrxlat_sym_t := { type := .SYM_OFFSETOF, args := [type, memb] }
    let r := cb ctx.symlog sym
    let ctx1 := { ctx with symlog := ctx.symlog ++ [sym] }
    if r.1 ≠ .OK then
      { status := (set_error ctx1 r.1
          ("Cannot get offsetof(" ++ type ++ ", " ++ memb ++ ")")).1
        val := none
        ctx := (set_error ctx1 r.1
          ("Cannot get offsetof(" ++ type ++ ", " ++ memb ++ ")")).2 }
    else { status := r.1, val := some r.2, ctx := ctx1 }

/-- Modelled from the spec: clear_error, which is defined outside the translated
sources: the error message of the context becomes empty. -/
def clear_error (ctx : addrxlat_ctx_t) : addrxlat_ctx_t := { ctx with err := [] }

/-- Modelled from the spec: the capability bit `ADDRXLAT_CAPS(as)` of an address
space, a macro of a header outside the translated sources; the specification
gives `read_caps` as the bit mask
`CAPS(KPHYSADDR) | CAPS(MACHPHYSADDR) | CAPS(KVADDR)`. -/
def ADDRXLAT_CAPS (as : addrxlat_addrspace_t) : Nat :=
  match as with
  | .KPHYSADDR => 1
  | .MACHPHYSADDR => 2
  | .KVADDR => 4
  | .NOADDR => 0

/-- What the checked reads take from their surroundings: the byte order of the
host, the memory of the host, and `internal_op` with the operation `read64_op`
(`internal_op32`: with `read32_op`), which is defined outside the translated
sources and reads the value after translating the address into an address space
that the callback can read. -/
structure read_env where
  host_big : Bool
  mem : Nat → Nat
  internal_op : addrxlat_ctx_t → addrxlat_fulladdr_t → Option read_result
  internal_op32 : addrxlat_ctx_t → addrxlat_fulladdr_t → Option read_result :=
    fun _ _ => none

/-- The function `read64`: read a 64-bit value, making an error message if
needed.  Of the step state the function uses the context only (and hands the
translation system to `internal_op`).  The result is `none` when the read below
gives no result. -/
def read64 (env : read_env) (ctx : addrxlat_ctx_t) (addr : addrxlat_fulladdr_t)
    (what : String) : Option read_result :=
  if ctx.cb.get_page.isNone then
    some { status := (set_error ctx .ERR_NODATA
                       ("No read callback for " ++ addrspace_name addr.as)).1
           val := none
           ctx := (set_error ctx .ERR_NODATA
                    ("No read callback for " ++ addrspace_name addr.as)).2 }
  else
    let r :=
      if ctx.cb.read_caps &&& ADDRXLAT_CAPS addr.as ≠ 0 then
        do_read64 env.host_big env.mem ctx addr
      else env.internal_op ctx addr
    match r with
    | none => none
    | some res =>
      if res.status ≠ .OK then
        let msg := "Cannot read 64-bit " ++ what ++ " at " ++ addrspace_name addr.as ++
          ":0x" ++ String.mk (format_hex addr.addr)
        some { status := (set_error res.ctx res.status msg).1
               val := res.val
               ctx := (set_error res.ctx res.status msg).2 }
      else some { status := .OK, val := res.val, ctx := res.ctx }

/-! ## Linux/ppc64 initialisation (`ppc64.c`) -/

/-- Modelled from the spec: the indices of the translation methods of a
translation system (`addrxlat_sys_meth_t`), declared in a header outside the
translated sources. -/
inductive addrxlat_sys_meth_t where
  | SYS_METH_PGT
  | SYS_METH_UPGT
  | SYS_METH_DIRECT
  | SYS_METH_KTEXT
  | SYS_METH_VMEMMAP
  | SYS_METH_RDIRECT
  | SYS_METH_MACHPHYS_KPHYS
  | SYS_METH_KPHYS_MACHPHYS
  deriving DecidableEq, Repr

/-- Modelled from the spec: the action of a region of a layout (`sys_action`),
declared in a header outside the translated sources. -/
inductive sys_action where
  | SYS_ACT_NONE
  | SYS_ACT_DIRECT
  deriving DecidableEq, Repr

/-- A region of a layout (`struct sys_region`), as `ppc64.c` fills it in. -/
structure sys_region where
  first : Nat
  last : Nat
  meth : addrxlat_sys_meth_t
  act : sys_action
  deriving DecidableEq, Repr

/-- The table `linux_layout`: the Linux virtual memory layout. -/
def linux_layout : List sys_region :=
  [ { first := 0x0000000000000000, last := 0x00000fffffffffff,
      meth := .SYS_METH_UPGT, act := .SYS_ACT_NONE },
    { first := 0xc000000000000000, last := 0xcfffffffffffffff,
      meth := .SYS_METH_DIRECT, act := .SYS_ACT_DIRECT },
    { first := 0xd000000000000000, last := 0xd00007ffffffffff,
      meth := .SYS_METH_PGT, act := .SYS_ACT_NONE },
    { first := 0xd000080000000000, last := 0xd0000fffffffffff,
      meth := .SYS_METH_PGT, act := .SYS_ACT_NONE },
    { first := 0xf000000000000000, last := 0xffffffffffffffff,
      meth := .SYS_METH_VMEMMAP, act := .SYS_ACT_NONE } ]

/-- Modelled from the spec: the translation system (`addrxlat_sys_t`), declared in
a header outside the translated sources: the methods by index, and the maps, each
an ordered cover of the address space by regions; `physmax` is the highest
physical address of the physical maps. -/
structure addrxlat_sys_t where
  meth : addrxlat_sys_meth_t → addrxlat_meth_t
  kv_phys : List sys_region
  physmax : Option Nat

/-- Modelled from the spec: the types of operating systems
(`addrxlat_ostype_t`), declared in a header outside the translated sources. -/
inductive addrxlat_ostype_t where
  | OS_UNKNOWN
  | OS_LINUX
  | OS_XEN
  deriving DecidableEq, Repr

/-- Modelled from the spec: the initialisation data (`struct os_init_data`),
declared in a header outside the translated sources; `os_type` is
`osdesc->type`. -/
structure os_init_data where
  ctx : addrxlat_ctx_t
  sys : addrxlat_sys_t
  os_type : addrxlat_ostype_t
  popt : parsed_opts

/-- Modelled from the spec: the numeric value of an option in the parsed
options. -/
def opt_num (popt : parsed_opts) (idx : optidx) : Int :=
  match idx with
  | .OPT_levels => popt.levels
  | .OPT_pagesize => popt.pagesize
  | .OPT_phys_base => popt.phys_base
  | .OPT_rootpgt => popt.rootpgt.addr
  | .OPT_xen_p2m_mfn => popt.xen_p2m_mfn
  | .OPT_xen_xlat => if popt.xen_xlat then 1 else 0
  | .OPT_pte_mask => popt.pte_mask

/-- Modelled from the spec: opt_num_default, an inline function of a header
outside the translated sources: the numeric value of an option if the option is
set, the default otherwise. -/
def opt_num_default (popt : parsed_opts) (idx : optidx) (defval : Int) : Int :=
  if popt.isset idx then opt_num popt idx else defval

/-- The functions of other files that `map_linux_ppc64` calls: `sys_set_physmaps`
and `sys_set_layout`, which are defined outside the translated sources. -/
structure sys_ops where
  sys_set_physmaps : os_init_data → Nat → addrxlat_status × os_init_data
  sys_set_layout : os_init_data → List sys_region → addrxlat_status × os_init_data

/-- The macro `_64K`. -/
def _64K : Nat := 1 <<< 16

/-- The first loop of `get_vmemmap_param`, which counts the elements of the list;
`fuel` bounds the number of iterations, and the result is `none` when the bound
is reached. -/
def vmemmap_count (rd : addrxlat_ctx_t → addrxlat_fulladdr_t → String → Option read_result)
    (off_list : Nat) :
    Nat → addrxlat_ctx_t → Nat → Nat → Option (addrxlat_status × Nat × addrxlat_ctx_t)
  | 0, _, _, _ => none
  | fuel + 1, ctx, elem, cnt =>
    if elem = 0 then some (.OK, cnt, ctx)
    else
      match rd ctx { addr := (elem + off_list) % 2 ^ 64, as := .KVADDR } "vmemmap list" with
      | none => none
      | some r =>
        if r.status ≠ .OK then some (r.status, cnt, r.ctx)
        else vmemmap_count rd off_list fuel r.ctx (r.val.getD 0) ((cnt + 1) % 2 ^ 32)

/-- The second loop of `get_vmemmap_param`, which fills in the table; `tbl` holds
the elements written so far and `cnt` is the number of elements allocated.  The
result is `none` when the bound `fuel` is reached, and when the loop writes past
the end of the allocated table. -/
def vmemmap_fill (rd : addrxlat_ctx_t → addrxlat_fulladdr_t → String → Option read_result)
    (off_list off_phys off_virt cnt : Nat) :
    Nat → addrxlat_ctx_t → Nat → List addrxlat_lookup_elem_t →
      Option (addrxlat_status × List addrxlat_lookup_elem_t × addrxlat_ctx_t)
  | 0, _, _, _ => none
  | fuel + 1, ctx, elem, tbl =>
    if elem = 0 then some (.OK, tbl, ctx)
    else
      match rd ctx { addr := (elem + off_phys) % 2 ^ 64, as := .KVADDR } "vmemmap phys" with
      | none => none
      | some r1 =>
        if r1.status ≠ .OK then some (r1.status, [], r1.ctx)
        else if cnt ≤ tbl.length then none
        else
          -- tblp->orig = data;
          let orig := r1.val.getD 0
          match rd r1.ctx { addr := (elem + off_virt) % 2 ^ 64, as := .KVADDR }
              "vmemmap virt" with
          | none => none
          | some r2 =>
            if r2.status ≠ .OK then some (r2.status, [], r2.ctx)
            else
              -- tblp->dest = data;
              let dest := r2.val.getD 0
              match rd r2.ctx { addr := (elem + off_list) % 2 ^ 64, as := .KVADDR }
                  "vmemmap list" with
              | none => none
              | some r3 =>
                if r3.status ≠ .OK then some (r3.status, [], r3.ctx)
                else
                  vmemmap_fill rd off_list off_phys off_virt cnt fuel r3.ctx
                    (r3.val.getD 0) (tbl ++ [{ orig := orig, dest := dest }])

/-- The function `get_vmemmap_param` over a given checked read: get the VMEMMAP
translation method parameters.  `malloc_ok` tells whether the allocation of the
table succeeds, and `fuel` bounds the number of iterations of each loop.  On an
error after the allocation the table is freed. -/
def get_vmemmap_param_with
    (rd : addrxlat_ctx_t → addrxlat_fulladdr_t → String → Option read_result)
    (malloc_ok : Bool) (fuel : Nat) (ctx : addrxlat_ctx_t)
    (param : addrxlat_param_lookup_t) :
    Option (addrxlat_status × addrxlat_param_lookup_t × addrxlat_ctx_t) :=
  let s1 := get_symval ctx "vmemmap_list"
  if s1.status ≠ .OK then some (s1.status, param, s1.ctx)
  else
    let vmemmap_list := s1.val.getD 0
    let s2 := get_offsetof s1.ctx "vmemmap_backing" "list"
    if s2.status ≠ .OK then some (s2.status, param, s2.ctx)
    else
      let off_list := s2.val.getD 0
      let s3 := get_offsetof s2.ctx "vmemmap_backing" "phys"
      if s3.status ≠ .OK then some (s3.status, param, s3.ctx)
      else
        let off_phys := s3.val.getD 0
        let s4 := get_offsetof s3.ctx "vmemmap_backing" "virt_addr"
        if s4.status ≠ .OK then some (s4.status, param, s4.ctx)
        else
          let off_virt := s4.val.getD 0
          match rd s4.ctx { addr := vmemmap_list, as := .KVADDR } "vmemmap_list" with
          | none => none
          | some r =>
            if r.status ≠ .OK then some (r.status, param, r.ctx)
            else
              let first_elem := r.val.getD 0
              match vmemmap_count rd off_list fuel r.ctx first_elem 0 with
              | none => none
              | some (st, cnt, ctx1) =>
                if st ≠ .OK then some (st, param, ctx1)
                else
                  let param1 := { param with nelem := cnt }
                  if malloc_ok = false then
                    some ((set_error ctx1 .ERR_NOMEM
                            "Cannot allocate VMEMMAP translation").1, param1,
                          (set_error ctx1 .ERR_NOMEM
                            "Cannot allocate VMEMMAP translation").2)
                  else
                    match vmemmap_fill rd off_list off_phys off_virt cnt fuel ctx1
                        first_elem [] with
                    | none => none
                    | some (st2, tbl, ctx2) => some (st2, { param1 with tbl := tbl }, ctx2)

/-- The function `get_vmemmap_param`, which reads with `read64`. -/
def get_vmemmap_param (env : read_env) (malloc_ok : Bool) (fuel : Nat)
    (ctx : addrxlat_ctx_t) (param : addrxlat_param_lookup_t) :
    Option (addrxlat_status × addrxlat_param_lookup_t × addrxlat_ctx_t) :=
  get_vmemmap_param_with (read64 env) malloc_ok fuel ctx param

/-- Update of one method of a translation system, `sys->meth[i] = m`. -/
def addrxlat_sys_t.set_meth (sys : addrxlat_sys_t) (i : addrxlat_sys_meth_t)
    (m : addrxlat_meth_t) : addrxlat_sys_t :=
  { sys with meth := fun j => if j = i then m else sys.meth j }

/-- The function `map_linux_ppc64`: initialise a translation map for
Linux/ppc64. -/
def map_linux_ppc64 (ops : sys_ops) (env : read_env) (malloc_ok : Bool) (fuel : Nat)
    (ctl : os_init_data) : Option (addrxlat_status × os_init_data) :=
  let pagesize := opt_num_default ctl.popt .OPT_pagesize _64K
  if pagesize ≠ _64K then
    some ((set_error ctl.ctx .ERR_NOTIMPL
            ("Unsupported page size: " ++ toString pagesize)).1,
          { ctl with ctx := (set_error ctl.ctx .ERR_NOTIMPL
              ("Unsupported page size: " ++ toString pagesize)).2 })
  else
    let p1 := ops.sys_set_physmaps ctl ((1 <<< (64 - 30 + 16)) - 1)
    if p1.1 ≠ .OK then some p1
    else
      let p2 := ops.sys_set_layout p1.2 linux_layout
      if p2.1 ≠ .OK then some p2
      else
        let ctl2 := p2.2
        -- meth = &ctl->sys->meth[ADDRXLAT_SYS_METH_UPGT];
        let upgt : addrxlat_meth_t :=
          { ctl2.sys.meth .SYS_METH_UPGT with
            kind := .PGT
            target_as := .MACHPHYSADDR
            pgt := { root := { (ctl2.sys.meth .SYS_METH_UPGT).pgt.root with as := .NOADDR }
                     pte_mask := (opt_num_default ctl2.popt .OPT_pte_mask 0 % 2 ^ 64).toNat
                     pf := ppc64_pf_64k } }
        let sys1 := ctl2.sys.set_meth .SYS_METH_UPGT upgt
        -- meth = &ctl->sys->meth[ADDRXLAT_SYS_METH_PGT]; *meth = ...
        let s := get_symval ctl2.ctx "swapper_pg_dir"
        let pgt : addrxlat_meth_t :=
          if s.status = .OK then
            { upgt with pgt := { upgt.pgt with root := { addr := s.val.getD 0, as := .KVADDR } } }
          else upgt
        let ctx3 := if s.status = .OK then s.ctx else clear_error s.ctx
        let sys2 := sys1.set_meth .SYS_METH_PGT pgt
        -- meth = &ctl->sys->meth[ADDRXLAT_SYS_METH_VMEMMAP];
        let vm := sys2.meth .SYS_METH_VMEMMAP
        match get_vmemmap_param env malloc_ok fuel ctx3 vm.lookup with
        | none => none
        | some (st, lookup, ctx4) =>
          let sys3 := sys2.set_meth .SYS_METH_VMEMMAP { vm with lookup := lookup }
          if st = .ERR_NODATA then
            some (.OK, { ctl2 with ctx := clear_error ctx4, sys := sys3 })
          else if st ≠ .OK then some (st, { ctl2 with ctx := ctx4, sys := sys3 })
          else
            let vm2 : addrxlat_meth_t :=
              { vm with
                kind := .LOOKUP
                target_as := .KPHYSADDR
                lookup := { lookup with endoff := (pagesize - 1).toNat } }
            some (.OK, { ctl2 with ctx := ctx4, sys := sys2.set_meth .SYS_METH_VMEMMAP vm2 })

/-- The function `sys_ppc64`: initialise a translation map for a 64-bit IBM POWER
OS. -/
def sys_ppc64 (ops : sys_ops) (env : read_env) (malloc_ok : Bool) (fuel : Nat)
    (ctl : os_init_data) : Option (addrxlat_status × os_init_data) :=
  match ctl.os_type with
  | .OS_LINUX => map_linux_ppc64 ops env malloc_ok fuel ctl
  | _ =>
    some ((set_error ctl.ctx .ERR_NOTIMPL "OS type not implemented").1,
          { ctl with ctx := (set_error ctl.ctx .ERR_NOTIMPL "OS type not implemented").2 })

/-- The LOOKUP translation of an address, as the specification describes it: the
first element of the table with `orig ≤ addr ≤ orig + endoff` gives
`dest + (addr - orig)`. -/
def lookup_xlat (param : addrxlat_param_lookup_t) (addr : Nat) : Option Nat :=
  (param.tbl.find? (fun e => decide (e.orig ≤ addr ∧ addr ≤ e.orig + param.endoff))).map
    (fun e => e.dest + (addr - e.orig))

/-! ## A vmemmap list of one element -/

/-- The elements of a `vmemmap_list` that starts at `first` in a memory image `m`
of 64-bit words: the elements are not NULL, the member `list` of each one points
to the next, and that of the last one is NULL. -/
def vmemmap_chain (m : Nat → Nat) (off_list : Nat) : Nat → List Nat → Prop
  | e, [] => e = 0
  | e, x :: rest =>
    e = x ∧ x ≠ 0 ∧ vmemmap_chain m off_list (m ((x + off_list) % 2 ^ 64)) rest

/-- A checked read that gives the word of a memory image `m` at every kernel
virtual address and leaves the context alone. -/
def image_read (m : Nat → Nat) (ctx : addrxlat_ctx_t) (addr : addrxlat_fulladdr_t)
    (_ : String) : Option read_result :=
  some { status := .OK, val := some (m addr.addr), ctx := ctx }

/-- The 64-bit words of a memory with the variable `vmemmap_list` at `0x1000` and
one `struct vmemmap_backing` at `0x2000`, with the members `list` (NULL) at offset
0, `phys` (`0x10000000`) at offset 8 and `virt_addr` (`0xf000000000000000`) at
offset 16. -/
def vmemmap_words (a : Nat) : Nat :=
  if a = 0x1000 then 0x2000
  else if a = 0x2008 then 0x10000000
  else if a = 0x2010 then 0xf000000000000000
  else 0

/-- The bytes of the memory `vmemmap_words`, in little-endian order. -/
def vmemmap_mem (p : Nat) : Nat := (vmemmap_words (p / 8 * 8) >>> (8 * (p % 8))) % 256

/-- The symbolic information of the memory `vmemmap_words`. -/
def vmemmap_sym (_ : List addrxlat_sym_t) (sym : addrxlat_sym_t) : addrxlat_status × Nat :=
  if sym = { type := .SYM_VALUE, args := ["vmemmap_list"] } then (.OK, 0x1000)
  else if sym = { type := .SYM_OFFSETOF, args := ["vmemmap_backing", "list"] } then (.OK, 0)
  else if sym = { type := .SYM_OFFSETOF, args := ["vmemmap_backing", "phys"] } then (.OK, 8)
  else if sym = { type := .SYM_OFFSETOF, args := ["vmemmap_backing", "virt_addr"] } then
    (.OK, 16)
  else (.ERR_NODATA, 0)

/-- A fresh context with the page callbacks `page_cb` and the symbolic information
`vmemmap_sym`. -/
def vmemmap_ctx : addrxlat_ctx_t :=
  { addrxlat_ctx_new with cb := { page_cb with sym := some vmemmap_sym } }

/-- A little-endian host with the memory `vmemmap_mem`. -/
def vmemmap_env : read_env :=
  { host_big := false, mem := vmemmap_mem, internal_op := fun _ _ => none }

/-- A method without parameters. -/
def zero_meth : addrxlat_meth_t :=
  { kind := .NOMETH
    target_as := .NOADDR
    pgt := { root := { addr := 0, as := .NOADDR }, pte_mask := 0, pf := ppc64_pf_64k }
    lookup := { endoff := 0, nelem := 0, tbl := [] } }

/-- A translation system without methods and maps. -/
def zero_sys : addrxlat_sys_t :=
  { meth := fun _ => zero_meth, kv_phys := [], physmax := none }

/-- Functions `sys_set_physmaps` and `sys_set_layout` that record their argument
in the translation system and succeed. -/
def plain_ops : sys_ops :=
  { sys_set_physmaps := fun ctl maxaddr =>
      (.OK, { ctl with sys := { ctl.sys with physmax := some maxaddr } })
    sys_set_layout := fun ctl layout =>
      (.OK, { ctl with sys := { ctl.sys with kv_phys := layout } }) }

/-- Initialisation data for Linux with the context `vmemmap_ctx` and the given
options. -/
def vmemmap_ctl (popt : parsed_opts) : os_init_data :=
  { ctx := vmemmap_ctx, sys := zero_sys, os_type := .OS_LINUX, popt := popt }

/-! ## Reference counting, callback installation and the other resolvers (`ctx.c`) -/

/-- The function `addrxlat_ctx_incref`: the returned count and the context
afterwards. -/
def addrxlat_ctx_incref (ctx : addrxlat_ctx_t) : Nat × addrxlat_ctx_t :=
  ((ctx.refcnt + 1) % 2 ^ 64, { ctx with refcnt := (ctx.refcnt + 1) % 2 ^ 64 })

/-- The function `addrxlat_ctx_set_cb`.  `hooks` gives the hook function at an
address: from the `data` pointer and the callbacks at `&ctx->cb` it gives the
callbacks that it leaves there. -/
def addrxlat_ctx_set_cb (hooks : Nat → Nat → addrxlat_cb_t → addrxlat_cb_t)
    (ctx : addrxlat_ctx_t) (cb : addrxlat_cb_t) : addrxlat_ctx_t :=
  let hook := ctx.cb.cb_hook
  let data := ctx.cb.data
  let ctx1 := { ctx with cb := cb, orig_cb := cb }
  match hook with
  | none => ctx1
  | some h =>
    { ctx1 with
      cb := hooks h data ctx1.cb
      hooklog := ctx1.hooklog ++ [{ hook := h, data := data, cb := ctx1.cb }] }

/-- The function `addrxlat_ctx_get_cb`. -/
def addrxlat_ctx_get_cb (ctx : addrxlat_ctx_t) : addrxlat_cb_t := ctx.orig_cb

/-- The function `addrxlat_ctx_get_ecb`. -/
def addrxlat_ctx_get_ecb (ctx : addrxlat_ctx_t) : addrxlat_cb_t := ctx.cb

/-- The function `get_reg`: get a register value through the `sym` callback. -/
def get_reg (ctx : addrxlat_ctx_t) (name : String) : sym_result :=
  match ctx.cb.sym with
  | none =>
    { status := (set_error ctx .ERR_NODATA "No symbolic information callback").1
      val := none
      ctx := (set_error ctx .ERR_NODATA "No symbolic information callback").2 }
  | some cb =>
    let sym : addrxlat_sym_t := { type := .SYM_REG, args := [name] }
    let r := cb ctx.symlog sym
    let ctx1 := { ctx with symlog := ctx.symlog ++ [sym] }
    let q := String.singleton DQUOTE
    if r.1 ≠ .OK then
      { status := (set_error ctx1 r.1 ("Cannot read register " ++ q ++ name ++ q)).1
        val := none
        ctx := (set_error ctx1 r.1 ("Cannot read register " ++ q ++ name ++ q)).2 }
    else { status := r.1, val := some r.2, ctx := ctx1 }

/-- The function `get_sizeof`: get the size of a symbol or type through the `sym`
callback. -/
def get_sizeof (ctx : addrxlat_ctx_t) (name : String) : sym_result :=
  match ctx.cb.sym with
  | none =>
    { status := (set_error ctx .ERR_NODATA "No symbolic information callback").1
      val := none
      ctx := (set_error ctx .ERR_NODATA "No symbolic information callback").2 }
  | some cb =>
    let sym : addrxlat_sym_t := { type := .SYM_SIZEOF, args := [name] }
    let r := cb ctx.symlog sym
    let ctx1 := { ctx with symlog := ctx.symlog ++ [sym] }
    if r.1 ≠ .OK then
      { status := (set_error ctx1 r.1 ("Cannot get sizeof(" ++ name ++ ")")).1
        val := none
        ctx := (set_error ctx1 r.1 ("Cannot get sizeof(" ++ name ++ ")")).2 }
    else { status := r.1, val := some r.2, ctx := ctx1 }

/-- The function `get_number`: resolve a number value through the `sym`
callback. -/
def get_number (ctx : addrxlat_ctx_t) (name : String) : sym_result :=
  match ctx.cb.sym with
  | none =>
    { status := (set_error ctx .ERR_NODATA "No symbolic information callback").1
      val := none
      ctx := (set_error ctx .ERR_NODATA "No symbolic information callback").2 }
  | some cb =>
    let sym : addrxlat_sym_t := { type := .SYM_NUMBER, args := [name] }
    let r := cb ctx.symlog sym
    let ctx1 := { ctx with symlog := ctx.symlog ++ [sym] }
    if r.1 ≠ .OK then
      { status := (set_error ctx1 r.1 ("Cannot get number(" ++ name ++ ")")).1
        val := none
        ctx := (set_error ctx1 r.1 ("Cannot get number(" ++ name ++ ")")).2 }
    else { status := r.1, val := some r.2, ctx := ctx1 }

/-- The function `read32`: read a 32-bit value, making an error message if
needed.  Of the step state the function uses the context only (and hands the
translation system to `internal_op`).  The result is `none` when the read below
gives no result. -/
def read32 (env : read_env) (ctx : addrxlat_ctx_t) (addr : addrxlat_fulladdr_t)
    (what : String) : Option read_result :=
  if ctx.cb.get_page.isNone then
    some { status := (set_error ctx .ERR_NODATA
                       ("No read callback for " ++ addrspace_name addr.as)).1
           val := none
           ctx := (set_error ctx .ERR_NODATA
                    ("No read callback for " ++ addrspace_name addr.as)).2 }
  else
    let r :=
      if ctx.cb.read_caps &&& ADDRXLAT_CAPS addr.as ≠ 0 then
        do_read32 env.host_big env.mem ctx addr
      else env.internal_op32 ctx addr
    match r with
    | none => none
    | some res =>
      if res.status ≠ .OK then
        let msg := "Cannot read 32-bit " ++ what ++ " at " ++ addrspace_name addr.as ++
          ":0x" ++ String.mk (format_hex addr.addr)
        some { status := (set_error res.ctx res.status msg).1
               val := res.val
               ctx := (set_error res.ctx res.status msg).2 }
      else some { status := .OK, val := res.val, ctx := res.ctx }

/-- The cache states that are reached from `init_cache` by calls of
`touch_cache_slot`, `get_cache_buf` and `bury_cache_buffer`, in any order and with
any arguments, callbacks and callback results. -/
inductive cache_reach : read_cache → Prop where
  | init (c : read_cache) : cache_reach (init_cache c)
  | touch (c : read_cache) (slot : slot_ptr) :
      cache_reach c → cache_reach (touch_cache_slot c slot)
  | get (ctx : addrxlat_ctx_t) (addr : addrxlat_fulladdr_t) (res : cache_result) :
      cache_reach ctx.cache → get_cache_buf ctx addr = some res → cache_reach res.ctx.cache
  | bury (c : read_cache) (addr : addrxlat_fulladdr_t) :
      cache_reach c → cache_reach (bury_cache_buffer c addr)

/-! ## A hook for the callback installation -/

/-- A hook that removes all read capabilities from the effective callbacks. -/
def caps_hook (_ _ : Nat) (cb : addrxlat_cb_t) : addrxlat_cb_t := { cb with read_caps := 0 }

/-! ## Contract of the symbol resolvers -/

/-- Contract of a symbol resolver `f` whose request is `req`: without a `sym`
callback it returns NODATA, calls nothing and writes no value; with a `sym`
callback it calls it exactly once, with `req`, returns its status, and writes
the value of the callback to the output exactly when that status is OK. -/
def resolver_contract (f : addrxlat_ctx_t → sym_result) (req : addrxlat_sym_t) : Prop :=
  ∀ ctx : addrxlat_ctx_t,
    (ctx.cb.sym = none →
      (f ctx).status = .ERR_NODATA ∧ (f ctx).val = none ∧
      (f ctx).ctx.symlog = ctx.symlog) ∧
    (∀ cb, ctx.cb.sym = some cb →
      (f ctx).ctx.symlog = ctx.symlog ++ [req] ∧
      (f ctx).status = (cb ctx.symlog req).1 ∧
      ((cb ctx.symlog req).1 = .OK → (f ctx).val = some (cb ctx.symlog req).2) ∧
      ((cb ctx.symlog req).1 ≠ .OK → (f ctx).val = none)) ∧
    (f ctx).ctx.log = ctx.log ∧ (f ctx).ctx.cache = ctx.cache ∧ (f ctx).ctx.cb = ctx.cb

/-- A `sym` callback that knows the size of `long` and nothing else. -/
def sizeof_cb (_ : List addrxlat_sym_t) (sym : addrxlat_sym_t) : addrxlat_status × Nat :=
  if sym = { type := .SYM_SIZEOF, args := ["long"] } then (.OK, 8) else (.ERR_NODATA, 0)

/-- A context with the callback `sizeof_cb`. -/
def sizeof_ctx : addrxlat_ctx_t :=
  { addrxlat_ctx_new with
    cb := { get_page := none, put_page := false, read_caps := 0, sym := some sizeof_cb } }

/-! ## Contexts for the checked reads -/

/-- A `get_page` callback that always fails for lack of memory. -/
def nomem_host (_ : List cb_event) (req : addrxlat_buffer_t) :
    addrxlat_status × addrxlat_buffer_t :=
  (.ERR_NOMEM, req)

/-- A fresh context with the callback `nomem_host` for all address spaces. -/
def nomem_ctx : addrxlat_ctx_t :=
  { addrxlat_ctx_new with
    cb := { get_page := some nomem_host, put_page := false, read_caps := 7 } }

/-- The context `full_ctx`, whose cache holds the pages 0 to 3, after the
`get_page` callback was removed. -/
def nocb_ctx : addrxlat_ctx_t :=
  { full_ctx with cb := { get_page := none, put_page := true, read_caps := 7 } }

/-- A little-endian host with empty memory and without `internal_op`. -/
def plain_env : read_env :=
  { host_big := false, mem := fun _ => 0, internal_op := fun _ _ => none }

/-! ## Quotes and token boundaries of an option string -/

/-- Whether a position of an option string is inside quotes: the open quote
after the characters `s` when the open quote before them is `q` (`none` outside
quotes).  A quote character opens quotes outside quotes, and inside quotes the
same quote character closes them. -/
def quote_state : Option Char → List Char → Option Char
  | q, [] => q
  | some q, c :: rest =>
    if c = q then quote_state none rest else quote_state (some q) rest
  | none, c :: rest =>
    if c = SQUOTE ∨ c = DQUOTE then quote_state (some c) rest else quote_state none rest

/-- What `parse_opts` does with the token that its inner loop left in the state
`st`: the error for an unterminated quote, or the result of `parse_opt` on the
key and value in the buffer. -/
def token_result (st : tok_state) (popt : parsed_opts) (ctx : addrxlat_ctx_t) :
    addrxlat_status × parsed_opts × addrxlat_ctx_t :=
  match st.quot with
  | some q =>
    let e := set_error ctx .ERR_INVALID
      ("Unterminated " ++ (if q = DQUOTE then "double" else "single") ++ " quotes")
    (e.1, popt, e.2)
  | none =>
    let buf := st.buf ++ [NUL]
    let key := cstr buf
    let val := st.val.map (fun off => cstr (buf.drop off))
    let keylen := (match st.val with
      | some off => off
      | none => buf.length) - 1
    parse_opt popt ctx key keylen val

/-! ## The bytes loaded by the raw reads -/

/-- The offsets from `buf->ptr` of the bytes that `do_read32` (`width` 4) and
`do_read64` (`width` 8) load through `ptr = buf->ptr + (addr->addr -
buf->addr.addr)`. -/
def read_offsets (width : Nat) (buf : addrxlat_buffer_t) (addr : addrxlat_fulladdr_t) :
    List Nat :=
  (List.range width).map (fun i => u64_sub addr.addr buf.addr.addr + i)

/-- A host memory that is zero everywhere. -/
def zero_mem : Nat → Nat := fun _ => 0

/-- A host memory that is zero except for the byte at the host address 4096, the
first byte after the page buffer at 0. -/
def mem_beyond : Nat → Nat := fun p => if p = 4096 then 1 else 0

/-! ## The first resolvable symbol of a specifier list (`ctx.c`) -/

/-- Modelled from the spec: `struct sym_spec`, which is declared in a header
outside the translated sources: a symbol specifier with the type of symbolic
information (`none` stands for `ADDRXLAT_SYM_NONE`, which ends a specifier list),
the address space of the result and the symbol name. -/
structure sym_spec where
  type : Option addrxlat_sym_type_t
  as : addrxlat_addrspace_t
  name : String

/-- Result of `get_first_sym`: the status, the full address stored in `*addr`
(`none` when `*addr` is not written) and the context afterwards. -/
structure first_sym_result where
  status : addrxlat_status
  addr : Option addrxlat_fulladdr_t
  ctx : addrxlat_ctx_t

/-- The loop of `get_first_sym` and the statement after it.  The list holds the
elements of the array from `spec` on, and `status` is the value of the variable
`status`; the result is `none` when the loop runs past the end of the array. -/
def get_first_sym_loop (cb : List addrxlat_sym_t → addrxlat_sym_t → addrxlat_status × Nat) :
    List sym_spec → addrxlat_ctx_t → addrxlat_status → Option first_sym_result
  | [], _, _ => none
  | spec :: rest, ctx, status =>
    let q := String.singleton DQUOTE
    match spec.type with
    | none =>
      some { status := (set_error ctx status ("Cannot resolve " ++ q ++ spec.name ++ q)).1
             addr := none
             ctx := (set_error ctx status ("Cannot resolve " ++ q ++ spec.name ++ q)).2 }
    | some t =>
      let sym : addrxlat_sym_t := { type := t, args := [spec.name] }
      let r := cb ctx.symlog sym
      let ctx1 := { ctx with symlog := ctx.symlog ++ [sym] }
      if r.1 = .OK then
        some { status := r.1, addr := some { addr := r.2, as := spec.as }, ctx := ctx1 }
      else if r.1 ≠ .ERR_NODATA then
        some { status := (set_error ctx1 r.1 ("Cannot resolve " ++ q ++ spec.name ++ q)).1
               addr := none
               ctx := (set_error ctx1 r.1 ("Cannot resolve " ++ q ++ spec.name ++ q)).2 }
      else get_first_sym_loop cb rest (clear_error ctx1) r.1

/-- The function `get_first_sym`: get the first successfully resolved value from
a specifier list. -/
def get_first_sym (ctx : addrxlat_ctx_t) (spec : List sym_spec) : Option first_sym_result :=
  match ctx.cb.sym with
  | none =>
    some { status := (set_error ctx .ERR_NODATA "No symbolic information callback").1
           addr := none
           ctx := (set_error ctx .ERR_NODATA "No symbolic information callback").2 }
  | some cb => get_first_sym_loop cb spec ctx .ERR_NODATA

/-- A specifier with the given type, address space and name. -/
def mk_spec (r : addrxlat_sym_type_t × addrxlat_addrspace_t × String) : sym_spec :=
  { type := some r.1, as := r.2.1, name := r.2.2 }

/-- The request that `get_first_sym` makes for a specifier. -/
def mk_req (r : addrxlat_sym_type_t × addrxlat_addrspace_t × String) : addrxlat_sym_t :=
  { type := r.1, args := [r.2.2] }

/-- The answers of a `sym` callback to a list of requests made one after the
other, the first of them after the requests `log`. -/
def sym_answers (cb : List addrxlat_sym_t → addrxlat_sym_t → addrxlat_status × Nat) :
    List addrxlat_sym_t → List addrxlat_sym_t → List (addrxlat_status × Nat)
  | _, [] => []
  | log, req :: rest => cb log req :: sym_answers cb (log ++ [req]) rest

/-- A `sym` callback that knows the value of the symbol `_stext` and has no
register named `pc`. -/
def stext_cb (_ : List addrxlat_sym_t) (sym : addrxlat_sym_t) : addrxlat_status × Nat :=
  if sym = { type := .SYM_VALUE, args := ["_stext"] } then (.OK, 0xc000000000000000)
  else (.ERR_NODATA, 0)

/-- A context with the callback `stext_cb`. -/
def stext_ctx : addrxlat_ctx_t :=
  { addrxlat_ctx_new with
    cb := { get_page := none, put_page := false, read_caps := 0, sym := some stext_cb } }

/-! ## Stages of `map_linux_ppc64` -/

/-- The initialisation data in `map_linux_ppc64` after the calls of
`sys_set_physmaps` and `sys_set_layout`. -/
def ppc64_layout_ctl (ops : sys_ops) (ctl : os_init_data) : os_init_data :=
  (ops.sys_set_layout (ops.sys_set_physmaps ctl ((1 <<< (64 - 30 + 16)) - 1)).2
    linux_layout).2

/-- The context with which `map_linux_ppc64` calls `get_vmemmap_param`: the
context after the lookup of `swapper_pg_dir`, with the error message cleared if
the lookup failed. -/
def ppc64_vmemmap_ctx (ctx : addrxlat_ctx_t) : addrxlat_ctx_t :=
  if (get_symval ctx "swapper_pg_dir").status = .OK then
    (get_symval ctx "swapper_pg_dir").ctx
  else clear_error (get_symval ctx "swapper_pg_dir").ctx

/-- A `sym` callback without any symbolic information. -/
def nodata_cb (_ : List addrxlat_sym_t) (_ : addrxlat_sym_t) : addrxlat_status × Nat :=
  (.ERR_NODATA, 0)

/-- Initialisation data for Linux with the callback `nodata_cb`, an old error
message and no options. -/
def nodata_ctl : os_init_data :=
  { ctx := { addrxlat_ctx_new with
      cb := { page_cb with sym := some nodata_cb }
      err := ["old message"] }
    sys := zero_sys, os_type := .OS_LINUX, popt := zero_opts }

/-! ## The test program `mkdiskdump.c`: page bitmaps -/

/-- The global variables of `mkdiskdump.c` that the page bitmap code uses.  The
bitmaps are kept as maps from byte indices to byte values. -/
structure bitmap_state where
  block_size : Nat
  bitmap_blocks : Nat
  max_mapnr : Nat
  bitmap1 : Nat → Nat
  bitmap2 : Nat → Nat
  dataoff : Nat

/-- The function `markpage`: whether it returns `TEST_OK`, and the global
variables afterwards.  `sizeof_pd` is `sizeof(struct page_desc)`, a structure that
is declared outside the translated sources, and `exclude` tells whether
`pgkdump->compress` is `compress_exclude`. -/
def markpage (sizeof_pd : Nat) (st : bitmap_state) (addr : Nat) (exclude : Bool) :
    Bool × bitmap_state :=
  let pfn := addr / st.block_size
  let blknum := (pfn / st.block_size) >>> 3
  if blknum ≥ st.bitmap_blocks / 2 then (false, st)
  else
    let idx := pfn >>> 3
    let st1 : bitmap_state :=
      { st with bitmap1 := fun i =>
          if i = idx then (st.bitmap1 i ||| (1 <<< (pfn &&& 7))) % 256 else st.bitmap1 i }
    let st2 : bitmap_state :=
      if exclude then st1
      else
        { st1 with bitmap2 := fun i =>
            if i = idx then (st1.bitmap2 i ||| (1 <<< (pfn &&& 7))) % 256 else st1.bitmap2 i }
    (true, { st2 with dataoff := (st2.dataoff + sizeof_pd) % 2 ^ 64 })

/-- The value of `(((max_mapnr + 7) / 8) + block_size - 1) / block_size` in the
unsigned 64-bit arithmetic of `writedata`. -/
def auto_bmp_blocks (max_mapnr block_size : Nat) : Nat :=
  (((max_mapnr + 7) % 2 ^ 64 / 8 + block_size) % 2 ^ 64 + (2 ^ 64 - 1)) % 2 ^ 64 / block_size

/-- The computation of the bitmap size at the start of `writedata`: the value of
`bmp_blocks1`, the number of blocks of each bitmap, which are allocated with
`calloc(bmp_blocks1, block_size)`, and the global variables afterwards. -/
def writedata_bitmap_blocks (st : bitmap_state) : Nat × bitmap_state :=
  if st.bitmap_blocks = 0 then
    (auto_bmp_blocks st.max_mapnr st.block_size,
     { st with bitmap_blocks := auto_bmp_blocks st.max_mapnr st.block_size * 2 % 2 ^ 64 })
  else (st.bitmap_blocks / 2, st)

/-- Global variables with empty bitmaps. -/
def empty_bitmaps (block_size bitmap_blocks max_mapnr : Nat) : bitmap_state :=
  { block_size := block_size, bitmap_blocks := bitmap_blocks, max_mapnr := max_mapnr
    bitmap1 := fun _ => 0, bitmap2 := fun _ => 0, dataoff := 0 }

/-! ## The test program `mkdiskdump.c`: the index of a page in the bitmap -/

/-- The function `bitcount`, in the 32-bit unsigned arithmetic of the C code. -/
def bitcount (x : Nat) : Nat :=
  ((((((x * 0x08040201) % 2 ^ 32) >>> 3) &&& 0x11111111) * 0x11111111) % 2 ^ 32) >>> 28

/-- The loop `while (bit >= 8)` of `bitmap_index`, with a bound on the number of
iterations: the byte index reached, the remaining bits and the count.  The bitmap
is a map from byte indices to bytes. -/
def bitmap_index_while (bmp : Nat → Nat) : Nat → Nat → Nat → Nat → Nat × Nat × Nat
  | 0, p, bit, ret => (p, bit, ret)
  | fuel + 1, p, bit, ret =>
    if bit ≥ 8 then
      bitmap_index_while bmp fuel (p + 1) (bit - 8) ((ret + bitcount (bmp p % 256)) % 2 ^ 64)
    else (p, bit, ret)

/-- The loop `for (mask = 1; bit; --bit, mask <<= 1)` of `bitmap_index` over the
byte `*bmp`, with a bound on the number of iterations. -/
def bitmap_index_for (byte : Nat) : Nat → Nat → Nat → Nat → Nat
  | 0, _, _, ret => ret
  | fuel + 1, mask, bit, ret =>
    if bit ≠ 0 then
      bitmap_index_for byte fuel ((mask <<< 1) % 256) (bit - 1)
        (if byte &&& mask ≠ 0 then (ret + 1) % 2 ^ 64 else ret)
    else ret

/-- The function `bitmap_index`.  Each iteration of the first loop takes 8 from
`bit` and each iteration of the second takes 1, so `bit` bounds the number of
iterations of both. -/
def bitmap_index (bmp : Nat → Nat) (bit : Nat) : Nat :=
  let w := bitmap_index_while bmp bit 0 bit 0
  bitmap_index_for (bmp w.1 % 256) w.2.1 1 w.2.1 w.2.2

/-- The index of the page descriptor in `writepage`:
`pdidx = bitmap_index(bitmap2, pfn) - start_pdidx`. -/
def writepage_pdidx (bitmap2 : Nat → Nat) (start_pdidx pfn : Nat) : Nat :=
  u64_sub (bitmap_index bitmap2 pfn) start_pdidx

/-- Whether the bit at position `n` of a bitmap is set, bit `j` of byte `i` being
the position `8 * i + j`. -/
def bit_set (bmp : Nat → Nat) (n : Nat) : Bool := (bmp (n / 8) % 256).testBit (n % 8)

/-- The number of set bits of a bitmap at positions strictly below `n`. -/
def bits_below (bmp : Nat → Nat) (n : Nat) : Nat :=
  ((List.range n).filter (fun p => bit_set bmp p)).length

/-- The number of set bits of a byte value. -/
def byte_bits (x : Nat) : Nat := ((List.range 8).filter (fun j => x.testBit j)).length

/-- A bitmap whose bytes 0 and 1 are 0xa5 and 0x81, all others being zero. -/
def sample_bitmap : Nat → Nat := fun i => if i = 0 then 0xa5 else if i = 1 then 0x81 else 0

/-! ## The test program `mkdiskdump.c`: the blobs after the sub-header -/

/-- A `struct blob` as the code uses it: `length`, and the memory that starts
at `data` (byte `i` of it is `data i`). -/
structure blob where
  length : Nat
  data : Nat → Nat

/-- The fields of the sub-header that describe the blobs, as the values given
to `htodump64` and `htodump32`. -/
structure sub_header where
  offset_vmcoreinfo : Nat
  size_vmcoreinfo : Nat
  offset_note : Nat
  size_note : Nat
  offset_eraseinfo : Nat
  size_eraseinfo : Nat
deriving DecidableEq

/-- What a chunk is taken from: the header structure, the sub-header structure,
or bytes of memory. -/
inductive chunk_data
  | hdr
  | subhdr (s : sub_header)
  | bytes (l : List Nat)
deriving DecidableEq

/-- One call of `write_chunk(f, off, ptr, sz, what)` that succeeded: `sz` bytes
from `ptr` go to the file offset `off`. -/
structure chunk where
  off : Nat
  sz : Nat
  data : chunk_data
  what : String
deriving DecidableEq

/-- The bytes that `fwrite(ptr, sz, 1, f)` takes from the memory at `ptr`. -/
def fwrite_bytes (ptr : Nat → Nat) (sz : Nat) : List Nat := (List.range sz).map ptr

/-- The function `write_chunk` for a chunk of bytes, the file being the list of
the chunks written so far; the calls of the C library are taken to succeed. -/
def write_chunk (f : List chunk) (off : Nat) (ptr : Nat → Nat) (sz : Nat)
    (what : String) : List chunk :=
  f ++ [{ off := off, sz := sz, data := .bytes (fwrite_bytes ptr sz), what := what }]

/-- The global variables that `writeheader_32` and `writeheader_64` read, with
the constants `DISKDUMP_HEADER_BLOCKS`, `sizeof hdr` and `sizeof subhdr`; a
blob pointer that is NULL is `none`. -/
structure header_env where
  header_blocks : Nat
  block_size : Nat
  sizeof_hdr : Nat
  sizeof_subhdr : Nat
  vmcoreinfo : Option blob
  notes : Option blob
  eraseinfo : Option blob

/-- The result of writing the headers: the chunks written, in order, the
sub-header and the final value of `pos`. -/
structure header_result where
  chunks : List chunk
  subhdr : sub_header
  pos : Nat

/-- A sub-header with all fields zero. -/
def sub_header_zero : sub_header :=
  { offset_vmcoreinfo := 0, size_vmcoreinfo := 0, offset_note := 0, size_note := 0,
    offset_eraseinfo := 0, size_eraseinfo := 0 }

/-- The function `writeheader_32`, blob part: the sizes are stored with
`htodump32`.  `pos` is kept as the 64-bit pattern of the `off_t`.  The result
is `none` when the code dereferences a NULL pointer. -/
def writeheader_32 (env : header_env) : Option header_result :=
  let f0 : List chunk := [{ off := 0, sz := env.sizeof_hdr, data := .hdr, what := "header" }]
  let pos0 := (env.header_blocks * env.block_size % 2 ^ 64 + env.sizeof_subhdr) % 2 ^ 64
  let s0 := sub_header_zero
  let (f1, s1, pos1) :=
    match env.vmcoreinfo with
    | some v =>
      (write_chunk f0 pos0 v.data v.length "VMCOREINFO",
       { s0 with offset_vmcoreinfo := pos0, size_vmcoreinfo := v.length % 2 ^ 32 },
       (pos0 + v.length) % 2 ^ 64)
    | none => (f0, { s0 with offset_vmcoreinfo := 0, size_vmcoreinfo := 0 }, pos0)
  let (f2, s2, pos2) :=
    match env.notes with
    | some n =>
      (write_chunk f1 pos1 n.data n.length "ELF notes",
       { s1 with offset_note := pos1, size_note := n.length % 2 ^ 32 },
       (pos1 + n.length) % 2 ^ 64)
    | none => (f1, { s1 with offset_note := 0, size_note := 0 }, pos1)
  match env.eraseinfo with
  | some e =>
    match env.notes with
    | none => none
    | some n =>
      let f3 := write_chunk f2 pos2 n.data n.length "eraseinfo"
      let s3 := { s2 with offset_eraseinfo := pos2, size_eraseinfo := e.length % 2 ^ 32 }
      let pos3 := (pos2 + e.length) % 2 ^ 64
      some
        { chunks := f3 ++ [{ off := env.header_blocks * env.block_size % 2 ^ 64,
                             sz := env.sizeof_subhdr, data := .subhdr s3,
                             what := "subheader" }],
          subhdr := s3, pos := pos3 }
  | none =>
    let s3 := { s2 with offset_eraseinfo := 0, size_eraseinfo := 0 }
    some
      { chunks := f2 ++ [{ off := env.header_blocks * env.block_size % 2 ^ 64,
                           sz := env.sizeof_subhdr, data := .subhdr s3,
                           what := "subheader" }],
        subhdr := s3, pos := pos2 }

/-- The function `writeheader_64`, blob part: the sizes are stored with
`htodump64`.  `pos` is kept as the 64-bit pattern of the `off_t`.  The result
is `none` when the code dereferences a NULL pointer. -/
def writeheader_64 (env : header_env) : Option header_result :=
  let f0 : List chunk := [{ off := 0, sz := env.sizeof_hdr, data := .hdr, what := "header" }]
  let pos0 := (env.header_blocks * env.block_size % 2 ^ 64 + env.sizeof_subhdr) % 2 ^ 64
  let s0 := sub_header_zero
  let (f1, s1, pos1) :=
    match env.vmcoreinfo with
    | some v =>
      (write_chunk f0 pos0 v.data v.length "VMCOREINFO",
       { s0 with offset_vmcoreinfo := pos0, size_vmcoreinfo := v.length % 2 ^ 64 },
       (pos0 + v.length) % 2 ^ 64)
    | none => (f0, { s0 with offset_vmcoreinfo := 0, size_vmcoreinfo := 0 }, pos0)
  let (f2, s2, pos2) :=
    match env.notes with
    | some n =>
      (write_chunk f1 pos1 n.data n.length "ELF notes",
       { s1 with offset_note := pos1, size_note := n.length % 2 ^ 64 },
       (pos1 + n.length) % 2 ^ 64)
    | none => (f1, { s1 with offset_note := 0, size_note := 0 }, pos1)
  match env.eraseinfo with
  | some e =>
    match env.notes with
    | none => none
    | some n =>
      let f3 := write_chunk f2 pos2 n.data n.length "eraseinfo"
      let s3 := { s2 with offset_eraseinfo := pos2, size_eraseinfo := e.length % 2 ^ 64 }
      let pos3 := (pos2 + e.length) % 2 ^ 64
      some
        { chunks := f3 ++ [{ off := env.header_blocks * env.block_size % 2 ^ 64,
                             sz := env.sizeof_subhdr, data := .subhdr s3,
                             what := "subheader" }],
          subhdr := s3, pos := pos3 }
  | none =>
    let s3 := { s2 with offset_eraseinfo := 0, size_eraseinfo := 0 }
    some
      { chunks := f2 ++ [{ off := env.header_blocks * env.block_size % 2 ^ 64,
                           sz := env.sizeof_subhdr, data := .subhdr s3,
                           what := "subheader" }],
        subhdr := s3, pos := pos2 }

/-- The chunks of a result that were written under the name `what`. -/
def chunks_named (r : header_result) (what : String) : List chunk :=
  r.chunks.filter (fun c => c.what == what)

/-- The blob whose `length` bytes are the given list. -/
def blob_of (l : List Nat) : blob := { length := l.length, data := fun i => l.getD i 0 }

/-- A dump with ELF notes of three bytes and an eraseinfo blob of two bytes:
one header block of 4096 bytes and a sub-header of 128 bytes. -/
def erase_env : header_env :=
  { header_blocks := 1, block_size := 4096, sizeof_hdr := 464, sizeof_subhdr := 128,
    vmcoreinfo := none, notes := some (blob_of [1, 2, 3]), eraseinfo := some (blob_of [9, 9]) }

/-- The same dump without ELF notes. -/
def erase_only_env : header_env := { erase_env with notes := none }

/-! ## The kernel code resource in `/proc/iomem` (`devmem.c`) -/

/-- The status codes of libkdumpfile that `devmem.c` uses. -/
inductive kdump_status
  | OK
  | ERR_SYSTEM
  | ERR_NODATA
  | ERR_CORRUPT
  | ERR_NOKEY
deriving DecidableEq

/-- The optional prefix `0x` or `0X` of a hexadecimal number, which
`strtoull(str, &endp, 16)` skips when a hexadecimal digit follows it. -/
def strip_0x (s : List Char) : List Char :=
  match s with
  | z :: x :: h :: t =>
    if z == '0' && (x == 'x' || x == 'X') && is_digit_of 16 h then h :: t else s
  | _ => s

/-- The digits that `strtoull(str, &endp, 16)` converts, after white space and
sign: hexadecimal digits, after `0x` or `0X` when a hexadecimal digit follows
it.  The result is the magnitude and the unread rest, or `none` when there is
no digit. -/
def strto_digits16 (s : List Char) : Option (Nat × List Char) :=
  let t := strip_0x s
  if (t.takeWhile (is_digit_of 16)).isEmpty then none
  else some (digits_value 16 (t.takeWhile (is_digit_of 16)), t.dropWhile (is_digit_of 16))

/-- The sign and the digits of `strtoull(str, &endp, 16)`. -/
def strto_signed16 (s : List Char) : Option (Bool × Nat × List Char) :=
  match s with
  | c :: t =>
    if c == '-' then (strto_digits16 t).map (fun r => (true, r.1, r.2))
    else if c == '+' then (strto_digits16 t).map (fun r => (false, r.1, r.2))
    else (strto_digits16 s).map (fun r => (false, r.1, r.2))
  | [] => (strto_digits16 s).map (fun r => (false, r.1, r.2))

/-- The C library function `strtoull(str, &endp, 16)` with a 64-bit
`unsigned long long`: the value and the rest of the string at `endp`, which is
the whole string when no conversion can be performed. -/
def strtoull16 (s : List Char) : Nat × List Char :=
  match strto_signed16 (s.dropWhile c_isspace) with
  | none => (0, s)
  | some (neg, m, rest) =>
    if m > 2 ^ 64 - 1 then (2 ^ 64 - 1, rest)
    else if neg then ((2 ^ 64 - m) % 2 ^ 64, rest)
    else (m, rest)

/-- A string without its trailing POSIX white space: the loop
`while (is_posix_space(*q)) *q-- = 0` from the end of a string that holds a
character which is no white space. -/
def rtrim (s : List Char) : List Char := (s.reverse.dropWhile is_posix_space).reverse

/-- The result of `check_kcode` and of `linux_iomem_kcode`: the status, the
message given to `set_error`, if any, and the value of `*paddr`. -/
structure kcode_result where
  status : kdump_status
  err : Option (List Char)
  paddr : Nat
deriving DecidableEq

/-- The function `check_kcode`.  The line is the buffer that `getline` filled;
a pointer into it is the rest of the string from there, so that `p == line`
holds when the rest at `p` is as long as the line. -/
def check_kcode (buf : List Char) (paddr : Nat) : kcode_result :=
  let line := cstr buf
  if ¬ (':' ∈ line) then { status := .ERR_NOKEY, err := none, paddr := paddr }
  else
    let p := ((line.dropWhile (fun c => c != ':')).drop 1).dropWhile is_posix_space
    let line1 := rtrim line
    let name := line1.drop (line.length - p.length)
    if name ≠ "Kernel code".toList then { status := .ERR_NOKEY, err := none, paddr := paddr }
    else
      let r := strtoull16 line1
      let p := r.2.dropWhile is_posix_space
      if p.length = line1.length ∨ p.head? ≠ some '-' then
        { status := .ERR_CORRUPT, err := some ("Invalid iomem format: ".toList ++ line1),
          paddr := paddr }
      else { status := .OK, err := none, paddr := r.1 }

/-- The outcome of `fopen(FN_IOMEM, "r")` and of reading the file: no such
file, another failure, or the lines that `getline` returns before it fails,
with the error indicator of the stream (`ferror(f)`) after the loop. -/
inductive iomem_file
  | enoent
  | failed
  | lines (ls : List (List Char)) (ferror : Bool)

/-- The loop of `linux_iomem_kcode`: `ret` is the value of the variable of that
name, which `check_kcode` assigns after every line read. -/
def linux_iomem_kcode_loop : List (List Char) → kcode_result → kcode_result
  | [], ret => ret
  | line :: rest, ret =>
    let r := check_kcode line ret.paddr
    if r.status = .ERR_NOKEY then linux_iomem_kcode_loop rest r else r

/-- The function `linux_iomem_kcode`.  The variable `ret` is declared without
an initial value: `uninit` is the value it happens to hold before the loop. -/
def linux_iomem_kcode (uninit : kdump_status) (f : iomem_file) (paddr : Nat) : kcode_result :=
  match f with
  | .enoent => { status := .ERR_NODATA, err := none, paddr := paddr }
  | .failed =>
    { status := .ERR_SYSTEM, err := some "Cannot open /sys/kernel/vmcoreinfo".toList,
      paddr := paddr }
  | .lines ls ferror =>
    let r := linux_iomem_kcode_loop ls { status := uninit, err := none, paddr := paddr }
    if ferror then
      { status := .ERR_SYSTEM, err := some "Error reading /proc/iomem".toList, paddr := r.paddr }
    else r

/-- The resource name of a line of `/proc/iomem`: the text after the first
`:` without the white space around it; `none` for a line without `:`. -/
def resource_name (line : List Char) : Option (List Char) :=
  if ':' ∈ cstr line then
    some (rtrim ((((cstr line).dropWhile (fun c => c != ':')).drop 1).dropWhile is_posix_space))
  else none

/-- Whether the resource name of a line is exactly `Kernel code`. -/
def is_kcode_line (line : List Char) : Bool :=
  resource_name line == some "Kernel code".toList

/-- The first lines of a `/proc/iomem`. -/
def sample_iomem : List (List Char) :=
  ["00000000-00000fff : Reserved\n".toList,
   "00100000-bfffffff : System RAM\n".toList,
   "  01000000-01c031d0 : Kernel code\n".toList,
   "  01c031d1-0266f3bf : Kernel data\n".toList]

/-! ## The order of the tokens of an option string -/

/-- Whether a token has a recognised key and a value that is well formed for
the option of that key. -/
def token_accepted (t : opt_token) : Bool :=
  match key_option t.key, t.val with
  | some idx, some v => (store_option zero_opts idx v).isSome
  | _, _ => false

/-- The words of two tokens exchanged, each white space staying in its place. -/
def swap_tokens (a : List opt_token) (t1 : opt_token) (m : List opt_token) (t2 : opt_token)
    (b : List opt_token) : List opt_token :=
  a ++ { t2 with sep := t1.sep } :: (m ++ { t1 with sep := t2.sep } :: b)

/-- Whether the key of a token is not empty and its key and value are made of
plain characters. -/
def word_plain (t : opt_token) : Bool :=
  !t.key.isEmpty && t.key.all is_plain && (t.val.getD []).all is_plain

/-- The tokens of `levels=1 pagesize=4096 levels=2`. -/
def sample_tokens : List opt_token :=
  [{ key := "levels".toList, val := some "1".toList, sep := " ".toList },
   { key := "pagesize".toList, val := some "4096".toList, sep := "  ".toList },
   { key := "levels".toList, val := some "2".toList, sep := [] }]

/-- The options that `levels=1 pagesize=4096 levels=2` gives from `zero_opts`. -/
def sample_opts : parsed_opts :=
  { zero_opts with
    isset := fun i => if i = .OPT_levels then true
      else if i = .OPT_pagesize then true
      else if i = .OPT_levels then true else false
    levels := 2
    pagesize := 4096 }

end Kdumpfile

/-! # Properties -/

namespace Kdumpfile

/-! ## Helper lemmas on the ring of cache slots -/

theorem slot_cover : ∀ a b c d : slot_ptr, [a, b, c, d].Nodup →
    ∀ x : slot_ptr, x = a ∨ x = b ∨ x = c ∨ x = d := by
  decide

theorem ring_fun_repr (next prev : slot_ptr → slot_ptr) (a b c d : slot_ptr)
    (h1 : ∀ s, prev (next s) = s) (hb : next a = b) (hc : next b = c)
    (hd : next c = d) (hn : [a, b, c, d].Nodup) :
    (next = fun x => if x = a then b else if x = b then c else if x = c then d else a) ∧
    (prev = fun x => if x = a then d else if x = b then a else if x = c then b else c) := by
  have hcov := slot_cover a b c d hn
  simp at hn
  obtain ⟨⟨hab, hac, had⟩, ⟨hbc, hbd⟩, hcd⟩ := hn
  have hba : ¬ b = a := fun e => hab e.symm
  have hca : ¬ c = a := fun e => hac e.symm
  have hda : ¬ d = a := fun e => had e.symm
  have hcb : ¬ c = b := fun e => hbc e.symm
  have hdb : ¬ d = b := fun e => hbd e.symm
  have hdc : ¬ d = c := fun e => hcd e.symm
  have pb : prev b = a := by rw [← hb, h1]
  have pc : prev c = b := by rw [← hc, h1]
  have nd : next d = a := by
    rcases hcov (next d) with e | e | e | e
    · exact e
    · exfalso; have h := h1 d; rw [e, pb] at h; exact had h
    · exfalso; have h := h1 d; rw [e, pc] at h; exact hbd h
    · exfalso; have h := h1 d; rw [e, ← hd, h1] at h; exact hcd (by rw [← hd]; exact h)
  have pa : prev a = d := by rw [← nd, h1]
  have pd : prev d = c := by rw [← hd, h1]
  constructor
  · funext x
    rcases hcov x with e | e | e | e <;> rw [e] <;>
      simp only [hb, hc, hd, nd, hba, hca, hda, hcb, hdb, hdc, if_true, if_false]
  · funext x
    rcases hcov x with e | e | e | e <;> rw [e] <;>
      simp only [pa, pb, pc, pd, hba, hca, hda, hcb, hdb, hdc, if_true, if_false]

theorem ring_wf_repr (c : read_cache) (h : ring_wf c) :
    ∃ a b c1 d, [a, b, c1, d].Nodup ∧ c = mk_ring a b c1 d c.buffer := by
  obtain ⟨h1, _, h3⟩ := h
  refine ⟨c.mru, c.next c.mru, c.next (c.next c.mru),
    c.next (c.next (c.next c.mru)), h3, ?_⟩
  obtain ⟨e1, e2⟩ := ring_fun_repr c.next c.prev _ _ _ _ h1 rfl rfl rfl h3
  cases c with
  | mk mru next prev buffer =>
    simp only [mk_ring]
    simp only at e1 e2
    rw [← e1, ← e2]

/-- Induction principle: a property that holds of every ring `mk_ring a b c d`
with pairwise different slots holds of every well-formed cache. -/
theorem ring_wf_cases (P : read_cache → Prop)
    (hP : ∀ a b c d buf, [a, b, c, d].Nodup → P (mk_ring a b c d buf))
    (c : read_cache) (h : ring_wf c) : P c := by
  obtain ⟨a, b, c1, d, hn, e⟩ := ring_wf_repr c h
  rw [e]
  exact hP a b c1 d c.buffer hn

theorem touch_with_buffer (c : read_cache) (s : slot_ptr)
    (buf : slot_ptr → addrxlat_buffer_t) :
    touch_cache_slot { c with buffer := buf } s
      = { touch_cache_slot c s with buffer := buf } := by
  unfold touch_cache_slot
  simp only
  split_ifs <;> rfl

theorem bury_with_buffer (c : read_cache) (s : slot_ptr)
    (buf : slot_ptr → addrxlat_buffer_t) :
    bury_slot { c with buffer := buf } s
      = { bury_slot c s with buffer := buf } := by
  unfold bury_slot
  simp only
  split_ifs <;> rfl

theorem touch_buffer (c : read_cache) (s : slot_ptr) :
    (touch_cache_slot c s).buffer = c.buffer := by
  unfold touch_cache_slot
  split_ifs <;> rfl

theorem bury_slot_buffer (c : read_cache) (s : slot_ptr) :
    (bury_slot c s).buffer = c.buffer := by
  unfold bury_slot
  split_ifs <;> rfl

theorem touch_mru (c : read_cache) (s : slot_ptr) :
    (touch_cache_slot c s).mru = s := by
  unfold touch_cache_slot
  split_ifs with h1 h2
  · exact h1.symm
  · rfl
  · rfl

set_option maxRecDepth 100000 in
theorem touch_ring_dec : ∀ a b c d s : slot_ptr, [a, b, c, d].Nodup →
    ring_wf (touch_cache_slot (mk_ring a b c d (fun _ => zero_buffer)) s) ∧
    ring_order (touch_cache_slot (mk_ring a b c d (fun _ => zero_buffer)) s)
      = s :: [a, b, c, d].erase s := by
  decide

set_option maxRecDepth 100000 in
theorem bury_ring_dec : ∀ a b c d s : slot_ptr, [a, b, c, d].Nodup →
    ring_wf (bury_slot (mk_ring a b c d (fun _ => zero_buffer)) s) ∧
    ring_order (bury_slot (mk_ring a b c d (fun _ => zero_buffer)) s)
      = [a, b, c, d].erase s ++ [s] ∧
    (bury_slot (mk_ring a b c d (fun _ => zero_buffer)) s).prev
      (bury_slot (mk_ring a b c d (fun _ => zero_buffer)) s).mru = s := by
  decide

set_option maxRecDepth 100000 in
theorem mk_ring_dec : ∀ a b c d : slot_ptr, [a, b, c, d].Nodup →
    ring_wf (mk_ring a b c d (fun _ => zero_buffer)) ∧
    ring_order (mk_ring a b c d (fun _ => zero_buffer)) = [a, b, c, d] ∧
    (mk_ring a b c d (fun _ => zero_buffer)).prev a = d := by
  decide

theorem touch_ring (c : read_cache) (s : slot_ptr) (h : ring_wf c) :
    ring_wf (touch_cache_slot c s) ∧
    ring_order (touch_cache_slot c s) = s :: (ring_order c).erase s := by
  revert h
  refine ring_wf_cases (fun c => ring_wf (touch_cache_slot c s) ∧
    ring_order (touch_cache_slot c s) = s :: (ring_order c).erase s) ?_ c
  intro a b c1 d buf hn
  have h := touch_ring_dec a b c1 d s hn
  have e : touch_cache_slot (mk_ring a b c1 d buf) s
      = { touch_cache_slot (mk_ring a b c1 d (fun _ => zero_buffer)) s with
          buffer := buf } :=
    touch_with_buffer (mk_ring a b c1 d (fun _ => zero_buffer)) s buf
  have eo : ring_order (mk_ring a b c1 d buf) = [a, b, c1, d] :=
    (mk_ring_dec a b c1 d hn).2.1
  rw [e, eo]
  exact ⟨h.1, h.2⟩

theorem bury_ring (c : read_cache) (s : slot_ptr) (h : ring_wf c) :
    ring_wf (bury_slot c s) ∧
    ring_order (bury_slot c s) = (ring_order c).erase s ++ [s] ∧
    (bury_slot c s).prev (bury_slot c s).mru = s := by
  revert h
  refine ring_wf_cases (fun c => ring_wf (bury_slot c s) ∧
    ring_order (bury_slot c s) = (ring_order c).erase s ++ [s] ∧
    (bury_slot c s).prev (bury_slot c s).mru = s) ?_ c
  intro a b c1 d buf hn
  have h := bury_ring_dec a b c1 d s hn
  have e : bury_slot (mk_ring a b c1 d buf) s
      = { bury_slot (mk_ring a b c1 d (fun _ => zero_buffer)) s with
          buffer := buf } :=
    bury_with_buffer (mk_ring a b c1 d (fun _ => zero_buffer)) s buf
  have eo : ring_order (mk_ring a b c1 d buf) = [a, b, c1, d] :=
    (mk_ring_dec a b c1 d hn).2.1
  rw [e, eo]
  exact ⟨h.1, h.2.1, h.2.2⟩

theorem ring_lru_last (c : read_cache) (h : ring_wf c) :
    (ring_order c).getLast? = some (c.prev c.mru) := by
  revert h
  refine ring_wf_cases (fun c => (ring_order c).getLast? = some (c.prev c.mru)) ?_ c
  intro a b c1 d buf hn
  have h := mk_ring_dec a b c1 d hn
  have eo : ring_order (mk_ring a b c1 d buf) = [a, b, c1, d] := h.2.1
  have ep : (mk_ring a b c1 d buf).prev (mk_ring a b c1 d buf).mru = d := h.2.2
  rw [eo, ep]
  rfl

theorem ring_order_mem (c : read_cache) (h : ring_wf c) (s : slot_ptr) :
    s ∈ ring_order c := by
  have hc := slot_cover _ _ _ _ h.2.2 s
  simp only [ring_order, List.mem_cons, List.mem_singleton, List.not_mem_nil, or_false]
  exact hc

theorem ring_order_nodup (c : read_cache) (h : ring_wf c) : (ring_order c).Nodup :=
  h.2.2

theorem init_cache_eq (c : read_cache) :
    init_cache c = mk_ring 0 1 2 3 c.buffer := by
  have e1 : (init_cache c).next = (mk_ring 0 1 2 3 c.buffer).next := by
    funext x; fin_cases x <;> rfl
  have e2 : (init_cache c).prev = (mk_ring 0 1 2 3 c.buffer).prev := by
    funext x; fin_cases x <;> rfl
  have e3 : (init_cache c).mru = 0 := rfl
  have e4 : (init_cache c).buffer = c.buffer := rfl
  cases hh : init_cache c with
  | mk mru next prev buffer =>
    rw [hh] at e1 e2 e3 e4
    simp only at e1 e2 e3 e4
    subst e1 e2 e3 e4
    rfl

theorem init_cache_ring (c : read_cache) :
    ring_wf (init_cache c) ∧ ring_order (init_cache c) = [0, 1, 2, 3] ∧
    (init_cache c).buffer = c.buffer := by
  rw [init_cache_eq]
  have h := mk_ring_dec 0 1 2 3 (by decide)
  exact ⟨h.1, h.2.1, rfl⟩

/-! ## Helper lemmas on the cache scan and on `get_cache_buf` -/

set_option maxRecDepth 100000 in
theorem find_first_slot : ∀ (p : slot_ptr → Bool) (s : slot_ptr),
    ((List.finRange READ_CACHE_SLOTS).find? p = some s
      ↔ (p s = true ∧ ∀ j, j < s → p j = false)) := by
  decide

theorem cache_scan_some (c : read_cache) (addr : addrxlat_fulladdr_t) (s : slot_ptr) :
    cache_scan c addr = some s ↔
      (buf_contains (c.buffer s) addr = true ∧
        ∀ j, j < s → buf_contains (c.buffer j) addr = false) :=
  find_first_slot (fun s => buf_contains (c.buffer s) addr) s

theorem cache_scan_none (c : read_cache) (addr : addrxlat_fulladdr_t) :
    cache_scan c addr = none ↔ ∀ j, buf_contains (c.buffer j) addr = false := by
  simp [cache_scan, List.find?_eq_none]

theorem buf_contains_iff (b : addrxlat_buffer_t) (addr : addrxlat_fulladdr_t)
    (ha : addr.addr < 2 ^ 64) (hb : b.addr.addr + b.size ≤ 2 ^ 64) :
    buf_contains b addr = true ↔
      (b.addr.as = addr.as ∧ b.addr.addr ≤ addr.addr ∧ addr.addr < b.addr.addr + b.size) := by
  simp only [buf_contains, u64_sub, Bool.and_eq_true, decide_eq_true_eq]
  have e : (2 : Nat) ^ 64 = 18446744073709551616 := by norm_num
  rw [e] at ha hb ⊢
  constructor
  · rintro ⟨h1, h2⟩
    exact ⟨h2, by omega, by omega⟩
  · rintro ⟨h1, h2, h3⟩
    exact ⟨by omega, h1⟩

theorem buf_contains_empty (b : addrxlat_buffer_t) (addr : addrxlat_fulladdr_t)
    (h : b.size = 0) : buf_contains b addr = false := by
  simp [buf_contains, h]

theorem get_cache_buf_hit (ctx : addrxlat_ctx_t) (addr : addrxlat_fulladdr_t)
    (s : slot_ptr) (h : cache_scan ctx.cache addr = some s) :
    get_cache_buf ctx addr = some
      { status := .OK, pbuf := some s,
        ctx := { ctx with cache := touch_cache_slot ctx.cache s } } := by
  simp only [get_cache_buf, h]

theorem get_cache_buf_miss (ctx : addrxlat_ctx_t) (addr : addrxlat_fulladdr_t)
    (gp : List cb_event → addrxlat_buffer_t → addrxlat_status × addrxlat_buffer_t)
    (h : cache_scan ctx.cache addr = none) (hgp : ctx.cb.get_page = some gp) :
    get_cache_buf ctx addr = some
      (let slot := ctx.cache.prev ctx.cache.mru
       let old := ctx.cache.buffer slot
       let log1 := if old.size ≠ 0 ∧ ctx.cb.put_page = true
         then ctx.log ++ [cb_event.put_page old] else ctx.log
       let req := { old with addr := addr }
       let r := gp log1 req
       let log2 := log1 ++ [cb_event.get_page req r.1 r.2]
       if r.1 ≠ .OK then
         { status := r.1, pbuf := none,
           ctx := { ctx with
             cache := ctx.cache.set_buffer slot { r.2 with size := 0 }, log := log2 } }
       else
         { status := .OK, pbuf := some slot,
           ctx := { ctx with
             cache := touch_cache_slot (ctx.cache.set_buffer slot r.2) slot,
             log := log2 } }) := by
  simp only [get_cache_buf, h, hgp]
  split_ifs <;> rfl

theorem get_cache_buf_miss_ok (ctx : addrxlat_ctx_t) (addr : addrxlat_fulladdr_t)
    (gp : List cb_event → addrxlat_buffer_t → addrxlat_status × addrxlat_buffer_t)
    (h : cache_scan ctx.cache addr = none) (hgp : ctx.cb.get_page = some gp)
    (hok : (gp (miss_log ctx) (miss_req ctx addr)).1 = .OK) :
    get_cache_buf ctx addr = some
      { status := .OK, pbuf := some (ctx.cache.prev ctx.cache.mru),
        ctx := { ctx with
          cache := touch_cache_slot
            (ctx.cache.set_buffer (ctx.cache.prev ctx.cache.mru)
              (gp (miss_log ctx) (miss_req ctx addr)).2)
            (ctx.cache.prev ctx.cache.mru),
          log := miss_log ctx ++
            [cb_event.get_page (miss_req ctx addr) .OK
              (gp (miss_log ctx) (miss_req ctx addr)).2] } } := by
  rw [get_cache_buf_miss ctx addr gp h hgp]
  simp only [miss_log, miss_req] at hok ⊢
  simp only [hok, ne_eq, not_true_eq_false, if_false]

theorem get_cache_buf_miss_err (ctx : addrxlat_ctx_t) (addr : addrxlat_fulladdr_t)
    (gp : List cb_event → addrxlat_buffer_t → addrxlat_status × addrxlat_buffer_t)
    (h : cache_scan ctx.cache addr = none) (hgp : ctx.cb.get_page = some gp)
    (hne : (gp (miss_log ctx) (miss_req ctx addr)).1 ≠ .OK) :
    get_cache_buf ctx addr = some
      { status := (gp (miss_log ctx) (miss_req ctx addr)).1, pbuf := none,
        ctx := { ctx with
          cache := ctx.cache.set_buffer (ctx.cache.prev ctx.cache.mru)
            { (gp (miss_log ctx) (miss_req ctx addr)).2 with size := 0 },
          log := miss_log ctx ++
            [cb_event.get_page (miss_req ctx addr)
              (gp (miss_log ctx) (miss_req ctx addr)).1
              (gp (miss_log ctx) (miss_req ctx addr)).2] } } := by
  rw [get_cache_buf_miss ctx addr gp h hgp]
  simp only [miss_log, miss_req] at hne ⊢
  simp only [hne, ne_eq, not_false_eq_true, if_true]

theorem get_cache_buf_ok_ring (ctx : addrxlat_ctx_t) (a : addrxlat_fulladdr_t)
    (res : cache_result) (hwf : ring_wf ctx.cache)
    (h : get_cache_buf ctx a = some res) (hst : res.status = .OK) :
    ∃ s, res.pbuf = some s ∧ ring_wf res.ctx.cache ∧
      ring_order res.ctx.cache = s :: (ring_order ctx.cache).erase s ∧
      (cache_scan ctx.cache a = none → s = ctx.cache.prev ctx.cache.mru) ∧
      res.ctx.cb = ctx.cb ∧ res.ctx.cache.mru = s := by
  cases hscan : cache_scan ctx.cache a with
  | some s =>
    rw [get_cache_buf_hit ctx a s hscan] at h
    injection h with h
    subst h
    obtain ⟨w, o⟩ := touch_ring ctx.cache s hwf
    exact ⟨s, rfl, w, o, fun hc => by simp at hc, rfl, touch_mru _ _⟩
  | none =>
    cases hgp : ctx.cb.get_page with
    | none => simp [get_cache_buf, hscan, hgp] at h
    | some gp =>
      by_cases hok : (gp (miss_log ctx) (miss_req ctx a)).1 = .OK
      · rw [get_cache_buf_miss_ok ctx a gp hscan hgp hok] at h
        injection h with h
        subst h
        have hwf1 : ring_wf (ctx.cache.set_buffer (ctx.cache.prev ctx.cache.mru)
            (gp (miss_log ctx) (miss_req ctx a)).2) := hwf
        obtain ⟨w, o⟩ := touch_ring _ (ctx.cache.prev ctx.cache.mru) hwf1
        exact ⟨_, rfl, w, o, fun _ => rfl, rfl, touch_mru _ _⟩
      · rw [get_cache_buf_miss_err ctx a gp hscan hgp hok] at h
        injection h with h
        subst h
        exact absurd hst hok

theorem lru_run_cons (ctx : addrxlat_ctx_t) (stamp : slot_ptr → Nat) (t : Nat)
    (a : addrxlat_fulladdr_t) (rest : List addrxlat_fulladdr_t)
    (obs : List lru_obs) (ctxN : addrxlat_ctx_t)
    (h : lru_run ctx stamp t (a :: rest) = some (obs, ctxN)) :
    ∃ res s obs1, get_cache_buf ctx a = some res ∧ res.status = .OK ∧
      res.pbuf = some s ∧
      lru_run res.ctx (fun j => if j = s then t + 1 else stamp j) (t + 1) rest
        = some (obs1, ctxN) ∧
      obs = { miss := (cache_scan ctx.cache a).isNone, slot := s, stamp := stamp } :: obs1 := by
  unfold lru_run at h
  split at h
  · rename_i s ctx1 hres
    split at h
    · rename_i obs1 ctxN1 hrest
      injection h with h
      injection h with h1 h2
      subst h2
      exact ⟨_, s, obs1, hres, rfl, rfl, hrest, h1.symm⟩
    · exact absurd h (by simp)
  · exact absurd h (by simp)

theorem lru_run_mk (ctx : addrxlat_ctx_t) (stamp : slot_ptr → Nat) (t : Nat)
    (a : addrxlat_fulladdr_t) (rest : List addrxlat_fulladdr_t)
    (res : cache_result) (s : slot_ptr) (obs1 : List lru_obs) (ctxN : addrxlat_ctx_t)
    (h1 : get_cache_buf ctx a = some res) (h2 : res.status = .OK)
    (h3 : res.pbuf = some s)
    (h4 : lru_run res.ctx (fun j => if j = s then t + 1 else stamp j) (t + 1) rest
        = some (obs1, ctxN)) :
    lru_run ctx stamp t (a :: rest) = some
      ({ miss := (cache_scan ctx.cache a).isNone, slot := s, stamp := stamp } :: obs1,
       ctxN) := by
  obtain ⟨st, pb, c1⟩ := res
  simp only at h2 h3 h4
  subst h2 h3
  simp only [lru_run, h1, h4]

theorem stamp_sorted_lru (c : read_cache) (stamp : slot_ptr → Nat)
    (hwf : ring_wf c) (hs : stamp_sorted c stamp) (j : slot_ptr) :
    stamp (c.prev c.mru) ≤ stamp j := by
  have hl := ring_lru_last c hwf
  have hd := List.dropLast_append_getLast? _ hl
  have hj := ring_order_mem c hwf j
  unfold stamp_sorted at hs
  rw [← hd] at hs hj
  rw [List.pairwise_append] at hs
  rcases List.mem_append.1 hj with hm | hm
  · have := hs.2.2 j hm (c.prev c.mru) (List.mem_singleton.2 rfl)
    omega
  · rw [List.mem_singleton.1 hm]

theorem stamp_sorted_touch (c c1 : read_cache) (stamp : slot_ptr → Nat) (t : Nat)
    (s : slot_ptr) (hwf : ring_wf c) (hs : stamp_sorted c stamp)
    (ht : ∀ j, stamp j ≤ t)
    (ho : ring_order c1 = s :: (ring_order c).erase s) :
    stamp_sorted c1 (fun j => if j = s then t + 1 else stamp j) := by
  unfold stamp_sorted at hs ⊢
  rw [ho, List.pairwise_cons]
  have hnd := ring_order_nodup c hwf
  constructor
  · intro b hb
    have hbs : b ≠ s := fun e => by
      rw [e] at hb
      exact (List.Nodup.not_mem_erase hnd) hb
    right
    simp only [hbs, if_false, if_true]
    have := ht b
    omega
  · have hsub : ((ring_order c).erase s).Pairwise
        (fun a b => stamp b = 0 ∨ stamp b < stamp a) :=
      List.Pairwise.sublist (List.erase_sublist s _) hs
    refine List.Pairwise.imp_of_mem ?_ hsub
    intro a b ha hb hab
    have has : a ≠ s := fun e => by
      rw [e] at ha
      exact (List.Nodup.not_mem_erase hnd) ha
    have hbs : b ≠ s := fun e => by
      rw [e] at hb
      exact (List.Nodup.not_mem_erase hnd) hb
    simp only [has, hbs, if_false]
    exact hab

theorem lru_run_inv (reqs : List addrxlat_fulladdr_t) :
    ∀ (ctx : addrxlat_ctx_t) (stamp : slot_ptr → Nat) (t : Nat)
      (obs : List lru_obs) (ctxN : addrxlat_ctx_t),
      ring_wf ctx.cache → stamp_sorted ctx.cache stamp → (∀ j, stamp j ≤ t) →
      lru_run ctx stamp t reqs = some (obs, ctxN) →
      obs.length = reqs.length ∧
      ∀ o ∈ obs, o.miss = true → ∀ j, o.stamp o.slot ≤ o.stamp j := by
  induction reqs with
  | nil =>
    intro ctx stamp t obs ctxN _ _ _ h
    simp only [lru_run, Option.some.injEq, Prod.mk.injEq] at h
    rw [← h.1]
    simp
  | cons a rest ih =>
    intro ctx stamp t obs ctxN hwf hs ht h
    obtain ⟨res, s, obs1, h1, h2, h3, h4, h5⟩ := lru_run_cons ctx stamp t a rest obs ctxN h
    obtain ⟨s1, e1, w, o, hv, _, _⟩ := get_cache_buf_ok_ring ctx a res hwf h1 h2
    have es : s1 = s := by
      rw [h3] at e1
      injection e1 with e1
      exact e1.symm
    subst es
    have hs1 := stamp_sorted_touch ctx.cache res.ctx.cache stamp t s1 hwf hs ht o
    have ht1 : ∀ j, (fun j => if j = s1 then t + 1 else stamp j) j ≤ t + 1 := by
      intro j
      simp only
      split_ifs
      · exact le_refl _
      · exact Nat.le_succ_of_le (ht j)
    obtain ⟨l1, m1⟩ := ih res.ctx _ (t + 1) obs1 ctxN w hs1 ht1 h4
    subst h5
    refine ⟨by simp [l1], ?_⟩
    intro o ho hmiss j
    rcases List.mem_cons.1 ho with e | hm
    · subst e
      simp only [Option.isNone_iff_eq_none] at hmiss
      simp only
      rw [hv hmiss]
      exact stamp_sorted_lru ctx.cache stamp hwf hs j
    · exact m1 o hm hmiss j

theorem get_cache_buf_total (gp : List cb_event → addrxlat_buffer_t →
      addrxlat_status × addrxlat_buffer_t)
    (hok : ∀ log req, (gp log req).1 = .OK) (ctx : addrxlat_ctx_t)
    (a : addrxlat_fulladdr_t) (hgp : ctx.cb.get_page = some gp) :
    ∃ res s, get_cache_buf ctx a = some res ∧ res.status = .OK ∧ res.pbuf = some s ∧
      res.ctx.cb = ctx.cb := by
  cases hscan : cache_scan ctx.cache a with
  | some s => exact ⟨_, s, get_cache_buf_hit ctx a s hscan, rfl, rfl, rfl⟩
  | none => exact ⟨_, _, get_cache_buf_miss_ok ctx a gp hscan hgp (hok _ _), rfl, rfl, rfl⟩

theorem lru_run_total (gp : List cb_event → addrxlat_buffer_t →
      addrxlat_status × addrxlat_buffer_t)
    (hok : ∀ log req, (gp log req).1 = .OK) (reqs : List addrxlat_fulladdr_t) :
    ∀ (ctx : addrxlat_ctx_t) (stamp : slot_ptr → Nat) (t : Nat),
      ctx.cb.get_page = some gp → (lru_run ctx stamp t reqs).isSome = true := by
  induction reqs with
  | nil => intro ctx stamp t _; rfl
  | cons a rest ih =>
    intro ctx stamp t hgp
    obtain ⟨res, s, h1, h2, h3, hcb⟩ := get_cache_buf_total gp hok ctx a hgp
    have h4 := ih res.ctx (fun j => if j = s then t + 1 else stamp j) (t + 1)
      (by rw [hcb]; exact hgp)
    obtain ⟨⟨obs1, ctxN⟩, h4⟩ := Option.isSome_iff_exists.1 h4
    rw [lru_run_mk ctx stamp t a rest res s obs1 ctxN h1 h2 h3 h4]
    rfl

theorem miss_step (ctx : addrxlat_ctx_t) (x : addrxlat_fulladdr_t)
    (gp : List cb_event → addrxlat_buffer_t → addrxlat_status × addrxlat_buffer_t)
    (B : addrxlat_fulladdr_t → addrxlat_buffer_t) (v : slot_ptr) (l : List slot_ptr)
    (hwf : ring_wf ctx.cache) (ho : ring_order ctx.cache = l ++ [v])
    (hscan : ∀ j, buf_contains (ctx.cache.buffer j) x = false)
    (hgp : ctx.cb.get_page = some gp) (hB : ∀ log req, gp log req = (.OK, B req.addr)) :
    ∃ res, get_cache_buf ctx x = some res ∧ res.status = .OK ∧ res.pbuf = some v ∧
      res.ctx.cb = ctx.cb ∧ ring_wf res.ctx.cache ∧ ring_order res.ctx.cache = v :: l ∧
      res.ctx.cache.buffer = (fun j => if j = v then B x else ctx.cache.buffer j) ∧
      res.ctx.cache.mru = v ∧
      res.ctx.log = miss_log ctx ++ [cb_event.get_page (miss_req ctx x) .OK (B x)] ∧
      ctx.cache.prev ctx.cache.mru = v := by
  have hv : ctx.cache.prev ctx.cache.mru = v := by
    have h := ring_lru_last ctx.cache hwf
    rw [ho] at h
    simpa using h.symm
  have hnd := ring_order_nodup ctx.cache hwf
  rw [ho] at hnd
  have hvl : v ∉ l := by
    intro hm
    have := (List.nodup_append.1 hnd).2.2
    exact this hm (List.mem_singleton.2 rfl)
  have hsc := (cache_scan_none ctx.cache x).2 hscan
  have hok : (gp (miss_log ctx) (miss_req ctx x)).1 = .OK := by rw [hB]
  have hres := get_cache_buf_miss_ok ctx x gp hsc hgp hok
  have hb2 : (gp (miss_log ctx) (miss_req ctx x)).2 = B x := by rw [hB]; rfl
  rw [hb2, hv] at hres
  have hwf1 : ring_wf (ctx.cache.set_buffer v (B x)) := hwf
  obtain ⟨w, o⟩ := touch_ring _ v hwf1
  have o1 : ring_order (touch_cache_slot (ctx.cache.set_buffer v (B x)) v) = v :: l := by
    rw [o]
    have : ring_order (ctx.cache.set_buffer v (B x)) = l ++ [v] := ho
    rw [this, List.erase_append_right _ hvl]
    simp
  exact ⟨_, hres, rfl, rfl, rfl, w, o1, touch_buffer _ _, touch_mru _ _, rfl, hv⟩

theorem five_pages (ctx0 : addrxlat_ctx_t) (c : read_cache)
    (hinit : ctx0.cache = init_cache c) (hempty : ∀ j, (c.buffer j).size = 0)
    (gp : List cb_event → addrxlat_buffer_t → addrxlat_status × addrxlat_buffer_t)
    (B : addrxlat_fulladdr_t → addrxlat_buffer_t) (x : Fin 5 → addrxlat_fulladdr_t)
    (hgp : ctx0.cb.get_page = some gp) (hput : ctx0.cb.put_page = true)
    (hB : ∀ log req, gp log req = (.OK, B req.addr))
    (hsz : ∀ i, (B (x i)).size ≠ 0)
    (hdis : ∀ i j, i ≠ j → buf_contains (B (x i)) (x j) = false) :
    ∃ obs ctx4 gets res req s,
      lru_run ctx0 (fun _ => 0) 0 [x 0, x 1, x 2, x 3] = some (obs, ctx4) ∧
      ctx4.log = ctx0.log ++ gets ∧ gets.length = 4 ∧ released_buffers gets = [] ∧
      get_cache_buf ctx4 (x 4) = some res ∧ res.status = .OK ∧
      res.ctx.log = ctx4.log ++
        [cb_event.put_page (B (x 0)), cb_event.get_page req .OK (B (x 4))] ∧
      res.pbuf = some s ∧ res.ctx.cache.mru = s ∧ res.ctx.cache.buffer s = B (x 4) := by
  obtain ⟨w0, o0, b0⟩ := init_cache_ring c
  rw [← hinit] at w0 o0 b0
  have hz : ∀ j, (ctx0.cache.buffer j).size = 0 := by rw [b0]; exact hempty
  -- A
  have s0 : ∀ j, buf_contains (ctx0.cache.buffer j) (x 0) = false :=
    fun j => buf_contains_empty _ _ (hz j)
  obtain ⟨r1, g1, st1, p1, cb1, w1, o1, bf1, _, l1, _⟩ :=
    miss_step ctx0 (x 0) gp B 3 [0, 1, 2] w0 o0 s0 hgp hB
  have hgp1 : r1.ctx.cb.get_page = some gp := by rw [cb1]; exact hgp
  -- B
  have s1 : ∀ j, buf_contains (r1.ctx.cache.buffer j) (x 1) = false := by
    intro j
    rw [bf1]
    fin_cases j <;> first
      | exact buf_contains_empty _ _ (hz _)
      | exact hdis 0 1 (by decide)
  obtain ⟨r2, g2, st2, p2, cb2, w2, o2, bf2, _, l2, v2⟩ :=
    miss_step r1.ctx (x 1) gp B 2 [3, 0, 1] w1 o1 s1 hgp1 hB
  have hgp2 : r2.ctx.cb.get_page = some gp := by rw [cb2]; exact hgp1
  -- C
  have s2 : ∀ j, buf_contains (r2.ctx.cache.buffer j) (x 2) = false := by
    intro j
    rw [bf2, bf1]
    fin_cases j <;> first
      | exact buf_contains_empty _ _ (hz _)
      | exact hdis 0 2 (by decide)
      | exact hdis 1 2 (by decide)
  obtain ⟨r3, g3, st3, p3, cb3, w3, o3, bf3, _, l3, v3⟩ :=
    miss_step r2.ctx (x 2) gp B 1 [2, 3, 0] w2 o2 s2 hgp2 hB
  have hgp3 : r3.ctx.cb.get_page = some gp := by rw [cb3]; exact hgp2
  -- D
  have s3 : ∀ j, buf_contains (r3.ctx.cache.buffer j) (x 3) = false := by
    intro j
    rw [bf3, bf2, bf1]
    fin_cases j <;> first
      | exact buf_contains_empty _ _ (hz _)
      | exact hdis 0 3 (by decide)
      | exact hdis 1 3 (by decide)
      | exact hdis 2 3 (by decide)
  obtain ⟨r4, g4, st4, p4, cb4, w4, o4, bf4, _, l4, v4⟩ :=
    miss_step r3.ctx (x 3) gp B 0 [1, 2, 3] w3 o3 s3 hgp3 hB
  have hgp4 : r4.ctx.cb.get_page = some gp := by rw [cb4]; exact hgp3
  -- E
  have s4 : ∀ j, buf_contains (r4.ctx.cache.buffer j) (x 4) = false := by
    intro j
    rw [bf4, bf3, bf2, bf1]
    fin_cases j <;> first
      | exact hdis 0 4 (by decide)
      | exact hdis 1 4 (by decide)
      | exact hdis 2 4 (by decide)
      | exact hdis 3 4 (by decide)
  obtain ⟨r5, g5, st5, p5, cb5, w5, o5, bf5, m5, l5, v5⟩ :=
    miss_step r4.ctx (x 4) gp B 3 [0, 1, 2] w4 o4 s4 hgp4 hB
  -- the callback histories
  have ml0 : miss_log ctx0 = ctx0.log := by
    have : (ctx0.cache.buffer (ctx0.cache.prev ctx0.cache.mru)).size = 0 := hz _
    simp [miss_log, this]
  have ml1 : miss_log r1.ctx = r1.ctx.log := by
    have : (r1.ctx.cache.buffer (r1.ctx.cache.prev r1.ctx.cache.mru)).size = 0 := by
      rw [v2, bf1]; exact hz _
    simp [miss_log, this]
  have ml2 : miss_log r2.ctx = r2.ctx.log := by
    have : (r2.ctx.cache.buffer (r2.ctx.cache.prev r2.ctx.cache.mru)).size = 0 := by
      rw [v3, bf2, bf1]; exact hz _
    simp [miss_log, this]
  have ml3 : miss_log r3.ctx = r3.ctx.log := by
    have : (r3.ctx.cache.buffer (r3.ctx.cache.prev r3.ctx.cache.mru)).size = 0 := by
      rw [v4, bf3, bf2, bf1]; exact hz _
    simp [miss_log, this]
  have hb4 : r4.ctx.cache.buffer (r4.ctx.cache.prev r4.ctx.cache.mru) = B (x 0) := by
    rw [v5, bf4, bf3, bf2, bf1]; rfl
  have ml4 : miss_log r4.ctx = r4.ctx.log ++ [cb_event.put_page (B (x 0))] := by
    have hp : r4.ctx.cb.put_page = true := by rw [cb4, cb3, cb2, cb1]; exact hput
    have hs := hsz 0
    unfold miss_log
    rw [hb4]
    simp [hp, hs]
  rw [ml0] at l1
  rw [ml1, l1] at l2
  rw [ml2, l2] at l3
  rw [ml3, l3] at l4
  rw [ml4] at l5
  -- the run
  have run4 : lru_run r4.ctx
      (fun j => if j = 0 then 3 + 1 else
        (fun j => if j = 1 then 2 + 1 else
          (fun j => if j = 2 then 1 + 1 else
            (fun j => if j = 3 then 0 + 1 else (fun _ => 0) j) j) j) j) (3 + 1) []
      = some ([], r4.ctx) := rfl
  have run3 := lru_run_mk r3.ctx _ 3 (x 3) [] r4 0 [] r4.ctx g4 st4 p4 run4
  have run2 := lru_run_mk r2.ctx _ 2 (x 2) [x 3] r3 1 _ r4.ctx g3 st3 p3 run3
  have run1 := lru_run_mk r1.ctx _ 1 (x 1) [x 2, x 3] r2 2 _ r4.ctx g2 st2 p2 run2
  have run0 := lru_run_mk ctx0 _ 0 (x 0) [x 1, x 2, x 3] r1 3 _ r4.ctx g1 st1 p1 run1
  refine ⟨_, r4.ctx,
    [cb_event.get_page (miss_req ctx0 (x 0)) .OK (B (x 0)),
     cb_event.get_page (miss_req r1.ctx (x 1)) .OK (B (x 1)),
     cb_event.get_page (miss_req r2.ctx (x 2)) .OK (B (x 2)),
     cb_event.get_page (miss_req r3.ctx (x 3)) .OK (B (x 3))],
    r5, miss_req r4.ctx (x 4), 3, run0, ?_, ?_, ?_, g5, st5, ?_, p5, m5, ?_⟩
  · rw [l4]
    simp
  · rfl
  · rfl
  · rw [l5]
    simp
  · rw [bf5]
    simp

/-! ## Helper lemmas on the balance of `get_page` and `put_page` -/

theorem released_append (l1 l2 : List cb_event) :
    released_buffers (l1 ++ l2) = released_buffers l1 ++ released_buffers l2 := by
  induction l1 with
  | nil => rfl
  | cons a t ih =>
    cases a with
    | put_page b => simp [released_buffers, ih]
    | get_page r st b => simp [released_buffers, ih]

theorem acquired_append (l1 l2 : List cb_event) :
    acquired_buffers (l1 ++ l2) = acquired_buffers l1 ++ acquired_buffers l2 := by
  induction l1 with
  | nil => rfl
  | cons a t ih =>
    cases a with
    | put_page b => simp [acquired_buffers, ih]
    | get_page r st b =>
      simp only [acquired_buffers, List.cons_append]
      split_ifs <;> simp [ih]

theorem cached_update (buf : slot_ptr → addrxlat_buffer_t) (v : slot_ptr)
    (nb : addrxlat_buffer_t) :
    cached_buffers (fun j => if j = v then nb else buf j) + held (buf v)
      = cached_buffers buf + held nb := by
  have hv : v = 0 ∨ v = 1 ∨ v = 2 ∨ v = 3 := by
    revert v
    decide
  rcases hv with e | e | e | e <;> subst e <;> simp [cached_buffers] <;> abel

theorem miss_log_released (ctx : addrxlat_ctx_t) (hput : ctx.cb.put_page = true) :
    ((released_buffers (miss_log ctx) : List addrxlat_buffer_t) :
        Multiset addrxlat_buffer_t)
      = ((released_buffers ctx.log : List addrxlat_buffer_t) : Multiset addrxlat_buffer_t)
        + held (ctx.cache.buffer (ctx.cache.prev ctx.cache.mru)) ∧
    acquired_buffers (miss_log ctx) = acquired_buffers ctx.log ∧
    ((∀ b ∈ released_buffers ctx.log, b.size ≠ 0) →
      ∀ b ∈ released_buffers (miss_log ctx), b.size ≠ 0) := by
  unfold miss_log held
  by_cases h : (ctx.cache.buffer (ctx.cache.prev ctx.cache.mru)).size = 0
  · simp [h]
  · simp only [ne_eq, h, not_false_eq_true, hput, and_self, if_true, released_append,
      acquired_append, released_buffers, acquired_buffers, List.append_nil]
    refine ⟨?_, trivial, ?_⟩
    · rw [← Multiset.coe_add]
      rfl
    · intro hall b hb
      rcases List.mem_append.1 hb with hb | hb
      · exact hall b hb
      · rw [List.mem_singleton.1 hb]
        exact h

theorem balanced_get (ctx : addrxlat_ctx_t) (a : addrxlat_fulladdr_t)
    (gp : List cb_event → addrxlat_buffer_t → addrxlat_status × addrxlat_buffer_t)
    (hgp : ctx.cb.get_page = some gp) (hput : ctx.cb.put_page = true)
    (hb : balanced ctx) :
    ∃ res, get_cache_buf ctx a = some res ∧ res.ctx.cb = ctx.cb ∧
      res.ctx.refcnt = ctx.refcnt ∧ balanced res.ctx := by
  cases hscan : cache_scan ctx.cache a with
  | some s =>
    refine ⟨_, get_cache_buf_hit ctx a s hscan, rfl, rfl, ?_⟩
    unfold balanced
    simp only [touch_buffer]
    exact hb
  | none =>
    obtain ⟨m1, m2, m3⟩ := miss_log_released ctx hput
    have hu := cached_update ctx.cache.buffer (ctx.cache.prev ctx.cache.mru)
    by_cases hok : (gp (miss_log ctx) (miss_req ctx a)).1 = .OK
    · refine ⟨_, get_cache_buf_miss_ok ctx a gp hscan hgp hok, rfl, rfl, ?_⟩
      unfold balanced
      simp only [touch_buffer, read_cache.set_buffer, released_append, acquired_append,
        released_buffers, acquired_buffers, List.append_nil, m2]
      constructor
      · rw [m1, add_assoc, add_comm (held _), hu, ← Multiset.coe_add, ← hb.1, add_assoc]
        congr 2
        unfold held
        split_ifs with h1 h2 h3
        · rfl
        · exact absurd ⟨trivial, h1⟩ h2
        · exact absurd h3.2 h1
        · rfl
      · exact m3 hb.2
    · refine ⟨_, get_cache_buf_miss_err ctx a gp hscan hgp hok, rfl, rfl, ?_⟩
      unfold balanced
      simp only [read_cache.set_buffer, released_append, acquired_append,
        released_buffers, acquired_buffers, List.append_nil, m2, hok, false_and,
        if_false]
      constructor
      · rw [m1, add_assoc, add_comm (held _), hu, ← hb.1]
        simp [held]
      · exact m3 hb.2

theorem run_ops_balanced (gp : List cb_event → addrxlat_buffer_t →
      addrxlat_status × addrxlat_buffer_t) (ops : List cache_op) :
    ∀ ctx : addrxlat_ctx_t, ctx.cb.get_page = some gp → ctx.cb.put_page = true →
      balanced ctx →
      ∃ ctxN, run_ops ctx ops = some ctxN ∧ ctxN.cb = ctx.cb ∧
        ctxN.refcnt = ctx.refcnt ∧ balanced ctxN := by
  induction ops with
  | nil => intro ctx _ _ hb; exact ⟨ctx, rfl, rfl, rfl, hb⟩
  | cons op rest ih =>
    intro ctx hgp hput hb
    cases op with
    | get a =>
      obtain ⟨res, h1, h2, h3, h4⟩ := balanced_get ctx a gp hgp hput hb
      obtain ⟨ctxN, r1, r2, r3, r4⟩ := ih res.ctx (by rw [h2]; exact hgp)
        (by rw [h2]; exact hput) h4
      refine ⟨ctxN, ?_, by rw [r2, h2], by rw [r3, h3], r4⟩
      simp only [run_ops, h1]
      exact r1
    | bury a =>
      have hb1 : balanced { ctx with cache := bury_cache_buffer ctx.cache a } := by
        unfold balanced
        have e : (bury_cache_buffer ctx.cache a).buffer = ctx.cache.buffer := by
          unfold bury_cache_buffer
          split
          · rfl
          · exact bury_slot_buffer _ _
        simp only [e]
        exact hb
      obtain ⟨ctxN, r1, r2, r3, r4⟩ :=
        ih { ctx with cache := bury_cache_buffer ctx.cache a } hgp hput hb1
      exact ⟨ctxN, r1, r2, r3, r4⟩

theorem cleanup_iter_released (c : read_cache) (log : List cb_event) (s : slot_ptr) :
    ((released_buffers (cleanup_cache_iter c log s) : List addrxlat_buffer_t) :
        Multiset addrxlat_buffer_t)
      = ((released_buffers log : List addrxlat_buffer_t) : Multiset addrxlat_buffer_t)
        + held (c.buffer s) ∧
    acquired_buffers (cleanup_cache_iter c log s) = acquired_buffers log ∧
    ((∀ b ∈ released_buffers log, b.size ≠ 0) →
      ∀ b ∈ released_buffers (cleanup_cache_iter c log s), b.size ≠ 0) := by
  unfold cleanup_cache_iter held
  by_cases h : (c.buffer s).size = 0
  · simp [h]
  · simp only [ne_eq, h, not_false_eq_true, if_true, released_append,
      acquired_append, released_buffers, acquired_buffers, List.append_nil]
    refine ⟨?_, trivial, ?_⟩
    · rw [← Multiset.coe_add]
      rfl
    · intro hall b hb
      rcases List.mem_append.1 hb with hb | hb
      · exact hall b hb
      · rw [List.mem_singleton.1 hb]
        exact h

theorem cleanup_cache_released (c : read_cache) (cb : addrxlat_cb_t)
    (log : List cb_event) (hput : cb.put_page = true) :
    ((released_buffers (cleanup_cache c cb log) : List addrxlat_buffer_t) :
        Multiset addrxlat_buffer_t)
      = ((released_buffers log : List addrxlat_buffer_t) : Multiset addrxlat_buffer_t)
        + cached_buffers c.buffer ∧
    acquired_buffers (cleanup_cache c cb log) = acquired_buffers log ∧
    ((∀ b ∈ released_buffers log, b.size ≠ 0) →
      ∀ b ∈ released_buffers (cleanup_cache c cb log), b.size ≠ 0) := by
  have e : List.finRange READ_CACHE_SLOTS = [0, 1, 2, 3] := rfl
  simp only [cleanup_cache, hput, Bool.true_eq_false, if_false, e, List.foldl_cons,
    List.foldl_nil]
  obtain ⟨a0, b0, c0⟩ := cleanup_iter_released c log 0
  obtain ⟨a1, b1, c1⟩ := cleanup_iter_released c (cleanup_cache_iter c log 0) 1
  obtain ⟨a2, b2, c2⟩ := cleanup_iter_released c
    (cleanup_cache_iter c (cleanup_cache_iter c log 0) 1) 2
  obtain ⟨a3, b3, c3⟩ := cleanup_iter_released c
    (cleanup_cache_iter c (cleanup_cache_iter c (cleanup_cache_iter c log 0) 1) 2) 3
  refine ⟨?_, ?_, fun h => c3 (c2 (c1 (c0 h)))⟩
  · rw [a3, a2, a1, a0]
    simp only [cached_buffers, add_assoc]
  · rw [b3, b2, b1, b0]

/-! ## Claims on the read cache -/

/-- C1: on a miss `get_cache_buf` uses the LRU slot `cache.mru->prev`; when that
slot is occupied and `put_page` is installed, `put_page` is called on its buffer
exactly once and before `get_page`; `get_page` is called exactly once, on that
slot's buffer with `addr` set to the requested full address; the status of
`get_page` is returned, and when it is OK `*pbuf` is that slot, the slot holds the
buffer filled by `get_page` and it is `cache.mru` afterwards. -/
theorem get_cache_buf_miss_contract (ctx : addrxlat_ctx_t) (addr : addrxlat_fulladdr_t)
    (gp : List cb_event → addrxlat_buffer_t → addrxlat_status × addrxlat_buffer_t)
    (hmiss : ∀ s, buf_contains (ctx.cache.buffer s) addr = false)
    (hgp : ctx.cb.get_page = some gp) :
    ∃ res, get_cache_buf ctx addr = some res ∧
      (let slot := ctx.cache.prev ctx.cache.mru
       let old := ctx.cache.buffer slot
       let released := if old.size ≠ 0 ∧ ctx.cb.put_page = true
         then [cb_event.put_page old] else []
       let req := { old with addr := addr }
       let r := gp (ctx.log ++ released) req
       res.ctx.log = ctx.log ++ released ++ [cb_event.get_page req r.1 r.2] ∧
       req.addr = addr ∧
       res.status = r.1 ∧
       (r.1 = .OK → res.pbuf = some slot ∧ res.ctx.cache.mru = slot ∧
          res.ctx.cache.buffer slot = r.2)) := by
  have hscan := (cache_scan_none ctx.cache addr).2 hmiss
  refine ⟨_, get_cache_buf_miss ctx addr gp hscan hgp, ?_⟩
  simp only
  by_cases hocc : (ctx.cache.buffer (ctx.cache.prev ctx.cache.mru)).size ≠ 0 ∧
      ctx.cb.put_page = true
  · simp only [if_pos hocc, List.append_assoc]
    split_ifs with hst
    · simp [hst]
    · have hok : (gp (ctx.log ++ [cb_event.put_page
          (ctx.cache.buffer (ctx.cache.prev ctx.cache.mru))])
          { ctx.cache.buffer (ctx.cache.prev ctx.cache.mru) with addr := addr }).1
            = .OK := by
        simpa using hst
      simp [hok, touch_mru, touch_buffer, read_cache.set_buffer]
  · simp only [if_neg hocc, List.append_nil]
    split_ifs with hst
    · simp [hst]
    · have hok : (gp ctx.log
          { ctx.cache.buffer (ctx.cache.prev ctx.cache.mru) with addr := addr }).1
            = .OK := by
        simpa using hst
      simp [hok, touch_mru, touch_buffer, read_cache.set_buffer]

theorem get_cache_buf_miss_contract_witness :
    (∀ s, buf_contains (full_ctx.cache.buffer s) ⟨0x9008, .KPHYSADDR⟩ = false) ∧
    ∃ res, get_cache_buf full_ctx ⟨0x9008, .KPHYSADDR⟩ = some res ∧
      res.ctx.log = [cb_event.put_page (kphys_page 3),
        cb_event.get_page { kphys_page 3 with addr := ⟨0x9008, .KPHYSADDR⟩ } .OK
          (kphys_page 9)] ∧
      res.pbuf = some 3 ∧ res.ctx.cache.mru = 3 := by
  refine ⟨by decide, ?_⟩
  obtain ⟨res, h1, h2, _, _, h4⟩ :=
    get_cache_buf_miss_contract full_ctx ⟨0x9008, .KPHYSADDR⟩ page_host
      (by decide) rfl
  exact ⟨res, h1, h2, (h4 rfl).1, (h4 rfl).2.1⟩

/-- C2: for buffers that do not wrap past 2^64, `get_cache_buf` hits exactly when
some slot has `buffer.addr.as == addr.as` and
`buffer.addr.addr <= addr.addr < buffer.addr.addr + buffer.size`.  On a hit no
callback is called, no buffer is modified, the buffer returned is that of the
first matching slot in array order and that slot is `cache.mru` afterwards; when
no slot matches, every result of the call has invoked a callback.  A slot with
`size == 0` never passes the test of the scan. -/
theorem get_cache_buf_hit_contract (ctx : addrxlat_ctx_t) (addr : addrxlat_fulladdr_t)
    (ha : addr.addr < 2 ^ 64)
    (hnw : ∀ s, (ctx.cache.buffer s).addr.addr + (ctx.cache.buffer s).size ≤ 2 ^ 64) :
    let inbuf : slot_ptr → Prop := fun s =>
      (ctx.cache.buffer s).addr.as = addr.as ∧
      (ctx.cache.buffer s).addr.addr ≤ addr.addr ∧
      addr.addr < (ctx.cache.buffer s).addr.addr + (ctx.cache.buffer s).size
    ((∃ s, inbuf s) →
      ∃ s res, inbuf s ∧ (∀ j, j < s → ¬ inbuf j) ∧
        get_cache_buf ctx addr = some res ∧ res.status = .OK ∧ res.pbuf = some s ∧
        res.ctx.log = ctx.log ∧ res.ctx.cache.buffer = ctx.cache.buffer ∧
        res.ctx.cache.mru = s) ∧
    ((¬ ∃ s, inbuf s) →
      ∀ res, get_cache_buf ctx addr = some res → ctx.log.length < res.ctx.log.length) ∧
    (∀ s, (ctx.cache.buffer s).size = 0 →
      buf_contains (ctx.cache.buffer s) addr = false) := by
  intro inbuf
  have hin : ∀ s, buf_contains (ctx.cache.buffer s) addr = true ↔ inbuf s :=
    fun s => buf_contains_iff _ addr ha (hnw s)
  refine ⟨?_, ?_, fun s hs => buf_contains_empty _ addr hs⟩
  · rintro ⟨s1, hs1⟩
    cases hscan : cache_scan ctx.cache addr with
    | none =>
      have := (cache_scan_none ctx.cache addr).1 hscan s1
      rw [(hin s1).2 hs1] at this
      exact absurd this (by simp)
    | some s =>
      obtain ⟨h1, h2⟩ := (cache_scan_some ctx.cache addr s).1 hscan
      refine ⟨s, _, (hin s).1 h1, ?_, get_cache_buf_hit ctx addr s hscan,
        rfl, rfl, rfl, touch_buffer _ _, touch_mru _ _⟩
      intro j hj hc
      have := h2 j hj
      rw [(hin j).2 hc] at this
      exact absurd this (by simp)
  · intro hno res hres
    have hscan : cache_scan ctx.cache addr = none := by
      rw [cache_scan_none]
      intro j
      cases hb : buf_contains (ctx.cache.buffer j) addr with
      | false => rfl
      | true => exact absurd ⟨j, (hin j).1 hb⟩ hno
    cases hgp : ctx.cb.get_page with
    | none => simp [get_cache_buf, hscan, hgp] at hres
    | some gp =>
      rw [get_cache_buf_miss ctx addr gp hscan hgp] at hres
      injection hres with hres
      subst hres
      simp only
      split_ifs <;> simp

theorem get_cache_buf_hit_contract_witness :
    ∃ res, get_cache_buf full_ctx ⟨0x2ff8, .KPHYSADDR⟩ = some res ∧
      res.status = .OK ∧ res.pbuf = some 2 ∧ res.ctx.log = [] ∧
      res.ctx.cache.mru = 2 := by
  obtain ⟨s, res, h1, h2, h3, h4, h5, h6, _, h8⟩ :=
    (get_cache_buf_hit_contract full_ctx ⟨0x2ff8, .KPHYSADDR⟩ (by decide)
      (by decide)).1 ⟨2, by decide⟩
  have key : ∀ s : slot_ptr,
      ((full_ctx.cache.buffer s).addr.as = addrxlat_addrspace_t.KPHYSADDR ∧
        (full_ctx.cache.buffer s).addr.addr ≤ 0x2ff8 ∧
        0x2ff8 < (full_ctx.cache.buffer s).addr.addr + (full_ctx.cache.buffer s).size) →
      s = 2 := by decide
  have hs : s = 2 := key s h1
  subst hs
  exact ⟨res, h3, h4, h5, h6, h8⟩

/-- C3: the cache is a true LRU.  Start from a context whose cache was set up by
`init_cache` on empty buffers.  In every run of `get_cache_buf` calls that all
return OK, the slot evicted on a miss is one whose most recent hit or fill is the
oldest (a slot never used counts as oldest, so never-filled slots are used before
any filled slot is evicted); such runs exist for every request list when
`get_page` always succeeds.  With five requests `x 0 .. x 4` for pairwise disjoint
pages served by `get_page`, `put_page` is not called during the first four, is
called exactly once while the fifth is loaded, on the buffer of the first, and the
slot of the fifth is the MRU afterwards. -/
theorem read_cache_is_lru (ctx0 : addrxlat_ctx_t) (c : read_cache)
    (hinit : ctx0.cache = init_cache c) (hempty : ∀ j, (c.buffer j).size = 0) :
    (∀ reqs obs ctxN, lru_run ctx0 (fun _ => 0) 0 reqs = some (obs, ctxN) →
      obs.length = reqs.length ∧
      ∀ o ∈ obs, o.miss = true →
        (∀ j, o.stamp o.slot ≤ o.stamp j) ∧ (o.stamp o.slot ≠ 0 → ∀ j, o.stamp j ≠ 0)) ∧
    (∀ gp, ctx0.cb.get_page = some gp → (∀ log req, (gp log req).1 = .OK) →
      ∀ reqs, (lru_run ctx0 (fun _ => 0) 0 reqs).isSome = true) ∧
    (∀ (gp : List cb_event → addrxlat_buffer_t → addrxlat_status × addrxlat_buffer_t)
       (B : addrxlat_fulladdr_t → addrxlat_buffer_t) (x : Fin 5 → addrxlat_fulladdr_t),
      ctx0.cb.get_page = some gp → ctx0.cb.put_page = true →
      (∀ log req, gp log req = (.OK, B req.addr)) →
      (∀ i, (B (x i)).size ≠ 0) →
      (∀ i j, i ≠ j → buf_contains (B (x i)) (x j) = false) →
      ∃ obs ctx4 gets res req s,
        lru_run ctx0 (fun _ => 0) 0 [x 0, x 1, x 2, x 3] = some (obs, ctx4) ∧
        ctx4.log = ctx0.log ++ gets ∧ gets.length = 4 ∧ released_buffers gets = [] ∧
        get_cache_buf ctx4 (x 4) = some res ∧ res.status = .OK ∧
        res.ctx.log = ctx4.log ++
          [cb_event.put_page (B (x 0)), cb_event.get_page req .OK (B (x 4))] ∧
        res.pbuf = some s ∧ res.ctx.cache.mru = s ∧ res.ctx.cache.buffer s = B (x 4)) := by
  obtain ⟨w0, o0, _⟩ := init_cache_ring c
  rw [← hinit] at w0 o0
  have hs0 : stamp_sorted ctx0.cache (fun _ => 0) := by
    unfold stamp_sorted
    exact List.pairwise_of_forall (fun _ _ => Or.inl rfl)
  refine ⟨?_, ?_, ?_⟩
  · intro reqs obs ctxN hrun
    obtain ⟨hl, hm⟩ := lru_run_inv reqs ctx0 (fun _ => 0) 0 obs ctxN w0 hs0
      (fun _ => le_refl _) hrun
    refine ⟨hl, fun o ho hmiss => ⟨hm o ho hmiss, fun hne j hj => ?_⟩⟩
    have := hm o ho hmiss j
    omega
  · intro gp hgp hok reqs
    exact lru_run_total gp hok reqs ctx0 _ 0 hgp
  · intro gp B x hgp hput hB hsz hdis
    exact five_pages ctx0 c hinit hempty gp B x hgp hput hB hsz hdis

theorem read_cache_is_lru_witness :
    (∀ i j : Fin 5, i ≠ j → buf_contains (page_of (five_addrs i)) (five_addrs j) = false) ∧
    ∃ obs ctx4 res,
      lru_run fresh_page_ctx (fun _ => 0) 0
        [five_addrs 0, five_addrs 1, five_addrs 2, five_addrs 3] = some (obs, ctx4) ∧
      released_buffers ctx4.log = [] ∧
      get_cache_buf ctx4 (five_addrs 4) = some res ∧
      released_buffers res.ctx.log = [kphys_page 1] ∧
      res.pbuf = some res.ctx.cache.mru := by
  have hdis : ∀ i j : Fin 5, i ≠ j →
      buf_contains (page_of (five_addrs i)) (five_addrs j) = false := by decide
  refine ⟨hdis, ?_⟩
  obtain ⟨obs, ctx4, gets, res, req, s, h1, h2, _, h4, h5, _, h7, h8, h9, _⟩ :=
    (read_cache_is_lru fresh_page_ctx
      { mru := 0, next := fun _ => 0, prev := fun _ => 0, buffer := fun _ => zero_buffer }
      rfl (fun _ => rfl)).2.2 page_host page_of five_addrs rfl rfl
      (fun _ _ => rfl) (by decide) hdis
  refine ⟨obs, ctx4, res, h1, ?_, h5, ?_, ?_⟩
  · rw [h2]
    exact h4
  · rw [h7, h2]
    have e : fresh_page_ctx.log = [] := rfl
    rw [e, List.nil_append]
    have : ∀ l : List cb_event, released_buffers l = [] →
        released_buffers (l ++ [cb_event.put_page (page_of (five_addrs 0)),
          cb_event.get_page req .OK (page_of (five_addrs 4))])
          = [page_of (five_addrs 0)] := by
      intro l
      induction l with
      | nil => intro _; rfl
      | cons a t ih =>
        intro h
        cases a with
        | put_page b => simp [released_buffers] at h
        | get_page r st b =>
          simp only [released_buffers, List.cons_append] at h ⊢
          exact ih h
    rw [this gets h4]
    rfl
  · rw [h8, h9]

/-- C4: `bury_cache_buffer` demotes to LRU in every case.  For a well-formed ring
and an address held by some slot, the first such slot `s` in array order is
`cache.mru->prev` after the call (also when `s` was the MRU before it), no
buffer changes, the other slots keep their relative ring order (the new MRU
order is the old one with `s` moved to the end) and the ring stays well formed;
the function has no access to the callbacks.  When no slot holds the address
the cache is unchanged. -/
theorem bury_cache_buffer_demotes (c : read_cache) (addr : addrxlat_fulladdr_t)
    (hwf : ring_wf c) :
    (∀ s, buf_contains (c.buffer s) addr = true →
      (∀ j, j < s → buf_contains (c.buffer j) addr = false) →
      (bury_cache_buffer c addr).prev (bury_cache_buffer c addr).mru = s ∧
      (bury_cache_buffer c addr).buffer = c.buffer ∧
      ring_order (bury_cache_buffer c addr) = (ring_order c).erase s ++ [s] ∧
      ring_wf (bury_cache_buffer c addr)) ∧
    ((∀ j, buf_contains (c.buffer j) addr = false) → bury_cache_buffer c addr = c) := by
  constructor
  · intro s h1 h2
    have hscan := (cache_scan_some c addr s).2 ⟨h1, h2⟩
    have e : bury_cache_buffer c addr = bury_slot c s := by
      simp only [bury_cache_buffer, hscan]
    rw [e]
    obtain ⟨w, o, l⟩ := bury_ring c s hwf
    exact ⟨l, bury_slot_buffer c s, o, w⟩
  · intro h
    have hscan := (cache_scan_none c addr).2 h
    simp only [bury_cache_buffer, hscan]

theorem bury_cache_buffer_demotes_witness :
    ring_wf full_ctx.cache ∧ full_ctx.cache.mru = 0 ∧
    (bury_cache_buffer full_ctx.cache ⟨0x10, .KPHYSADDR⟩).prev
      (bury_cache_buffer full_ctx.cache ⟨0x10, .KPHYSADDR⟩).mru = 0 ∧
    ring_order (bury_cache_buffer full_ctx.cache ⟨0x10, .KPHYSADDR⟩) = [1, 2, 3, 0] := by
  have hwf : ring_wf full_ctx.cache := by decide
  obtain ⟨h1, _, h3, _⟩ :=
    (bury_cache_buffer_demotes full_ctx.cache ⟨0x10, .KPHYSADDR⟩ hwf).1 0
      (by decide) (by decide)
  exact ⟨hwf, rfl, h1, h3⟩

/-- C5: release balance.  On a fresh context (empty cache, empty callback history,
reference count 1) with `get_page` and `put_page` installed, every sequence of
`get_cache_buf` and `bury_cache_buffer` calls runs to completion, and after the
final `addrxlat_ctx_decref` (which returns 0 and runs `cleanup_cache`) the buffers
passed to `put_page` are, with multiplicity, exactly the buffers that a successful
`get_page` returned with a non-zero size; `put_page` is never called on a buffer
of size 0. -/
theorem release_balance (ctx0 : addrxlat_ctx_t)
    (gp : List cb_event → addrxlat_buffer_t → addrxlat_status × addrxlat_buffer_t)
    (ops : List cache_op)
    (hgp : ctx0.cb.get_page = some gp) (hput : ctx0.cb.put_page = true)
    (hempty : ∀ j, (ctx0.cache.buffer j).size = 0) (hlog : ctx0.log = [])
    (href : ctx0.refcnt = 1) :
    ∃ ctxN, run_ops ctx0 ops = some ctxN ∧
      (addrxlat_ctx_decref ctxN).1 = 0 ∧ (addrxlat_ctx_decref ctxN).2.1 = true ∧
      (released_buffers (addrxlat_ctx_decref ctxN).2.2.log).Perm
        (acquired_buffers (addrxlat_ctx_decref ctxN).2.2.log) ∧
      ∀ b ∈ released_buffers (addrxlat_ctx_decref ctxN).2.2.log, b.size ≠ 0 := by
  have hb0 : balanced ctx0 := by
    unfold balanced
    rw [hlog]
    simp [released_buffers, acquired_buffers, cached_buffers, held, hempty]
  obtain ⟨ctxN, h1, h2, h3, h4⟩ := run_ops_balanced gp ops ctx0 hgp hput hb0
  have hp : ctxN.cb.put_page = true := by rw [h2]; exact hput
  obtain ⟨c1, c2, c3⟩ := cleanup_cache_released ctxN.cache ctxN.cb ctxN.log hp
  have hr : (ctxN.refcnt + (2 ^ 64 - 1)) % 2 ^ 64 = 0 := by rw [h3, href]; norm_num
  refine ⟨ctxN, h1, ?_, ?_, ?_, ?_⟩
  · simp only [addrxlat_ctx_decref, hr, if_true]
  · simp only [addrxlat_ctx_decref, hr, if_true]
  · simp only [addrxlat_ctx_decref, hr, if_true]
    rw [← Multiset.coe_eq_coe, c1, c2]
    exact h4.1
  · simp only [addrxlat_ctx_decref, hr, if_true]
    exact c3 h4.2

theorem release_balance_witness :
    ∃ ctxN, run_ops fresh_page_ctx five_ops = some ctxN ∧
      (addrxlat_ctx_decref ctxN).1 = 0 ∧
      (released_buffers (addrxlat_ctx_decref ctxN).2.2.log).Perm
        (acquired_buffers (addrxlat_ctx_decref ctxN).2.2.log) := by
  obtain ⟨ctxN, h1, h2, _, h4, _⟩ :=
    release_balance fresh_page_ctx page_host five_ops rfl rfl (fun _ => rfl) rfl rfl
  exact ⟨ctxN, h1, h2, h4⟩

/-! ## Raw reads -/

theorem bswap32_of_le (b0 b1 b2 b3 : Nat) (h0 : b0 < 256) (h1 : b1 < 256)
    (h2 : b2 < 256) (h3 : b3 < 256) :
    bswap32 (b0 + b1 * 256 + b2 * 256 ^ 2 + b3 * 256 ^ 3)
      = b0 * 256 ^ 3 + b1 * 256 ^ 2 + b2 * 256 + b3 := by
  unfold bswap32
  norm_num
  omega

theorem bswap32_of_be (b0 b1 b2 b3 : Nat) (h0 : b0 < 256) (h1 : b1 < 256)
    (h2 : b2 < 256) (h3 : b3 < 256) :
    bswap32 (b0 * 256 ^ 3 + b1 * 256 ^ 2 + b2 * 256 + b3)
      = b0 + b1 * 256 + b2 * 256 ^ 2 + b3 * 256 ^ 3 := by
  unfold bswap32
  norm_num
  omega

theorem bswap64_of_le (b0 b1 b2 b3 b4 b5 b6 b7 : Nat) (h0 : b0 < 256) (h1 : b1 < 256)
    (h2 : b2 < 256) (h3 : b3 < 256) (h4 : b4 < 256) (h5 : b5 < 256)
    (h6 : b6 < 256) (h7 : b7 < 256) :
    bswap64 (b0 + b1 * 256 + b2 * 256 ^ 2 + b3 * 256 ^ 3 + b4 * 256 ^ 4 + b5 * 256 ^ 5
        + b6 * 256 ^ 6 + b7 * 256 ^ 7)
      = b0 * 256 ^ 7 + b1 * 256 ^ 6 + b2 * 256 ^ 5 + b3 * 256 ^ 4 + b4 * 256 ^ 3
        + b5 * 256 ^ 2 + b6 * 256 + b7 := by
  unfold bswap64
  norm_num
  omega

theorem byte_digit (a b : Nat) (hb : b < 256) :
    (a * 256 + b) % 256 = b ∧ (a * 256 + b) / 256 = a := by
  omega

theorem bswap64_of_be (b0 b1 b2 b3 b4 b5 b6 b7 : Nat) (h0 : b0 < 256) (h1 : b1 < 256)
    (h2 : b2 < 256) (h3 : b3 < 256) (h4 : b4 < 256) (h5 : b5 < 256)
    (h6 : b6 < 256) (h7 : b7 < 256) :
    bswap64 (b0 * 256 ^ 7 + b1 * 256 ^ 6 + b2 * 256 ^ 5 + b3 * 256 ^ 4 + b4 * 256 ^ 3
        + b5 * 256 ^ 2 + b6 * 256 + b7)
      = b0 + b1 * 256 + b2 * 256 ^ 2 + b3 * 256 ^ 3 + b4 * 256 ^ 4 + b5 * 256 ^ 5
        + b6 * 256 ^ 6 + b7 * 256 ^ 7 := by
  have hv : b0 * 256 ^ 7 + b1 * 256 ^ 6 + b2 * 256 ^ 5 + b3 * 256 ^ 4 + b4 * 256 ^ 3
        + b5 * 256 ^ 2 + b6 * 256 + b7
      = ((((((b0 * 256 + b1) * 256 + b2) * 256 + b3) * 256 + b4) * 256 + b5) * 256 + b6)
          * 256 + b7 := by ring
  rw [hv]
  unfold bswap64
  have p2 : (256:Nat) ^ 2 = 256 * 256 := by norm_num
  have p3 : (256:Nat) ^ 3 = 256 * 256 * 256 := by norm_num
  have p4 : (256:Nat) ^ 4 = 256 * 256 * 256 * 256 := by norm_num
  have p5 : (256:Nat) ^ 5 = 256 * 256 * 256 * 256 * 256 := by norm_num
  have p6 : (256:Nat) ^ 6 = 256 * 256 * 256 * 256 * 256 * 256 := by norm_num
  have p7 : (256:Nat) ^ 7 = 256 * 256 * 256 * 256 * 256 * 256 * 256 := by norm_num
  simp only [p2, p3, p4, p5, p6, p7, ← Nat.div_div_eq_div_mul,
    (byte_digit _ _ h7).1, (byte_digit _ _ h7).2,
    (byte_digit _ _ h6).1, (byte_digit _ _ h6).2, (byte_digit _ _ h5).1, (byte_digit _ _ h5).2,
    (byte_digit _ _ h4).1, (byte_digit _ _ h4).2, (byte_digit _ _ h3).1, (byte_digit _ _ h3).2,
    (byte_digit _ _ h2).1, (byte_digit _ _ h2).2, (byte_digit _ _ h1).1, (byte_digit _ _ h1).2,
    Nat.mod_eq_of_lt h0]
  ring

theorem load_byte_lt (mem : Nat → Nat) (p : Nat) : load_byte mem p < 256 :=
  Nat.mod_lt _ (by norm_num)

theorem be32_value (host_big : Bool) (mem : Nat → Nat) (p : Nat) :
    be32toh host_big (load32 host_big mem p)
      = ∑ i ∈ Finset.range 4, load_byte mem (p + i) * 256 ^ (3 - i) := by
  simp only [Finset.sum_range_succ, Finset.sum_range_zero, zero_add, Nat.add_zero,
    Nat.sub_zero, Nat.sub_self, pow_zero, mul_one, pow_one, Nat.reduceSub]
  cases host_big
  · simp only [be32toh, load32, Bool.false_eq_true, if_false]
    exact bswap32_of_le _ _ _ _ (load_byte_lt _ _) (load_byte_lt _ _) (load_byte_lt _ _)
      (load_byte_lt _ _)
  · simp only [be32toh, load32, if_true]

theorem le32_value (host_big : Bool) (mem : Nat → Nat) (p : Nat) :
    le32toh host_big (load32 host_big mem p)
      = ∑ i ∈ Finset.range 4, load_byte mem (p + i) * 256 ^ i := by
  simp only [Finset.sum_range_succ, Finset.sum_range_zero, zero_add, Nat.add_zero,
    pow_zero, mul_one, pow_one]
  cases host_big
  · simp only [le32toh, load32, Bool.false_eq_true, if_false]
  · simp only [le32toh, load32, if_true]
    exact bswap32_of_be _ _ _ _ (load_byte_lt _ _) (load_byte_lt _ _) (load_byte_lt _ _)
      (load_byte_lt _ _)

theorem be64_value (host_big : Bool) (mem : Nat → Nat) (p : Nat) :
    be64toh host_big (load64 host_big mem p)
      = ∑ i ∈ Finset.range 8, load_byte mem (p + i) * 256 ^ (7 - i) := by
  simp only [Finset.sum_range_succ, Finset.sum_range_zero, zero_add, Nat.add_zero,
    Nat.sub_zero, Nat.sub_self, pow_zero, mul_one, pow_one, Nat.reduceSub]
  cases host_big
  · simp only [be64toh, load64, Bool.false_eq_true, if_false]
    exact bswap64_of_le _ _ _ _ _ _ _ _ (load_byte_lt _ _) (load_byte_lt _ _)
      (load_byte_lt _ _) (load_byte_lt _ _) (load_byte_lt _ _) (load_byte_lt _ _)
      (load_byte_lt _ _) (load_byte_lt _ _)
  · simp only [be64toh, load64, if_true]

theorem le64_value (host_big : Bool) (mem : Nat → Nat) (p : Nat) :
    le64toh host_big (load64 host_big mem p)
      = ∑ i ∈ Finset.range 8, load_byte mem (p + i) * 256 ^ i := by
  simp only [Finset.sum_range_succ, Finset.sum_range_zero, zero_add, Nat.add_zero,
    pow_zero, mul_one, pow_one]
  cases host_big
  · simp only [le64toh, load64, Bool.false_eq_true, if_false]
  · simp only [le64toh, load64, if_true]
    exact bswap64_of_be _ _ _ _ _ _ _ _ (load_byte_lt _ _) (load_byte_lt _ _)
      (load_byte_lt _ _) (load_byte_lt _ _) (load_byte_lt _ _) (load_byte_lt _ _)
      (load_byte_lt _ _) (load_byte_lt _ _)

/-- C6: `do_read32` and `do_read64` decode according to the byte order recorded in
the buffer, whatever the byte order of the host.  With `p` the host address
`buf->ptr + (addr->addr - buf->addr.addr)` and `b i` the byte at `p + i`, a
BIG_ENDIAN buffer yields the sum of `b i * 256 ^ (w - 1 - i)` and a LITTLE_ENDIAN
buffer the sum of `b i * 256 ^ i` (`w = 4` for `do_read32`, `8` for `do_read64`);
consequently decoding a little-endian buffer gives the same value as decoding the
byte-reversed data from a big-endian buffer. -/
theorem do_read_byte_order (host_big : Bool) (mem : Nat → Nat) (ctx : addrxlat_ctx_t)
    (addr : addrxlat_fulladdr_t) (res : cache_result) (s : slot_ptr)
    (hget : get_cache_buf ctx addr = some res) (hst : res.status = .OK)
    (hs : res.pbuf = some s) :
    let buf := res.ctx.cache.buffer s
    let p := buf.ptr + u64_sub addr.addr buf.addr.addr
    (buf.byte_order = .BIG_ENDIAN →
      do_read32 host_big mem ctx addr = some
        { status := .OK,
          val := some (∑ i ∈ Finset.range 4, load_byte mem (p + i) * 256 ^ (3 - i)),
          ctx := res.ctx } ∧
      do_read64 host_big mem ctx addr = some
        { status := .OK,
          val := some (∑ i ∈ Finset.range 8, load_byte mem (p + i) * 256 ^ (7 - i)),
          ctx := res.ctx }) ∧
    (buf.byte_order = .LITTLE_ENDIAN →
      do_read32 host_big mem ctx addr = some
        { status := .OK,
          val := some (∑ i ∈ Finset.range 4, load_byte mem (p + i) * 256 ^ i),
          ctx := res.ctx } ∧
      do_read64 host_big mem ctx addr = some
        { status := .OK,
          val := some (∑ i ∈ Finset.range 8, load_byte mem (p + i) * 256 ^ i),
          ctx := res.ctx }) ∧
    (∀ mem1 : Nat → Nat,
      (∀ i, i < 4 → load_byte mem1 (p + i) = load_byte mem (p + (3 - i))) →
      decode32 host_big mem { buf with byte_order := .LITTLE_ENDIAN } addr
        = decode32 host_big mem1 { buf with byte_order := .BIG_ENDIAN } addr) ∧
    (∀ mem1 : Nat → Nat,
      (∀ i, i < 8 → load_byte mem1 (p + i) = load_byte mem (p + (7 - i))) →
      decode64 host_big mem { buf with byte_order := .LITTLE_ENDIAN } addr
        = decode64 host_big mem1 { buf with byte_order := .BIG_ENDIAN } addr) := by
  intro buf p
  refine ⟨?_, ?_, ?_, ?_⟩
  · intro hbo
    have hbo1 : (res.ctx.cache.buffer s).byte_order = .BIG_ENDIAN := hbo
    constructor
    · simp only [do_read32, hget, hst, hs, ne_eq, not_true_eq_false, if_false, decode32,
        hbo1, be32_value]
    · simp only [do_read64, hget, hst, hs, ne_eq, not_true_eq_false, if_false, decode64,
        hbo1, be64_value]
  · intro hbo
    have hbo1 : (res.ctx.cache.buffer s).byte_order = .LITTLE_ENDIAN := hbo
    constructor
    · simp only [do_read32, hget, hst, hs, ne_eq, not_true_eq_false, if_false, decode32,
        hbo1, le32_value]
    · simp only [do_read64, hget, hst, hs, ne_eq, not_true_eq_false, if_false, decode64,
        hbo1, le64_value]
  · intro mem1 h
    simp only [decode32, le32_value, be32_value]
    have e0 := h 0 (by norm_num)
    have e1 := h 1 (by norm_num)
    have e2 := h 2 (by norm_num)
    have e3 := h 3 (by norm_num)
    simp only [Finset.sum_range_succ, Finset.sum_range_zero, zero_add]
    simp only [Nat.reduceSub, Nat.add_zero] at e0 e1 e2 e3 ⊢
    rw [e0, e1, e2, e3]
    ring
  · intro mem1 h
    simp only [decode64, le64_value, be64_value]
    have e0 := h 0 (by norm_num)
    have e1 := h 1 (by norm_num)
    have e2 := h 2 (by norm_num)
    have e3 := h 3 (by norm_num)
    have e4 := h 4 (by norm_num)
    have e5 := h 5 (by norm_num)
    have e6 := h 6 (by norm_num)
    have e7 := h 7 (by norm_num)
    simp only [Finset.sum_range_succ, Finset.sum_range_zero, zero_add]
    simp only [Nat.reduceSub, Nat.add_zero] at e0 e1 e2 e3 e4 e5 e6 e7 ⊢
    rw [e0, e1, e2, e3, e4, e5, e6, e7]
    ring

theorem do_read_byte_order_witness :
    do_read32 true (fun p => p) full_ctx ⟨0x2ff8, .KPHYSADDR⟩ = some
      { status := .OK, val := some 0xfbfaf9f8,
        ctx := { full_ctx with cache := touch_cache_slot full_ctx.cache 2 } } := by
  have h := ((do_read_byte_order true (fun p => p) full_ctx ⟨0x2ff8, .KPHYSADDR⟩ _ 2
    (get_cache_buf_hit full_ctx ⟨0x2ff8, .KPHYSADDR⟩ 2 (by decide)) rfl rfl).2.1 rfl).1
  rw [h]
  simp only [Finset.sum_range_succ, Finset.sum_range_zero, touch_buffer]
  rfl

/-! ## IBM POWER page-table step -/

theorem and_two_pow_eq_zero (x n : Nat) : x &&& 2 ^ n = 0 ↔ x.testBit n = false := by
  constructor
  · intro h
    have h1 := congrArg (fun y => y.testBit n) h
    simpa [Nat.testBit_two_pow_self] using h1
  · intro h
    apply Nat.eq_of_testBit_eq
    intro i
    simp only [Nat.testBit_and, Nat.testBit_two_pow, Nat.zero_testBit]
    by_cases hi : n = i
    · subst hi
      simp [h]
    · simp [hi]

theorem is_hugepte_iff (pte : Nat) : is_hugepte_linux pte = true ↔ pte % 4 ≠ 0 := by
  have e : pte &&& HUGE_PTE_MASK = pte % 4 := Nat.and_pow_two_sub_one_eq_mod pte 2
  simp [is_hugepte_linux, e]

theorem is_hugepd_iff (pte : Nat) (h : pte < 2 ^ 64) :
    is_hugepd_linux pte = true ↔ pte < 2 ^ 63 := by
  have e : pte &&& PD_HUGE = 0 ↔ pte.testBit 63 = false := and_two_pow_eq_zero pte 63
  simp only [is_hugepd_linux, decide_eq_true_eq, e, Nat.testBit_to_div_mod,
    decide_eq_false_iff_not]
  norm_num at h ⊢
  omega

theorem pgt_ppc64_linux_present (rd : addrxlat_step_t → pte_read)
    (step : addrxlat_step_t) (rpn_shift : Nat)
    (hok : (rd step).status = .OK) (hnz : (rd step).pte ≠ 0) :
    pgt_ppc64_linux rd step rpn_shift =
      (if step.remain > 1 then
        if is_hugepte_linux (rd step).pte then
          huge_page_linux { step with ctx := (rd step).ctx, raw := (rd step).raw }
            (rd step).pte rpn_shift
        else if is_hugepd_linux (rd step).pte then
          huge_pd_linux { step with ctx := (rd step).ctx, raw := (rd step).raw }
            (rd step).pte
        else
          (.OK, { step with
            ctx := (rd step).ctx
            raw := (rd step).raw
            base :=
              { as := .KVADDR
                addr := (rd step).pte &&& u64_not (u64_sub
                  (((1 <<< PTE_SHIFT) <<< step.meth.pgt.pf.fieldsz (step.remain - 1))
                    % 2 ^ 64) 1) } })
      else
        (.OK, { step with
          ctx := (rd step).ctx
          raw := (rd step).raw
          base :=
            { as := step.meth.target_as
              addr := (((rd step).pte >>> rpn_shift)
                <<< step.meth.pgt.pf.fieldsz 0) % 2 ^ 64 }
          elemsz := 1 })) := by
  simp only [pgt_ppc64_linux, read_pte64, hok, if_true, ne_eq, not_true_eq_false,
    if_false, hnz]

theorem pgt_ppc64_linux_none (rd : addrxlat_step_t → pte_read)
    (step : addrxlat_step_t) (rpn_shift : Nat)
    (hok : (rd step).status = .OK) (hz : (rd step).pte = 0) :
    pgt_ppc64_linux rd step rpn_shift =
      (if (rd step).ctx.noerr_notpresent = false then
        (.ERR_NOTPRESENT,
          { step with
            raw := (rd step).raw
            ctx := { (rd step).ctx with
              err := (pte_name.getD (step.remain - 1) "" ++ "[" ++
                toString (step.idx step.remain % 2 ^ 32) ++ "] is none")
                  :: (rd step).ctx.err } })
      else
        (.ERR_NOTPRESENT, { step with ctx := (rd step).ctx, raw := (rd step).raw })) := by
  simp only [pgt_ppc64_linux, read_pte64, hok, if_true, ne_eq, not_true_eq_false,
    if_false, hz, set_error]

theorem huge_page_linux_eq (step : addrxlat_step_t) (pte rpn_shift : Nat) :
    (huge_page_linux step pte rpn_shift).1 = .OK ∧
    (huge_page_linux step pte rpn_shift).2.base =
      { addr := ((pte >>> rpn_shift) <<< step.meth.pgt.pf.fieldsz 0) % 2 ^ 64,
        as := step.meth.target_as } ∧
    (huge_page_linux step pte rpn_shift).2.elemsz = 1 :=
  ⟨rfl, rfl, rfl⟩

theorem hugepd_code (pte : Nat) :
    ((pte &&& HUGEPD_SHIFT_MASK) >>> 2) % 2 ^ 32 = pte % 64 / 4 := by
  have e : pte &&& HUGEPD_SHIFT_MASK = pte % 64 := Nat.and_pow_two_sub_one_eq_mod pte 6
  rw [e, Nat.shiftRight_eq_div_pow]
  norm_num
  omega

theorem hugepd_shift_eq (pte : Nat) :
    hugepd_shift pte = if pte % 64 / 4 < 14 then mmu_pshift.getD (pte % 64 / 4) 0 else 0 := by
  simp only [hugepd_shift, hugepd_code, MMU_PAGE_COUNT]

theorem hugepd_shift_zero_iff (pte : Nat) :
    hugepd_shift pte = 0 ↔ (pte % 64 / 4 = 14 ∨ pte % 64 / 4 = 15) := by
  rw [hugepd_shift_eq]
  have hc : pte % 64 / 4 < 16 := by omega
  generalize pte % 64 / 4 = c at hc ⊢
  interval_cases c <;> simp [mmu_pshift]

/-- C7: PPC64 frame address.  Whenever `pgt_ppc64_linux_rpn30` reads a non-zero PTE
that terminates the walk, i.e. at the final level (`remain == 1`) or a huge PTE at
`remain > 1` (bottom two bits not both zero), it returns OK with
`base.addr = (pte >> 30) << fieldsz[0]` (a 64-bit value) and
`base.as = meth->target_as`; at the final level nothing else changes but
`elemsz`, which is set to 1.  For a 64-bit PTE and `fieldsz[0] <= 30` the shift
does not overflow. -/
theorem ppc64_frame_address (rd : addrxlat_step_t → pte_read) (step : addrxlat_step_t)
    (hok : (rd step).status = .OK) (hnz : (rd step).pte ≠ 0) :
    let pte := (rd step).pte
    let frame : addrxlat_fulladdr_t :=
      { addr := (pte / 2 ^ 30 * 2 ^ step.meth.pgt.pf.fieldsz 0) % 2 ^ 64,
        as := step.meth.target_as }
    (step.remain = 1 →
      pgt_ppc64_linux_rpn30 rd step =
        (.OK, { step with
          ctx := (rd step).ctx, raw := (rd step).raw, base := frame, elemsz := 1 })) ∧
    (step.remain > 1 → pte % 4 ≠ 0 →
      (pgt_ppc64_linux_rpn30 rd step).1 = .OK ∧
      (pgt_ppc64_linux_rpn30 rd step).2.base = frame) ∧
    (pte < 2 ^ 64 → step.meth.pgt.pf.fieldsz 0 ≤ 30 →
      pte / 2 ^ 30 * 2 ^ step.meth.pgt.pf.fieldsz 0 < 2 ^ 64) := by
  intro pte frame
  have hp := pgt_ppc64_linux_present rd step 30 hok hnz
  have hframe : ((rd step).pte >>> 30 <<< step.meth.pgt.pf.fieldsz 0) % 2 ^ 64
      = (pte / 2 ^ 30 * 2 ^ step.meth.pgt.pf.fieldsz 0) % 2 ^ 64 := by
    rw [Nat.shiftLeft_eq, Nat.shiftRight_eq_div_pow]
  refine ⟨?_, ?_, ?_⟩
  · intro h1
    have hn : ¬ step.remain > 1 := by omega
    rw [pgt_ppc64_linux_rpn30, hp, if_neg hn, hframe]
  · intro h1 h4
    have hh : is_hugepte_linux (rd step).pte = true := (is_hugepte_iff _).2 h4
    rw [pgt_ppc64_linux_rpn30, hp, if_pos h1, if_pos hh]
    obtain ⟨e1, e2, _⟩ := huge_page_linux_eq
      { step with ctx := (rd step).ctx, raw := (rd step).raw } (rd step).pte 30
    refine ⟨e1, ?_⟩
    rw [e2]
    simp only
    rw [hframe]
  · intro hlt hf
    have h1 : pte / 2 ^ 30 < 2 ^ 34 := by
      rw [Nat.div_lt_iff_lt_mul (by norm_num)]
      calc pte < 2 ^ 64 := hlt
        _ = 2 ^ 34 * 2 ^ 30 := by norm_num
    have h2 : 2 ^ step.meth.pgt.pf.fieldsz 0 ≤ 2 ^ 30 :=
      Nat.pow_le_pow_right (by norm_num) hf
    calc pte / 2 ^ 30 * 2 ^ step.meth.pgt.pf.fieldsz 0
        ≤ pte / 2 ^ 30 * 2 ^ 30 := Nat.mul_le_mul_left _ h2
      _ < 2 ^ 34 * 2 ^ 30 := Nat.mul_lt_mul_of_pos_right h1 (by norm_num)
      _ = 2 ^ 64 := by norm_num

theorem ppc64_frame_address_witness :
    pgt_ppc64_linux_rpn30 (const_read 0x48c0000001) (ppc64_step full_ctx 1) =
      (.OK, { ppc64_step full_ctx 1 with
        raw := 0x48c0000001
        base := { addr := 0x1230000, as := .MACHPHYSADDR }
        elemsz := 1 }) :=
  (ppc64_frame_address (const_read 0x48c0000001) (ppc64_step full_ctx 1) rfl
    (by decide)).1 rfl

/-- C8: PPC64 entry classification at a non-final level.  For every non-zero 64-bit
PTE read with `remain > 1`, `pgt_ppc64_linux` takes exactly one of three branches,
decided in this order: huge page iff `(pte & 3) != 0` (whatever the top bit is);
otherwise huge page directory iff bit 63 of the PTE is 0; otherwise an ordinary
pointer to the next-level table, where only `base` is updated. -/
theorem ppc64_entry_classification (rd : addrxlat_step_t → pte_read)
    (step : addrxlat_step_t) (rpn_shift : Nat)
    (hok : (rd step).status = .OK) (hnz : (rd step).pte ≠ 0)
    (hlt : (rd step).pte < 2 ^ 64) (hrem : step.remain > 1) :
    let pte := (rd step).pte
    let st1 : addrxlat_step_t := { step with ctx := (rd step).ctx, raw := (rd step).raw }
    (pte % 4 ≠ 0 →
      pgt_ppc64_linux rd step rpn_shift = huge_page_linux st1 pte rpn_shift) ∧
    (pte % 4 = 0 → pte / 2 ^ 63 = 0 →
      pgt_ppc64_linux rd step rpn_shift = huge_pd_linux st1 pte) ∧
    (pte % 4 = 0 → pte / 2 ^ 63 = 1 →
      pgt_ppc64_linux rd step rpn_shift =
        (.OK, { st1 with
          base :=
            { as := .KVADDR
              addr := pte &&& u64_not (u64_sub
                (((1 <<< PTE_SHIFT) <<< step.meth.pgt.pf.fieldsz (step.remain - 1))
                  % 2 ^ 64) 1) } })) ∧
    (pte / 2 ^ 63 = 0 ∨ pte / 2 ^ 63 = 1) := by
  intro pte st1
  have hp := pgt_ppc64_linux_present rd step rpn_shift hok hnz
  rw [if_pos hrem] at hp
  have hd := is_hugepd_iff (rd step).pte hlt
  have hlt1 : pte < 2 ^ 64 := hlt
  have e63 : (2 : Nat) ^ 63 = 9223372036854775808 := by norm_num
  have e64 : (2 : Nat) ^ 64 = 18446744073709551616 := by norm_num
  rw [e63] at hd ⊢
  rw [e64] at hlt1
  refine ⟨?_, ?_, ?_, ?_⟩
  · intro h4
    have hh : is_hugepte_linux (rd step).pte = true := (is_hugepte_iff _).2 h4
    rw [hp, if_pos hh]
  · intro h4 h63
    have hh : ¬ is_hugepte_linux (rd step).pte = true := by
      rw [is_hugepte_iff]
      exact fun hc => hc h4
    have hpd : is_hugepd_linux (rd step).pte = true := hd.2 (by
      have : pte < 9223372036854775808 := by omega
      exact this)
    rw [hp, if_neg hh, if_pos hpd]
  · intro h4 h63
    have hh : ¬ is_hugepte_linux (rd step).pte = true := by
      rw [is_hugepte_iff]
      exact fun hc => hc h4
    have hpd : ¬ is_hugepd_linux (rd step).pte = true := by
      rw [hd]
      have : ¬ pte < 9223372036854775808 := by omega
      exact this
    rw [hp, if_neg hh, if_neg hpd]
  · omega

theorem ppc64_entry_classification_witness :
    pgt_ppc64_linux (const_read 0x8000000000123002) (ppc64_step full_ctx 3) 30
        = huge_page_linux { ppc64_step full_ctx 3 with raw := 0x8000000000123002 }
            0x8000000000123002 30 ∧
    pgt_ppc64_linux (const_read 0x0000000000123008) (ppc64_step full_ctx 3) 30
        = huge_pd_linux { ppc64_step full_ctx 3 with raw := 0x0000000000123008 }
            0x0000000000123008 ∧
    (pgt_ppc64_linux (const_read 0x8000000000123008) (ppc64_step full_ctx 3) 30).2.base
        = { addr := 0x8000000000120000, as := .KVADDR } := by
  refine ⟨?_, ?_, ?_⟩
  · exact (ppc64_entry_classification (const_read 0x8000000000123002)
      (ppc64_step full_ctx 3) 30 rfl (by decide) (by decide) (by decide)).1 (by decide)
  · exact (ppc64_entry_classification (const_read 0x0000000000123008)
      (ppc64_step full_ctx 3) 30 rfl (by decide) (by decide) (by decide)).2.1
        (by decide) (by decide)
  · rw [(ppc64_entry_classification (const_read 0x8000000000123008)
      (ppc64_step full_ctx 3) 30 rfl (by decide) (by decide) (by decide)).2.2.1
        (by decide) (by decide)]
    decide

/-- C9: huge page directory shift.  The MMU page-size code of a huge page directory
entry is taken from its low six bits as `c = (pte & 0x3f) >> 2`; for `c` in 0..13
`hugepd_shift` returns the `c`-th entry of the fixed table
`[12,14,16,16,18,20,22,23,24,26,28,30,34,36]` (14 entries, non-decreasing, never
0), and `huge_pd_linux` fails with INVALID exactly when `c` is 14 or 15, in which
case the step state is unchanged (only the error message of the context gets a
clause); otherwise it returns OK. -/
theorem hugepd_shift_table (pte : Nat) :
    (pte &&& 0x3f) >>> 2 = pte % 64 / 4 ∧
    (pte % 64 / 4 < 14 →
      hugepd_shift pte
        = [12, 14, 16, 16, 18, 20, 22, 23, 24, 26, 28, 30, 34, 36].getD (pte % 64 / 4) 0 ∧
      hugepd_shift pte ≠ 0) ∧
    mmu_pshift = [12, 14, 16, 16, 18, 20, 22, 23, 24, 26, 28, 30, 34, 36] ∧
    mmu_pshift.length = MMU_PAGE_COUNT ∧
    mmu_pshift.Pairwise (fun a b => a ≤ b) ∧ (∀ x ∈ mmu_pshift, x ≠ 0) ∧
    (∀ step : addrxlat_step_t,
      ((huge_pd_linux step pte).1 = .ERR_INVALID ↔
        (pte % 64 / 4 = 14 ∨ pte % 64 / 4 = 15)) ∧
      ((pte % 64 / 4 = 14 ∨ pte % 64 / 4 = 15) →
        huge_pd_linux step pte =
          (.ERR_INVALID,
            { step with
              ctx := { step.ctx with err := "Invalid hugepd shift" :: step.ctx.err } })) ∧
      (pte % 64 / 4 < 14 → (huge_pd_linux step pte).1 = .OK)) := by
  have hz := hugepd_shift_zero_iff pte
  refine ⟨?_, ?_, rfl, rfl, by decide, by decide, ?_⟩
  · have e : pte &&& 0x3f = pte % 64 := Nat.and_pow_two_sub_one_eq_mod pte 6
    rw [e, Nat.shiftRight_eq_div_pow]
  · intro hc
    refine ⟨?_, ?_⟩
    · rw [hugepd_shift_eq, if_pos hc]
      rfl
    · intro h0
      rcases hz.1 h0 with h | h <;> omega
  · intro step
    refine ⟨?_, ?_, ?_⟩
    · constructor
      · intro h
        by_cases h0 : hugepd_shift pte = 0
        · exact hz.1 h0
        · simp [huge_pd_linux, h0] at h
      · intro h
        simp [huge_pd_linux, hz.2 h, set_error]
    · intro h
      simp [huge_pd_linux, hz.2 h, set_error]
    · intro hc
      have h0 : hugepd_shift pte ≠ 0 := by
        intro h0
        rcases hz.1 h0 with h | h <;> omega
      simp [huge_pd_linux, h0]

theorem hugepd_shift_table_witness :
    hugepd_shift 0x123028 = 28 ∧
    (huge_pd_linux (ppc64_step full_ctx 3) 0x12303c).1 = .ERR_INVALID ∧
    (huge_pd_linux (ppc64_step full_ctx 3) 0x123028).1 = .OK := by
  have h := hugepd_shift_table 0x123028
  have h1 := hugepd_shift_table 0x12303c
  exact ⟨(h.2.1 (by decide)).1.trans (by decide), ((h1.2.2.2.2.2.2 _).1).2 (by decide),
    (h.2.2.2.2.2.2 _).2.2 (by decide)⟩

/-- C10: PPC64 not-present.  At every level, when `read_pte64` delivers a PTE,
`pgt_ppc64_linux_rpn30` returns NOTPRESENT if and only if that PTE is 0; the status
is NOTPRESENT whether or not `ctx->noerr.notpresent` is set; when the flag is set
the error message is left as the read left it and the step state (`base`, `idx`,
`remain`, `elemsz`) is unchanged; when it is clear the only further change is the
new clause of the error message. -/
theorem ppc64_not_present (rd : addrxlat_step_t → pte_read) (step : addrxlat_step_t)
    (hok : (rd step).status = .OK) :
    ((pgt_ppc64_linux_rpn30 rd step).1 = .ERR_NOTPRESENT ↔ (rd step).pte = 0) ∧
    ((rd step).pte = 0 → (pgt_ppc64_linux_rpn30 rd step).1 = .ERR_NOTPRESENT) ∧
    ((rd step).pte = 0 → (rd step).ctx.noerr_notpresent = true →
      pgt_ppc64_linux_rpn30 rd step =
        (.ERR_NOTPRESENT, { step with ctx := (rd step).ctx, raw := (rd step).raw }) ∧
      (pgt_ppc64_linux_rpn30 rd step).2.ctx.err = (rd step).ctx.err ∧
      (pgt_ppc64_linux_rpn30 rd step).2.base = step.base ∧
      (pgt_ppc64_linux_rpn30 rd step).2.idx = step.idx ∧
      (pgt_ppc64_linux_rpn30 rd step).2.remain = step.remain ∧
      (pgt_ppc64_linux_rpn30 rd step).2.elemsz = step.elemsz) ∧
    ((rd step).pte = 0 → (rd step).ctx.noerr_notpresent = false →
      (pgt_ppc64_linux_rpn30 rd step).1 = .ERR_NOTPRESENT ∧
      (∃ msg, (pgt_ppc64_linux_rpn30 rd step).2.ctx.err = msg :: (rd step).ctx.err) ∧
      (pgt_ppc64_linux_rpn30 rd step).2.base = step.base ∧
      (pgt_ppc64_linux_rpn30 rd step).2.idx = step.idx ∧
      (pgt_ppc64_linux_rpn30 rd step).2.remain = step.remain ∧
      (pgt_ppc64_linux_rpn30 rd step).2.elemsz = step.elemsz) := by
  refine ⟨?_, ?_, ?_, ?_⟩
  · constructor
    · intro h
      by_contra hnz
      rw [pgt_ppc64_linux_rpn30, pgt_ppc64_linux_present rd step 30 hok hnz] at h
      split_ifs at h with h1 h2 h3
      · rw [(huge_page_linux_eq _ _ _).1] at h
        exact absurd h (by simp)
      · by_cases h0 : hugepd_shift (rd step).pte = 0
        · simp [huge_pd_linux, h0, set_error] at h
        · simp [huge_pd_linux, h0] at h
    · intro hz
      rw [pgt_ppc64_linux_rpn30, pgt_ppc64_linux_none rd step 30 hok hz]
      split_ifs <;> rfl
  · intro hz
    rw [pgt_ppc64_linux_rpn30, pgt_ppc64_linux_none rd step 30 hok hz]
    split_ifs <;> rfl
  · intro hz hflag
    have e : pgt_ppc64_linux_rpn30 rd step =
        (.ERR_NOTPRESENT, { step with ctx := (rd step).ctx, raw := (rd step).raw }) := by
      rw [pgt_ppc64_linux_rpn30, pgt_ppc64_linux_none rd step 30 hok hz]
      simp [hflag]
    rw [e]
    exact ⟨rfl, rfl, rfl, rfl, rfl, rfl⟩
  · intro hz hflag
    rw [pgt_ppc64_linux_rpn30, pgt_ppc64_linux_none rd step 30 hok hz, if_pos hflag]
    exact ⟨rfl, ⟨_, rfl⟩, rfl, rfl, rfl, rfl⟩

theorem ppc64_not_present_witness :
    pgt_ppc64_linux_rpn30 (const_read 0)
        (ppc64_step { full_ctx with noerr_notpresent := true } 2)
      = (.ERR_NOTPRESENT, ppc64_step { full_ctx with noerr_notpresent := true } 2) ∧
    (pgt_ppc64_linux_rpn30 (const_read 0) (ppc64_step full_ctx 2)).1 = .ERR_NOTPRESENT ∧
    (pgt_ppc64_linux_rpn30 (const_read 0) (ppc64_step full_ctx 2)).2.ctx.err
      = ["pmd[6] is none"] := by
  refine ⟨?_, ?_, ?_⟩
  · exact ((ppc64_not_present (const_read 0)
      (ppc64_step { full_ctx with noerr_notpresent := true } 2) rfl).2.2.1 rfl rfl).1
  · exact ((ppc64_not_present (const_read 0) (ppc64_step full_ctx 2) rfl).2.2.2 rfl rfl).1
  · rw [pgt_ppc64_linux_rpn30, pgt_ppc64_linux_none (const_read 0) (ppc64_step full_ctx 2)
      30 rfl rfl]
    decide

/-! ## Step progress of the IBM POWER page-table step -/

theorem pgt_huge_page_remain (step : addrxlat_step_t) :
    (pgt_huge_page step).1 = .OK ∧ (pgt_huge_page step).2.elemsz = 1 ∧
    (pgt_huge_page step).2.remain ≤ step.remain ∧
    (step.remain > 1 → (pgt_huge_page step).2.remain = 1) := by
  refine ⟨rfl, rfl, ?_, ?_⟩
  · simp only [pgt_huge_page]
    split_ifs <;> omega
  · intro h
    simp only [pgt_huge_page, if_pos h]

theorem huge_pd_linux_remain (step : addrxlat_step_t) (pte : Nat)
    (h : (huge_pd_linux step pte).1 = .OK) :
    (huge_pd_linux step pte).2.remain = 2 ∧
    (huge_pd_linux step pte).2.elemsz = step.elemsz := by
  by_cases h0 : hugepd_shift pte = 0
  · simp [huge_pd_linux, h0, set_error] at h
  · simp [huge_pd_linux, h0]

/-- An ordinary directory entry at `remain = 3`: the call returns OK, but `remain`
is still 3 and `elemsz` is not 1. -/
theorem ppc64_step_progress_counterexample :
    (pgt_ppc64_linux_rpn30 (const_read 0x8000000000123008) (ppc64_step full_ctx 3)).1
      = .OK ∧
    ¬ ((pgt_ppc64_linux_rpn30 (const_read 0x8000000000123008)
          (ppc64_step full_ctx 3)).2.remain < (ppc64_step full_ctx 3).remain ∨
       (pgt_ppc64_linux_rpn30 (const_read 0x8000000000123008)
          (ppc64_step full_ctx 3)).2.elemsz = 1) := by
  decide

/-- C11 (amended): step progress of the PPC64 page-table method.  Every call of
`pgt_ppc64_linux_rpn30` that returns OK has read a non-zero PTE and leaves the
step with `remain` no larger than on entry.  It sets `elemsz = 1` at the final
level (`remain <= 1`, `remain` unchanged) and for a huge page (`remain` becomes
1); for a huge page directory it sets `remain = 2` and keeps `elemsz`; for an
ordinary entry (non-huge, present, non-final) it sets `base` to the next-level
table address in KVADDR and leaves `remain`, `elemsz` and `idx` unchanged: the
function itself does not decrement `remain`. -/
theorem ppc64_step_progress (rd : addrxlat_step_t → pte_read) (step : addrxlat_step_t)
    (hlt : (rd step).pte < 2 ^ 64)
    (hok : (pgt_ppc64_linux_rpn30 rd step).1 = .OK) :
    let pte := (rd step).pte
    let r := (pgt_ppc64_linux_rpn30 rd step).2
    (rd step).status = .OK ∧ pte ≠ 0 ∧ r.remain ≤ step.remain ∧
    (step.remain ≤ 1 → r.elemsz = 1 ∧ r.remain = step.remain) ∧
    (step.remain > 1 → pte % 4 ≠ 0 → r.elemsz = 1 ∧ r.remain = 1) ∧
    (step.remain > 1 → pte % 4 = 0 → pte / 2 ^ 63 = 0 →
      r.remain = 2 ∧ r.elemsz = step.elemsz) ∧
    (step.remain > 1 → pte % 4 = 0 → pte / 2 ^ 63 = 1 →
      r.base =
        { as := .KVADDR
          addr := pte &&& u64_not (u64_sub
            (((1 <<< PTE_SHIFT) <<< step.meth.pgt.pf.fieldsz (step.remain - 1))
              % 2 ^ 64) 1) } ∧
      r.remain = step.remain ∧ r.elemsz = step.elemsz ∧ r.idx = step.idx) := by
  intro pte r
  have hst : (rd step).status = .OK := by
    by_contra hne
    have : (pgt_ppc64_linux_rpn30 rd step).1 = (rd step).status := by
      simp [pgt_ppc64_linux_rpn30, pgt_ppc64_linux, read_pte64, hne]
    rw [this] at hok
    exact hne hok
  have hnz : (rd step).pte ≠ 0 := by
    intro hz
    have e := pgt_ppc64_linux_none rd step 30 hst hz
    rw [pgt_ppc64_linux_rpn30, e] at hok
    split_ifs at hok
  have hp := pgt_ppc64_linux_present rd step 30 hst hnz
  have hr : r = (pgt_ppc64_linux rd step 30).2 := rfl
  have hok1 : (pgt_ppc64_linux rd step 30).1 = .OK := hok
  have hd := is_hugepd_iff (rd step).pte hlt
  have ht := is_hugepte_iff (rd step).pte
  have hlt1 : pte < 2 ^ 64 := hlt
  have e63 : (2 : Nat) ^ 63 = 9223372036854775808 := by norm_num
  have e64 : (2 : Nat) ^ 64 = 18446744073709551616 := by norm_num
  rw [e63] at hd ⊢
  rw [e64] at hlt1
  rw [hr]
  rw [hp] at hok1 ⊢
  by_cases hrem : step.remain > 1
  · rw [if_pos hrem] at hok1 ⊢
    by_cases h4 : is_hugepte_linux (rd step).pte = true
    · rw [if_pos h4] at hok1 ⊢
      have hm : pte % 4 ≠ 0 := ht.1 h4
      obtain ⟨_, q2, q3, q4⟩ := pgt_huge_page_remain
        { step with
          ctx := (rd step).ctx, raw := (rd step).raw
          base := { addr := ((rd step).pte >>> 30 <<< step.meth.pgt.pf.fieldsz 0) % 2 ^ 64,
                    as := step.meth.target_as } }
      refine ⟨hst, hnz, q3, fun h => absurd hrem (by omega), fun _ _ => ⟨q2, q4 hrem⟩,
        fun _ h => absurd h hm, fun _ h => absurd h hm⟩
    · rw [if_neg h4] at hok1 ⊢
      have hm : pte % 4 = 0 := by
        by_contra hc
        exact h4 (ht.2 hc)
      by_cases hpd : is_hugepd_linux (rd step).pte = true
      · rw [if_pos hpd] at hok1 ⊢
        obtain ⟨q1, q2⟩ := huge_pd_linux_remain _ _ hok1
        have hsmall : pte < 9223372036854775808 := hd.1 hpd
        refine ⟨hst, hnz, by rw [q1]; exact hrem, fun h => absurd hrem (by omega),
          fun _ h => absurd hm h, fun _ _ _ => ⟨q1, q2⟩, fun _ _ h => ?_⟩
        exfalso
        omega
      · rw [if_neg hpd] at hok1 ⊢
        have hbig : ¬ pte < 9223372036854775808 := fun h => hpd (hd.2 h)
        refine ⟨hst, hnz, le_refl _, fun h => absurd hrem (by omega),
          fun _ h => absurd hm h, fun _ _ h => ?_, fun _ _ _ => ⟨rfl, rfl, rfl, rfl⟩⟩
        exfalso
        omega
  · rw [if_neg hrem] at hok1 ⊢
    exact ⟨hst, hnz, le_refl _, fun _ => ⟨rfl, rfl⟩, fun h => absurd h hrem,
      fun h => absurd h hrem, fun h => absurd h hrem⟩

/-- Witness for C11: the ordinary directory entry `0x8000000000123008` at
`remain = 3` gives the table address `0x8000000000120000` and keeps `remain`. -/
theorem ppc64_step_progress_witness :
    (pgt_ppc64_linux_rpn30 (const_read 0x8000000000123008) (ppc64_step full_ctx 3)).2.remain
      = 3 ∧
    (pgt_ppc64_linux_rpn30 (const_read 0x8000000000123008) (ppc64_step full_ctx 3)).2.base
      = { addr := 0x8000000000120000, as := .KVADDR } := by
  obtain ⟨_, _, _, _, _, _, h⟩ :=
    ppc64_step_progress (const_read 0x8000000000123008) (ppc64_step full_ctx 3)
      (by decide) (by decide)
  obtain ⟨h1, h2, _, _⟩ := h (by decide) (by decide) (by decide)
  exact ⟨h2, h1.trans (by decide)⟩

/-! ## Option parser: lists and C library conversions -/

theorem takeWhile_append_stop {α : Type} (p : α → Bool) (S V : List α) (c : α)
    (hc : p c = false) : (S ++ c :: V).takeWhile p = S.takeWhile p := by
  induction S with
  | nil => simp [List.takeWhile, hc]
  | cons a t ih =>
    simp only [List.cons_append, List.takeWhile]
    cases p a <;> simp [ih]

theorem dropWhile_append_stop {α : Type} (p : α → Bool) (S V : List α) (c : α)
    (hc : p c = false) : (S ++ c :: V).dropWhile p = S.dropWhile p ++ c :: V := by
  induction S with
  | nil => simp [List.dropWhile, hc]
  | cons a t ih =>
    simp only [List.cons_append, List.dropWhile]
    cases p a <;> simp [ih]

theorem dropWhile_mem {α : Type} (p : α → Bool) (S : List α) (c : α)
    (h : c ∈ S.dropWhile p) : c ∈ S :=
  (List.dropWhile_suffix p).subset h

theorem split_at_colon (v : List Char) :
    (v.dropWhile (fun c => c != ':') = [] ∧ ':' ∉ v) ∨
    (∃ V, v.dropWhile (fun c => c != ':') = ':' :: V ∧
      v = v.takeWhile (fun c => c != ':') ++ ':' :: V ∧
      ':' ∉ v.takeWhile (fun c => c != ':')) := by
  have hmem : ':' ∉ v.takeWhile (fun c => c != ':') := by
    intro h
    have := List.mem_takeWhile_imp h
    simp at this
  cases hd : v.dropWhile (fun c => c != ':') with
  | nil =>
    left
    refine ⟨rfl, ?_⟩
    have e := List.takeWhile_append_dropWhile (fun c => c != ':') v
    rw [hd, List.append_nil] at e
    rw [← e]
    exact hmem
  | cons c V =>
    right
    have hc : c = ':' := by
      have := List.head_dropWhile_not (fun c => c != ':') v (by rw [hd]; simp)
      simp only [hd, List.head_cons] at this
      simpa using this
    subst hc
    refine ⟨V, rfl, ?_, hmem⟩
    have e := List.takeWhile_append_dropWhile (fun c => c != ':') v
    rw [hd] at e
    exact e.symm

theorem posix_digit_cases (d : Char) (h : is_posix_digit d = true) :
    d = '0' ∨ d = '1' ∨ d = '2' ∨ d = '3' ∨ d = '4' ∨ d = '5' ∨ d = '6' ∨ d = '7' ∨
    d = '8' ∨ d = '9' := by
  simpa [is_posix_digit, or_assoc] using h

theorem posix_digit_facts (d : Char) (h : is_posix_digit d = true) :
    d ≠ '-' ∧ d ≠ '+' ∧ c_isspace d = false ∧ d ≠ ':' ∧ is_posix_alnum d = true := by
  rcases posix_digit_cases d h with e | e | e | e | e | e | e | e | e | e <;> subst e <;>
    decide

theorem strto_digits_zero (t : List Char)
    (h : ∀ x h1 t1, t = x :: h1 :: t1 → ¬ ((x == 'x' || x == 'X') && is_digit_of 16 h1) = true) :
    strto_digits ('0' :: t)
      = some (digits_value 8 (('0' :: t).takeWhile (is_digit_of 8)),
              ('0' :: t).dropWhile (is_digit_of 8)) := by
  match t with
  | [] => rfl
  | [x] => rfl
  | x :: h1 :: t1 =>
    have := h x h1 t1 rfl
    simp only [strto_digits]
    rw [if_neg this]

theorem strto_digits_hex (x h1 : Char) (t1 : List Char)
    (h : ((x == 'x' || x == 'X') && is_digit_of 16 h1) = true) :
    strto_digits ('0' :: x :: h1 :: t1)
      = some (digits_value 16 ((h1 :: t1).takeWhile (is_digit_of 16)),
              (h1 :: t1).dropWhile (is_digit_of 16)) := by
  simp only [strto_digits]
  rw [if_pos h]

theorem strto_digits_dec (s : List Char) (h : s.head? ≠ some '0') :
    strto_digits s
      = if (s.takeWhile (is_digit_of 10)).isEmpty then none
        else some (digits_value 10 (s.takeWhile (is_digit_of 10)),
                   s.dropWhile (is_digit_of 10)) := by
  unfold strto_digits
  split
  · simp at h
  · simp at h
  · rfl

theorem strto_digits_append_colon (S V : List Char) (hS : S ≠ []) :
    strto_digits (S ++ ':' :: V)
      = (strto_digits S).map (fun r => (r.1, r.2 ++ ':' :: V)) := by
  have h8 : is_digit_of 8 ':' = false := by decide
  have h10 : is_digit_of 10 ':' = false := by decide
  have h16 : is_digit_of 16 ':' = false := by decide
  by_cases h0 : S.head? = some '0'
  · obtain ⟨d, t, rfl⟩ : ∃ d t, S = d :: t := by
      cases S with
      | nil => exact absurd rfl hS
      | cons d t => exact ⟨d, t, rfl⟩
    have hd : d = '0' := by simpa using h0
    subst hd
    · by_cases hx : ∃ x h1 t1, t = x :: h1 :: t1 ∧
          ((x == 'x' || x == 'X') && is_digit_of 16 h1) = true
      · obtain ⟨x, h1, t1, e, hc⟩ := hx
        subst e
        rw [strto_digits_hex x h1 t1 hc]
        have : '0' :: x :: h1 :: t1 ++ ':' :: V = '0' :: x :: h1 :: (t1 ++ ':' :: V) := rfl
        rw [this, strto_digits_hex x h1 _ hc]
        have e2 : h1 :: (t1 ++ ':' :: V) = (h1 :: t1) ++ ':' :: V := rfl
        rw [e2, takeWhile_append_stop _ _ _ _ h16, dropWhile_append_stop _ _ _ _ h16]
        rfl
      · have hz : ∀ x h1 t1, t = x :: h1 :: t1 →
            ¬ ((x == 'x' || x == 'X') && is_digit_of 16 h1) = true :=
          fun x h1 t1 e hc => hx ⟨x, h1, t1, e, hc⟩
        rw [strto_digits_zero t hz]
        have e1 : '0' :: t ++ ':' :: V = '0' :: (t ++ ':' :: V) := rfl
        rw [e1, strto_digits_zero]
        · have e2 : '0' :: (t ++ ':' :: V) = ('0' :: t) ++ ':' :: V := rfl
          rw [e2, takeWhile_append_stop _ _ _ _ h8, dropWhile_append_stop _ _ _ _ h8]
          rfl
        · intro x h1 t1 e hc
          match t, e with
          | [], e =>
            simp only [List.nil_append, List.cons.injEq] at e
            obtain ⟨rfl, _⟩ := e
            simp at hc
          | [y], e =>
            simp only [List.cons_append, List.nil_append, List.cons.injEq] at e
            obtain ⟨_, rfl, _⟩ := e
            simp [h16] at hc
          | y :: y1 :: t2, e =>
            simp only [List.cons_append, List.cons.injEq] at e
            obtain ⟨rfl, rfl, _⟩ := e
            exact hz _ _ _ rfl hc
  · have h0' : (S ++ ':' :: V).head? ≠ some '0' := by
      match S, hS with
      | d :: t, _ => simpa using h0
    rw [strto_digits_dec _ h0, strto_digits_dec _ h0',
      takeWhile_append_stop _ _ _ _ h10, dropWhile_append_stop _ _ _ _ h10]
    split_ifs <;> rfl

theorem strto_signed_digit (S : List Char) (d : Char) (t : List Char) (hS : S = d :: t)
    (hd : is_posix_digit d = true) :
    strto_signed S = (strto_digits S).map (fun r => (false, r.1, r.2)) := by
  obtain ⟨h1, h2, _, _, _⟩ := posix_digit_facts d hd
  subst hS
  unfold strto_signed
  split
  · rename_i e
    simp only [List.cons.injEq] at e
    exact absurd e.1 h1
  · rename_i e
    simp only [List.cons.injEq] at e
    exact absurd e.1 h2
  · rfl

theorem strto_core_append_colon (d : Char) (t V : List Char)
    (hd : is_posix_digit d = true) :
    strto_core ((d :: t) ++ ':' :: V)
      = (strto_core (d :: t)).map (fun r => (r.1, r.2.1, r.2.2 ++ ':' :: V)) := by
  obtain ⟨_, _, h3, _, _⟩ := posix_digit_facts d hd
  have e1 : ((d :: t) ++ ':' :: V).dropWhile c_isspace = (d :: t) ++ ':' :: V := by
    simp [List.dropWhile, h3]
  have e2 : (d :: t).dropWhile c_isspace = d :: t := by
    simp [List.dropWhile, h3]
  unfold strto_core
  rw [e1, e2, strto_signed_digit ((d :: t) ++ ':' :: V) d (t ++ ':' :: V) rfl hd,
    strto_signed_digit (d :: t) d t rfl hd, strto_digits_append_colon _ _ (by simp)]
  cases strto_digits (d :: t) <;> rfl

theorem strtoul_append_colon (d : Char) (t V : List Char)
    (hd : is_posix_digit d = true) :
    strtoul ((d :: t) ++ ':' :: V)
      = ((strtoul (d :: t)).1, (strtoul (d :: t)).2 ++ ':' :: V) := by
  unfold strtoul
  rw [strto_core_append_colon d t V hd]
  cases strto_core (d :: t) with
  | none => rfl
  | some r =>
    obtain ⟨neg, m, rest⟩ := r
    simp only [Option.map_some']
    split_ifs <;> rfl

theorem strto_digits_rest_mem (s : List Char) (m : Nat) (rest : List Char)
    (h : strto_digits s = some (m, rest)) (c : Char) (hc : c ∈ rest) : c ∈ s := by
  unfold strto_digits at h
  split at h
  · split_ifs at h
    · simp only [Option.some.injEq, Prod.mk.injEq] at h
      rw [← h.2] at hc
      have := dropWhile_mem _ _ _ hc
      simp only [List.mem_cons] at this ⊢
      tauto
    · simp only [Option.some.injEq, Prod.mk.injEq] at h
      rw [← h.2] at hc
      exact dropWhile_mem _ _ _ hc
  · simp only [Option.some.injEq, Prod.mk.injEq] at h
    rw [← h.2] at hc
    exact dropWhile_mem _ _ _ hc
  · split_ifs at h
    simp only [Option.some.injEq, Prod.mk.injEq] at h
    rw [← h.2] at hc
    exact dropWhile_mem _ _ _ hc

theorem strto_core_rest_mem (s : List Char) (neg : Bool) (m : Nat) (rest : List Char)
    (h : strto_core s = some (neg, m, rest)) (c : Char) (hc : c ∈ rest) : c ∈ s := by
  unfold strto_core strto_signed at h
  have key : ∀ u : List Char, (∀ x, x ∈ u → x ∈ s.dropWhile c_isspace) →
      ∀ r, strto_digits u = some r → r.2 = rest → c ∈ s := by
    intro u hu r hr e
    obtain ⟨m1, rest1⟩ := r
    simp only at e
    subst e
    exact dropWhile_mem _ _ _ (hu c (strto_digits_rest_mem u m1 rest1 hr c hc))
  split at h
  · rename_i t e
    cases hd : strto_digits t with
    | none => simp [hd] at h
    | some r =>
      simp only [hd, Option.map_some', Option.some.injEq, Prod.mk.injEq] at h
      exact key t (fun x hx => by rw [e]; exact List.mem_cons_of_mem _ hx) r hd h.2.2
  · rename_i t e
    cases hd : strto_digits t with
    | none => simp [hd] at h
    | some r =>
      simp only [hd, Option.map_some', Option.some.injEq, Prod.mk.injEq] at h
      exact key t (fun x hx => by rw [e]; exact List.mem_cons_of_mem _ hx) r hd h.2.2
  · cases hd : strto_digits (s.dropWhile c_isspace) with
    | none => simp [hd] at h
    | some r =>
      simp only [hd, Option.map_some', Option.some.injEq, Prod.mk.injEq] at h
      exact key _ (fun x hx => hx) r hd h.2.2

theorem strtoul_rest_mem (s : List Char) (c : Char) (hc : c ∈ (strtoul s).2) : c ∈ s := by
  unfold strtoul at hc
  cases h : strto_core s with
  | none =>
    simp only [h] at hc
    exact hc
  | some r =>
    obtain ⟨neg, m, rest⟩ := r
    simp only [h] at hc
    have hr : c ∈ rest := by
      split_ifs at hc <;> exact hc
    exact strto_core_rest_mem s neg m rest h c hr

theorem toLower_lower_alpha (c : Char) (h : is_posix_lower c.toLower = true) :
    is_posix_alpha c = true := by
  unfold Char.toLower at h
  simp only at h
  split_ifs at h with hr
  · have e : c = Char.ofNat c.toNat := (Char.ofNat_toNat c).symm
    obtain ⟨n, hn⟩ : ∃ n, c.toNat = n := ⟨_, rfl⟩
    rw [hn] at e hr
    subst e
    obtain ⟨h1, h2⟩ := hr
    clear h hn
    interval_cases n <;> decide
  · simp [is_posix_alpha, h]

theorem lower_name_alnum (S name : List Char) (h : S.map Char.toLower = name)
    (hn : ∀ c ∈ name, is_posix_lower c = true) : ∀ c ∈ S, is_posix_alnum c = true := by
  intro c hc
  have : c.toLower ∈ name := by
    rw [← h]
    exact List.mem_map_of_mem _ hc
  have := toLower_lower_alpha c (hn _ this)
  simp [is_posix_alnum, this]

theorem strtoas_rest_mem (s : List Char) (c : Char) (hc : c ∈ (strtoas s).2) : c ∈ s := by
  unfold strtoas at hc
  simp only at hc
  split_ifs at hc
  · exact strtoul_rest_mem s c hc
  · exact dropWhile_mem _ _ _ hc
  · exact dropWhile_mem _ _ _ hc
  · exact dropWhile_mem _ _ _ hc
  · exact hc

theorem strtoas_nondigit (s : List Char)
    (h : (s.head?.map is_posix_digit).getD false = false) :
    strtoas s =
      if (s.takeWhile is_posix_alnum).length = 6 ∧ strncasecmp_eq s "KVADDR".toList 6 = true
      then (.named .KVADDR, s.dropWhile is_posix_alnum)
      else if (s.takeWhile is_posix_alnum).length = 9 ∧
          strncasecmp_eq s "KPHYSADDR".toList 9 = true
      then (.named .KPHYSADDR, s.dropWhile is_posix_alnum)
      else if (s.takeWhile is_posix_alnum).length = 12 ∧
          strncasecmp_eq s "MACHPHYSADDR".toList 12 = true
      then (.named .MACHPHYSADDR, s.dropWhile is_posix_alnum)
      else (.named .NOADDR, s) := by
  unfold strtoas
  rw [if_neg (by simp [h])]

theorem name_test (A V name lname : List Char) (n : Nat) (hn : name.length = n)
    (hl : name.map Char.toLower = lname)
    (hall : ∀ c ∈ A, is_posix_alnum c = true) :
    (((A ++ ':' :: V).takeWhile is_posix_alnum).length = n ∧
      strncasecmp_eq (A ++ ':' :: V) name n = true) ↔ A.map Char.toLower = lname := by
  have ht : (A ++ ':' :: V).takeWhile is_posix_alnum = A := by
    rw [takeWhile_append_stop _ _ _ _ (by decide)]
    exact List.takeWhile_eq_self_iff.mpr hall
  rw [ht]
  have hname : name.take n = name := by
    rw [← hn]
    exact List.take_length _
  constructor
  · rintro ⟨h1, h2⟩
    have : (A ++ ':' :: V).take n = A := by
      rw [← h1]
      exact List.take_left _ _
    unfold strncasecmp_eq at h2
    rw [this, hname, hl] at h2
    simpa using h2
  · intro h
    have hlen : A.length = n := by
      have := congrArg List.length h
      rw [List.length_map, ← hl, List.length_map, hn] at this
      exact this
    refine ⟨hlen, ?_⟩
    have : (A ++ ':' :: V).take n = A := by
      rw [← hlen]
      exact List.take_left _ _
    unfold strncasecmp_eq
    rw [this, hname, hl, h]
    simp

theorem space_of_nil : space_of [] = none := by decide

theorem strtoas_colon (S V : List Char) (hS : ':' ∉ S) :
    (∀ a, space_of S = some a → strtoas (S ++ ':' :: V) = (a, ':' :: V)) ∧
    (space_of S = none → S ≠ [] → (strtoas (S ++ ':' :: V)).2.head? ≠ some ':') := by
  cases S with
  | nil =>
    refine ⟨fun a h => ?_, fun _ h => absurd rfl h⟩
    rw [space_of_nil] at h
    exact absurd h (by simp)
  | cons d t =>
    have hd0 : d ≠ ':' := fun e => hS (by simp [e])
    by_cases hd : is_posix_digit d = true
    · -- numeric address space
      have e1 : strtoas ((d :: t) ++ ':' :: V)
          = (.numeric ((strtoul (d :: t)).1 % 2 ^ 32), (strtoul (d :: t)).2 ++ ':' :: V) := by
        unfold strtoas
        rw [if_pos (by simp [hd]), strtoul_append_colon d t V hd]
      have e2 : space_of (d :: t)
          = if (strtoul (d :: t)).2 = [] then some (.numeric ((strtoul (d :: t)).1 % 2 ^ 32))
            else none := by
        unfold space_of
        rw [if_pos (by simp [hd])]
      rw [e1, e2]
      constructor
      · intro a h
        split_ifs at h with hr
        simp only [Option.some.injEq] at h
        rw [hr, ← h]
        rfl
      · intro h _
        split_ifs at h with hr
        obtain ⟨c, r, hcr⟩ : ∃ c r, (strtoul (d :: t)).2 = c :: r := by
          cases hh : (strtoul (d :: t)).2 with
          | nil => exact absurd hh hr
          | cons c r => exact ⟨c, r, rfl⟩
        have hc : c ∈ d :: t := strtoul_rest_mem _ c (by rw [hcr]; simp)
        simp only [hcr, List.cons_append, List.head?_cons, ne_eq, Option.some.injEq]
        intro e
        exact hS (e ▸ hc)
    · -- named address space
      have hnd : (((d :: t) ++ ':' :: V).head?.map is_posix_digit).getD false = false := by
        simpa using hd
      have e2 : space_of (d :: t)
          = if (d :: t).map Char.toLower = "kvaddr".toList then some (.named .KVADDR)
            else if (d :: t).map Char.toLower = "kphysaddr".toList then
              some (.named .KPHYSADDR)
            else if (d :: t).map Char.toLower = "machphysaddr".toList then
              some (.named .MACHPHYSADDR)
            else none := by
        unfold space_of
        rw [if_neg (by simpa using hd)]
      rw [strtoas_nondigit _ hnd, e2]
      by_cases hall : ∀ c ∈ d :: t, is_posix_alnum c = true
      · have hp : ((d :: t) ++ ':' :: V).dropWhile is_posix_alnum = ':' :: V := by
          rw [dropWhile_append_stop _ _ _ _ (by decide)]
          rw [List.dropWhile_eq_nil_iff.mpr hall]
          rfl
        have h6 := name_test (d :: t) V "KVADDR".toList "kvaddr".toList 6 rfl (by decide) hall
        have h9 := name_test (d :: t) V "KPHYSADDR".toList "kphysaddr".toList 9 rfl
          (by decide) hall
        have h12 := name_test (d :: t) V "MACHPHYSADDR".toList "machphysaddr".toList 12 rfl
          (by decide) hall
        rw [hp]
        simp only [h6, h9, h12]
        constructor
        · intro a h
          split_ifs at h ⊢ <;> simp_all
        · intro h _
          split_ifs at h ⊢
          simpa using hd0
      · have hn6 : ¬ (d :: t).map Char.toLower = "kvaddr".toList := fun h =>
          hall (lower_name_alnum _ _ h (by decide))
        have hn9 : ¬ (d :: t).map Char.toLower = "kphysaddr".toList := fun h =>
          hall (lower_name_alnum _ _ h (by decide))
        have hn12 : ¬ (d :: t).map Char.toLower = "machphysaddr".toList := fun h =>
          hall (lower_name_alnum _ _ h (by decide))
        rw [if_neg hn6, if_neg hn9, if_neg hn12]
        refine ⟨fun a h => absurd h (by simp), fun _ _ => ?_⟩
        have hp : ∃ c r, ((d :: t) ++ ':' :: V).dropWhile is_posix_alnum = c :: r ∧ c ≠ ':' := by
          rw [dropWhile_append_stop _ _ _ _ (by decide)]
          cases hh : (d :: t).dropWhile is_posix_alnum with
          | nil => exact absurd (List.dropWhile_eq_nil_iff.mp hh) hall
          | cons c r =>
            refine ⟨c, r ++ ':' :: V, rfl, fun e => hS ?_⟩
            exact dropWhile_mem is_posix_alnum _ _ (by rw [hh, e]; simp)
        obtain ⟨c, r, hcr, hc⟩ := hp
        rw [hcr]
        split_ifs <;> simp [hc, hd0]

theorem unsigned_of_some (V : List Char) (n : Nat) (h : unsigned_of V = some n) :
    (V.isEmpty || !(strtoull V).2.isEmpty) = false ∧ (strtoull V).1 = n := by
  unfold unsigned_of at h
  split_ifs at h with hc
  simp only [Option.some.injEq] at h
  refine ⟨?_, h⟩
  obtain ⟨h1, h2⟩ := hc
  cases V with
  | nil => exact absurd rfl h1
  | cons c r => simp [h2]

theorem unsigned_of_none (V : List Char) (h : unsigned_of V = none) :
    (V.isEmpty || !(strtoull V).2.isEmpty) = true := by
  unfold unsigned_of at h
  split_ifs at h with hc
  cases V with
  | nil => rfl
  | cons c r =>
    have : (strtoull (c :: r)).2 ≠ [] := fun e => hc ⟨by simp, e⟩
    cases hh : (strtoull (c :: r)).2 with
    | nil => exact absurd hh this
    | cons x y => simp

theorem parse_fulladdr_cases (v : List Char) (var : opt_fulladdr) :
    (∀ a, fulladdr_of v = some a → parse_fulladdr (some v) var = (.PARSE_OK, a)) ∧
    (fulladdr_of v = none → (parse_fulladdr (some v) var).1 = .PARSE_BADVAL) := by
  rcases split_at_colon v with ⟨hd, hm⟩ | ⟨V, hd, hv, hm⟩
  · have e : fulladdr_of v = none := by
      unfold fulladdr_of
      rw [hd]
    rw [e]
    refine ⟨fun a h => absurd h (by simp), fun _ => ?_⟩
    have hh : (strtoas v).2.head? ≠ some ':' := by
      intro e1
      exact hm (strtoas_rest_mem v _ (List.mem_of_mem_head? e1))
    unfold parse_fulladdr
    simp only
    rw [if_pos (Or.inr hh)]
  · have e : fulladdr_of v
        = match space_of (v.takeWhile (fun c => c != ':')), unsigned_of V with
          | some a, some n => some { addr := n, as := a }
          | _, _ => none := by
      unfold fulladdr_of
      rw [hd]
    rw [e]
    generalize v.takeWhile (fun c => c != ':') = S at hv hm
    subst hv
    clear e hd
    cases hsp : space_of S with
    | none =>
      refine ⟨fun a h => absurd h (by simp), fun _ => ?_⟩
      unfold parse_fulladdr
      simp only
      by_cases hS : S = []
      · subst hS
        have h0 : ([] ++ ':' :: V).head? = some ':' ∨
            (strtoas ([] ++ ':' :: V)).2.head? ≠ some ':' := Or.inl rfl
        rw [if_pos h0]
      · rw [if_pos (Or.inr ((strtoas_colon S V hm).2 hsp hS))]
    | some a =>
      have hS : S ≠ [] := by
        intro e
        rw [e, space_of_nil] at hsp
        exact absurd hsp (by simp)
      have has := (strtoas_colon S V hm).1 a hsp
      have hhead : ¬ ((S ++ ':' :: V).head? = some ':' ∨
          (strtoas (S ++ ':' :: V)).2.head? ≠ some ':') := by
        rw [has]
        rintro (h | h)
        · cases S with
          | nil => exact hS rfl
          | cons c r =>
            simp only [List.cons_append, List.head?_cons, Option.some.injEq] at h
            exact hm (by simp [h])
        · exact h rfl
      cases hu : unsigned_of V with
      | none =>
        refine ⟨fun a h => absurd h (by simp), fun _ => ?_⟩
        unfold parse_fulladdr
        simp only
        rw [if_neg hhead, has]
        simp only [List.tail_cons]
        rw [if_pos (unsigned_of_none V hu)]
      | some n =>
        refine ⟨fun b h => ?_, fun h => absurd h (by simp)⟩
        simp only [Option.some.injEq] at h
        obtain ⟨h1, h2⟩ := unsigned_of_some V n hu
        unfold parse_fulladdr
        simp only
        rw [if_neg hhead, has]
        simp only [List.tail_cons]
        rw [if_neg (by simp [h1]), h2, ← h]

theorem digit_val_hex (d : Nat) (h : d < 16) : digit_val (hex_digit_char d) = some d := by
  interval_cases d <;> decide

theorem is_digit_of_hex (d : Nat) (h : d < 16) : is_digit_of 16 (hex_digit_char d) = true := by
  unfold is_digit_of
  rw [digit_val_hex d h]
  exact decide_eq_true h

theorem digits_value_snoc (b : Nat) (ds : List Char) (c : Char) :
    digits_value b (ds ++ [c]) = digits_value b ds * b + (digit_val c).getD 0 := by
  simp [digits_value, List.foldl_append]

theorem format_hex_aux_spec (fuel : Nat) :
    ∀ v acc, v < 16 ^ fuel → 0 < fuel →
      ∃ ds, format_hex_aux fuel v acc = ds ++ acc ∧ ds ≠ [] ∧
        (∀ c ∈ ds, is_digit_of 16 c = true) ∧ digits_value 16 ds = v := by
  induction fuel with
  | zero => intro v acc _ h; exact absurd h (by decide)
  | succ n ih =>
    intro v acc hv _
    have hm : v % 16 < 16 := Nat.mod_lt _ (by decide)
    unfold format_hex_aux
    split_ifs with h0
    · refine ⟨[hex_digit_char (v % 16)], rfl, by simp, ?_, ?_⟩
      · intro c hc
        simp only [List.mem_singleton] at hc
        rw [hc]
        exact is_digit_of_hex _ hm
      · have := digits_value_snoc 16 [] (hex_digit_char (v % 16))
        simp only [List.nil_append] at this
        rw [this, digit_val_hex _ hm]
        have e : digits_value 16 [] = 0 := rfl
        rw [e]
        simp only [Option.getD_some]
        omega
    · have hn : 0 < n := by
        rcases Nat.eq_zero_or_pos n with e | e
        · subst e
          simp only [zero_add, pow_one] at hv
          omega
        · exact e
      have hv2 : v / 16 < 16 ^ n := by
        rw [pow_succ] at hv
        exact Nat.div_lt_of_lt_mul (by rw [Nat.mul_comm]; exact hv)
      obtain ⟨ds, e, hne, hd, hval⟩ := ih (v / 16) (hex_digit_char (v % 16) :: acc) hv2 hn
      refine ⟨ds ++ [hex_digit_char (v % 16)], ?_, by simp, ?_, ?_⟩
      · rw [e]
        simp
      · intro c hc
        rcases List.mem_append.mp hc with h | h
        · exact hd c h
        · simp only [List.mem_singleton] at h
          rw [h]
          exact is_digit_of_hex _ hm
      · rw [digits_value_snoc, hval, digit_val_hex _ hm]
        simp only [Option.getD_some]
        omega

theorem format_hex_spec (v : Nat) (hv : v < 2 ^ 64) :
    format_hex v ≠ [] ∧ (∀ c ∈ format_hex v, is_digit_of 16 c = true) ∧
      digits_value 16 (format_hex v) = v := by
  obtain ⟨ds, e, hne, hd, hval⟩ := format_hex_aux_spec 16 v [] (by
    have : (16 : Nat) ^ 16 = 2 ^ 64 := by norm_num
    omega) (by decide)
  unfold format_hex
  rw [e, List.append_nil]
  exact ⟨hne, hd, hval⟩

theorem strtoull_hex (ds : List Char) (hne : ds ≠ [])
    (hd : ∀ c ∈ ds, is_digit_of 16 c = true) (hv : digits_value 16 ds < 2 ^ 64) :
    strtoull ('0' :: 'x' :: ds) = (digits_value 16 ds, []) := by
  obtain ⟨h1, t1, rfl⟩ : ∃ h1 t1, ds = h1 :: t1 := by
    cases ds with
    | nil => exact absurd rfl hne
    | cons a b => exact ⟨a, b, rfl⟩
  have hh : is_digit_of 16 h1 = true := hd h1 (by simp)
  have e1 : strto_digits ('0' :: 'x' :: h1 :: t1)
      = some (digits_value 16 (h1 :: t1), []) := by
    rw [strto_digits_hex 'x' h1 t1 (by simp [hh])]
    rw [List.takeWhile_eq_self_iff.mpr hd, List.dropWhile_eq_nil_iff.mpr hd]
  have e2 : strto_core ('0' :: 'x' :: h1 :: t1)
      = some (false, digits_value 16 (h1 :: t1), []) := by
    unfold strto_core
    have : ('0' :: 'x' :: h1 :: t1).dropWhile c_isspace = '0' :: 'x' :: h1 :: t1 := by
      rw [List.dropWhile_cons_of_neg (by decide)]
    rw [this, strto_signed_digit _ '0' ('x' :: h1 :: t1) rfl (by decide), e1]
    rfl
  unfold strtoull strtoul
  rw [e2]
  simp only
  rw [if_neg (by omega)]
  rfl

theorem unsigned_of_hex (v : Nat) (hv : v < 2 ^ 64) :
    unsigned_of ('0' :: 'x' :: format_hex v) = some v := by
  obtain ⟨hne, hd, hval⟩ := format_hex_spec v hv
  have := strtoull_hex (format_hex v) hne hd (by rw [hval]; exact hv)
  unfold unsigned_of
  rw [this, hval]
  simp

theorem fulladdr_of_append (S V : List Char) (hS : ':' ∉ S) :
    fulladdr_of (S ++ ':' :: V)
      = match space_of S, unsigned_of V with
        | some a, some n => some { addr := n, as := a }
        | _, _ => none := by
  have hp : ∀ c ∈ S, (c != ':') = true := by
    intro c hc
    simp only [bne_iff_ne, ne_eq]
    intro e
    exact hS (e ▸ hc)
  unfold fulladdr_of
  rw [dropWhile_append_stop _ _ _ _ (by simp), takeWhile_append_stop _ _ _ _ (by simp),
    List.dropWhile_eq_nil_iff.mpr hp, List.takeWhile_eq_self_iff.mpr hp]
  rfl

/-- C19: `parse_fulladdr` accepts exactly the strings `S:V`, `S` being the text
before the first `:`, where `S` is `KVADDR`, `KPHYSADDR` or `MACHPHYSADDR` in any
letter case or a number that starts with a digit, and `V` is a non-empty C-style
unsigned number read to the end of the string; it then yields the address space of
`S` and the value of `V`.  Every other string is a bad value: in particular a
string without `:`, an empty `S`, the name `NOADDR`, a known name followed by an
alphanumeric character, an empty `V`, and a `V` with trailing characters. -/
theorem parse_fulladdr_accepts (v : List Char) (var : opt_fulladdr) :
    (∀ a, fulladdr_of v = some a → parse_fulladdr (some v) var = (.PARSE_OK, a)) ∧
    (fulladdr_of v = none → (parse_fulladdr (some v) var).1 = .PARSE_BADVAL) ∧
    (':' ∉ v → (parse_fulladdr (some v) var).1 = .PARSE_BADVAL) ∧
    (∀ S V, ':' ∉ S → space_of S = none →
      (parse_fulladdr (some (S ++ ':' :: V)) var).1 = .PARSE_BADVAL) ∧
    (∀ S V, ':' ∉ S → unsigned_of V = none →
      (parse_fulladdr (some (S ++ ':' :: V)) var).1 = .PARSE_BADVAL) ∧
    space_of [] = none ∧ space_of "NOADDR".toList = none ∧
    space_of "KVADDRX".toList = none ∧ space_of "KVADDR2".toList = none ∧
    unsigned_of [] = none ∧ unsigned_of "0x10z".toList = none := by
  refine ⟨(parse_fulladdr_cases v var).1, (parse_fulladdr_cases v var).2, ?_, ?_, ?_,
    by decide, by decide, by decide, by decide, by decide, by decide⟩
  · intro h
    apply (parse_fulladdr_cases v var).2
    rcases split_at_colon v with ⟨hd, _⟩ | ⟨V, _, hv, _⟩
    · unfold fulladdr_of
      rw [hd]
    · exact absurd (by rw [hv]; simp) h
  · intro S V hS hsp
    apply (parse_fulladdr_cases _ var).2
    rw [fulladdr_of_append S V hS, hsp]
  · intro S V hS hu
    apply (parse_fulladdr_cases _ var).2
    rw [fulladdr_of_append S V hS, hu]
    cases space_of S <;> rfl

/-- Witness for C19: `kphysaddr:0x1000`, `2:010` and `MACHPHYSADDR:4096` are
accepted with the expected address space and value. -/
theorem parse_fulladdr_accepts_witness :
    parse_fulladdr (some "kphysaddr:0x1000".toList) zero_opts.rootpgt
        = (.PARSE_OK, { addr := 4096, as := .named .KPHYSADDR }) ∧
    parse_fulladdr (some "2:010".toList) zero_opts.rootpgt
        = (.PARSE_OK, { addr := 8, as := .numeric 2 }) ∧
    parse_fulladdr (some "MACHPHYSADDR:4096".toList) zero_opts.rootpgt
        = (.PARSE_OK, { addr := 4096, as := .named .MACHPHYSADDR }) :=
  ⟨(parse_fulladdr_accepts _ _).1 _ (by decide),
   (parse_fulladdr_accepts _ _).1 _ (by decide),
   (parse_fulladdr_accepts _ _).1 _ (by decide)⟩

/-- C20: for each of the address spaces `KVADDR`, `KPHYSADDR`, `MACHPHYSADDR` and
every 64-bit value, the text that `print_fulladdr` prints for the full address is
parsed by `parse_fulladdr` with success to exactly that address space and value;
`addrspace_name` gives the four distinct names `KPHYSADDR`, `MACHPHYSADDR`,
`KVADDR` and `NOADDR`. -/
theorem fulladdr_round_trip (as : addrxlat_addrspace_t) (v : Nat) (var : opt_fulladdr)
    (has : as ≠ .NOADDR) (hv : v < 2 ^ 64) :
    parse_fulladdr (some (print_fulladdr { addr := v, as := as })) var
        = (.PARSE_OK, { addr := v, as := .named as }) ∧
    addrspace_name .KPHYSADDR = "KPHYSADDR" ∧
    addrspace_name .MACHPHYSADDR = "MACHPHYSADDR" ∧
    addrspace_name .KVADDR = "KVADDR" ∧
    addrspace_name .NOADDR = "NOADDR" ∧
    Function.Injective addrspace_name := by
  refine ⟨?_, rfl, rfl, rfl, rfl, ?_⟩
  · apply (parse_fulladdr_cases _ var).1
    have hu := unsigned_of_hex v hv
    have key : ∀ name : List Char, ':' ∉ name → space_of name = some (.named as) →
        fulladdr_of (name ++ (":0x".toList ++ format_hex v))
          = some { addr := v, as := .named as } := by
      intro name hn hs
      have e : name ++ (":0x".toList ++ format_hex v)
          = name ++ ':' :: ('0' :: 'x' :: format_hex v) := rfl
      rw [e, fulladdr_of_append name _ hn, hs, hu]
    unfold print_fulladdr
    simp only
    rw [if_pos has]
    cases as with
    | NOADDR => exact absurd rfl has
    | KVADDR => exact key _ (by decide) (by decide)
    | KPHYSADDR => exact key _ (by decide) (by decide)
    | MACHPHYSADDR => exact key _ (by decide) (by decide)
  · intro a b h
    cases a <;> cases b <;> first | rfl | exact absurd h (by decide)

/-- Witness for C20: the kernel virtual address `0xdeadbeef` is printed as
`KVADDR:0xdeadbeef` and parsed back. -/
theorem fulladdr_round_trip_witness :
    print_fulladdr { addr := 0xdeadbeef, as := .KVADDR } = "KVADDR:0xdeadbeef".toList ∧
    parse_fulladdr (some (print_fulladdr { addr := 0xdeadbeef, as := .KVADDR }))
        zero_opts.rootpgt
      = (.PARSE_OK, { addr := 0xdeadbeef, as := .named .KVADDR }) :=
  ⟨by decide,
   (fulladdr_round_trip .KVADDR 0xdeadbeef zero_opts.rootpgt (by decide) (by norm_num)).1⟩

/-! ## Lemmas on the tokenizer of `parse_opts` -/

theorem plain_facts (c : Char) (h : is_plain c = true) :
    c ≠ NUL ∧ c ≠ SQUOTE ∧ c ≠ DQUOTE ∧ is_posix_space c = false ∧ c ≠ '=' := by
  simpa [is_plain, and_assoc] using h

theorem space_facts (c : Char) (h : is_posix_space c = true) :
    c ≠ NUL ∧ c ≠ SQUOTE ∧ c ≠ DQUOTE := by
  have : c = ' ' ∨ c = Char.ofNat 12 ∨ c = '\n' ∨ c = '\r' ∨ c = '\t' ∨ c = Char.ofNat 11 := by
    simpa [is_posix_space, or_assoc] using h
  rcases this with e | e | e | e | e | e <;> subst e <;> decide

/-- The input at which the inner loop of `parse_opts` stops outside quotes: the end
of the string or a white space. -/
theorem scan_token_stop (rest : List Char) (st : tok_state) (hq : st.quot = none)
    (hr : ∀ c, rest.head? = some c → c = NUL ∨ is_posix_space c = true) :
    scan_token rest st = (st, rest) := by
  cases rest with
  | nil => rfl
  | cons c r =>
    unfold scan_token
    by_cases h0 : c = NUL
    · rw [if_pos h0]
    · rw [if_neg h0]
      have hs : is_posix_space c = true := by
        rcases hr c rfl with h | h
        · exact absurd h h0
        · exact h
      obtain ⟨_, h1, h2⟩ := space_facts c hs
      rw [hq]
      simp only
      rw [if_neg (by simp [h1, h2]), if_pos hs]

theorem scan_token_plain (w : List Char) (hw : ∀ c ∈ w, is_plain c = true) :
    ∀ (rest : List Char) (st : tok_state), st.quot = none →
      scan_token (w ++ rest) st = scan_token rest { st with buf := st.buf ++ w } := by
  induction w with
  | nil =>
    intro rest st _
    simp
  | cons c w ih =>
    intro rest st hq
    obtain ⟨h0, h1, h2, h3, h4⟩ := plain_facts c (hw c (by simp))
    have e : scan_token (c :: (w ++ rest)) st
        = scan_token (w ++ rest) { st with buf := st.buf ++ [c] } := by
      conv_lhs => unfold scan_token
      rw [if_neg h0, hq]
      simp only
      rw [if_neg (by simp [h1, h2]), if_neg (by simp [h3]), if_neg h4]
    rw [List.cons_append, e,
      ih (fun x hx => hw x (by simp [hx])) rest { st with buf := st.buf ++ [c] } hq]
    simp

theorem scan_token_eq (rest : List Char) (st : tok_state) (hq : st.quot = none) :
    scan_token ('=' :: rest) st
      = scan_token rest
          { st with buf := st.buf ++ [NUL], val := some (st.buf.length + 1) } := by
  conv_lhs => unfold scan_token
  rw [if_neg (by decide), hq]
  simp only
  rw [if_neg (by decide), if_neg (by decide), if_pos trivial]

theorem scan_token_bare (key rest : List Char) (hk : ∀ c ∈ key, is_plain c = true)
    (hr : ∀ c, rest.head? = some c → c = NUL ∨ is_posix_space c = true) :
    scan_token (key ++ rest) { quot := none, buf := [], val := none }
      = ({ quot := none, buf := key, val := none }, rest) := by
  rw [scan_token_plain key hk rest _ rfl, scan_token_stop rest _ rfl hr]
  simp

theorem scan_token_keyval (key v rest : List Char) (hk : ∀ c ∈ key, is_plain c = true)
    (hv : ∀ c ∈ v, is_plain c = true)
    (hr : ∀ c, rest.head? = some c → c = NUL ∨ is_posix_space c = true) :
    scan_token (key ++ '=' :: (v ++ rest)) { quot := none, buf := [], val := none }
      = ({ quot := none, buf := key ++ NUL :: v, val := some (key.length + 1) }, rest) := by
  rw [scan_token_plain key hk _ _ rfl, scan_token_eq _ _ rfl, scan_token_plain v hv _ _ rfl,
    scan_token_stop rest _ rfl hr]
  simp

theorem cstr_stop (k r : List Char) (hk : ∀ c ∈ k, c ≠ NUL) : cstr (k ++ NUL :: r) = k := by
  unfold cstr
  rw [takeWhile_append_stop _ _ _ _ (by simp)]
  exact List.takeWhile_eq_self_iff.mpr (fun c hc => by simpa using hk c hc)

theorem plain_not_nul (w : List Char) (hw : ∀ c ∈ w, is_plain c = true) :
    ∀ c ∈ w, c ≠ NUL := fun c hc => (plain_facts c (hw c hc)).1

theorem parse_opts_loop_bare (fuel : Nat) (key rest : List Char) (popt : parsed_opts)
    (ctx : addrxlat_ctx_t) (hk : ∀ c ∈ key, is_plain c = true) (hne : key ≠ [])
    (hr : ∀ c, rest.head? = some c → c = NUL ∨ is_posix_space c = true) :
    parse_opts_loop (fuel + 1) (key ++ rest) popt ctx
      = if (parse_opt popt ctx key key.length none).1 ≠ .OK then
          some (parse_opt popt ctx key key.length none)
        else parse_opts_loop fuel (rest.dropWhile is_posix_space)
          (parse_opt popt ctx key key.length none).2.1
          (parse_opt popt ctx key key.length none).2.2 := by
  obtain ⟨c, t, rfl⟩ : ∃ c t, key = c :: t := by
    cases key with
    | nil => exact absurd rfl hne
    | cons c t => exact ⟨c, t, rfl⟩
  have hc : c ≠ NUL := (plain_facts c (hk c (by simp))).1
  have hhead : (((c :: t) ++ rest).isEmpty || ((c :: t) ++ rest).head? = some NUL) = false := by
    simp [hc]
  have hkey : cstr ((c :: t) ++ [NUL]) = c :: t := cstr_stop _ [] (plain_not_nul _ hk)
  rw [parse_opts_loop, hhead]
  simp only [Bool.false_eq_true, if_false]
  rw [scan_token_bare (c :: t) rest hk hr]
  simp only [hkey, Option.map_none', List.length_append, List.length_singleton,
    Nat.add_sub_cancel]

theorem parse_opts_loop_keyval (fuel : Nat) (key v rest : List Char) (popt : parsed_opts)
    (ctx : addrxlat_ctx_t) (hk : ∀ c ∈ key, is_plain c = true)
    (hv : ∀ c ∈ v, is_plain c = true)
    (hr : ∀ c, rest.head? = some c → c = NUL ∨ is_posix_space c = true) :
    parse_opts_loop (fuel + 1) (key ++ '=' :: (v ++ rest)) popt ctx
      = if (parse_opt popt ctx key key.length (some v)).1 ≠ .OK then
          some (parse_opt popt ctx key key.length (some v))
        else parse_opts_loop fuel (rest.dropWhile is_posix_space)
          (parse_opt popt ctx key key.length (some v)).2.1
          (parse_opt popt ctx key key.length (some v)).2.2 := by
  have hhead : ((key ++ '=' :: (v ++ rest)).isEmpty ||
      (key ++ '=' :: (v ++ rest)).head? = some NUL) = false := by
    cases key with
    | nil =>
      have : ('=' : Char) ≠ NUL := by decide
      simp [this]
    | cons c t =>
      have hc : c ≠ NUL := (plain_facts c (hk c (by simp))).1
      simp [hc]
  have hkey : cstr ((key ++ NUL :: v) ++ [NUL]) = key := by
    rw [List.append_assoc]
    exact cstr_stop _ _ (plain_not_nul _ hk)
  have hval : cstr (((key ++ NUL :: v) ++ [NUL]).drop (key.length + 1)) = v := by
    have : ((key ++ NUL :: v) ++ [NUL]).drop (key.length + 1) = v ++ [NUL] := by
      have e : (key ++ NUL :: v) ++ [NUL] = (key ++ [NUL]) ++ (v ++ [NUL]) := by simp
      rw [e]
      exact List.drop_left' (by simp)
    rw [this]
    exact cstr_stop _ [] (plain_not_nul _ hv)
  rw [parse_opts_loop, hhead]
  simp only [Bool.false_eq_true, if_false]
  rw [scan_token_keyval key v rest hk hv hr]
  simp only [hkey, hval, Option.map_some', Nat.add_sub_cancel]

theorem parse_opt_loop_find (popt : parsed_opts) (ctx : addrxlat_ctx_t) (key : List Char)
    (val : Option (List Char)) (l : List (optidx × List Char)) :
    parse_opt_loop popt ctx key val l
      = match l.find? (fun e => strcasecmp_eq key e.2) with
        | none =>
          ((set_error ctx .ERR_NOTIMPL ("Unknown option: " ++ String.mk key)).1, popt,
           (set_error ctx .ERR_NOTIMPL ("Unknown option: " ++ String.mk key)).2)
        | some e =>
          if (parse_val popt e.1 val).1 ≠ .PARSE_OK then
            ((parse_error ctx e.1 val (parse_val popt e.1 val).1).1, (parse_val popt e.1 val).2,
             (parse_error ctx e.1 val (parse_val popt e.1 val).1).2)
          else
            (.OK, { (parse_val popt e.1 val).2 with
                    isset := fun i => if i = e.1 then true
                                      else (parse_val popt e.1 val).2.isset i }, ctx) := by
  induction l with
  | nil => rfl
  | cons e t ih =>
    obtain ⟨idx, name⟩ := e
    unfold parse_opt_loop
    by_cases h : strcasecmp_eq key name = true
    · rw [if_pos h]
      simp only [List.find?, h]
    · rw [if_neg h, ih]
      simp only [List.find?, h]

theorem strcasecmp_eq_iff (a b : List Char) :
    strcasecmp_eq a b = true ↔ a.map Char.toLower = b.map Char.toLower := by
  simp [strcasecmp_eq]

theorem options_cases (n : Nat) :
    n = 6 ∨ n = 7 ∨ n = 8 ∨ n = 9 ∨ n = 11 ∨ options n = [] := by
  by_cases h6 : n = 6
  · exact Or.inl h6
  by_cases h7 : n = 7
  · exact Or.inr (Or.inl h7)
  by_cases h8 : n = 8
  · exact Or.inr (Or.inr (Or.inl h8))
  by_cases h9 : n = 9
  · exact Or.inr (Or.inr (Or.inr (Or.inl h9)))
  by_cases h11 : n = 11
  · exact Or.inr (Or.inr (Or.inr (Or.inr (Or.inl h11))))
  · refine Or.inr (Or.inr (Or.inr (Or.inr (Or.inr ?_))))
    unfold options
    split <;> first | rfl | omega

theorem key_option_iff (key : List Char) (idx : optidx) :
    key_option key = some idx ↔
      idx ≠ .OPT_pte_mask ∧ key.map Char.toLower = (optnames idx).toList := by
  constructor
  · intro h
    unfold key_option at h
    rcases options_cases key.length with e | e | e | e | e | e <;> rw [e] at h
    · simp only [options, List.find?, Option.map_eq_some'] at h
      obtain ⟨a, ha, hidx⟩ := h
      split at ha
      · rename_i hc
        simp only [Option.some.injEq] at ha
        subst ha
        subst hidx
        exact ⟨by decide, (strcasecmp_eq_iff _ _).mp hc⟩
      · exact absurd ha (by simp)
    · simp only [options, List.find?, Option.map_eq_some'] at h
      obtain ⟨a, ha, hidx⟩ := h
      split at ha
      · rename_i hc
        simp only [Option.some.injEq] at ha
        subst ha
        subst hidx
        exact ⟨by decide, (strcasecmp_eq_iff _ _).mp hc⟩
      · exact absurd ha (by simp)
    · simp only [options, List.find?, Option.map_eq_some'] at h
      obtain ⟨a, ha, hidx⟩ := h
      split at ha
      · rename_i hc
        simp only [Option.some.injEq] at ha
        subst ha
        subst hidx
        exact ⟨by decide, (strcasecmp_eq_iff _ _).mp hc⟩
      · split at ha
        · rename_i hc
          simp only [Option.some.injEq] at ha
          subst ha
          subst hidx
          exact ⟨by decide, (strcasecmp_eq_iff _ _).mp hc⟩
        · exact absurd ha (by simp)
    · simp only [options, List.find?, Option.map_eq_some'] at h
      obtain ⟨a, ha, hidx⟩ := h
      split at ha
      · rename_i hc
        simp only [Option.some.injEq] at ha
        subst ha
        subst hidx
        exact ⟨by decide, (strcasecmp_eq_iff _ _).mp hc⟩
      · exact absurd ha (by simp)
    · simp only [options, List.find?, Option.map_eq_some'] at h
      obtain ⟨a, ha, hidx⟩ := h
      split at ha
      · rename_i hc
        simp only [Option.some.injEq] at ha
        subst ha
        subst hidx
        exact ⟨by decide, (strcasecmp_eq_iff _ _).mp hc⟩
      · exact absurd ha (by simp)
    · simp at h
  · rintro ⟨hne, h⟩
    have hlen : key.length = (optnames idx).toList.length := by
      rw [← h, List.length_map]
    unfold key_option
    cases idx with
    | OPT_pte_mask => exact absurd rfl hne
    | OPT_levels =>
      have hc : strcasecmp_eq key "levels".toList = true := (strcasecmp_eq_iff _ _).mpr h
      have e : key.length = 6 := hlen
      rw [e]
      simp only [options, List.find?, hc, Option.map_some']
    | OPT_pagesize =>
      have hc : strcasecmp_eq key "pagesize".toList = true := (strcasecmp_eq_iff _ _).mpr h
      have e : key.length = 8 := hlen
      rw [e]
      simp only [options, List.find?, hc, Option.map_some']
    | OPT_phys_base =>
      have hc : strcasecmp_eq key "phys_base".toList = true := (strcasecmp_eq_iff _ _).mpr h
      have e : key.length = 9 := hlen
      rw [e]
      simp only [options, List.find?, hc, Option.map_some']
    | OPT_rootpgt =>
      have hc : strcasecmp_eq key "rootpgt".toList = true := (strcasecmp_eq_iff _ _).mpr h
      have e : key.length = 7 := hlen
      rw [e]
      simp only [options, List.find?, hc, Option.map_some']
    | OPT_xen_p2m_mfn =>
      have hc : strcasecmp_eq key "xen_p2m_mfn".toList = true :=
        (strcasecmp_eq_iff _ _).mpr h
      have e : key.length = 11 := hlen
      rw [e]
      simp only [options, List.find?, hc, Option.map_some']
    | OPT_xen_xlat =>
      have hc : strcasecmp_eq key "xen_xlat".toList = true := (strcasecmp_eq_iff _ _).mpr h
      have hn : ¬ strcasecmp_eq key "pagesize".toList = true := by
        rw [strcasecmp_eq_iff, h]
        decide
      have e : key.length = 8 := hlen
      rw [e]
      simp only [options, List.find?, hc, hn, Option.map_some']

theorem number_of_some (v : List Char) (n : Int) (h : number_of v = some n) :
    (v.isEmpty || !(strtol v).2.isEmpty) = false ∧ (strtol v).1 = n := by
  unfold number_of at h
  split_ifs at h with hc
  simp only [Option.some.injEq] at h
  refine ⟨?_, h⟩
  obtain ⟨h1, h2⟩ := hc
  cases v with
  | nil => exact absurd rfl h1
  | cons c r => simp [h2]

theorem number_of_none (v : List Char) (h : number_of v = none) :
    (v.isEmpty || !(strtol v).2.isEmpty) = true := by
  unfold number_of at h
  split_ifs at h with hc
  cases v with
  | nil => rfl
  | cons c r =>
    have : (strtol (c :: r)).2 ≠ [] := fun e => hc ⟨by simp, e⟩
    cases hh : (strtol (c :: r)).2 with
    | nil => exact absurd hh this
    | cons x y => simp

theorem parse_number_cases (v : List Char) (var : Int) :
    (∀ n, number_of v = some n → parse_number (some v) var = (.PARSE_OK, n)) ∧
    (number_of v = none → (parse_number (some v) var).1 = .PARSE_BADVAL) := by
  constructor
  · intro n h
    obtain ⟨h1, h2⟩ := number_of_some v n h
    unfold parse_number
    simp only
    rw [if_neg (by simp [h1]), h2]
  · intro h
    unfold parse_number
    simp only
    rw [if_pos (number_of_none v h)]

theorem parse_addr_cases (v : List Char) (var : Nat) :
    (∀ n, unsigned_of v = some n → parse_addr (some v) var = (.PARSE_OK, n)) ∧
    (unsigned_of v = none → (parse_addr (some v) var).1 = .PARSE_BADVAL) := by
  constructor
  · intro n h
    obtain ⟨h1, h2⟩ := unsigned_of_some v n h
    unfold parse_addr
    simp only
    rw [if_neg (by simp [h1]), h2]
  · intro h
    unfold parse_addr
    simp only
    rw [if_pos (unsigned_of_none v h)]

theorem parse_bool_cases (v : List Char) (var : Bool) :
    (∀ b, bool_of v = some b → parse_bool (some v) var = (.PARSE_OK, b)) ∧
    (bool_of v = none → (parse_bool (some v) var).1 = .PARSE_BADVAL) := by
  have e1 : ∀ name : List Char, name.map Char.toLower = name →
      ((strcasecmp_eq v name = true) ↔ v.map Char.toLower = name) := by
    intro name hn
    rw [strcasecmp_eq_iff, hn]
  have hy := e1 "yes".toList (by decide)
  have ht := e1 "true".toList (by decide)
  have hn := e1 "no".toList (by decide)
  have hf := e1 "false".toList (by decide)
  unfold parse_bool bool_of
  simp only [Bool.or_eq_true, hy, ht, hn, hf]
  by_cases c1 : v.map Char.toLower = "yes".toList ∨ v.map Char.toLower = "true".toList
  · rw [if_pos c1, if_pos c1]
    exact ⟨fun b h => by rw [← Option.some.inj h], fun h => absurd h (by simp)⟩
  · rw [if_neg c1, if_neg c1]
    by_cases c2 : v.map Char.toLower = "no".toList ∨ v.map Char.toLower = "false".toList
    · rw [if_pos c2, if_pos c2]
      exact ⟨fun b h => by rw [← Option.some.inj h], fun h => absurd h (by simp)⟩
    · rw [if_neg c2, if_neg c2]
      cases hnum : number_of v with
      | none =>
        refine ⟨fun b h => absurd h (by simp), fun _ => ?_⟩
        have := number_of_none v hnum
        simp only [Bool.or_eq_true] at this
        rw [if_pos this]
      | some n =>
        obtain ⟨h1, h2⟩ := number_of_some v n hnum
        refine ⟨fun b h => ?_, fun h => absurd h (by simp)⟩
        simp only [Option.map_some', Option.some.injEq] at h
        simp only [Bool.or_eq_false_iff] at h1
        rw [if_neg (by simp [h1.1, h1.2]), h2, ← h]

theorem parse_val_store (popt : parsed_opts) (idx : optidx) (v : List Char) (p : parsed_opts)
    (h : store_option popt idx v = some p) :
    (parse_val popt idx (some v)).1 = .PARSE_OK ∧
    { (parse_val popt idx (some v)).2 with
      isset := fun i => if i = idx then true
                        else (parse_val popt idx (some v)).2.isset i } = p := by
  cases idx with
  | OPT_levels =>
    simp only [store_option, Option.map_eq_some'] at h
    obtain ⟨n, hn, hp⟩ := h
    have := (parse_number_cases v popt.levels).1 n hn
    simp only [parse_val, this]
    exact ⟨trivial, hp⟩
  | OPT_pagesize =>
    simp only [store_option, Option.map_eq_some'] at h
    obtain ⟨n, hn, hp⟩ := h
    have := (parse_number_cases v popt.pagesize).1 n hn
    simp only [parse_val, this]
    exact ⟨trivial, hp⟩
  | OPT_phys_base =>
    simp only [store_option, Option.map_eq_some'] at h
    obtain ⟨n, hn, hp⟩ := h
    have := (parse_addr_cases v popt.phys_base).1 n hn
    simp only [parse_val, this]
    exact ⟨trivial, hp⟩
  | OPT_rootpgt =>
    simp only [store_option, Option.map_eq_some'] at h
    obtain ⟨n, hn, hp⟩ := h
    have := (parse_fulladdr_cases v popt.rootpgt).1 n hn
    simp only [parse_val, this]
    exact ⟨trivial, hp⟩
  | OPT_xen_p2m_mfn =>
    simp only [store_option, Option.map_eq_some'] at h
    obtain ⟨n, hn, hp⟩ := h
    have := (parse_number_cases v popt.xen_p2m_mfn).1 n hn
    simp only [parse_val, this]
    exact ⟨trivial, hp⟩
  | OPT_xen_xlat =>
    simp only [store_option, Option.map_eq_some'] at h
    obtain ⟨n, hn, hp⟩ := h
    have := (parse_bool_cases v popt.xen_xlat).1 n hn
    simp only [parse_val, this]
    exact ⟨trivial, hp⟩
  | OPT_pte_mask => simp [store_option] at h

theorem parse_val_store_none (popt : parsed_opts) (idx : optidx) (v : List Char)
    (hne : idx ≠ .OPT_pte_mask) (h : store_option popt idx v = none) :
    (parse_val popt idx (some v)).1 = .PARSE_BADVAL := by
  cases idx with
  | OPT_levels =>
    simp only [store_option, Option.map_eq_none'] at h
    simpa only [parse_val] using (parse_number_cases v popt.levels).2 h
  | OPT_pagesize =>
    simp only [store_option, Option.map_eq_none'] at h
    simpa only [parse_val] using (parse_number_cases v popt.pagesize).2 h
  | OPT_phys_base =>
    simp only [store_option, Option.map_eq_none'] at h
    simpa only [parse_val] using (parse_addr_cases v popt.phys_base).2 h
  | OPT_rootpgt =>
    simp only [store_option, Option.map_eq_none'] at h
    simpa only [parse_val] using (parse_fulladdr_cases v popt.rootpgt).2 h
  | OPT_xen_p2m_mfn =>
    simp only [store_option, Option.map_eq_none'] at h
    simpa only [parse_val] using (parse_number_cases v popt.xen_p2m_mfn).2 h
  | OPT_xen_xlat =>
    simp only [store_option, Option.map_eq_none'] at h
    simpa only [parse_val] using (parse_bool_cases v popt.xen_xlat).2 h
  | OPT_pte_mask => exact absurd rfl hne

theorem parse_opt_known (popt : parsed_opts) (ctx : addrxlat_ctx_t) (key : List Char)
    (val : Option (List Char)) (idx : optidx) (h : key_option key = some idx) :
    parse_opt popt ctx key key.length val
      = if (parse_val popt idx val).1 ≠ .PARSE_OK then
          ((parse_error ctx idx val (parse_val popt idx val).1).1, (parse_val popt idx val).2,
           (parse_error ctx idx val (parse_val popt idx val).1).2)
        else
          (.OK, { (parse_val popt idx val).2 with
                  isset := fun i => if i = idx then true
                                    else (parse_val popt idx val).2.isset i }, ctx) := by
  unfold key_option at h
  simp only [Option.map_eq_some'] at h
  obtain ⟨e, he, hidx⟩ := h
  unfold parse_opt
  rw [parse_opt_loop_find, he]
  simp only [hidx]

theorem parse_opt_unknown (popt : parsed_opts) (ctx : addrxlat_ctx_t) (key : List Char)
    (klen : Nat) (val : Option (List Char))
    (h : ∀ e ∈ options klen, strcasecmp_eq key e.2 = false) :
    parse_opt popt ctx key klen val
      = (.ERR_NOTIMPL, popt,
         { ctx with err := ("Unknown option: " ++ String.mk key) :: ctx.err }) := by
  have : (options klen).find? (fun e => strcasecmp_eq key e.2) = none := by
    rw [List.find?_eq_none]
    intro e he
    simp [h e he]
  unfold parse_opt
  rw [parse_opt_loop_find, this]
  rfl

theorem store_option_effect (popt : parsed_opts) (idx : optidx) (v : List Char)
    (p : parsed_opts) (h : store_option popt idx v = some p) :
    field_holds p idx v ∧ (∀ j, j ≠ idx → field_same p popt j) ∧
    (∀ i, p.isset i = if i = idx then true else popt.isset i) := by
  cases idx
  case OPT_pte_mask => simp [store_option] at h
  all_goals
    simp only [store_option, Option.map_eq_some'] at h
    obtain ⟨n, hn, hp⟩ := h
    subst hp
    refine ⟨hn, ?_, fun i => rfl⟩
    intro j hj
    cases j <;> first | rfl | exact absurd rfl hj

theorem field_same_trans (p q r : parsed_opts) (i : optidx) (h1 : field_same p q i)
    (h2 : field_same q r i) : field_same p r i := by
  cases i <;> exact Eq.trans h1 h2

theorem field_holds_same (p q : parsed_opts) (i : optidx) (v : List Char)
    (h1 : field_same p q i) (h2 : field_holds q i v) : field_holds p i v := by
  cases i
  all_goals first
    | exact h2
    | (simp only [field_holds] at h2 ⊢
       simp only [field_same] at h1
       rw [h1]
       exact h2)

theorem store_tokens_effect (ts : List opt_token) :
    ∀ (popt p : parsed_opts), store_tokens popt ts = some p → ∀ i,
      match last_value ts i with
      | some v => field_holds p i v ∧ p.isset i = true
      | none => field_same p popt i ∧ p.isset i = popt.isset i := by
  induction ts with
  | nil =>
    intro popt p h i
    simp only [store_tokens, Option.some.injEq] at h
    subst h
    simp only [last_value]
    exact ⟨by cases i <;> rfl, trivial⟩
  | cons t rest ih =>
    intro popt p h i
    unfold store_tokens at h
    cases hk : key_option t.key with
    | none => simp [hk] at h
    | some idx =>
      cases hv : t.val with
      | none => simp [hk, hv] at h
      | some v =>
        cases hs : store_option popt idx v with
        | none => simp [hk, hv, hs] at h
        | some p1 =>
          simp only [hk, hv, hs] at h
          have h1 := ih p1 p h i
          obtain ⟨e1, e2, e3⟩ := store_option_effect popt idx v p1 hs
          unfold last_value
          cases hl : last_value rest i with
          | some w =>
            rw [hl] at h1
            exact h1
          | none =>
            rw [hl] at h1
            simp only [hk, hv, Option.some.injEq]
            by_cases hi : idx = i
            · subst hi
              rw [if_pos rfl]
              refine ⟨field_holds_same _ _ _ _ h1.1 e1, ?_⟩
              rw [h1.2, e3, if_pos rfl]
            · rw [if_neg hi]
              have hi2 : i ≠ idx := fun e => hi e.symm
              refine ⟨field_same_trans _ _ _ _ h1.1 (e2 i hi2), ?_⟩
              rw [h1.2, e3, if_neg hi2]

theorem last_value_some_iff (ts : List opt_token) (i : optidx)
    (hv : ∀ t ∈ ts, t.val ≠ none) :
    (last_value ts i).isSome = true ↔ ∃ t ∈ ts, key_option t.key = some i := by
  induction ts with
  | nil => simp [last_value]
  | cons t rest ih =>
    have ih2 := ih (fun x hx => hv x (by simp [hx]))
    unfold last_value
    cases hl : last_value rest i with
    | some w =>
      rw [hl] at ih2
      obtain ⟨x, hx, hk⟩ := ih2.mp rfl
      simp only [Option.isSome_some, List.mem_cons, true_iff]
      exact ⟨x, Or.inr hx, hk⟩
    | none =>
      rw [hl] at ih2
      simp only [Option.isSome_none, Bool.false_eq_true, false_iff, not_exists, not_and] at ih2
      simp only
      by_cases hk : key_option t.key = some i
      · rw [if_pos hk]
        have := hv t (by simp)
        constructor
        · intro _
          exact ⟨t, by simp, hk⟩
        · intro _
          cases hh : t.val with
          | none => exact absurd hh this
          | some w => rfl
      · rw [if_neg hk]
        simp only [Option.isSome_none, Bool.false_eq_true, List.mem_cons, false_iff, not_exists,
          not_and]
        intro x hx
        rcases hx with e | e
        · rw [e]
          exact hk
        · exact ih2 x e

theorem store_tokens_vals (ts : List opt_token) :
    ∀ (popt p : parsed_opts), store_tokens popt ts = some p → ∀ t ∈ ts, t.val ≠ none := by
  induction ts with
  | nil => intro _ _ _ t ht; simp at ht
  | cons t rest ih =>
    intro popt p h x hx
    unfold store_tokens at h
    cases hk : key_option t.key with
    | none => simp [hk] at h
    | some idx =>
      cases hv : t.val with
      | none => simp [hk, hv] at h
      | some v =>
        cases hs : store_option popt idx v with
        | none => simp [hk, hv, hs] at h
        | some p1 =>
          simp only [hk, hv, hs] at h
          rcases List.mem_cons.mp hx with e | e
          · rw [e, hv]
            simp
          · exact ih p1 p h x e

theorem tokens_plain_cons (t : opt_token) (rest : List opt_token)
    (h : tokens_plain (t :: rest) = true) :
    t.key ≠ [] ∧ (∀ c ∈ t.key, is_plain c = true) ∧
    (∀ c ∈ t.val.getD [], is_plain c = true) ∧
    (∀ c ∈ t.sep, is_posix_space c = true) ∧ (t.sep = [] → rest = []) ∧
    tokens_plain rest = true := by
  unfold tokens_plain at h
  simp only [Bool.and_eq_true, Bool.or_eq_true, Bool.not_eq_true', List.all_eq_true,
    List.isEmpty_eq_false, List.isEmpty_iff] at h
  obtain ⟨⟨⟨⟨⟨h1, h2⟩, h3⟩, h4⟩, h5⟩, h6⟩ := h
  refine ⟨h1, h2, h3, h4, ?_, h6⟩
  intro e
  rcases h5 with h | h
  · exact absurd e h
  · exact h

theorem render_head (ts : List opt_token) (h : tokens_plain ts = true) :
    ∀ c, (render ts).head? = some c → is_posix_space c = false := by
  cases ts with
  | nil => intro c hc; simp [render] at hc
  | cons t rest =>
    obtain ⟨h1, h2, _⟩ := tokens_plain_cons t rest h
    intro c hc
    obtain ⟨k, r, hk⟩ : ∃ k r, t.key = k :: r := by
      cases hh : t.key with
      | nil => exact absurd hh h1
      | cons k r => exact ⟨k, r, rfl⟩
    have : (render (t :: rest)).head? = some k := by
      show (t.word ++ t.sep ++ render rest).head? = some k
      unfold opt_token.word
      cases t.val <;> simp [hk]
    rw [this] at hc
    simp only [Option.some.injEq] at hc
    subst hc
    exact (plain_facts k (h2 k (by rw [hk]; simp))).2.2.2.1

theorem dropWhile_space_append (sep r : List Char)
    (hs : ∀ c ∈ sep, is_posix_space c = true)
    (hr : ∀ c, r.head? = some c → is_posix_space c = false) :
    (sep ++ r).dropWhile is_posix_space = r := by
  induction sep with
  | nil =>
    cases r with
    | nil => rfl
    | cons c t =>
      simp only [List.nil_append]
      exact List.dropWhile_cons_of_neg (by simp [hr c rfl])
  | cons a t ih =>
    rw [List.cons_append, List.dropWhile_cons_of_pos (hs a (by simp))]
    exact ih (fun c hc => hs c (by simp [hc]))

theorem sep_render_stop (t : opt_token) (rest : List opt_token)
    (h : tokens_plain (t :: rest) = true) :
    ∀ c, (t.sep ++ render rest).head? = some c → c = NUL ∨ is_posix_space c = true := by
  obtain ⟨_, _, _, h4, h5, _⟩ := tokens_plain_cons t rest h
  intro c hc
  cases hs : t.sep with
  | nil =>
    rw [hs, h5 hs] at hc
    simp [render] at hc
  | cons a b =>
    rw [hs] at hc
    simp only [List.cons_append, List.head?_cons, Option.some.injEq] at hc
    subst hc
    exact Or.inr (h4 a (by rw [hs]; simp))

theorem parse_opts_loop_tokens (ctx : addrxlat_ctx_t) (ts : List opt_token) :
    ∀ (popt p : parsed_opts) (fuel : Nat), tokens_plain ts = true →
      store_tokens popt ts = some p → ts.length < fuel →
      parse_opts_loop fuel (render ts) popt ctx = some (.OK, p, ctx) := by
  induction ts with
  | nil =>
    intro popt p fuel _ h hf
    obtain ⟨f, rfl⟩ : ∃ f, fuel = f + 1 := ⟨fuel - 1, by simp only [List.length_nil] at hf; omega⟩
    simp only [store_tokens, Option.some.injEq] at h
    subst h
    rfl
  | cons t rest ih =>
    intro popt p fuel hp h hf
    obtain ⟨f, rfl⟩ : ∃ f, fuel = f + 1 := ⟨fuel - 1, by simp only [List.length_cons] at hf; omega⟩
    obtain ⟨h1, h2, h3, h4, h5, h6⟩ := tokens_plain_cons t rest hp
    unfold store_tokens at h
    cases hk : key_option t.key with
    | none => simp [hk] at h
    | some idx =>
      cases hv : t.val with
      | none => simp [hk, hv] at h
      | some v =>
        cases hs : store_option popt idx v with
        | none => simp [hk, hv, hs] at h
        | some p1 =>
          simp only [hk, hv, hs] at h
          have hvp : ∀ c ∈ v, is_plain c = true := by
            intro c hc
            exact h3 c (by rw [hv]; exact hc)
          have e : render (t :: rest) = t.key ++ '=' :: (v ++ (t.sep ++ render rest)) := by
            show t.word ++ t.sep ++ render rest = _
            unfold opt_token.word
            rw [hv]
            simp
          obtain ⟨q1, q2⟩ := parse_val_store popt idx v p1 hs
          have ho : parse_opt popt ctx t.key t.key.length (some v) = (.OK, p1, ctx) := by
            rw [parse_opt_known popt ctx t.key (some v) idx hk, if_neg (by simp [q1]), q2]
          rw [e, parse_opts_loop_keyval f t.key v _ popt ctx h2 hvp (sep_render_stop t rest hp),
            ho]
          simp only [ne_eq, not_true_eq_false, if_false]
          rw [dropWhile_space_append t.sep (render rest) h4 (render_head rest h6)]
          exact ih p1 p f h6 h (by simp only [List.length_cons] at hf; omega)

theorem render_length (ts : List opt_token) (h : tokens_plain ts = true) :
    ts.length ≤ (render ts).length := by
  induction ts with
  | nil => simp
  | cons t rest ih =>
    obtain ⟨h1, _, _, _, _, h6⟩ := tokens_plain_cons t rest h
    have := ih h6
    have hk : 0 < t.key.length := List.length_pos.mpr h1
    have hw : t.key.length ≤ t.word.length := by
      unfold opt_token.word
      cases t.val <;> simp
    have e : render (t :: rest) = t.word ++ t.sep ++ render rest := rfl
    rw [e]
    simp only [List.length_cons, List.length_append]
    omega

theorem parse_opts_tokens (popt : parsed_opts) (ctx : addrxlat_ctx_t) (lead : List Char)
    (ts : List opt_token) (p : parsed_opts)
    (hl : ∀ c ∈ lead, is_posix_space c = true) (hp : tokens_plain ts = true)
    (hs : store_tokens { popt with isset := fun _ => false } ts = some p) :
    parse_opts true popt ctx (some (lead ++ render ts)) = some (.OK, p, ctx) := by
  unfold parse_opts
  simp only [Bool.true_eq_false, if_false]
  rw [dropWhile_space_append lead (render ts) hl (render_head ts hp)]
  apply parse_opts_loop_tokens ctx ts _ p _ hp hs
  have := render_length ts hp
  simp only [List.length_append]
  omega

theorem alpha_plain (c : Char) (h : is_posix_alpha c = true) : is_plain c = true := by
  by_contra hc
  have hc2 : is_plain c = false := by simpa using hc
  have : c = NUL ∨ c = SQUOTE ∨ c = DQUOTE ∨ c = ' ' ∨ c = Char.ofNat 12 ∨ c = '\n' ∨
      c = '\r' ∨ c = '\t' ∨ c = Char.ofNat 11 ∨ c = '=' := by
    simp only [is_plain, is_posix_space, Bool.and_eq_false_iff, Bool.not_eq_false',
      Bool.or_eq_true, beq_iff_eq] at hc2
    tauto
  rcases this with e | e | e | e | e | e | e | e | e | e <;> subst e <;>
    exact absurd h (by decide)

theorem toLower_fixed (c : Char) (h : is_posix_lower c.toLower = false) : c.toLower = c := by
  unfold Char.toLower at h ⊢
  simp only at h ⊢
  split_ifs at h ⊢ with hr
  · exfalso
    obtain ⟨n, hn⟩ : ∃ n, c.toNat = n := ⟨_, rfl⟩
    rw [hn] at h hr
    obtain ⟨h1, h2⟩ := hr
    clear hn
    revert h
    interval_cases n <;> decide
  · rfl

theorem name_plain (key name : List Char) (h : key.map Char.toLower = name)
    (hn : ∀ c ∈ name, is_posix_lower c = true ∨ (is_posix_lower c = false ∧ is_plain c = true)) :
    ∀ c ∈ key, is_plain c = true := by
  intro c hc
  have hm : c.toLower ∈ name := by
    rw [← h]
    exact List.mem_map_of_mem _ hc
  rcases hn _ hm with h1 | ⟨h1, h2⟩
  · exact alpha_plain c (toLower_lower_alpha c h1)
  · rw [toLower_fixed c h1] at h2
    exact h2

theorem key_option_plain (key : List Char) (idx : optidx) (h : key_option key = some idx) :
    key ≠ [] ∧ ∀ c ∈ key, is_plain c = true := by
  obtain ⟨hne, hm⟩ := (key_option_iff key idx).mp h
  constructor
  · intro e
    rw [e] at hm
    cases idx <;> first | exact absurd rfl hne | exact absurd hm (by decide)
  · apply name_plain key _ hm
    cases idx <;> first | exact absurd rfl hne | decide

theorem dropWhile_space_plain (s : List Char)
    (h : ∀ c, s.head? = some c → is_posix_space c = false) :
    s.dropWhile is_posix_space = s := by
  have := dropWhile_space_append [] s (by simp) h
  simpa using this

theorem parse_opts_single_bare (popt : parsed_opts) (ctx : addrxlat_ctx_t) (key : List Char)
    (hk : ∀ c ∈ key, is_plain c = true) (hne : key ≠ []) :
    parse_opts true popt ctx (some key)
      = some (parse_opt { popt with isset := fun _ => false } ctx key key.length none) := by
  have hd : key.dropWhile is_posix_space = key := by
    apply dropWhile_space_plain
    intro c hc
    exact (plain_facts c (hk c (List.mem_of_mem_head? hc))).2.2.2.1
  have hlen : 0 < key.length := List.length_pos.mpr hne
  have main : ∀ f, parse_opts_loop (f + 1 + 1) key { popt with isset := fun _ => false } ctx
      = some (parse_opt { popt with isset := fun _ => false } ctx key key.length none) := by
    intro f
    have := parse_opts_loop_bare (f + 1) key [] { popt with isset := fun _ => false } ctx hk hne
      (by simp)
    rw [List.append_nil] at this
    rw [this]
    split_ifs with h
    · rfl
    · simp only [ne_eq, Decidable.not_not] at h
      simp only [List.dropWhile_nil, parse_opts_loop, List.isEmpty_nil, Bool.true_or, if_true]
      exact congrArg some (Prod.ext h.symm rfl)
  have hf : key.length + 1 = (key.length - 1) + 1 + 1 := by omega
  unfold parse_opts
  simp only [Bool.true_eq_false, if_false]
  rw [hd, hf]
  exact main _

theorem parse_opts_single_keyval (popt : parsed_opts) (ctx : addrxlat_ctx_t)
    (key v : List Char) (hk : ∀ c ∈ key, is_plain c = true)
    (hv : ∀ c ∈ v, is_plain c = true) :
    parse_opts true popt ctx (some (key ++ '=' :: v))
      = some (parse_opt { popt with isset := fun _ => false } ctx key key.length (some v)) := by
  have hd : (key ++ '=' :: v).dropWhile is_posix_space = key ++ '=' :: v := by
    apply dropWhile_space_plain
    intro c hc
    cases key with
    | nil =>
      simp only [List.nil_append, List.head?_cons, Option.some.injEq] at hc
      subst hc
      decide
    | cons a t =>
      simp only [List.cons_append, List.head?_cons, Option.some.injEq] at hc
      subst hc
      exact (plain_facts a (hk a (by simp))).2.2.2.1
  have main : ∀ f, parse_opts_loop (f + 1 + 1) (key ++ '=' :: v)
        { popt with isset := fun _ => false } ctx
      = some (parse_opt { popt with isset := fun _ => false } ctx key key.length (some v)) := by
    intro f
    have := parse_opts_loop_keyval (f + 1) key v [] { popt with isset := fun _ => false } ctx
      hk hv (by simp)
    rw [List.append_nil] at this
    rw [this]
    split_ifs with h
    · rfl
    · simp only [ne_eq, Decidable.not_not] at h
      simp only [List.dropWhile_nil, parse_opts_loop, List.isEmpty_nil, Bool.true_or, if_true]
      exact congrArg some (Prod.ext h.symm rfl)
  have hl : (key ++ '=' :: v).length + 1 = (key.length + v.length) + 1 + 1 := by
    simp only [List.length_append, List.length_cons]
    omega
  unfold parse_opts
  simp only [Bool.true_eq_false, if_false]
  rw [hd, hl]
  exact main _

/-- C14: for an option string made of white-space separated tokens `key=value`
whose keys are, in any letter case, names of the option table and whose values are
well formed, `parse_opts` returns OK with the options that result from storing the
tokens in order: `isset` is true exactly for the keys that occur, the field of a
key that occurs holds the value written by the last token with that key, and the
fields of the other keys are unchanged.  A key names an option exactly when it is
equal to the name of the option when letter case is ignored, and numbers are read
in decimal, hexadecimal after `0x` and octal after `0`. -/
theorem parse_opts_stores_options (popt : parsed_opts) (ctx : addrxlat_ctx_t)
    (lead : List Char) (ts : List opt_token) (p : parsed_opts)
    (hl : ∀ c ∈ lead, is_posix_space c = true) (hp : tokens_plain ts = true)
    (hs : store_tokens { popt with isset := fun _ => false } ts = some p) :
    parse_opts true popt ctx (some (lead ++ render ts)) = some (.OK, p, ctx) ∧
    (∀ i, p.isset i = true ↔ ∃ t ∈ ts, key_option t.key = some i) ∧
    (∀ i, match last_value ts i with
          | some v => field_holds p i v
          | none => field_same p popt i) ∧
    (∀ key idx, key_option key = some idx ↔
      idx ≠ .OPT_pte_mask ∧ key.map Char.toLower = (optnames idx).toList) ∧
    number_of "4096".toList = some 4096 ∧ number_of "0x1000".toList = some 4096 ∧
    number_of "010000".toList = some 4096 := by
  have heff := store_tokens_effect ts _ p hs
  have hvals := store_tokens_vals ts _ p hs
  refine ⟨parse_opts_tokens popt ctx lead ts p hl hp hs, ?_, ?_, key_option_iff,
    by decide, by decide, by decide⟩
  · intro i
    rw [← last_value_some_iff ts i hvals]
    have := heff i
    cases hlv : last_value ts i with
    | some v =>
      rw [hlv] at this
      simp [this.2]
    | none =>
      rw [hlv] at this
      simp [this.2]
  · intro i
    have := heff i
    cases hlv : last_value ts i with
    | some v =>
      rw [hlv] at this
      exact this.1
    | none =>
      rw [hlv] at this
      exact this.1

/-- Witness for C14: the option string
`pagesize=0x1000 xen_xlat=yes rootpgt=MACHPHYSADDR:0x1000` gives the page size 4096,
`xen_xlat` true and the root page table `(MACHPHYSADDR, 0x1000)`. -/
theorem parse_opts_stores_options_witness :
    (parse_opts true zero_opts full_ctx
      (some "pagesize=0x1000 xen_xlat=yes rootpgt=MACHPHYSADDR:0x1000".toList)).map
        (fun r => (r.1, r.2.1.pagesize, r.2.1.xen_xlat, r.2.1.rootpgt,
          r.2.1.isset .OPT_pagesize, r.2.1.isset .OPT_xen_xlat, r.2.1.isset .OPT_rootpgt,
          r.2.1.isset .OPT_levels, r.2.1.levels))
      = some (.OK, 4096, true, { addr := 0x1000, as := .named .MACHPHYSADDR },
          true, true, true, false, 0) := by
  have h := (parse_opts_stores_options zero_opts full_ctx []
    [{ key := "pagesize".toList, val := some "0x1000".toList, sep := " ".toList },
     { key := "xen_xlat".toList, val := some "yes".toList, sep := " ".toList },
     { key := "rootpgt".toList, val := some "MACHPHYSADDR:0x1000".toList, sep := [] }]
    { zero_opts with
      isset := fun i => if i = .OPT_rootpgt then true
        else if i = .OPT_xen_xlat then true
        else if i = .OPT_pagesize then true else false
      pagesize := 4096
      xen_xlat := true
      rootpgt := { addr := 0x1000, as := .named .MACHPHYSADDR } }
    (by simp) (by decide) (by rfl)).1
  have e : "pagesize=0x1000 xen_xlat=yes rootpgt=MACHPHYSADDR:0x1000".toList
      = [] ++ render
        [{ key := "pagesize".toList, val := some "0x1000".toList, sep := " ".toList },
         { key := "xen_xlat".toList, val := some "yes".toList, sep := " ".toList },
         { key := "rootpgt".toList, val := some "MACHPHYSADDR:0x1000".toList, sep := [] }] := by
    decide
  rw [e, h]
  rfl

theorem options_idx (klen : Nat) :
    ∀ e ∈ options klen, e.1 ≠ .OPT_pte_mask ∧ e.2 ∈ option_names := by
  intro e he
  rcases options_cases klen with h | h | h | h | h | h <;> rw [h] at he
  · simp only [options, List.mem_singleton] at he
    subst he
    exact ⟨by decide, by decide⟩
  · simp only [options, List.mem_singleton] at he
    subst he
    exact ⟨by decide, by decide⟩
  · simp only [options, List.mem_cons, List.mem_singleton, List.not_mem_nil, or_false] at he
    rcases he with he | he <;> subst he <;> exact ⟨by decide, by decide⟩
  · simp only [options, List.mem_singleton] at he
    subst he
    exact ⟨by decide, by decide⟩
  · simp only [options, List.mem_singleton] at he
    subst he
    exact ⟨by decide, by decide⟩
  · simp at he

theorem key_unknown_options (key : List Char) (h : key_known key = false) (klen : Nat) :
    ∀ e ∈ options klen, strcasecmp_eq key e.2 = false := by
  intro e he
  have hm := (options_idx klen e he).2
  unfold key_known at h
  rw [List.any_eq_false] at h
  have := h e.2 hm
  simp only [decide_eq_true_eq] at this
  unfold strcasecmp_eq
  simpa using this

theorem parse_val_keeps (popt : parsed_opts) (idx : optidx) (val : Option (List Char)) :
    (parse_val popt idx val).2.isset = popt.isset ∧
    (parse_val popt idx val).2.pte_mask = popt.pte_mask := by
  cases idx <;> exact ⟨rfl, rfl⟩

theorem parse_opt_pte_mask (popt : parsed_opts) (ctx : addrxlat_ctx_t) (key : List Char)
    (klen : Nat) (val : Option (List Char)) :
    (parse_opt popt ctx key klen val).2.1.isset .OPT_pte_mask = popt.isset .OPT_pte_mask ∧
    (parse_opt popt ctx key klen val).2.1.pte_mask = popt.pte_mask := by
  unfold parse_opt
  rw [parse_opt_loop_find]
  cases hf : (options klen).find? (fun e => strcasecmp_eq key e.2) with
  | none => exact ⟨rfl, rfl⟩
  | some e =>
    have hne := (options_idx klen e (List.mem_of_find?_eq_some hf)).1
    obtain ⟨k1, k2⟩ := parse_val_keeps popt e.1 val
    simp only
    split_ifs
    · simp only [k1, k2, and_self]
    · simp only [k1, k2, and_true]
      rw [if_neg (fun h => hne h.symm)]

theorem parse_opts_loop_pte_mask (fuel : Nat) :
    ∀ (p : List Char) (popt : parsed_opts) (ctx : addrxlat_ctx_t)
      (r : addrxlat_status × parsed_opts × addrxlat_ctx_t),
      parse_opts_loop fuel p popt ctx = some r →
      r.2.1.isset .OPT_pte_mask = popt.isset .OPT_pte_mask ∧
      r.2.1.pte_mask = popt.pte_mask := by
  induction fuel with
  | zero =>
    intro p popt ctx r h
    simp [parse_opts_loop] at h
  | succ n ih =>
    intro p popt ctx r h
    unfold parse_opts_loop at h
    split_ifs at h with h0
    · simp only [Option.some.injEq] at h
      subst h
      exact ⟨rfl, rfl⟩
    · simp only at h
      split at h
      · simp only [Option.some.injEq] at h
        subst h
        exact ⟨rfl, rfl⟩
      · split_ifs at h with h1
        · simp only [Option.some.injEq] at h
          subst h
          exact parse_opt_pte_mask _ _ _ _ _
        · have h2 := ih _ _ _ r h
          have h3 := parse_opt_pte_mask popt ctx
            (cstr ((scan_token p { quot := none, buf := [], val := none }).1.buf ++ [NUL]))
            ((match (scan_token p { quot := none, buf := [], val := none }).1.val with
              | some off => off
              | none => ((scan_token p { quot := none, buf := [], val := none }).1.buf
                  ++ [NUL]).length) - 1)
            (Option.map
              (fun off => cstr (List.drop off
                ((scan_token p { quot := none, buf := [], val := none }).1.buf ++ [NUL])))
              (scan_token p { quot := none, buf := [], val := none }).1.val)
          exact ⟨h2.1.trans h3.1, h2.2.trans h3.2⟩

theorem parse_opts_pte_mask (alloc_ok : Bool) (popt : parsed_opts) (ctx : addrxlat_ctx_t)
    (opts : Option (List Char)) (r : addrxlat_status × parsed_opts × addrxlat_ctx_t)
    (h : parse_opts alloc_ok popt ctx opts = some r) :
    r.2.1.isset .OPT_pte_mask = false ∧ r.2.1.pte_mask = popt.pte_mask := by
  unfold parse_opts at h
  cases opts with
  | none =>
    simp only [Option.some.injEq] at h
    subst h
    exact ⟨rfl, rfl⟩
  | some s =>
    simp only at h
    split_ifs at h
    · simp only [Option.some.injEq] at h
      subst h
      exact ⟨rfl, rfl⟩
    · exact parse_opts_loop_pte_mask _ _ _ _ r h

/-- C15: the option parser does not accept the key `pte_mask`.  For every key that
is equal to `pte_mask` when letter case is ignored and every value of plain
characters, `parse_opts` on `key=value` returns NOTIMPL with the message
`Unknown option`; and no option string at all makes `parse_opts` mark the option
`OPT_pte_mask` as set or change the field `pte_mask`, so that `map_linux_ppc64`
always reads the default through `OPT_pte_mask`. -/
theorem pte_mask_not_accepted (key v : List Char) (popt : parsed_opts) (ctx : addrxlat_ctx_t)
    (hk : key.map Char.toLower = "pte_mask".toList) (hv : ∀ c ∈ v, is_plain c = true) :
    parse_opts true popt ctx (some (key ++ '=' :: v))
      = some (.ERR_NOTIMPL, { popt with isset := fun _ => false },
          { ctx with err := ("Unknown option: " ++ String.mk key) :: ctx.err }) ∧
    (∀ alloc_ok opts r, parse_opts alloc_ok popt ctx opts = some r →
      r.2.1.isset .OPT_pte_mask = false ∧ r.2.1.pte_mask = popt.pte_mask) := by
  refine ⟨?_, fun alloc_ok opts r h => parse_opts_pte_mask alloc_ok popt ctx opts r h⟩
  have hp : ∀ c ∈ key, is_plain c = true := name_plain key _ hk (by decide)
  have hu : key_known key = false := by
    simp only [key_known, hk]
    decide
  rw [parse_opts_single_keyval popt ctx key v hp hv,
    parse_opt_unknown _ ctx key key.length (some v) (key_unknown_options key hu _)]

/-- Witness for C15: `pte_mask=0x10` is rejected as an unknown option. -/
theorem pte_mask_not_accepted_witness :
    (parse_opts true zero_opts full_ctx (some "pte_mask=0x10".toList)).map
        (fun r => (r.1, r.2.1.isset .OPT_pte_mask, r.2.1.pte_mask, r.2.2.err.head?))
      = some (.ERR_NOTIMPL, false, 0, some "Unknown option: pte_mask") := by
  have h := (pte_mask_not_accepted "pte_mask".toList "0x10".toList zero_opts full_ctx
    (by decide) (by decide)).1
  have e : "pte_mask=0x10".toList = "pte_mask".toList ++ '=' :: "0x10".toList := by decide
  rw [e, h]
  rfl

/-- An option string whose only token has the unknown key `foo` and a value with
an unterminated double quote: `parse_opts` returns INVALID, not NOTIMPL. -/
theorem unknown_key_counterexample :
    (parse_opts true zero_opts full_ctx (some ("foo=".toList ++ [DQUOTE, 'x']))).map
        (fun r => (r.1, r.2.2.err.head?))
      = some (.ERR_INVALID, some "Unterminated double quotes") ∧
    key_known "foo".toList = false := by
  decide

/-- C16 (amended): a token all of whose quotes are closed and whose key (the text
before the first `=`, quotes removed) is not equal, ignoring letter case, to a
recognised option name, the empty key included, makes `parse_opts` return NOTIMPL
with the message `Unknown option`, whatever the value is and whatever follows the
token; the options are left as they were before the token, so that later tokens
are not processed.  This holds at every iteration of the outer loop, and so for
the first token of an option string. -/
theorem unknown_key_notimpl (p : List Char)
    (hp : ∀ c, p.head? = some c → c ≠ NUL ∧ is_posix_space c = false) (hne : p ≠ [])
    (hq : (scan_token p { quot := none, buf := [], val := none }).1.quot = none)
    (hk : key_known
      (cstr ((scan_token p { quot := none, buf := [], val := none }).1.buf ++ [NUL])) = false) :
    (∀ fuel popt ctx, parse_opts_loop (fuel + 1) p popt ctx
      = some (.ERR_NOTIMPL, popt,
          { ctx with err := ("Unknown option: " ++ String.mk (cstr
              ((scan_token p { quot := none, buf := [], val := none }).1.buf ++ [NUL])))
            :: ctx.err })) ∧
    (∀ popt ctx lead, (∀ c ∈ lead, is_posix_space c = true) →
      parse_opts true popt ctx (some (lead ++ p))
        = some (.ERR_NOTIMPL, { popt with isset := fun _ => false },
            { ctx with err := ("Unknown option: " ++ String.mk (cstr
                ((scan_token p { quot := none, buf := [], val := none }).1.buf ++ [NUL])))
              :: ctx.err })) := by
  have main : ∀ fuel popt ctx, parse_opts_loop (fuel + 1) p popt ctx
      = some (.ERR_NOTIMPL, popt,
          { ctx with err := ("Unknown option: " ++ String.mk (cstr
              ((scan_token p { quot := none, buf := [], val := none }).1.buf ++ [NUL])))
            :: ctx.err }) := by
    intro fuel popt ctx
    obtain ⟨c, r, rfl⟩ : ∃ c r, p = c :: r := by
      cases p with
      | nil => exact absurd rfl hne
      | cons c r => exact ⟨c, r, rfl⟩
    have hc := (hp c rfl).1
    have hhead : ((c :: r).isEmpty || (c :: r).head? = some NUL) = false := by
      simp [hc]
    rw [parse_opts_loop, hhead]
    simp only [Bool.false_eq_true, if_false, hq]
    rw [parse_opt_unknown popt ctx _ _ _ (key_unknown_options _ hk _)]
    simp
  refine ⟨main, ?_⟩
  intro popt ctx lead hl
  unfold parse_opts
  simp only [Bool.true_eq_false, if_false]
  rw [dropWhile_space_append lead p hl (fun c hc => (hp c hc).2)]
  exact main _ _ _

/-- Witness for C16: in `levels=4 foo=1 pagesize=zzz` the loop reaches the token
`foo=1` after `levels=4` and returns NOTIMPL; `pagesize=zzz` is not looked at. -/
theorem unknown_key_notimpl_witness :
    (parse_opts_loop 3 "foo=1 pagesize=zzz".toList { zero_opts with levels := 4 } full_ctx).map
        (fun r => (r.1, r.2.1.levels, r.2.1.pagesize, r.2.2.err.head?))
      = some (.ERR_NOTIMPL, 4, 0, some "Unknown option: foo") ∧
    (parse_opts true zero_opts full_ctx (some "levels=4 foo=1 pagesize=zzz".toList)).map
        (fun r => (r.1, r.2.1.levels, r.2.1.pagesize, r.2.2.err.head?))
      = some (.ERR_NOTIMPL, 4, 0, some "Unknown option: foo") := by
  have h := (unknown_key_notimpl "foo=1 pagesize=zzz".toList (by decide) (by decide)
    (by decide) (by decide)).1 2 { zero_opts with levels := 4 } full_ctx
  refine ⟨?_, by decide⟩
  rw [h]
  decide

theorem parse_val_empty (popt : parsed_opts) (idx : optidx) (hne : idx ≠ .OPT_pte_mask) :
    (parse_val popt idx (some [])).1 = .PARSE_BADVAL := by
  apply parse_val_store_none popt idx [] hne
  cases idx <;> first | exact absurd rfl hne | rfl

/-- The bare token `xen_xlat`, without `=`, is accepted: `parse_opts` returns OK
and sets the option to true. -/
theorem missing_value_counterexample :
    (parse_opts true zero_opts full_ctx (some "xen_xlat".toList)).map
        (fun r => (r.1, r.2.1.xen_xlat, r.2.1.isset .OPT_xen_xlat, r.2.2.err))
      = some (.OK, true, true, []) := by
  decide

/-- C17 (amended): for every recognised key `k`, in any letter case, `parse_opts`
returns INVALID on the token `k=` with an empty value, and on the bare token `k`
without `=` unless `k` is the boolean option `xen_xlat`; the bare token `xen_xlat`
is accepted and sets the option to true. -/
theorem missing_value_invalid (key : List Char) (idx : optidx) (popt : parsed_opts)
    (ctx : addrxlat_ctx_t) (hk : key_option key = some idx) :
    (parse_opts true popt ctx (some (key ++ ['=']))).map (fun r => r.1)
      = some .ERR_INVALID ∧
    (idx ≠ .OPT_xen_xlat →
      (parse_opts true popt ctx (some key)).map (fun r => r.1) = some .ERR_INVALID) ∧
    (idx = .OPT_xen_xlat →
      parse_opts true popt ctx (some key)
        = some (.OK, { popt with isset := fun i => if i = .OPT_xen_xlat then true else false
                                 xen_xlat := true }, ctx)) := by
  obtain ⟨hne, hpl⟩ := key_option_plain key idx hk
  have hidx := ((key_option_iff key idx).mp hk).1
  refine ⟨?_, ?_, ?_⟩
  · rw [parse_opts_single_keyval popt ctx key [] hpl (by simp),
      parse_opt_known _ ctx key (some []) idx hk]
    have hb := parse_val_empty { popt with isset := fun _ => false } idx hidx
    rw [if_pos (by rw [hb]; decide), hb]
    rfl
  · intro hx
    rw [parse_opts_single_bare popt ctx key hpl hne, parse_opt_known _ ctx key none idx hk]
    have hb : (parse_val { popt with isset := fun _ => false } idx none).1 = .PARSE_NOVAL := by
      cases idx <;> first | exact absurd rfl hidx | exact absurd rfl hx | rfl
    rw [if_pos (by rw [hb]; decide), hb]
    rfl
  · intro hx
    subst hx
    rw [parse_opts_single_bare popt ctx key hpl hne,
      parse_opt_known _ ctx key none .OPT_xen_xlat hk]
    rfl

/-- Witness for C17: `PageSize=` and the bare `levels` give INVALID. -/
theorem missing_value_invalid_witness :
    (parse_opts true zero_opts full_ctx (some ("PageSize".toList ++ ['=']))).map (fun r => r.1)
      = some .ERR_INVALID ∧
    (parse_opts true zero_opts full_ctx (some "levels".toList)).map (fun r => r.1)
      = some .ERR_INVALID :=
  ⟨(missing_value_invalid "PageSize".toList .OPT_pagesize zero_opts full_ctx (by decide)).1,
   (missing_value_invalid "levels".toList .OPT_levels zero_opts full_ctx (by decide)).2.1
     (by decide)⟩

/-- C18: for a present value string, `parse_bool` yields true for `yes` and `true`
and false for `no` and `false`, ignoring letter case; any other string is accepted
only if the whole of it is a C-style integer, and then yields true exactly when
the integer is not zero; every other string, the empty string and a number
followed by other characters included, is a bad value, which `parse_opts` reports
as INVALID. -/
theorem parse_bool_values (s : List Char) (var : Bool) :
    (∀ b, bool_of s = some b → parse_bool (some s) var = (.PARSE_OK, b)) ∧
    (bool_of s = none → (parse_bool (some s) var).1 = .PARSE_BADVAL) ∧
    (s.map Char.toLower = "yes".toList ∨ s.map Char.toLower = "true".toList →
      parse_bool (some s) var = (.PARSE_OK, true)) ∧
    (s.map Char.toLower = "no".toList ∨ s.map Char.toLower = "false".toList →
      parse_bool (some s) var = (.PARSE_OK, false)) ∧
    (∀ n, s.map Char.toLower ∉ ["yes".toList, "true".toList, "no".toList, "false".toList] →
      number_of s = some n → parse_bool (some s) var = (.PARSE_OK, decide (n ≠ 0))) ∧
    (s.map Char.toLower ∉ ["yes".toList, "true".toList, "no".toList, "false".toList] →
      number_of s = none → (parse_bool (some s) var).1 = .PARSE_BADVAL) ∧
    bool_of [] = none ∧ bool_of "1x".toList = none ∧ bool_of "maybe".toList = none ∧
    (∀ popt ctx key, key_option key = some .OPT_xen_xlat → (∀ c ∈ s, is_plain c = true) →
      bool_of s = none →
      (parse_opts true popt ctx (some (key ++ '=' :: s))).map (fun r => r.1)
        = some .ERR_INVALID) := by
  have hc := parse_bool_cases s var
  refine ⟨hc.1, hc.2, ?_, ?_, ?_, ?_, by decide, by decide, by decide, ?_⟩
  · intro h
    apply hc.1
    unfold bool_of
    rw [if_pos h]
  · intro h
    apply hc.1
    have h1 : ¬ (s.map Char.toLower = "yes".toList ∨ s.map Char.toLower = "true".toList) := by
      rintro (e | e) <;> rcases h with h | h <;> rw [e] at h <;> exact absurd h (by decide)
    unfold bool_of
    rw [if_neg h1, if_pos h]
  · intro n hm hn
    apply hc.1
    simp only [List.mem_cons, List.mem_singleton, List.not_mem_nil, or_false, not_or] at hm
    unfold bool_of
    rw [if_neg (by tauto), if_neg (by tauto), hn]
    rfl
  · intro hm hn
    apply hc.2
    simp only [List.mem_cons, List.mem_singleton, List.not_mem_nil, or_false, not_or] at hm
    unfold bool_of
    rw [if_neg (by tauto), if_neg (by tauto), hn]
    rfl
  · intro popt ctx key hk hs hb
    obtain ⟨_, hpl⟩ := key_option_plain key _ hk
    rw [parse_opts_single_keyval popt ctx key s hpl hs,
      parse_opt_known _ ctx key (some s) .OPT_xen_xlat hk]
    have hv : (parse_val { popt with isset := fun _ => false } .OPT_xen_xlat (some s)).1
        = .PARSE_BADVAL := by
      simpa only [parse_val] using (parse_bool_cases s popt.xen_xlat).2 hb
    rw [if_pos (by rw [hv]; decide), hv]
    rfl

/-- Witness for C18: `TRUE` and `0x10` are true, `No` and `0` are false, `2x` is a
bad value and `xen_xlat=2x` gives INVALID. -/
theorem parse_bool_values_witness :
    parse_bool (some "TRUE".toList) false = (.PARSE_OK, true) ∧
    parse_bool (some "0x10".toList) false = (.PARSE_OK, true) ∧
    parse_bool (some "No".toList) true = (.PARSE_OK, false) ∧
    parse_bool (some "0".toList) true = (.PARSE_OK, false) ∧
    (parse_bool (some "2x".toList) false).1 = .PARSE_BADVAL ∧
    (parse_opts true zero_opts full_ctx (some ("xen_xlat".toList ++ '=' :: "2x".toList))).map
      (fun r => r.1) = some .ERR_INVALID :=
  ⟨(parse_bool_values "TRUE".toList false).1 true (by decide),
   (parse_bool_values "0x10".toList false).1 true (by decide),
   (parse_bool_values "No".toList true).1 false (by decide),
   (parse_bool_values "0".toList true).1 false (by decide),
   (parse_bool_values "2x".toList false).2.1 (by decide),
   (parse_bool_values "2x".toList false).2.2.2.2.2.2.2.2.2 zero_opts full_ctx
     "xen_xlat".toList (by decide) (by decide) (by decide)⟩

/-! ## Linux/ppc64 initialisation -/

theorem vmemmap_count_chain
    (rd : addrxlat_ctx_t → addrxlat_fulladdr_t → String → Option read_result)
    (m : Nat → Nat) (off_list : Nat)
    (hrd : ∀ c a w, ∃ c1, rd c { addr := a, as := .KVADDR } w
      = some { status := .OK, val := some (m a), ctx := c1 })
    (elems : List Nat) :
    ∀ (e cnt fuel : Nat) (ctx : addrxlat_ctx_t), vmemmap_chain m off_list e elems →
      elems.length < fuel → cnt < 2 ^ 32 →
      ∃ c1, vmemmap_count rd off_list fuel ctx e cnt
        = some (.OK, (cnt + elems.length) % 2 ^ 32, c1) := by
  induction elems with
  | nil =>
    intro e cnt fuel ctx hch hf hc
    obtain ⟨f, rfl⟩ : ∃ f, fuel = f + 1 := ⟨fuel - 1, by omega⟩
    have he : e = 0 := hch
    refine ⟨ctx, ?_⟩
    unfold vmemmap_count
    rw [if_pos he]
    simp only [List.length_nil, Nat.add_zero]
    rw [Nat.mod_eq_of_lt hc]
  | cons x rest ih =>
    intro e cnt fuel ctx hch hf hc
    obtain ⟨f, rfl⟩ : ∃ f, fuel = f + 1 := ⟨fuel - 1, by omega⟩
    obtain ⟨he, hx, hrest⟩ := hch
    subst he
    obtain ⟨c1, hr⟩ := hrd ctx ((e + off_list) % 2 ^ 64) "vmemmap list"
    obtain ⟨c2, h2⟩ := ih (m ((e + off_list) % 2 ^ 64)) ((cnt + 1) % 2 ^ 32) f c1 hrest
      (by simp only [List.length_cons] at hf; omega) (Nat.mod_lt _ (by norm_num))
    refine ⟨c2, ?_⟩
    unfold vmemmap_count
    rw [if_neg hx, hr]
    simp only [ne_eq, not_true_eq_false, if_false, Option.getD_some]
    have e2 : ((cnt + 1) % 2 ^ 32 + rest.length) % 2 ^ 32
        = (cnt + (rest.length + 1)) % 2 ^ 32 := by omega
    rw [h2, List.length_cons, e2]

theorem vmemmap_fill_chain
    (rd : addrxlat_ctx_t → addrxlat_fulladdr_t → String → Option read_result)
    (m : Nat → Nat) (off_list off_phys off_virt cnt : Nat)
    (hrd : ∀ c a w, ∃ c1, rd c { addr := a, as := .KVADDR } w
      = some { status := .OK, val := some (m a), ctx := c1 })
    (elems : List Nat) :
    ∀ (e fuel : Nat) (ctx : addrxlat_ctx_t) (tbl : List addrxlat_lookup_elem_t),
      vmemmap_chain m off_list e elems → elems.length < fuel →
      tbl.length + elems.length ≤ cnt →
      ∃ c1, vmemmap_fill rd off_list off_phys off_virt cnt fuel ctx e tbl
        = some (.OK, tbl ++ elems.map (fun x =>
            { orig := m ((x + off_phys) % 2 ^ 64), dest := m ((x + off_virt) % 2 ^ 64) }),
          c1) := by
  induction elems with
  | nil =>
    intro e fuel ctx tbl hch hf _
    obtain ⟨f, rfl⟩ : ∃ f, fuel = f + 1 := ⟨fuel - 1, by omega⟩
    have he : e = 0 := hch
    refine ⟨ctx, ?_⟩
    unfold vmemmap_fill
    rw [if_pos he]
    simp
  | cons x rest ih =>
    intro e fuel ctx tbl hch hf hc
    obtain ⟨f, rfl⟩ : ∃ f, fuel = f + 1 := ⟨fuel - 1, by omega⟩
    obtain ⟨he, hx, hrest⟩ := hch
    subst he
    obtain ⟨c1, hr1⟩ := hrd ctx ((e + off_phys) % 2 ^ 64) "vmemmap phys"
    obtain ⟨c2, hr2⟩ := hrd c1 ((e + off_virt) % 2 ^ 64) "vmemmap virt"
    obtain ⟨c3, hr3⟩ := hrd c2 ((e + off_list) % 2 ^ 64) "vmemmap list"
    simp only [List.length_cons] at hf hc
    obtain ⟨c4, h4⟩ := ih (m ((e + off_list) % 2 ^ 64)) f c3
      (tbl ++ [{ orig := m ((e + off_phys) % 2 ^ 64), dest := m ((e + off_virt) % 2 ^ 64) }])
      hrest (by omega) (by simp only [List.length_append, List.length_singleton]; omega)
    refine ⟨c4, ?_⟩
    unfold vmemmap_fill
    rw [if_neg hx, hr1]
    simp only [ne_eq, not_true_eq_false, if_false, Option.getD_some]
    rw [if_neg (by omega), hr2]
    simp only [ne_eq, not_true_eq_false, if_false, Option.getD_some]
    rw [hr3]
    simp only [ne_eq, not_true_eq_false, if_false, Option.getD_some]
    rw [h4]
    simp

theorem get_symval_ok (ctx : addrxlat_ctx_t) (name : String)
    (cb : List addrxlat_sym_t → addrxlat_sym_t → addrxlat_status × Nat) (v : Nat)
    (hcb : ctx.cb.sym = some cb)
    (h : ∀ log, cb log { type := .SYM_VALUE, args := [name] } = (.OK, v)) :
    (get_symval ctx name).status = .OK ∧ (get_symval ctx name).val = some v ∧
    (get_symval ctx name).ctx.cb = ctx.cb := by
  unfold get_symval
  rw [hcb]
  simp only [h, ne_eq, not_true_eq_false, if_false, and_self]

theorem get_offsetof_ok (ctx : addrxlat_ctx_t) (type memb : String)
    (cb : List addrxlat_sym_t → addrxlat_sym_t → addrxlat_status × Nat) (v : Nat)
    (hcb : ctx.cb.sym = some cb)
    (h : ∀ log, cb log { type := .SYM_OFFSETOF, args := [type, memb] } = (.OK, v)) :
    (get_offsetof ctx type memb).status = .OK ∧ (get_offsetof ctx type memb).val = some v ∧
    (get_offsetof ctx type memb).ctx.cb = ctx.cb := by
  unfold get_offsetof
  rw [hcb]
  simp only [h, ne_eq, not_true_eq_false, if_false, and_self]

theorem get_vmemmap_param_chain
    (rd : addrxlat_ctx_t → addrxlat_fulladdr_t → String → Option read_result)
    (m : Nat → Nat) (cb : List addrxlat_sym_t → addrxlat_sym_t → addrxlat_status × Nat)
    (ctx : addrxlat_ctx_t) (param : addrxlat_param_lookup_t) (fuel : Nat)
    (elems : List Nat) (vl off_list off_phys off_virt : Nat)
    (hcb : ctx.cb.sym = some cb)
    (h1 : ∀ log, cb log { type := .SYM_VALUE, args := ["vmemmap_list"] } = (.OK, vl))
    (h2 : ∀ log, cb log { type := .SYM_OFFSETOF, args := ["vmemmap_backing", "list"] }
      = (.OK, off_list))
    (h3 : ∀ log, cb log { type := .SYM_OFFSETOF, args := ["vmemmap_backing", "phys"] }
      = (.OK, off_phys))
    (h4 : ∀ log, cb log { type := .SYM_OFFSETOF, args := ["vmemmap_backing", "virt_addr"] }
      = (.OK, off_virt))
    (hrd : ∀ c a w, ∃ c1, rd c { addr := a, as := .KVADDR } w
      = some { status := .OK, val := some (m a), ctx := c1 })
    (hch : vmemmap_chain m off_list (m vl) elems)
    (hfuel : elems.length < fuel) (hn : elems.length < 2 ^ 32) :
    ∃ c1, get_vmemmap_param_with rd true fuel ctx param
      = some (.OK, { param with
                     nelem := elems.length
                     tbl := elems.map (fun x =>
                       { orig := m ((x + off_phys) % 2 ^ 64),
                         dest := m ((x + off_virt) % 2 ^ 64) }) }, c1) := by
  obtain ⟨a1, a2, a3⟩ := get_symval_ok ctx "vmemmap_list" cb vl hcb h1
  obtain ⟨b1, b2, b3⟩ := get_offsetof_ok (get_symval ctx "vmemmap_list").ctx
    "vmemmap_backing" "list" cb off_list (by rw [a3]; exact hcb) h2
  obtain ⟨c1, c2, c3⟩ := get_offsetof_ok
    (get_offsetof (get_symval ctx "vmemmap_list").ctx "vmemmap_backing" "list").ctx
    "vmemmap_backing" "phys" cb off_phys (by rw [b3, a3]; exact hcb) h3
  obtain ⟨d1, d2, d3⟩ := get_offsetof_ok
    (get_offsetof (get_offsetof (get_symval ctx "vmemmap_list").ctx "vmemmap_backing"
      "list").ctx "vmemmap_backing" "phys").ctx
    "vmemmap_backing" "virt_addr" cb off_virt (by rw [c3, b3, a3]; exact hcb) h4
  obtain ⟨x1, hx1⟩ := hrd
    (get_offsetof (get_offsetof (get_offsetof (get_symval ctx "vmemmap_list").ctx
      "vmemmap_backing" "list").ctx "vmemmap_backing" "phys").ctx
      "vmemmap_backing" "virt_addr").ctx vl "vmemmap_list"
  obtain ⟨x2, hx2⟩ := vmemmap_count_chain rd m off_list hrd elems (m vl) 0 fuel x1 hch hfuel
    (by norm_num)
  obtain ⟨x3, hx3⟩ := vmemmap_fill_chain rd m off_list off_phys off_virt elems.length hrd elems
    (m vl) fuel x2 [] hch hfuel (by simp)
  refine ⟨x3, ?_⟩
  unfold get_vmemmap_param_with
  simp only [a1, a2, b1, b2, c1, c2, d1, d2, ne_eq, not_true_eq_false, if_false,
    Option.getD_some, hx1, hx2, Nat.zero_add, Nat.mod_eq_of_lt hn, Bool.true_eq_false, hx3,
    List.nil_append]

/-- C12: what the code does for a `vmemmap_list`.  For every NULL-terminated list
of `n` elements that is readable, `get_vmemmap_param` ends with OK, `nelem = n` and
a table whose entries describe the elements in list order, but with `orig` equal
to the member `phys` of the element and `dest` equal to its member `virt_addr`:
the opposite of the table of the claim.  For the list of the one element
`(phys = 0x10000000, virt_addr = 0xf000000000000000)`, read through `read64` and
the page cache, the table is `[(orig = 0x10000000, dest = 0xf000000000000000)]`,
`map_linux_ppc64` installs it as a LOOKUP method with target `KPHYSADDR` and
`endoff = 0xffff`, and a lookup of the vmemmap address `0xf000000000000042` in it
finds nothing, whereas the table of the claim gives `0x10000042`. -/
theorem vmemmap_table_swapped
    (rd : addrxlat_ctx_t → addrxlat_fulladdr_t → String → Option read_result)
    (m : Nat → Nat) (cb : List addrxlat_sym_t → addrxlat_sym_t → addrxlat_status × Nat)
    (ctx : addrxlat_ctx_t) (param : addrxlat_param_lookup_t) (fuel : Nat)
    (elems : List Nat) (vl off_list off_phys off_virt : Nat)
    (hcb : ctx.cb.sym = some cb)
    (h1 : ∀ log, cb log { type := .SYM_VALUE, args := ["vmemmap_list"] } = (.OK, vl))
    (h2 : ∀ log, cb log { type := .SYM_OFFSETOF, args := ["vmemmap_backing", "list"] }
      = (.OK, off_list))
    (h3 : ∀ log, cb log { type := .SYM_OFFSETOF, args := ["vmemmap_backing", "phys"] }
      = (.OK, off_phys))
    (h4 : ∀ log, cb log { type := .SYM_OFFSETOF, args := ["vmemmap_backing", "virt_addr"] }
      = (.OK, off_virt))
    (hrd : ∀ c a w, ∃ c1, rd c { addr := a, as := .KVADDR } w
      = some { status := .OK, val := some (m a), ctx := c1 })
    (hch : vmemmap_chain m off_list (m vl) elems)
    (hfuel : elems.length < fuel) (hn : elems.length < 2 ^ 32) :
    (∃ c1, get_vmemmap_param_with rd true fuel ctx param
      = some (.OK, { param with
                     nelem := elems.length
                     tbl := elems.map (fun x =>
                       { orig := m ((x + off_phys) % 2 ^ 64),
                         dest := m ((x + off_virt) % 2 ^ 64) }) }, c1)) ∧
    (get_vmemmap_param vmemmap_env true 2 vmemmap_ctx
        { endoff := 0, nelem := 0, tbl := [] }).map (fun r => (r.1, r.2.1.nelem, r.2.1.tbl))
      = some (.OK, 1, [{ orig := 0x10000000, dest := 0xf000000000000000 }]) ∧
    (map_linux_ppc64 plain_ops vmemmap_env true 2 (vmemmap_ctl zero_opts)).map
        (fun r => (r.1, (r.2.sys.meth .SYS_METH_VMEMMAP).kind,
          (r.2.sys.meth .SYS_METH_VMEMMAP).target_as,
          (r.2.sys.meth .SYS_METH_VMEMMAP).lookup.endoff,
          (r.2.sys.meth .SYS_METH_VMEMMAP).lookup.nelem,
          (r.2.sys.meth .SYS_METH_VMEMMAP).lookup.tbl))
      = some (.OK, .LOOKUP, .KPHYSADDR, 0xffff, 1,
          [{ orig := 0x10000000, dest := 0xf000000000000000 }]) ∧
    lookup_xlat { endoff := 0xffff, nelem := 1,
                  tbl := [{ orig := 0x10000000, dest := 0xf000000000000000 }] }
      0xf000000000000042 = none ∧
    lookup_xlat { endoff := 0xffff, nelem := 1,
                  tbl := [{ orig := 0xf000000000000000, dest := 0x10000000 }] }
      0xf000000000000042 = some 0x10000042 :=
  ⟨get_vmemmap_param_chain rd m cb ctx param fuel elems vl off_list off_phys off_virt hcb h1 h2
     h3 h4 hrd hch hfuel hn,
   by decide, by rfl, by decide, by decide⟩

/-- Witness for C12: the list of one element at `0x2000` in the memory
`vmemmap_words`. -/
theorem vmemmap_table_swapped_witness :
    ∃ c1, get_vmemmap_param_with (image_read vmemmap_words) true 2 vmemmap_ctx
        { endoff := 0, nelem := 0, tbl := [] }
      = some (.OK, { endoff := 0, nelem := 1,
                     tbl := [{ orig := 0x10000000, dest := 0xf000000000000000 }] }, c1) :=
  (vmemmap_table_swapped (image_read vmemmap_words) vmemmap_words vmemmap_sym vmemmap_ctx
    { endoff := 0, nelem := 0, tbl := [] } 2 [0x2000] 0x1000 0 8 16 rfl
    (fun _ => rfl) (fun _ => rfl) (fun _ => rfl) (fun _ => rfl)
    (fun c _ _ => ⟨c, rfl⟩)
    ⟨rfl, by decide, rfl⟩ (by decide) (by norm_num)).1

theorem sys_ppc64_linux (ops : sys_ops) (env : read_env) (malloc_ok : Bool) (fuel : Nat)
    (ctl : os_init_data) (ht : ctl.os_type = .OS_LINUX) :
    sys_ppc64 ops env malloc_ok fuel ctl = map_linux_ppc64 ops env malloc_ok fuel ctl := by
  unfold sys_ppc64
  rw [ht]

/-- C13: `sys_ppc64` supports only Linux with 64 KB pages.  For an OS type other
than Linux it returns NOTIMPL.  For Linux with the option `pagesize` set to a
value other than 65536 it returns NOTIMPL, and nothing but the error message of
the context is changed: `sys_set_physmaps` and `sys_set_layout` are not called and
no method or map of the system is modified.  With `pagesize` unset the default
65536 is used and accepted, as is a `pagesize` set to 65536: the function goes on
to `sys_set_physmaps` with the highest physical address `2^50 - 1`, returns the
status of `sys_set_physmaps` or `sys_set_layout` if one of them fails, and
otherwise sets the user page table method. -/
theorem sys_ppc64_linux_64k (ops : sys_ops) (env : read_env) (malloc_ok : Bool) (fuel : Nat)
    (ctl : os_init_data) :
    (ctl.os_type ≠ .OS_LINUX →
      sys_ppc64 ops env malloc_ok fuel ctl
        = some (.ERR_NOTIMPL,
            { ctl with ctx := { ctl.ctx with
                err := "OS type not implemented" :: ctl.ctx.err } })) ∧
    (ctl.os_type = .OS_LINUX → ctl.popt.isset .OPT_pagesize = true →
      ctl.popt.pagesize ≠ 65536 →
      sys_ppc64 ops env malloc_ok fuel ctl
        = some (.ERR_NOTIMPL,
            { ctl with ctx := { ctl.ctx with
                err := ("Unsupported page size: " ++ toString ctl.popt.pagesize)
                  :: ctl.ctx.err } })) ∧
    (ctl.os_type = .OS_LINUX →
      (ctl.popt.isset .OPT_pagesize = false ∨ ctl.popt.pagesize = 65536) →
      opt_num_default ctl.popt .OPT_pagesize _64K = 65536 ∧
      ((ops.sys_set_physmaps ctl (2 ^ 50 - 1)).1 ≠ .OK →
        sys_ppc64 ops env malloc_ok fuel ctl = some (ops.sys_set_physmaps ctl (2 ^ 50 - 1))) ∧
      ((ops.sys_set_physmaps ctl (2 ^ 50 - 1)).1 = .OK →
        (ops.sys_set_layout (ops.sys_set_physmaps ctl (2 ^ 50 - 1)).2 linux_layout).1 ≠ .OK →
        sys_ppc64 ops env malloc_ok fuel ctl
          = some (ops.sys_set_layout (ops.sys_set_physmaps ctl (2 ^ 50 - 1)).2 linux_layout)) ∧
      ((ops.sys_set_physmaps ctl (2 ^ 50 - 1)).1 = .OK →
        (ops.sys_set_layout (ops.sys_set_physmaps ctl (2 ^ 50 - 1)).2 linux_layout).1 = .OK →
        ∀ r, sys_ppc64 ops env malloc_ok fuel ctl = some r →
          (r.2.sys.meth .SYS_METH_UPGT).kind = .PGT ∧
          (r.2.sys.meth .SYS_METH_UPGT).target_as = .MACHPHYSADDR ∧
          (r.2.sys.meth .SYS_METH_UPGT).pgt.pf = ppc64_pf_64k)) := by
  refine ⟨?_, ?_, ?_⟩
  · intro h
    unfold sys_ppc64
    cases ht : ctl.os_type with
    | OS_LINUX => exact absurd ht h
    | OS_UNKNOWN => rfl
    | OS_XEN => rfl
  · intro ht hs hp
    have e : opt_num_default ctl.popt .OPT_pagesize _64K = ctl.popt.pagesize := by
      unfold opt_num_default
      rw [if_pos hs]
      rfl
    have hne : opt_num_default ctl.popt .OPT_pagesize _64K ≠ (_64K : Int) := by
      rw [e]
      exact hp
    rw [sys_ppc64_linux ops env malloc_ok fuel ctl ht]
    unfold map_linux_ppc64
    simp only
    rw [if_pos hne, e]
    rfl
  · intro ht hs
    have e : opt_num_default ctl.popt .OPT_pagesize _64K = 65536 := by
      unfold opt_num_default
      rcases hs with hs | hs
      · rw [if_neg (by simp [hs])]
        rfl
      · split_ifs
        · exact hs
        · rfl
    have he : ¬ opt_num_default ctl.popt .OPT_pagesize _64K ≠ (_64K : Int) := by
      rw [e]
      exact fun h => h rfl
    have hmax : (1 <<< (64 - 30 + 16)) - 1 = 2 ^ 50 - 1 := by decide
    refine ⟨e, ?_, ?_, ?_⟩
    · intro h1
      rw [sys_ppc64_linux ops env malloc_ok fuel ctl ht]
      unfold map_linux_ppc64
      simp only
      rw [if_neg he, hmax, if_pos h1]
    · intro h1 h2
      rw [sys_ppc64_linux ops env malloc_ok fuel ctl ht]
      unfold map_linux_ppc64
      simp only
      rw [if_neg he, hmax, if_neg (not_not.mpr h1), if_pos h2]
    · intro h1 h2 r hr
      rw [sys_ppc64_linux ops env malloc_ok fuel ctl ht] at hr
      unfold map_linux_ppc64 at hr
      simp only at hr
      rw [if_neg he, hmax, if_neg (not_not.mpr h1), if_neg (not_not.mpr h2)] at hr
      split at hr
      · exact absurd hr (by simp)
      · split_ifs at hr <;>
          (simp only [Option.some.injEq] at hr
           subst hr
           simp [addrxlat_sys_t.set_meth])

/-- Witness for C13: Xen is not implemented, a page size of 4096 is not supported
and leaves the translation system alone, and the default page size is 65536. -/
theorem sys_ppc64_linux_64k_witness :
    (sys_ppc64 plain_ops vmemmap_env true 2
        { vmemmap_ctl zero_opts with os_type := .OS_XEN }).map (fun r => (r.1, r.2.ctx.err))
      = some (.ERR_NOTIMPL, ["OS type not implemented"]) ∧
    (sys_ppc64 plain_ops vmemmap_env true 2
        (vmemmap_ctl { zero_opts with
          isset := fun i => decide (i = .OPT_pagesize)
          pagesize := 4096 })).map
        (fun r => (r.1, r.2.ctx.err, r.2.sys.physmax, r.2.sys.kv_phys,
          (r.2.sys.meth .SYS_METH_UPGT).kind))
      = some (.ERR_NOTIMPL, ["Unsupported page size: 4096"], none, [], .NOMETH) ∧
    opt_num_default zero_opts .OPT_pagesize _64K = 65536 ∧
    (sys_ppc64 plain_ops vmemmap_env true 2 (vmemmap_ctl zero_opts)).map
        (fun r => (r.1, r.2.sys.physmax, (r.2.sys.meth .SYS_METH_UPGT).kind))
      = some (.OK, some (2 ^ 50 - 1), .PGT) := by
  refine ⟨?_, ?_, ?_, by rfl⟩
  · rw [(sys_ppc64_linux_64k plain_ops vmemmap_env true 2
      { vmemmap_ctl zero_opts with os_type := .OS_XEN }).1 (by decide)]
    rfl
  · rw [(sys_ppc64_linux_64k plain_ops vmemmap_env true 2
      (vmemmap_ctl { zero_opts with
        isset := fun i => decide (i = .OPT_pagesize)
        pagesize := 4096 })).2.1 rfl rfl (by decide)]
    rfl
  · exact ((sys_ppc64_linux_64k plain_ops vmemmap_env true 2 (vmemmap_ctl zero_opts)).2.2
      rfl (Or.inl rfl)).1

/-! ## Next-level table address and physical range of the IBM POWER step -/

theorem and_high_mask (x k : Nat) (hx : x < 2 ^ 64) (hk : k < 64) :
    x &&& (2 ^ 64 - 2 ^ k) = x / 2 ^ k * 2 ^ k := by
  have hpos : 0 < 2 ^ k := Nat.two_pow_pos k
  have hlt : 2 ^ k - 1 < 2 ^ 64 := by
    have : 2 ^ k < 2 ^ 64 := Nat.pow_lt_pow_right (by decide) hk
    omega
  have e : 2 ^ 64 - 2 ^ k = 2 ^ 64 - (2 ^ k - 1 + 1) := by omega
  apply Nat.eq_of_testBit_eq
  intro i
  rw [Nat.testBit_and, e, Nat.testBit_two_pow_sub_succ hlt, Nat.testBit_two_pow_sub_one,
    Nat.mul_comm, Nat.testBit_mul_pow_two, ← Nat.shiftRight_eq_div_pow,
    Nat.testBit_shiftRight]
  by_cases h1 : i < k
  · have : ¬ i ≥ k := by omega
    simp [h1, this]
  · have h2 : i ≥ k := by omega
    have h3 : k + (i - k) = i := by omega
    rw [h3]
    by_cases h4 : i < 64
    · simp [h1, h2, h4]
    · have : x < 2 ^ i := lt_of_lt_of_le hx (Nat.pow_le_pow_right (by decide) (by omega))
      simp [Nat.testBit_lt_two_pow this]

theorem and_not_table (x f : Nat) (hx : x < 2 ^ 64) :
    x &&& u64_not (u64_sub (((1 <<< PTE_SHIFT) <<< f) % 2 ^ 64) 1)
      = x / (8 * 2 ^ f) * (8 * 2 ^ f) := by
  have e1 : (1 <<< PTE_SHIFT) <<< f = 2 ^ (f + 3) := by
    simp only [PTE_SHIFT, Nat.shiftLeft_eq, Nat.one_mul]
    rw [Nat.pow_add, Nat.mul_comm]
  have e2 : 8 * 2 ^ f = 2 ^ (f + 3) := by
    rw [Nat.pow_add, Nat.mul_comm]
  rw [e1, e2]
  by_cases hf : f + 3 < 64
  · have hlt : 2 ^ (f + 3) < 2 ^ 64 := Nat.pow_lt_pow_right (by decide) hf
    have hpos : 0 < 2 ^ (f + 3) := Nat.two_pow_pos _
    have e3 : u64_not (u64_sub (2 ^ (f + 3) % 2 ^ 64) 1) = 2 ^ 64 - 2 ^ (f + 3) := by
      unfold u64_not u64_sub
      rw [Nat.mod_eq_of_lt hlt]
      omega
    rw [e3]
    exact and_high_mask x (f + 3) hx hf
  · have hge : 2 ^ 64 ≤ 2 ^ (f + 3) := Nat.pow_le_pow_right (by decide) (by omega)
    have hz : 2 ^ (f + 3) % 2 ^ 64 = 0 := by
      obtain ⟨d, hd⟩ : ∃ d, f + 3 = 64 + d := ⟨f + 3 - 64, by omega⟩
      rw [hd, Nat.pow_add]
      exact Nat.mul_mod_right _ _
    have e3 : u64_not (u64_sub (2 ^ (f + 3) % 2 ^ 64) 1) = 0 := by
      unfold u64_not u64_sub
      rw [hz]
      decide
    have hdiv : x / 2 ^ (f + 3) = 0 := Nat.div_eq_of_lt (lt_of_lt_of_le hx hge)
    rw [e3, hdiv]
    simp

theorem round_down_facts (x T : Nat) (hT : 0 < T) :
    T ∣ x / T * T ∧ x / T * T ≤ x ∧ x < x / T * T + T := by
  have hdm := Nat.div_add_mod x T
  have hm := Nat.mod_lt x hT
  rw [Nat.mul_comm] at hdm
  exact ⟨Nat.dvd_mul_left _ _, by omega, by omega⟩

/-- C29: the next-level table address.  For an ordinary directory entry
(`remain > 1`, low two bits zero, bit 63 set) `pgt_ppc64_linux` returns OK with
`base.as = KVADDR` and `base.addr = pte & ~(T - 1)`, which is `pte` rounded down to
a multiple of `T = 8 * 2^fieldsz[remain-1]`, the byte size of the next-level table:
`base.addr` is a multiple of `T` and `base.addr <= pte < base.addr + T`; `idx`,
`elemsz`, `remain` and the method are left unchanged. -/
theorem ppc64_next_table (rd : addrxlat_step_t → pte_read) (step : addrxlat_step_t)
    (rpn_shift : Nat)
    (hst : (rd step).status = .OK) (hlt : (rd step).pte < 2 ^ 64)
    (hrem : step.remain > 1) (h4 : (rd step).pte % 4 = 0)
    (h63 : (rd step).pte / 2 ^ 63 = 1) :
    let pte := (rd step).pte
    let T := 8 * 2 ^ step.meth.pgt.pf.fieldsz (step.remain - 1)
    let r := pgt_ppc64_linux rd step rpn_shift
    r.1 = .OK ∧ r.2.base.as = .KVADDR ∧
    r.2.base.addr = pte &&& u64_not (u64_sub
      (((1 <<< PTE_SHIFT) <<< step.meth.pgt.pf.fieldsz (step.remain - 1)) % 2 ^ 64) 1) ∧
    (T < 2 ^ 64 → r.2.base.addr = pte &&& (2 ^ 64 - 1 - (T - 1))) ∧
    r.2.base.addr = pte / T * T ∧ T ∣ r.2.base.addr ∧
    r.2.base.addr ≤ pte ∧ pte < r.2.base.addr + T ∧
    r.2.idx = step.idx ∧ r.2.elemsz = step.elemsz ∧ r.2.meth = step.meth ∧
    r.2.remain = step.remain := by
  intro pte T r
  have hnz : (rd step).pte ≠ 0 := by
    intro h
    rw [h] at h63
    exact absurd h63 (by decide)
  have hpte : ¬ is_hugepte_linux (rd step).pte = true := by
    rw [is_hugepte_iff]
    exact fun h => h h4
  have hpd : ¬ is_hugepd_linux (rd step).pte = true := by
    rw [is_hugepd_iff _ hlt]
    intro h
    have : (rd step).pte / 2 ^ 63 = 0 := Nat.div_eq_of_lt h
    omega
  have hr : r = (.OK, { step with
      ctx := (rd step).ctx
      raw := (rd step).raw
      base :=
        { as := .KVADDR
          addr := (rd step).pte &&& u64_not (u64_sub
            (((1 <<< PTE_SHIFT) <<< step.meth.pgt.pf.fieldsz (step.remain - 1))
              % 2 ^ 64) 1) } }) := by
    show pgt_ppc64_linux rd step rpn_shift = _
    rw [pgt_ppc64_linux_present rd step rpn_shift hst hnz, if_pos hrem, if_neg hpte,
      if_neg hpd]
  have hT : 0 < T := Nat.mul_pos (by decide) (Nat.two_pow_pos _)
  have hval : pte &&& u64_not (u64_sub
      (((1 <<< PTE_SHIFT) <<< step.meth.pgt.pf.fieldsz (step.remain - 1)) % 2 ^ 64) 1)
      = pte / T * T := and_not_table pte (step.meth.pgt.pf.fieldsz (step.remain - 1)) hlt
  obtain ⟨f1, f2, f3⟩ := round_down_facts pte T hT
  have hbase : r.2.base.addr = pte / T * T := by
    rw [hr]
    exact hval
  refine ⟨by rw [hr], by rw [hr], by rw [hr], ?_, hbase, by rw [hbase]; exact f1,
    by rw [hbase]; exact f2, by rw [hbase]; exact f3, by rw [hr], by rw [hr], by rw [hr],
    by rw [hr]⟩
  intro hTlt
  have hlow : ((1 <<< PTE_SHIFT) <<< step.meth.pgt.pf.fieldsz (step.remain - 1)) = T := by
    show (1 <<< 3) <<< _ = 8 * 2 ^ _
    rw [Nat.shiftLeft_eq, Nat.shiftLeft_eq]
  have emask : u64_not (u64_sub
      (((1 <<< PTE_SHIFT) <<< step.meth.pgt.pf.fieldsz (step.remain - 1)) % 2 ^ 64) 1)
      = 2 ^ 64 - 1 - (T - 1) := by
    rw [hlow]
    unfold u64_not u64_sub
    rw [Nat.mod_eq_of_lt hTlt]
    omega
  rw [hbase, ← hval, emask]

/-- Witness for C29: the entry `0x8000000000123008` at `remain = 3` with a
next-level table of `8 * 2^12` bytes gives the table address
`0x8000000000120000`. -/
theorem ppc64_next_table_witness :
    (pgt_ppc64_linux (const_read 0x8000000000123008) (ppc64_step full_ctx 3) 30).2.base
      = { addr := 0x8000000000120000, as := .KVADDR } ∧
    0x8000000000120000 = 0x8000000000123008 / (8 * 2 ^ 12) * (8 * 2 ^ 12) := by
  obtain ⟨_, h1, h2, _⟩ := ppc64_next_table (const_read 0x8000000000123008)
    (ppc64_step full_ctx 3) 30 (by decide) (by decide) (by decide) (by decide) (by decide)
  refine ⟨?_, by decide⟩
  have e : ∀ b : addrxlat_fulladdr_t, b = { addr := b.addr, as := b.as } := fun b => rfl
  rw [e (pgt_ppc64_linux _ _ _).2.base, h1, h2]
  decide

theorem map_linux_ppc64_physmaps (ops1 ops2 : sys_ops) (env : read_env) (malloc_ok : Bool)
    (fuel : Nat) (ctl : os_init_data)
    (h1 : ops1.sys_set_layout = ops2.sys_set_layout)
    (h2 : ops1.sys_set_physmaps ctl (2 ^ 50 - 1) = ops2.sys_set_physmaps ctl (2 ^ 50 - 1)) :
    map_linux_ppc64 ops1 env malloc_ok fuel ctl
      = map_linux_ppc64 ops2 env malloc_ok fuel ctl := by
  have hmax : (1 <<< (64 - 30 + 16)) - 1 = 2 ^ 50 - 1 := by decide
  unfold map_linux_ppc64
  simp only [hmax, h1, h2]

/-- C30: physical range of the 64 KB paging form.  The form has 4 fields of
16, 12, 12 and 4 bits, 44 in all.  For every 64-bit PTE that is not zero, the final
level of `pgt_ppc64_linux_rpn30` returns OK with `elemsz = 1` and
`base.addr = (pte >> 30) << 16`, so that for every page offset below `2^16` the
address `base.addr + offset` is at most `2^50 - 1`; the bound is reached for the
PTE `2^64 - 1` and the offset `2^16 - 1`.  `2^50 - 1` is `(1 << (64 - 30 + 16)) - 1`,
the only argument with which `map_linux_ppc64` calls `sys_set_physmaps`: its result
depends on `sys_set_physmaps` through the value at that argument alone. -/
theorem ppc64_phys_range (rd : addrxlat_step_t → pte_read) (step : addrxlat_step_t)
    (off : Nat)
    (hst : (rd step).status = .OK) (hlt : (rd step).pte < 2 ^ 64)
    (hnz : (rd step).pte ≠ 0) (hrem : step.remain ≤ 1)
    (hpf : step.meth.pgt.pf = ppc64_pf_64k) (hoff : off < 2 ^ 16) :
    (pgt_ppc64_linux_rpn30 rd step).1 = .OK ∧
    (pgt_ppc64_linux_rpn30 rd step).2.elemsz = 1 ∧
    (pgt_ppc64_linux_rpn30 rd step).2.base.addr = ((rd step).pte >>> 30) <<< 16 ∧
    (pgt_ppc64_linux_rpn30 rd step).2.base.addr + off ≤ 2 ^ 50 - 1 ∧
    (((2 ^ 64 - 1) >>> 30) <<< 16) + (2 ^ 16 - 1) = 2 ^ 50 - 1 ∧
    (1 <<< (64 - 30 + 16)) - 1 = 2 ^ 50 - 1 ∧
    ppc64_pf_64k.nfields = 4 ∧
    (List.range 4).map ppc64_pf_64k.fieldsz = [16, 12, 12, 4] ∧
    ((List.range 4).map ppc64_pf_64k.fieldsz).sum = 44 ∧
    (∀ (ops1 ops2 : sys_ops) (env : read_env) (malloc_ok : Bool) (fuel : Nat)
      (ctl : os_init_data), ops1.sys_set_layout = ops2.sys_set_layout →
      ops1.sys_set_physmaps ctl (2 ^ 50 - 1) = ops2.sys_set_physmaps ctl (2 ^ 50 - 1) →
      map_linux_ppc64 ops1 env malloc_ok fuel ctl
        = map_linux_ppc64 ops2 env malloc_ok fuel ctl) ∧
    (map_linux_ppc64 plain_ops vmemmap_env true 2 (vmemmap_ctl zero_opts)).map
      (fun r => r.2.sys.physmax) = some (some (2 ^ 50 - 1)) := by
  have hr : pgt_ppc64_linux_rpn30 rd step = (.OK, { step with
      ctx := (rd step).ctx
      raw := (rd step).raw
      base :=
        { as := step.meth.target_as
          addr := (((rd step).pte >>> 30) <<< step.meth.pgt.pf.fieldsz 0) % 2 ^ 64 }
      elemsz := 1 }) := by
    unfold pgt_ppc64_linux_rpn30
    rw [pgt_ppc64_linux_present rd step 30 hst hnz, if_neg (by omega)]
  have hf : step.meth.pgt.pf.fieldsz 0 = 16 := by
    rw [hpf]
    rfl
  have hsh : (rd step).pte >>> 30 < 2 ^ 34 := by
    rw [Nat.shiftRight_eq_div_pow]
    exact Nat.div_lt_of_lt_mul (by norm_num at hlt ⊢; omega)
  have hval : (((rd step).pte >>> 30) <<< 16) < 2 ^ 50 ∧
      (((rd step).pte >>> 30) <<< 16) % 2 ^ 16 = 0 := by
    rw [Nat.shiftLeft_eq]
    constructor
    · have : (rd step).pte >>> 30 * 2 ^ 16 < 2 ^ 34 * 2 ^ 16 :=
        Nat.mul_lt_mul_of_pos_right hsh (by decide)
      norm_num at this ⊢
      exact this
    · exact Nat.mul_mod_left _ _
  have hbase : (pgt_ppc64_linux_rpn30 rd step).2.base.addr = ((rd step).pte >>> 30) <<< 16 := by
    rw [hr]
    show (((rd step).pte >>> 30) <<< step.meth.pgt.pf.fieldsz 0) % 2 ^ 64 = _
    rw [hf]
    exact Nat.mod_eq_of_lt (lt_trans hval.1 (by norm_num))
  refine ⟨by rw [hr], by rw [hr], hbase, ?_, by decide, by decide, rfl, by decide, by decide,
    map_linux_ppc64_physmaps, by rfl⟩
  rw [hbase]
  obtain ⟨h1, h2⟩ := hval
  generalize ((rd step).pte >>> 30) <<< 16 = v at h1 h2
  norm_num at h1 hoff ⊢
  omega

/-- Witness for C30: the PTE `0xffffffffffffffff` at the final level with the
page offset `0xffff` gives the address `2^50 - 1`. -/
theorem ppc64_phys_range_witness :
    (pgt_ppc64_linux_rpn30 (const_read 0xffffffffffffffff) (ppc64_step full_ctx 1)).2.base.addr
      + 0xffff = 2 ^ 50 - 1 := by
  obtain ⟨_, _, h, _⟩ := ppc64_phys_range (const_read 0xffffffffffffffff)
    (ppc64_step full_ctx 1) 0xffff (by decide) (by decide) (by decide) (by decide) rfl
    (by decide)
  rw [h]
  decide

/-! ## Collapse of the levels below a huge page directory -/

theorem or_eq_add_of_low (a b k : Nat) (ha : a % 2 ^ k = 0) (hb : b < 2 ^ k) :
    a ||| b = a + b := by
  have e : a = 2 ^ k * (a / 2 ^ k) := by
    have := Nat.div_add_mod a (2 ^ k)
    omega
  rw [e]
  exact (Nat.mul_add_lt_is_or hb _).symm

theorem squash_loop_eq (idx fs : Nat → Nat) :
    ∀ (m off : Nat), (∀ i, 1 ≤ i → i ≤ m → idx i < 2 ^ fs i) →
      (1 ≤ m → off % 2 ^ fs m = 0) →
      (1 ≤ m → (off + 2 ^ fs m) * 2 ^ ((Finset.range m).sum fs) ≤ 2 ^ 64) →
      (m = 0 → off < 2 ^ 64) →
      squash_loop idx fs m off
        = off * 2 ^ ((Finset.range m).sum fs)
          + (Finset.range m).sum (fun i => idx (i + 1) * 2 ^ ((Finset.range (i + 1)).sum fs)) ∧
      (1 ≤ m → squash_loop idx fs m off % 2 ^ fs 0 = 0) := by
  intro m
  induction m with
  | zero =>
    intro off _ _ _ _
    simp [squash_loop]
  | succ n ih =>
    intro off hidx hmod hbound _
    have hi := hidx (n + 1) (by omega) (le_refl _)
    have hm := hmod (by omega)
    have hb : (off + 2 ^ fs (n + 1)) * (2 ^ (Finset.range n).sum fs * 2 ^ fs n) ≤ 2 ^ 64 := by
      have := hbound (by omega)
      rw [Finset.sum_range_succ, Nat.pow_add] at this
      exact this
    have hor : off ||| idx (n + 1) = off + idx (n + 1) :=
      or_eq_add_of_low off (idx (n + 1)) (fs (n + 1)) hm hi
    have hP : 0 < 2 ^ (Finset.range n).sum fs := Nat.two_pow_pos _
    have hQ : 0 < 2 ^ fs n := Nat.two_pow_pos _
    -- the shift does not overflow
    have hlt : (off + idx (n + 1)) * 2 ^ fs n < 2 ^ 64 := by
      have h1 : (off + idx (n + 1)) * 2 ^ fs n
          ≤ (off + idx (n + 1)) * 2 ^ fs n * 2 ^ (Finset.range n).sum fs :=
        Nat.le_mul_of_pos_right _ hP
      have h2 : (off + idx (n + 1)) * 2 ^ fs n * 2 ^ (Finset.range n).sum fs
          < (off + 2 ^ fs (n + 1)) * (2 ^ (Finset.range n).sum fs * 2 ^ fs n) := by
        rw [Nat.mul_assoc, Nat.mul_comm (2 ^ fs n)]
        exact Nat.mul_lt_mul_of_pos_right (by omega) (Nat.mul_pos hP hQ)
      omega
    have hstep : ((off ||| idx (n + 1)) <<< fs n) % 2 ^ 64 = (off + idx (n + 1)) * 2 ^ fs n := by
      rw [hor, Nat.shiftLeft_eq, Nat.mod_eq_of_lt hlt]
    have hnext := ih ((off + idx (n + 1)) * 2 ^ fs n)
      (fun i h1 h2 => hidx i h1 (by omega))
      (fun _ => Nat.mul_mod_left _ _)
      (fun _ => by
        have e : ((off + idx (n + 1)) * 2 ^ fs n + 2 ^ fs n) * 2 ^ (Finset.range n).sum fs
            = (off + idx (n + 1) + 1) * (2 ^ (Finset.range n).sum fs * 2 ^ fs n) := by ring
        rw [e]
        exact le_trans (Nat.mul_le_mul_right _ (by omega)) hb)
      (fun _ => hlt)
    have e0 : squash_loop idx fs (n + 1) off
        = squash_loop idx fs n ((off + idx (n + 1)) * 2 ^ fs n) := by
      show squash_loop idx fs n (((off ||| idx (n + 1)) <<< fs n) % 2 ^ 64) = _
      rw [hstep]
    rw [e0]
    constructor
    · rw [hnext.1, Finset.sum_range_succ (fun i => idx (i + 1) * 2 ^ (Finset.range (i + 1)).sum fs),
        Finset.sum_range_succ fs n, Nat.pow_add]
      ring
    · intro _
      by_cases hn : 1 ≤ n
      · exact hnext.2 hn
      · have hn0 : n = 0 := by omega
        subst hn0
        show (off + idx (0 + 1)) * 2 ^ fs 0 % 2 ^ fs 0 = 0
        exact Nat.mul_mod_left _ _

theorem mod_two_pow_low (off f s : Nat) (h : off % 2 ^ f = 0) :
    (off % 2 ^ s) % 2 ^ f = 0 ∧ (f ≤ s → off % 2 ^ s + 2 ^ f ≤ 2 ^ s) := by
  obtain ⟨q, hq⟩ : ∃ q, off = 2 ^ f * q := ⟨off / 2 ^ f, by
    have := Nat.div_add_mod off (2 ^ f)
    omega⟩
  by_cases hfs : f ≤ s
  · obtain ⟨d, hd⟩ : ∃ d, s = f + d := ⟨s - f, by omega⟩
    have e : off % 2 ^ s = 2 ^ f * (q % 2 ^ d) := by
      rw [hq, hd, Nat.pow_add, Nat.mul_mod_mul_left]
    refine ⟨by rw [e]; exact Nat.mul_mod_right _ _, fun _ => ?_⟩
    rw [e, hd, Nat.pow_add]
    have hlt : q % 2 ^ d < 2 ^ d := Nat.mod_lt _ (Nat.two_pow_pos d)
    have : 2 ^ f * (q % 2 ^ d) + 2 ^ f = 2 ^ f * (q % 2 ^ d + 1) := by ring
    rw [this]
    exact Nat.mul_le_mul_left _ hlt
  · refine ⟨?_, fun h => absurd h hfs⟩
    obtain ⟨d, hd⟩ : ∃ d, f = s + d := ⟨f - s, by omega⟩
    have : off % 2 ^ s = 0 := by
      rw [hq, hd, Nat.pow_add, Nat.mul_assoc]
      exact Nat.mul_mod_right _ _
    rw [this]
    exact Nat.zero_mod _

theorem hugepd_shift_le (pte : Nat) : hugepd_shift pte ≤ 36 := by
  rw [hugepd_shift_eq]
  have hc : pte % 64 / 4 < 16 := by omega
  generalize pte % 64 / 4 = c at hc ⊢
  interval_cases c <;> simp [mmu_pshift]

theorem u64_low_mask (s : Nat) (hs : s < 64) :
    u64_sub ((1 <<< s) % 2 ^ 64) 1 = 2 ^ s - 1 := by
  have hlt : 2 ^ s < 2 ^ 64 := Nat.pow_lt_pow_right (by decide) hs
  have hpos : 0 < 2 ^ s := Nat.two_pow_pos s
  unfold u64_sub
  rw [Nat.shiftLeft_eq, Nat.one_mul, Nat.mod_mod, Nat.mod_eq_of_lt hlt]
  omega

/-- C28: the collapse of the levels below a huge page directory preserves the
address.  For a step with `remain = r >= 2`, `idx[i] < 2^fieldsz[i]` for all
`i < r` and `fieldsz[0] + ... + fieldsz[r-1] <= 64`, and an entry whose shift
`s = hugepd_shift(pte)` is valid, `huge_pd_linux` returns OK with `remain = 2`,
`base = ((pte & ~0x3f) | 2^63, KVADDR)` and new indices with
`idx'[1] * 2^s + idx'[0]` equal to the sum over `i < r` of
`idx[i] * 2^(fieldsz[0] + ... + fieldsz[i-1])`; when `s >= fieldsz[0]` also
`idx'[0] < 2^s`.  The indices from 2 on, `elemsz` and the method are unchanged. -/
theorem huge_pd_linux_collapse (step : addrxlat_step_t) (pte : Nat)
    (hr : 2 ≤ step.remain) (hr16 : step.remain < 65536)
    (hidx : ∀ i, i < step.remain → step.idx i < 2 ^ step.meth.pgt.pf.fieldsz i)
    (hsum : (Finset.range step.remain).sum step.meth.pgt.pf.fieldsz ≤ 64)
    (hs : hugepd_shift pte ≠ 0) :
    (huge_pd_linux step pte).1 = .OK ∧
    (huge_pd_linux step pte).2.remain = 2 ∧
    (huge_pd_linux step pte).2.base
      = { addr := (pte &&& (2 ^ 64 - 1 - 0x3f)) ||| 2 ^ 63, as := .KVADDR } ∧
    (huge_pd_linux step pte).2.idx 1 * 2 ^ hugepd_shift pte
        + (huge_pd_linux step pte).2.idx 0
      = (Finset.range step.remain).sum (fun i =>
          step.idx i * 2 ^ (Finset.range i).sum step.meth.pgt.pf.fieldsz) ∧
    (step.meth.pgt.pf.fieldsz 0 ≤ hugepd_shift pte →
      (huge_pd_linux step pte).2.idx 0 < 2 ^ hugepd_shift pte) ∧
    (∀ i, 2 ≤ i → (huge_pd_linux step pte).2.idx i = step.idx i) ∧
    (huge_pd_linux step pte).2.elemsz = step.elemsz ∧
    (huge_pd_linux step pte).2.meth = step.meth := by
  obtain ⟨m, hm⟩ : ∃ m, step.remain = m + 1 := ⟨step.remain - 1, by omega⟩
  have hm1 : 1 ≤ m := by omega
  have hcnt : (step.remain + 65535) % 65536 = m := by omega
  have hs64 : hugepd_shift pte < 64 := lt_of_le_of_lt (hugepd_shift_le pte) (by decide)
  -- the total byte offset below the current table
  have hloop := squash_loop_eq step.idx step.meth.pgt.pf.fieldsz m 0
    (fun i _ h2 => hidx i (by omega))
    (fun _ => Nat.zero_mod _)
    (fun _ => by
      rw [Nat.zero_add, ← Nat.pow_add, Nat.add_comm, ← Finset.sum_range_succ, ← hm]
      exact Nat.pow_le_pow_right (by decide) hsum)
    (fun _ => by norm_num)
  obtain ⟨hoff, hlow⟩ := hloop
  have hlow0 := hlow hm1
  rw [Nat.zero_mul, Nat.zero_add] at hoff
  have hres : huge_pd_linux step pte = (.OK, { step with
      base := { addr := (pte &&& u64_not HUGEPD_SHIFT_MASK) ||| PD_HUGE, as := .KVADDR }
      idx := fun i =>
        if i = 0 then step.idx 0 ||| (squash_loop step.idx step.meth.pgt.pf.fieldsz m 0
          &&& u64_sub ((1 <<< hugepd_shift pte) % 2 ^ 64) 1)
        else if i = 1 then
          squash_loop step.idx step.meth.pgt.pf.fieldsz m 0 >>> hugepd_shift pte
        else step.idx i
      remain := 2 }) := by
    unfold huge_pd_linux
    simp only [if_neg hs, hcnt]
  generalize squash_loop step.idx step.meth.pgt.pf.fieldsz m 0 = off at hoff hlow0 hres
  have hi0 := hidx 0 (by omega)
  obtain ⟨g1, g2⟩ := mod_two_pow_low off (step.meth.pgt.pf.fieldsz 0) (hugepd_shift pte) hlow0
  have hor : step.idx 0 ||| (off &&& u64_sub ((1 <<< hugepd_shift pte) % 2 ^ 64) 1)
      = step.idx 0 + off % 2 ^ hugepd_shift pte := by
    rw [u64_low_mask _ hs64, Nat.and_pow_two_sub_one_eq_mod, Nat.lor_comm,
      or_eq_add_of_low _ _ _ g1 hi0, Nat.add_comm]
  have hsumeq : (Finset.range step.remain).sum (fun i =>
      step.idx i * 2 ^ (Finset.range i).sum step.meth.pgt.pf.fieldsz) = off + step.idx 0 := by
    rw [hm, Finset.sum_range_succ', ← hoff]
    simp
  rw [hres]
  refine ⟨rfl, rfl, ?_, ?_, ?_, ?_, rfl, rfl⟩
  · have e1 : u64_not HUGEPD_SHIFT_MASK = 2 ^ 64 - 1 - 0x3f := by decide
    have e2 : PD_HUGE = 2 ^ 63 := by decide
    rw [e1, e2]
  · show (off >>> hugepd_shift pte) * 2 ^ hugepd_shift pte
        + (step.idx 0 ||| (off &&& u64_sub ((1 <<< hugepd_shift pte) % 2 ^ 64) 1)) = _
    rw [hor, hsumeq, Nat.shiftRight_eq_div_pow]
    have := Nat.div_add_mod off (2 ^ hugepd_shift pte)
    rw [Nat.mul_comm] at this
    omega
  · intro hfs
    show (step.idx 0 ||| (off &&& u64_sub ((1 <<< hugepd_shift pte) % 2 ^ 64) 1)) < _
    rw [hor]
    have := g2 hfs
    omega
  · intro i hi
    show (if i = 0 then _ else if i = 1 then _ else step.idx i) = step.idx i
    rw [if_neg (by omega), if_neg (by omega)]

/-- Witness for C28: three levels below a huge page directory with shift 24 (MMU
page size code 8) in the 64 KB paging form: the indices `0x1234`, `5` and `6` give
the offset `0x6005` times `2^16` plus `0x1234`, that is the index `0x60` and the
offset `0x51234`. -/
theorem huge_pd_linux_collapse_witness :
    (huge_pd_linux (ppc64_step full_ctx 3) 0x20).2.idx 1 = 0x60 ∧
    (huge_pd_linux (ppc64_step full_ctx 3) 0x20).2.idx 0 = 0x51234 ∧
    (huge_pd_linux (ppc64_step full_ctx 3) 0x20).2.idx 1 * 2 ^ hugepd_shift 0x20
        + (huge_pd_linux (ppc64_step full_ctx 3) 0x20).2.idx 0
      = (Finset.range 3).sum (fun i =>
          (ppc64_step full_ctx 3).idx i
            * 2 ^ (Finset.range i).sum (ppc64_step full_ctx 3).meth.pgt.pf.fieldsz) :=
  ⟨by decide, by decide,
   (huge_pd_linux_collapse (ppc64_step full_ctx 3) 0x20 (by decide) (by decide)
     (by decide) (by decide) (by decide)).2.2.2.1⟩

/-! ## The ring invariant of the read cache -/

theorem ring_wf_set_buffer (c : read_cache) (s : slot_ptr) (b : addrxlat_buffer_t) :
    ring_wf (c.set_buffer s b) ↔ ring_wf c := Iff.rfl

theorem ring_closed (c : read_cache) (h : ring_wf c) :
    c.next (c.next (c.next (c.next c.mru))) = c.mru := by
  have hl := ring_lru_last c h
  have e : (ring_order c).getLast? = some (c.next (c.next (c.next c.mru))) := rfl
  rw [e] at hl
  rw [Option.some.inj hl]
  exact h.2.1 c.mru

theorem get_cache_buf_ring (ctx : addrxlat_ctx_t) (a : addrxlat_fulladdr_t)
    (res : cache_result) (hwf : ring_wf ctx.cache) (h : get_cache_buf ctx a = some res) :
    ring_wf res.ctx.cache := by
  by_cases hst : res.status = .OK
  · obtain ⟨_, _, hw, _⟩ := get_cache_buf_ok_ring ctx a res hwf h hst
    exact hw
  · cases hscan : cache_scan ctx.cache a with
    | some s =>
      rw [get_cache_buf_hit ctx a s hscan] at h
      simp only [Option.some.injEq] at h
      subst h
      exact absurd rfl hst
    | none =>
      cases hgp : ctx.cb.get_page with
      | none =>
        simp [get_cache_buf, hscan, hgp] at h
      | some gp =>
        by_cases hok : (gp (miss_log ctx) (miss_req ctx a)).1 = .OK
        · rw [get_cache_buf_miss_ok ctx a gp hscan hgp hok] at h
          simp only [Option.some.injEq] at h
          subst h
          exact absurd rfl hst
        · rw [get_cache_buf_miss_err ctx a gp hscan hgp hok] at h
          simp only [Option.some.injEq] at h
          subst h
          exact (ring_wf_set_buffer _ _ _).mpr hwf

theorem bury_cache_buffer_ring (c : read_cache) (a : addrxlat_fulladdr_t) (h : ring_wf c) :
    ring_wf (bury_cache_buffer c a) := by
  unfold bury_cache_buffer
  cases cache_scan c a with
  | none => exact h
  | some s => exact (bury_ring c s h).1

theorem cache_reach_ring (c : read_cache) (h : cache_reach c) : ring_wf c := by
  induction h with
  | init c => exact (init_cache_ring c).1
  | touch c s _ ih => exact (touch_ring c s ih).1
  | get ctx a res _ hg ih => exact get_cache_buf_ring ctx a res ih hg
  | bury c a _ ih => exact bury_cache_buffer_ring c a ih

/-- C27: the ring invariant.  In every cache state reached from `init_cache` by
calls of `touch_cache_slot`, `get_cache_buf` (a hit, a successful or a failed miss)
and `bury_cache_buffer`, `next` and `prev` are mutually inverse, and following
`next` from `cache.mru` visits `READ_CACHE_SLOTS` pairwise different slots, so each
slot exactly once, and then returns to `cache.mru`. -/
theorem cache_ring_invariant (c : read_cache) (h : cache_reach c) :
    (∀ s, c.prev (c.next s) = s) ∧ (∀ s, c.next (c.prev s) = s) ∧
    ring_order c = [c.mru, c.next c.mru, c.next (c.next c.mru),
      c.next (c.next (c.next c.mru))] ∧
    (ring_order c).length = READ_CACHE_SLOTS ∧ (ring_order c).Nodup ∧
    (∀ s, s ∈ ring_order c) ∧ (∀ s, (ring_order c).count s = 1) ∧
    c.next (c.next (c.next (c.next c.mru))) = c.mru := by
  have hw := cache_reach_ring c h
  refine ⟨hw.1, hw.2.1, rfl, rfl, hw.2.2, ring_order_mem c hw, ?_, ring_closed c hw⟩
  intro s
  exact List.count_eq_one_of_mem hw.2.2 (ring_order_mem c hw s)

/-- Witness for C27: the cache of a fresh context after a miss, a touch of slot 1
and a bury of the page that was read. -/
theorem cache_ring_invariant_witness :
    match get_cache_buf fresh_page_ctx { addr := 0x2008, as := .KVADDR } with
    | some res =>
      (ring_order (bury_cache_buffer (touch_cache_slot res.ctx.cache 1)
        { addr := 0x2010, as := .KVADDR })).Nodup ∧
      ring_order (bury_cache_buffer (touch_cache_slot res.ctx.cache 1)
        { addr := 0x2010, as := .KVADDR }) = [1, 0, 2, 3]
    | none => False := by
  cases h : get_cache_buf fresh_page_ctx { addr := 0x2008, as := .KVADDR } with
  | none =>
    have : (get_cache_buf fresh_page_ctx { addr := 0x2008, as := .KVADDR }).isSome = true := by
      decide
    rw [h] at this
    exact absurd this (by decide)
  | some res =>
    refine ⟨(cache_ring_invariant _
      (cache_reach.bury _ { addr := 0x2010, as := .KVADDR }
        (cache_reach.touch _ 1
          (cache_reach.get fresh_page_ctx _ res (cache_reach.init _) h)))).2.2.2.2.1, ?_⟩
    have hc : (get_cache_buf fresh_page_ctx { addr := 0x2008, as := .KVADDR }).map
        (fun r => ring_order (bury_cache_buffer (touch_cache_slot r.ctx.cache 1)
          { addr := 0x2010, as := .KVADDR })) = some [1, 0, 2, 3] := by
      decide
    rw [h] at hc
    exact Option.some.inj hc

/-! ## Reference counting and callback installation -/

theorem incref_iterate (n : Nat) : ∀ ctx : addrxlat_ctx_t, ctx.refcnt + n < 2 ^ 64 →
    ((fun c => (addrxlat_ctx_incref c).2)^[n] ctx).refcnt = ctx.refcnt + n ∧
    ((fun c => (addrxlat_ctx_incref c).2)^[n] ctx).cache = ctx.cache ∧
    ((fun c => (addrxlat_ctx_incref c).2)^[n] ctx).cb = ctx.cb ∧
    ((fun c => (addrxlat_ctx_incref c).2)^[n] ctx).log = ctx.log := by
  induction n with
  | zero => intro ctx _; exact ⟨rfl, rfl, rfl, rfl⟩
  | succ n ih =>
    intro ctx h
    rw [Function.iterate_succ_apply]
    have e : (addrxlat_ctx_incref ctx).2.refcnt = ctx.refcnt + 1 := by
      show (ctx.refcnt + 1) % 2 ^ 64 = _
      exact Nat.mod_eq_of_lt (by omega)
    obtain ⟨h1, h2, h3, h4⟩ := ih (addrxlat_ctx_incref ctx).2 (by rw [e]; omega)
    refine ⟨by rw [h1, e]; omega, h2, h3, h4⟩

theorem decref_live (ctx : addrxlat_ctx_t) (h1 : 1 < ctx.refcnt) (h2 : ctx.refcnt < 2 ^ 64) :
    addrxlat_ctx_decref ctx
      = (ctx.refcnt - 1, false, { ctx with refcnt := ctx.refcnt - 1 }) := by
  have e : (ctx.refcnt + (2 ^ 64 - 1)) % 2 ^ 64 = ctx.refcnt - 1 := by omega
  unfold addrxlat_ctx_decref
  simp only [e]
  rw [if_neg (by omega)]

theorem decref_last (ctx : addrxlat_ctx_t) (h1 : ctx.refcnt = 1) :
    addrxlat_ctx_decref ctx
      = (0, true, { ctx with refcnt := 0, log := cleanup_cache ctx.cache ctx.cb ctx.log }) := by
  have e : (ctx.refcnt + (2 ^ 64 - 1)) % 2 ^ 64 = 0 := by
    rw [h1]
    decide
  unfold addrxlat_ctx_decref
  simp only [e]
  rw [if_pos trivial]

theorem decref_iterate (k : Nat) : ∀ ctx : addrxlat_ctx_t, k < ctx.refcnt →
    ctx.refcnt < 2 ^ 64 →
    ((fun c => (addrxlat_ctx_decref c).2.2)^[k] ctx).refcnt = ctx.refcnt - k ∧
    ((fun c => (addrxlat_ctx_decref c).2.2)^[k] ctx).cache = ctx.cache ∧
    ((fun c => (addrxlat_ctx_decref c).2.2)^[k] ctx).cb = ctx.cb ∧
    ((fun c => (addrxlat_ctx_decref c).2.2)^[k] ctx).log = ctx.log := by
  induction k with
  | zero => intro ctx _ _; exact ⟨rfl, rfl, rfl, rfl⟩
  | succ k ih =>
    intro ctx h h2
    rw [Function.iterate_succ_apply, decref_live ctx (by omega) h2]
    obtain ⟨a1, a2, a3, a4⟩ := ih { ctx with refcnt := ctx.refcnt - 1 }
      (by show k < ctx.refcnt - 1; omega) (by show ctx.refcnt - 1 < 2 ^ 64; omega)
    refine ⟨by rw [a1]; show ctx.refcnt - 1 - k = _; omega, a2, a3, a4⟩

theorem decref_of_zero (c : addrxlat_ctx_t) (hz : (c.refcnt + (2 ^ 64 - 1)) % 2 ^ 64 = 0) :
    addrxlat_ctx_decref c
      = (0, true, { c with refcnt := 0, log := cleanup_cache c.cache c.cb c.log }) := by
  unfold addrxlat_ctx_decref
  simp only [hz]
  rw [if_pos trivial]

theorem decref_of_nonzero (c : addrxlat_ctx_t) (r : Nat)
    (hr : (c.refcnt + (2 ^ 64 - 1)) % 2 ^ 64 = r) (hz : r ≠ 0) :
    addrxlat_ctx_decref c = (r, false, { c with refcnt := r }) := by
  unfold addrxlat_ctx_decref
  simp only [hr]
  rw [if_neg hz]

theorem decref_facts (c : addrxlat_ctx_t) :
    (addrxlat_ctx_decref c).1 = (addrxlat_ctx_decref c).2.2.refcnt ∧
    (1 ≤ c.refcnt → c.refcnt < 2 ^ 64 → (addrxlat_ctx_decref c).1 = c.refcnt - 1) ∧
    ((addrxlat_ctx_decref c).2.1 = true ↔ (addrxlat_ctx_decref c).1 = 0) ∧
    ((addrxlat_ctx_decref c).2.1 = true →
      (addrxlat_ctx_decref c).2.2.log = cleanup_cache c.cache c.cb c.log) ∧
    ((addrxlat_ctx_decref c).2.1 = false →
      (addrxlat_ctx_decref c).2.2 = { c with refcnt := (addrxlat_ctx_decref c).1 }) := by
  obtain ⟨r, hr⟩ : ∃ r, (c.refcnt + (2 ^ 64 - 1)) % 2 ^ 64 = r := ⟨_, rfl⟩
  have hsub : 1 ≤ c.refcnt → c.refcnt < 2 ^ 64 → r = c.refcnt - 1 := by
    intro a b
    omega
  by_cases hz : r = 0
  · rw [decref_of_zero c (hr.trans hz)]
    refine ⟨rfl, fun a b => ?_, ⟨fun _ => rfl, fun _ => rfl⟩, fun _ => rfl, fun h => ?_⟩
    · have := hsub a b
      show 0 = c.refcnt - 1
      omega
    · exact Bool.noConfusion h
  · rw [decref_of_nonzero c r hr hz]
    refine ⟨rfl, fun a b => hsub a b, ⟨fun h => ?_, fun h => absurd h hz⟩,
      fun h => ?_, fun _ => rfl⟩
    · exact Bool.noConfusion h
    · exact Bool.noConfusion h

/-- C25: context reference counting.  `addrxlat_ctx_new` gives a context with
reference count 1 and an initialised cache ring.  `addrxlat_ctx_incref` and
`addrxlat_ctx_decref` return the count after the change.  A decref destroys the
context exactly when it returns 0, and then it releases the cached buffers
through `put_page` (the callback history becomes that of `cleanup_cache`); a
decref that returns another count changes nothing but the count.  After `n`
increfs of a context with count 1, the `k+1`-th decref returns `n - k`, so the
`n+1`-th decref and no earlier one destroys the context. -/
theorem ctx_refcount (ctx : addrxlat_ctx_t) (n k : Nat) (h1 : ctx.refcnt = 1)
    (hn : n + 1 < 2 ^ 64) (hk : k ≤ n) :
    addrxlat_ctx_new.refcnt = 1 ∧ ring_wf addrxlat_ctx_new.cache ∧
    ring_order addrxlat_ctx_new.cache = [0, 1, 2, 3] ∧
    (∀ c : addrxlat_ctx_t, (addrxlat_ctx_incref c).1 = (addrxlat_ctx_incref c).2.refcnt ∧
      (c.refcnt + 1 < 2 ^ 64 → (addrxlat_ctx_incref c).1 = c.refcnt + 1)) ∧
    (∀ c : addrxlat_ctx_t, (addrxlat_ctx_decref c).1 = (addrxlat_ctx_decref c).2.2.refcnt ∧
      (1 ≤ c.refcnt → c.refcnt < 2 ^ 64 → (addrxlat_ctx_decref c).1 = c.refcnt - 1) ∧
      ((addrxlat_ctx_decref c).2.1 = true ↔ (addrxlat_ctx_decref c).1 = 0) ∧
      ((addrxlat_ctx_decref c).2.1 = true →
        (addrxlat_ctx_decref c).2.2.log = cleanup_cache c.cache c.cb c.log) ∧
      ((addrxlat_ctx_decref c).2.1 = false →
        (addrxlat_ctx_decref c).2.2 = { c with refcnt := (addrxlat_ctx_decref c).1 })) ∧
    (addrxlat_ctx_decref
      ((fun c => (addrxlat_ctx_decref c).2.2)^[k]
        ((fun c => (addrxlat_ctx_incref c).2)^[n] ctx))).1 = n - k ∧
    ((addrxlat_ctx_decref
      ((fun c => (addrxlat_ctx_decref c).2.2)^[k]
        ((fun c => (addrxlat_ctx_incref c).2)^[n] ctx))).2.1 = true ↔ k = n) ∧
    ((addrxlat_ctx_decref
      ((fun c => (addrxlat_ctx_decref c).2.2)^[n]
        ((fun c => (addrxlat_ctx_incref c).2)^[n] ctx))).2.2.log
      = cleanup_cache ctx.cache ctx.cb ctx.log) := by
  have hinit := init_cache_ring
    { mru := 0, next := fun _ => 0, prev := fun _ => 0, buffer := fun _ => zero_buffer }
  obtain ⟨i1, i2, i3, i4⟩ := incref_iterate n ctx (by rw [h1]; omega)
  have key : ∀ j, j ≤ n →
      ((fun c => (addrxlat_ctx_decref c).2.2)^[j]
        ((fun c => (addrxlat_ctx_incref c).2)^[n] ctx)).refcnt = n + 1 - j ∧
      ((fun c => (addrxlat_ctx_decref c).2.2)^[j]
        ((fun c => (addrxlat_ctx_incref c).2)^[n] ctx)).cache = ctx.cache ∧
      ((fun c => (addrxlat_ctx_decref c).2.2)^[j]
        ((fun c => (addrxlat_ctx_incref c).2)^[n] ctx)).cb = ctx.cb ∧
      ((fun c => (addrxlat_ctx_decref c).2.2)^[j]
        ((fun c => (addrxlat_ctx_incref c).2)^[n] ctx)).log = ctx.log := by
    intro j hj
    obtain ⟨d1, d2, d3, d4⟩ := decref_iterate j
      ((fun c => (addrxlat_ctx_incref c).2)^[n] ctx) (by rw [i1, h1]; omega)
      (by rw [i1, h1]; omega)
    exact ⟨by rw [d1, i1, h1]; omega, by rw [d2, i2], by rw [d3, i3], by rw [d4, i4]⟩
  refine ⟨rfl, hinit.1, hinit.2.1, ?_, ?_, ?_, ?_, ?_⟩
  · intro c
    exact ⟨rfl, fun h => Nat.mod_eq_of_lt h⟩
  · exact decref_facts
  · obtain ⟨k1, _, _, _⟩ := key k hk
    by_cases hkn : k = n
    · rw [decref_last _ (by rw [k1]; omega)]
      show 0 = n - k
      omega
    · rw [decref_live _ (by rw [k1]; omega) (by rw [k1]; omega), k1]
      show n + 1 - k - 1 = n - k
      omega
  · obtain ⟨k1, _, _, _⟩ := key k hk
    by_cases hkn : k = n
    · rw [decref_last _ (by rw [k1]; omega)]
      exact ⟨fun _ => hkn, fun _ => rfl⟩
    · rw [decref_live _ (by rw [k1]; omega) (by rw [k1]; omega)]
      exact ⟨fun h => absurd h (by simp), fun h => absurd h hkn⟩
  · obtain ⟨k1, k2, k3, k4⟩ := key n (le_refl _)
    rw [decref_last _ (by rw [k1]; omega)]
    show cleanup_cache _ _ _ = _
    rw [k2, k3, k4]

/-- Witness for C25: after two increfs of a fresh context the first two decrefs
return 2 and 1 and the third returns 0 and destroys the context. -/
theorem ctx_refcount_witness :
    (addrxlat_ctx_decref ((fun c => (addrxlat_ctx_incref c).2)^[2] addrxlat_ctx_new)).1 = 2 ∧
    (addrxlat_ctx_decref ((fun c => (addrxlat_ctx_decref c).2.2)^[2]
      ((fun c => (addrxlat_ctx_incref c).2)^[2] addrxlat_ctx_new))).1 = 0 ∧
    (addrxlat_ctx_decref ((fun c => (addrxlat_ctx_decref c).2.2)^[2]
      ((fun c => (addrxlat_ctx_incref c).2)^[2] addrxlat_ctx_new))).2.1 = true := by
  have a := (ctx_refcount addrxlat_ctx_new 2 0 rfl (by norm_num) (by decide)).2.2.2.2.2.1
  have b := ctx_refcount addrxlat_ctx_new 2 2 rfl (by norm_num) (by decide)
  have b1 := b.2.2.2.2.2.1
  have b2 := b.2.2.2.2.2.2.1.mpr rfl
  rw [Function.iterate_zero, id] at a
  exact ⟨a, b1, b2⟩

/-! ## Callback installation -/

/-- C26: callback installation.  After `addrxlat_ctx_set_cb(ctx, cb)`,
`addrxlat_ctx_get_cb` returns callbacks equal to `cb`, whatever the hook does to
the effective callbacks.  When a `cb_hook` was installed before the call, that
hook is invoked exactly once, with the `data` installed before the call and with
the new callbacks, and the effective callbacks are what it leaves; when none was
installed, no hook is invoked and the effective callbacks are `cb`.  The rest of
the context is left unchanged. -/
theorem set_cb_get_cb (hooks : Nat → Nat → addrxlat_cb_t → addrxlat_cb_t)
    (ctx : addrxlat_ctx_t) (cb : addrxlat_cb_t) :
    addrxlat_ctx_get_cb (addrxlat_ctx_set_cb hooks ctx cb) = cb ∧
    (∀ h : Nat, ctx.cb.cb_hook = some h →
      (addrxlat_ctx_set_cb hooks ctx cb).hooklog
        = ctx.hooklog ++ [{ hook := h, data := ctx.cb.data, cb := cb }] ∧
      addrxlat_ctx_get_ecb (addrxlat_ctx_set_cb hooks ctx cb) = hooks h ctx.cb.data cb) ∧
    (ctx.cb.cb_hook = none →
      (addrxlat_ctx_set_cb hooks ctx cb).hooklog = ctx.hooklog ∧
      addrxlat_ctx_get_ecb (addrxlat_ctx_set_cb hooks ctx cb) = cb) ∧
    (addrxlat_ctx_set_cb hooks ctx cb).refcnt = ctx.refcnt ∧
    (addrxlat_ctx_set_cb hooks ctx cb).cache = ctx.cache ∧
    (addrxlat_ctx_set_cb hooks ctx cb).err = ctx.err ∧
    (addrxlat_ctx_set_cb hooks ctx cb).log = ctx.log ∧
    (addrxlat_ctx_set_cb hooks ctx cb).symlog = ctx.symlog := by
  unfold addrxlat_ctx_set_cb addrxlat_ctx_get_cb addrxlat_ctx_get_ecb
  cases hh : ctx.cb.cb_hook with
  | none =>
    refine ⟨rfl, fun h e => Option.noConfusion e, fun _ => ⟨rfl, rfl⟩, rfl, rfl, rfl, rfl, rfl⟩
  | some h0 =>
    refine ⟨rfl, fun h e => ?_, fun e => Option.noConfusion e, rfl, rfl, rfl, rfl, rfl⟩
    cases e
    exact ⟨rfl, rfl⟩

/-- Witness for C26: on a context whose callbacks carry hook 7 and data 5,
installing callbacks with read capabilities 3 invokes hook 7 once with data 5;
the hook clears the capabilities of the effective callbacks, and
`addrxlat_ctx_get_cb` still returns the callbacks that were passed in. -/
theorem set_cb_get_cb_witness :
    (addrxlat_ctx_get_cb (addrxlat_ctx_set_cb caps_hook
      { addrxlat_ctx_new with
        cb := { get_page := none, put_page := false, read_caps := 0, data := 5,
                cb_hook := some 7 } }
      { get_page := none, put_page := true, read_caps := 3 })).read_caps = 3 ∧
    (addrxlat_ctx_get_ecb (addrxlat_ctx_set_cb caps_hook
      { addrxlat_ctx_new with
        cb := { get_page := none, put_page := false, read_caps := 0, data := 5,
                cb_hook := some 7 } }
      { get_page := none, put_page := true, read_caps := 3 })).read_caps = 0 ∧
    ((addrxlat_ctx_set_cb caps_hook
      { addrxlat_ctx_new with
        cb := { get_page := none, put_page := false, read_caps := 0, data := 5,
                cb_hook := some 7 } }
      { get_page := none, put_page := true, read_caps := 3 }).hooklog.map
        (fun e => (e.hook, e.data, e.cb.read_caps))) = [(7, 5, 3)] := by
  have h := set_cb_get_cb caps_hook
    { addrxlat_ctx_new with
      cb := { get_page := none, put_page := false, read_caps := 0, data := 5,
              cb_hook := some 7 } }
    { get_page := none, put_page := true, read_caps := 3 }
  refine ⟨by rw [h.1], ?_, ?_⟩
  · rw [(h.2.1 7 rfl).2]
    rfl
  · rw [(h.2.1 7 rfl).1]
    rfl

/-! ## Symbol resolvers -/

/-- C24: the symbol resolvers `get_reg`, `get_symval`, `get_sizeof`,
`get_offsetof` and `get_number`.  With no `sym` callback each returns NODATA
(and calls nothing).  Otherwise each calls the callback exactly once, with its
own type tag (REG, VALUE, SIZEOF, OFFSETOF, NUMBER) and its name in `args[0]`
(`get_offsetof` also the member in `args[1]`), returns the status of the
callback unchanged, stores `sym.val` in the output when the status is OK and
does not write the output otherwise. -/
theorem sym_resolvers (name type memb : String) :
    resolver_contract (fun c => get_reg c name) { type := .SYM_REG, args := [name] } ∧
    resolver_contract (fun c => get_symval c name) { type := .SYM_VALUE, args := [name] } ∧
    resolver_contract (fun c => get_sizeof c name) { type := .SYM_SIZEOF, args := [name] } ∧
    resolver_contract (fun c => get_offsetof c type memb)
      { type := .SYM_OFFSETOF, args := [type, memb] } ∧
    resolver_contract (fun c => get_number c name) { type := .SYM_NUMBER, args := [name] } := by
  refine ⟨?_, ?_, ?_, ?_, ?_⟩
  · intro ctx
    dsimp only
    unfold get_reg
    cases hs : ctx.cb.sym with
    | none => exact ⟨fun _ => ⟨rfl, rfl, rfl⟩, fun cb e => Option.noConfusion e, rfl, rfl, rfl⟩
    | some cb0 =>
      refine ⟨fun e => Option.noConfusion e, fun cb e => ?_, ?_⟩
      · cases e
        dsimp only
        by_cases hok : (cb0 ctx.symlog { type := .SYM_REG, args := [name] }).1 = .OK
        · rw [if_neg (not_not.mpr hok)]
          exact ⟨rfl, rfl, fun _ => rfl, fun h => absurd hok h⟩
        · rw [if_pos hok]
          exact ⟨rfl, rfl, fun h => absurd h hok, fun _ => rfl⟩
      · dsimp only
        split_ifs <;> exact ⟨rfl, rfl, rfl⟩
  · intro ctx
    dsimp only
    unfold get_symval
    cases hs : ctx.cb.sym with
    | none => exact ⟨fun _ => ⟨rfl, rfl, rfl⟩, fun cb e => Option.noConfusion e, rfl, rfl, rfl⟩
    | some cb0 =>
      refine ⟨fun e => Option.noConfusion e, fun cb e => ?_, ?_⟩
      · cases e
        dsimp only
        by_cases hok : (cb0 ctx.symlog { type := .SYM_VALUE, args := [name] }).1 = .OK
        · rw [if_neg (not_not.mpr hok)]
          exact ⟨rfl, rfl, fun _ => rfl, fun h => absurd hok h⟩
        · rw [if_pos hok]
          exact ⟨rfl, rfl, fun h => absurd h hok, fun _ => rfl⟩
      · dsimp only
        split_ifs <;> exact ⟨rfl, rfl, rfl⟩
  · intro ctx
    dsimp only
    unfold get_sizeof
    cases hs : ctx.cb.sym with
    | none => exact ⟨fun _ => ⟨rfl, rfl, rfl⟩, fun cb e => Option.noConfusion e, rfl, rfl, rfl⟩
    | some cb0 =>
      refine ⟨fun e => Option.noConfusion e, fun cb e => ?_, ?_⟩
      · cases e
        dsimp only
        by_cases hok : (cb0 ctx.symlog { type := .SYM_SIZEOF, args := [name] }).1 = .OK
        · rw [if_neg (not_not.mpr hok)]
          exact ⟨rfl, rfl, fun _ => rfl, fun h => absurd hok h⟩
        · rw [if_pos hok]
          exact ⟨rfl, rfl, fun h => absurd h hok, fun _ => rfl⟩
      · dsimp only
        split_ifs <;> exact ⟨rfl, rfl, rfl⟩
  · intro ctx
    dsimp only
    unfold get_offsetof
    cases hs : ctx.cb.sym with
    | none => exact ⟨fun _ => ⟨rfl, rfl, rfl⟩, fun cb e => Option.noConfusion e, rfl, rfl, rfl⟩
    | some cb0 =>
      refine ⟨fun e => Option.noConfusion e, fun cb e => ?_, ?_⟩
      · cases e
        dsimp only
        by_cases hok : (cb0 ctx.symlog { type := .SYM_OFFSETOF, args := [type, memb] }).1 = .OK
        · rw [if_neg (not_not.mpr hok)]
          exact ⟨rfl, rfl, fun _ => rfl, fun h => absurd hok h⟩
        · rw [if_pos hok]
          exact ⟨rfl, rfl, fun h => absurd h hok, fun _ => rfl⟩
      · dsimp only
        split_ifs <;> exact ⟨rfl, rfl, rfl⟩
  · intro ctx
    dsimp only
    unfold get_number
    cases hs : ctx.cb.sym with
    | none => exact ⟨fun _ => ⟨rfl, rfl, rfl⟩, fun cb e => Option.noConfusion e, rfl, rfl, rfl⟩
    | some cb0 =>
      refine ⟨fun e => Option.noConfusion e, fun cb e => ?_, ?_⟩
      · cases e
        dsimp only
        by_cases hok : (cb0 ctx.symlog { type := .SYM_NUMBER, args := [name] }).1 = .OK
        · rw [if_neg (not_not.mpr hok)]
          exact ⟨rfl, rfl, fun _ => rfl, fun h => absurd hok h⟩
        · rw [if_pos hok]
          exact ⟨rfl, rfl, fun h => absurd h hok, fun _ => rfl⟩
      · dsimp only
        split_ifs <;> exact ⟨rfl, rfl, rfl⟩

/-- Witness for C24: with a callback that knows only `sizeof(long)`,
`get_sizeof` of `long` returns OK and the value 8 after one request, and
`get_number` of `long` returns the NODATA of the callback without a value,
also after one request. -/
theorem sym_resolvers_witness :
    (get_sizeof sizeof_ctx "long").status = .OK ∧
    (get_sizeof sizeof_ctx "long").val = some 8 ∧
    (get_sizeof sizeof_ctx "long").ctx.symlog = [{ type := .SYM_SIZEOF, args := ["long"] }] ∧
    (get_number sizeof_ctx "long").status = .ERR_NODATA ∧
    (get_number sizeof_ctx "long").val = none ∧
    (get_number sizeof_ctx "long").ctx.symlog = [{ type := .SYM_NUMBER, args := ["long"] }] := by
  obtain ⟨_, _, hs, _, hn⟩ := sym_resolvers "long" "long" "long"
  obtain ⟨_, s1, _⟩ := hs sizeof_ctx
  obtain ⟨_, n1, _⟩ := hn sizeof_ctx
  obtain ⟨a1, a2, a3, _⟩ := s1 sizeof_cb rfl
  obtain ⟨b1, b2, _, b4⟩ := n1 sizeof_cb rfl
  exact ⟨a2.trans rfl, (a3 rfl).trans rfl, a1.trans rfl, b2.trans rfl,
    b4 (by decide), b1.trans rfl⟩

/-! ## Checked reads -/

theorem get_cache_buf_pbuf (ctx : addrxlat_ctx_t) (addr : addrxlat_fulladdr_t)
    (g : cache_result) (hg : get_cache_buf ctx addr = some g) (hok : g.status = .OK) :
    ∃ s, g.pbuf = some s := by
  cases hs : cache_scan ctx.cache addr with
  | some slot =>
    rw [get_cache_buf_hit ctx addr slot hs] at hg
    cases hg
    exact ⟨slot, rfl⟩
  | none =>
    cases hgp : ctx.cb.get_page with
    | none =>
      simp only [get_cache_buf, hs, hgp] at hg
      exact Option.noConfusion hg
    | some gp =>
      by_cases h1 : (gp (miss_log ctx) (miss_req ctx addr)).1 = .OK
      · rw [get_cache_buf_miss_ok ctx addr gp hs hgp h1] at hg
        cases hg
        exact ⟨_, rfl⟩
      · rw [get_cache_buf_miss_err ctx addr gp hs hgp h1] at hg
        cases hg
        exact absurd hok h1

theorem do_read32_of (hb : Bool) (mem : Nat → Nat) (ctx : addrxlat_ctx_t)
    (addr : addrxlat_fulladdr_t) (g : cache_result) (hg : get_cache_buf ctx addr = some g) :
    (g.status ≠ .OK →
      do_read32 hb mem ctx addr = some { status := g.status, val := none, ctx := g.ctx }) ∧
    (∀ s, g.status = .OK → g.pbuf = some s →
      do_read32 hb mem ctx addr
        = some { status := .OK, val := some (decode32 hb mem (g.ctx.cache.buffer s) addr),
                 ctx := g.ctx }) := by
  unfold do_read32
  rw [hg]
  dsimp only
  refine ⟨fun h => by rw [if_pos h], fun s h1 h2 => ?_⟩
  rw [if_neg (not_not.mpr h1), h2]

theorem do_read64_of (hb : Bool) (mem : Nat → Nat) (ctx : addrxlat_ctx_t)
    (addr : addrxlat_fulladdr_t) (g : cache_result) (hg : get_cache_buf ctx addr = some g) :
    (g.status ≠ .OK →
      do_read64 hb mem ctx addr = some { status := g.status, val := none, ctx := g.ctx }) ∧
    (∀ s, g.status = .OK → g.pbuf = some s →
      do_read64 hb mem ctx addr
        = some { status := .OK, val := some (decode64 hb mem (g.ctx.cache.buffer s) addr),
                 ctx := g.ctx }) := by
  unfold do_read64
  rw [hg]
  dsimp only
  refine ⟨fun h => by rw [if_pos h], fun s h1 h2 => ?_⟩
  rw [if_neg (not_not.mpr h1), h2]

theorem do_read32_err (hb : Bool) (mem : Nat → Nat) (ctx : addrxlat_ctx_t)
    (addr : addrxlat_fulladdr_t) (res : read_result)
    (h : do_read32 hb mem ctx addr = some res) (hs : res.status ≠ .OK) : res.val = none := by
  unfold do_read32 at h
  cases hg : get_cache_buf ctx addr with
  | none =>
    rw [hg] at h
    exact Option.noConfusion h
  | some g =>
    rw [hg] at h
    dsimp only at h
    split_ifs at h with h1
    · cases h
      rfl
    · cases hp : g.pbuf with
      | none =>
        rw [hp] at h
        exact Option.noConfusion h
      | some s =>
        rw [hp] at h
        cases h
        exact absurd rfl hs

theorem do_read64_err (hb : Bool) (mem : Nat → Nat) (ctx : addrxlat_ctx_t)
    (addr : addrxlat_fulladdr_t) (res : read_result)
    (h : do_read64 hb mem ctx addr = some res) (hs : res.status ≠ .OK) : res.val = none := by
  unfold do_read64 at h
  cases hg : get_cache_buf ctx addr with
  | none =>
    rw [hg] at h
    exact Option.noConfusion h
  | some g =>
    rw [hg] at h
    dsimp only at h
    split_ifs at h with h1
    · cases h
      rfl
    · cases hp : g.pbuf with
      | none =>
        rw [hp] at h
        exact Option.noConfusion h
      | some s =>
        rw [hp] at h
        cases h
        exact absurd rfl hs

theorem read32_nocb (env : read_env) (ctx : addrxlat_ctx_t) (addr : addrxlat_fulladdr_t)
    (what : String) (h : ctx.cb.get_page = none) :
    read32 env ctx addr what
      = some { status := .ERR_NODATA, val := none,
               ctx := { ctx with
                 err := ("No read callback for " ++ addrspace_name addr.as) :: ctx.err } } := by
  unfold read32
  rw [h]
  rfl

theorem read64_nocb (env : read_env) (ctx : addrxlat_ctx_t) (addr : addrxlat_fulladdr_t)
    (what : String) (h : ctx.cb.get_page = none) :
    read64 env ctx addr what
      = some { status := .ERR_NODATA, val := none,
               ctx := { ctx with
                 err := ("No read callback for " ++ addrspace_name addr.as) :: ctx.err } } := by
  unfold read64
  rw [h]
  rfl

theorem read32_of (env : read_env) (ctx : addrxlat_ctx_t) (addr : addrxlat_fulladdr_t)
    (what : String) (h : ctx.cb.get_page ≠ none) (res : read_result)
    (hr : (if ctx.cb.read_caps &&& ADDRXLAT_CAPS addr.as ≠ 0
            then do_read32 env.host_big env.mem ctx addr
            else env.internal_op32 ctx addr) = some res) :
    ∃ r, read32 env ctx addr what = some r ∧ r.status = res.status ∧ r.val = res.val ∧
      r.ctx.cache = res.ctx.cache ∧ r.ctx.log = res.ctx.log ∧
      r.ctx.symlog = res.ctx.symlog ∧
      (res.status = .OK → r.ctx = res.ctx) ∧
      (res.status ≠ .OK → ∃ msg, r.ctx.err = msg :: res.ctx.err) := by
  have hn : ctx.cb.get_page.isNone = false := by
    cases hh : ctx.cb.get_page with
    | none => exact absurd hh h
    | some _ => rfl
  unfold read32
  rw [hn]
  dsimp only
  rw [if_neg (by simp), hr]
  dsimp only
  by_cases hs : res.status = .OK
  · rw [if_neg (not_not.mpr hs)]
    exact ⟨_, rfl, hs.symm, rfl, rfl, rfl, rfl, fun _ => rfl, fun h => absurd hs h⟩
  · rw [if_pos hs]
    exact ⟨_, rfl, rfl, rfl, rfl, rfl, rfl, fun h => absurd h hs, fun _ => ⟨_, rfl⟩⟩

theorem read64_of (env : read_env) (ctx : addrxlat_ctx_t) (addr : addrxlat_fulladdr_t)
    (what : String) (h : ctx.cb.get_page ≠ none) (res : read_result)
    (hr : (if ctx.cb.read_caps &&& ADDRXLAT_CAPS addr.as ≠ 0
            then do_read64 env.host_big env.mem ctx addr
            else env.internal_op ctx addr) = some res) :
    ∃ r, read64 env ctx addr what = some r ∧ r.status = res.status ∧ r.val = res.val ∧
      r.ctx.cache = res.ctx.cache ∧ r.ctx.log = res.ctx.log ∧
      r.ctx.symlog = res.ctx.symlog ∧
      (res.status = .OK → r.ctx = res.ctx) ∧
      (res.status ≠ .OK → ∃ msg, r.ctx.err = msg :: res.ctx.err) := by
  have hn : ctx.cb.get_page.isNone = false := by
    cases hh : ctx.cb.get_page with
    | none => exact absurd hh h
    | some _ => rfl
  unfold read64
  rw [hn]
  dsimp only
  rw [if_neg (by simp), hr]
  dsimp only
  by_cases hs : res.status = .OK
  · rw [if_neg (not_not.mpr hs)]
    exact ⟨_, rfl, hs.symm, rfl, rfl, rfl, rfl, fun _ => rfl, fun h => absurd hs h⟩
  · rw [if_pos hs]
    exact ⟨_, rfl, rfl, rfl, rfl, rfl, rfl, fun h => absurd h hs, fun _ => ⟨_, rfl⟩⟩
/-- C23: `read32` and `read64` never change an error kind.  Without a
`get_page` callback they return NODATA, invoke no callback and leave the cache
as it is, whatever the cache holds.  When `read_caps` covers `addr.as` they read
through the cache at exactly the given address: status, cache and callback
history are those of `get_cache_buf(ctx, addr)`, the value is decoded from the
buffer it returns, and `internal_op` is not consulted.  Whatever the underlying
read (`do_read32`/`do_read64`, or `internal_op`) returns, they return exactly its
status and leave the value output as the underlying read left it; on an error
they only add a message, and `do_read32`/`do_read64` store no value on an
error. -/
theorem read_keeps_error_kind (env : read_env) (ctx : addrxlat_ctx_t)
    (addr : addrxlat_fulladdr_t) (what : String) :
    (ctx.cb.get_page = none →
      (∃ r, read32 env ctx addr what = some r ∧ r.status = .ERR_NODATA ∧ r.val = none ∧
        r.ctx.log = ctx.log ∧ r.ctx.symlog = ctx.symlog ∧ r.ctx.cache = ctx.cache) ∧
      (∃ r, read64 env ctx addr what = some r ∧ r.status = .ERR_NODATA ∧ r.val = none ∧
        r.ctx.log = ctx.log ∧ r.ctx.symlog = ctx.symlog ∧ r.ctx.cache = ctx.cache)) ∧
    (ctx.cb.get_page ≠ none → ctx.cb.read_caps &&& ADDRXLAT_CAPS addr.as ≠ 0 →
      ∀ g, get_cache_buf ctx addr = some g →
        (∃ r, read32 env ctx addr what = some r ∧ r.status = g.status ∧
          r.ctx.cache = g.ctx.cache ∧ r.ctx.log = g.ctx.log ∧
          (g.status ≠ .OK → r.val = none) ∧
          (∀ s, g.status = .OK → g.pbuf = some s →
            r.val = some (decode32 env.host_big env.mem (g.ctx.cache.buffer s) addr))) ∧
        (∃ r, read64 env ctx addr what = some r ∧ r.status = g.status ∧
          r.ctx.cache = g.ctx.cache ∧ r.ctx.log = g.ctx.log ∧
          (g.status ≠ .OK → r.val = none) ∧
          (∀ s, g.status = .OK → g.pbuf = some s →
            r.val = some (decode64 env.host_big env.mem (g.ctx.cache.buffer s) addr)))) ∧
    (ctx.cb.get_page ≠ none →
      (∀ res, (if ctx.cb.read_caps &&& ADDRXLAT_CAPS addr.as ≠ 0
                then do_read32 env.host_big env.mem ctx addr
                else env.internal_op32 ctx addr) = some res →
        ∃ r, read32 env ctx addr what = some r ∧ r.status = res.status ∧ r.val = res.val ∧
          r.ctx.cache = res.ctx.cache ∧ r.ctx.log = res.ctx.log ∧
          (res.status = .OK → r.ctx = res.ctx) ∧
          (res.status ≠ .OK → ∃ msg, r.ctx.err = msg :: res.ctx.err)) ∧
      (∀ res, (if ctx.cb.read_caps &&& ADDRXLAT_CAPS addr.as ≠ 0
                then do_read64 env.host_big env.mem ctx addr
                else env.internal_op ctx addr) = some res →
        ∃ r, read64 env ctx addr what = some r ∧ r.status = res.status ∧ r.val = res.val ∧
          r.ctx.cache = res.ctx.cache ∧ r.ctx.log = res.ctx.log ∧
          (res.status = .OK → r.ctx = res.ctx) ∧
          (res.status ≠ .OK → ∃ msg, r.ctx.err = msg :: res.ctx.err))) ∧
    (∀ res, do_read32 env.host_big env.mem ctx addr = some res → res.status ≠ .OK →
      res.val = none) ∧
    (∀ res, do_read64 env.host_big env.mem ctx addr = some res → res.status ≠ .OK →
      res.val = none) := by
  refine ⟨fun h => ⟨⟨_, read32_nocb env ctx addr what h, rfl, rfl, rfl, rfl, rfl⟩,
      ⟨_, read64_nocb env ctx addr what h, rfl, rfl, rfl, rfl, rfl⟩⟩,
    fun h hc g hg => ?_, fun h => ⟨fun res hr => ?_, fun res hr => ?_⟩,
    fun res hr hs => do_read32_err _ _ _ _ res hr hs,
    fun res hr hs => do_read64_err _ _ _ _ res hr hs⟩
  · obtain ⟨e32, o32⟩ := do_read32_of env.host_big env.mem ctx addr g hg
    obtain ⟨e64, o64⟩ := do_read64_of env.host_big env.mem ctx addr g hg
    by_cases hs : g.status = .OK
    · obtain ⟨s, hp⟩ := get_cache_buf_pbuf ctx addr g hg hs
      obtain ⟨r, a1, a2, a3, a4, a5, _⟩ := read32_of env ctx addr what h _
        (by rw [if_pos hc]; exact o32 s hs hp)
      obtain ⟨q, b1, b2, b3, b4, b5, _⟩ := read64_of env ctx addr what h _
        (by rw [if_pos hc]; exact o64 s hs hp)
      refine ⟨⟨r, a1, a2.trans hs.symm, a4, a5, fun hn => absurd hs hn, fun s1 _ hp1 => ?_⟩,
        ⟨q, b1, b2.trans hs.symm, b4, b5, fun hn => absurd hs hn, fun s1 _ hp1 => ?_⟩⟩
      · rw [hp] at hp1
        cases hp1
        exact a3
      · rw [hp] at hp1
        cases hp1
        exact b3
    · obtain ⟨r, a1, a2, a3, a4, a5, _⟩ := read32_of env ctx addr what h _
        (by rw [if_pos hc]; exact e32 hs)
      obtain ⟨q, b1, b2, b3, b4, b5, _⟩ := read64_of env ctx addr what h _
        (by rw [if_pos hc]; exact e64 hs)
      exact ⟨⟨r, a1, a2, a4, a5, fun _ => a3, fun s1 h1 _ => absurd h1 hs⟩,
        ⟨q, b1, b2, b4, b5, fun _ => b3, fun s1 h1 _ => absurd h1 hs⟩⟩
  · obtain ⟨r, a1, a2, a3, a4, a5, _, a7, a8⟩ := read32_of env ctx addr what h res hr
    exact ⟨r, a1, a2, a3, a4, a5, a7, a8⟩
  · obtain ⟨r, a1, a2, a3, a4, a5, _, a7, a8⟩ := read64_of env ctx addr what h res hr
    exact ⟨r, a1, a2, a3, a4, a5, a7, a8⟩

/-- Witness for C23: the context `nocb_ctx` holds page 0 in its cache and has no
`get_page` callback: `read64` at address 0 returns NODATA and the callback
history stays empty.  On `nomem_ctx`, whose `get_page` fails with NOMEM,
`read64` and `read32` return NOMEM and no value. -/
theorem read_keeps_error_kind_witness :
    ((read64 plain_env nocb_ctx { addr := 0, as := .KPHYSADDR } "word").map
      (fun r => (r.status, r.val, r.ctx.log))) = some (.ERR_NODATA, none, []) ∧
    ((read64 plain_env nomem_ctx { addr := 0, as := .KPHYSADDR } "word").map
      (fun r => (r.status, r.val))) = some (.ERR_NOMEM, none) ∧
    ((read32 plain_env nomem_ctx { addr := 0, as := .KPHYSADDR } "word").map
      (fun r => (r.status, r.val))) = some (.ERR_NOMEM, none) := by
  have h0 := (read_keeps_error_kind plain_env nocb_ctx
    { addr := 0, as := .KPHYSADDR } "word").1 rfl
  have h1 := (read_keeps_error_kind plain_env nomem_ctx
    { addr := 0, as := .KPHYSADDR } "word").2.1 (by simp [nomem_ctx]) (by decide)
  obtain ⟨_, r, a1, a2, a3, a4, _⟩ := h0
  have hg : ∃ g, get_cache_buf nomem_ctx { addr := 0, as := .KPHYSADDR } = some g ∧
      g.status = .ERR_NOMEM := ⟨_, rfl, rfl⟩
  obtain ⟨g, hg1, hg2⟩ := hg
  obtain ⟨⟨p, b1, b2, _, _, b5, _⟩, ⟨q, c1, c2, _, _, c5, _⟩⟩ := h1 g hg1
  refine ⟨?_, ?_, ?_⟩
  · rw [a1]
    show some (r.status, r.val, r.ctx.log) = _
    rw [a2, a3, a4]
    rfl
  · rw [c1]
    show some (q.status, q.val) = _
    rw [c2, c5 (by rw [hg2]; decide), hg2]
  · rw [b1]
    show some (p.status, p.val) = _
    rw [b2, b5 (by rw [hg2]; decide), hg2]

/-! ## Quotes in the tokenizer of `parse_opts` -/

theorem scan_token_in_quotes (q : Char) (rest : List Char) (w : List Char)
    (hw : ∀ c ∈ w, c ≠ NUL ∧ c ≠ q) (hq0 : q ≠ NUL) :
    ∀ st : tok_state, st.quot = some q →
      scan_token (w ++ q :: rest) st
        = scan_token rest { st with quot := none, buf := st.buf ++ w } := by
  induction w with
  | nil =>
    intro st hq
    have e : scan_token (q :: rest) st = scan_token rest { st with quot := none } := by
      conv_lhs => unfold scan_token
      rw [if_neg hq0, hq]
      simp only
      rw [if_pos trivial]
    rw [List.nil_append, e]
    simp
  | cons c w ih =>
    intro st hq
    obtain ⟨h0, h1⟩ := hw c (by simp)
    have e : scan_token (c :: (w ++ q :: rest)) st
        = scan_token (w ++ q :: rest) { st with buf := st.buf ++ [c] } := by
      conv_lhs => unfold scan_token
      rw [if_neg h0, hq]
      simp only
      rw [if_neg h1]
    rw [List.cons_append, e,
      ih (fun x hx => hw x (by simp [hx])) { st with buf := st.buf ++ [c] } hq]
    simp

theorem quote_not_nul (q : Char) (hq : q = SQUOTE ∨ q = DQUOTE) : q ≠ NUL := by
  rcases hq with e | e <;> subst e <;> decide

theorem quote_not_space (q : Char) (hq : q = SQUOTE ∨ q = DQUOTE) :
    is_posix_space q = false := by
  rcases hq with e | e <;> subst e <;> decide

theorem scan_token_quoted (q : Char) (hq : q = SQUOTE ∨ q = DQUOTE) (w rest : List Char)
    (hw : ∀ c ∈ w, c ≠ NUL ∧ c ≠ q) (st : tok_state) (hs : st.quot = none) :
    scan_token (q :: (w ++ q :: rest)) st
      = scan_token rest { st with buf := st.buf ++ w } := by
  have hq0 := quote_not_nul q hq
  have e : scan_token (q :: (w ++ q :: rest)) st
      = scan_token (w ++ q :: rest) { st with quot := some q } := by
    conv_lhs => unfold scan_token
    rw [if_neg hq0, hs]
    simp only
    rw [if_pos hq]
  rw [e, scan_token_in_quotes q rest w hw hq0 _ rfl]
  cases st with
  | mk quot buf val =>
    simp only at hs
    subst hs
    rfl

theorem key_with_eq_unknown (k v : List Char) : key_known (k ++ '=' :: v) = false := by
  unfold key_known
  rw [List.any_eq_false]
  intro name hn
  have hmem : '=' ∈ (k ++ '=' :: v).map Char.toLower := by
    have : ('=' : Char).toLower = '=' := by decide
    rw [← this]
    exact List.mem_map_of_mem _ (by simp)
  have hno : '=' ∉ name.map Char.toLower := by
    simp only [option_names, List.mem_cons, List.mem_singleton, List.not_mem_nil, or_false] at hn
    rcases hn with e | e | e | e | e | e <;> subst e <;> decide
  simp only [decide_eq_true_eq]
  intro e
  rw [e] at hmem
  exact hno hmem

theorem parse_opts_loop_quoted_token (fuel : Nat) (q : Char) (hq : q = SQUOTE ∨ q = DQUOTE)
    (w rest : List Char) (hw : ∀ c ∈ w, c ≠ NUL ∧ c ≠ q)
    (hr : ∀ c, rest.head? = some c → c = NUL ∨ is_posix_space c = true)
    (popt : parsed_opts) (ctx : addrxlat_ctx_t) :
    parse_opts_loop (fuel + 1) (q :: (w ++ q :: rest)) popt ctx
      = if (parse_opt popt ctx w w.length none).1 ≠ .OK then
          some (parse_opt popt ctx w w.length none)
        else parse_opts_loop fuel (rest.dropWhile is_posix_space)
          (parse_opt popt ctx w w.length none).2.1
          (parse_opt popt ctx w w.length none).2.2 := by
  have hq0 := quote_not_nul q hq
  have hhead : ((q :: (w ++ q :: rest)).isEmpty ||
      (q :: (w ++ q :: rest)).head? = some NUL) = false := by
    simp [hq0]
  have hkey : cstr (w ++ [NUL]) = w := cstr_stop _ [] (fun c hc => (hw c hc).1)
  rw [parse_opts_loop, hhead]
  simp only [Bool.false_eq_true, if_false]
  rw [scan_token_quoted q hq w rest hw _ rfl, scan_token_stop rest _ rfl hr]
  simp only [List.nil_append, hkey, Option.map_none', List.length_append, List.length_singleton,
    Nat.add_sub_cancel]
theorem parse_opts_quoted_token (q : Char) (hq : q = SQUOTE ∨ q = DQUOTE)
    (w rest : List Char) (hw : ∀ c ∈ w, c ≠ NUL ∧ c ≠ q)
    (hr : ∀ c, rest.head? = some c → c = NUL ∨ is_posix_space c = true)
    (popt : parsed_opts) (ctx : addrxlat_ctx_t) :
    parse_opts true popt ctx (some (q :: (w ++ q :: rest)))
      = if (parse_opt { popt with isset := fun _ => false } ctx w w.length none).1 ≠ .OK then
          some (parse_opt { popt with isset := fun _ => false } ctx w w.length none)
        else parse_opts_loop ((w ++ q :: rest).length + 1) (rest.dropWhile is_posix_space)
          (parse_opt { popt with isset := fun _ => false } ctx w w.length none).2.1
          (parse_opt { popt with isset := fun _ => false } ctx w w.length none).2.2 := by
  have hd : (q :: (w ++ q :: rest)).dropWhile is_posix_space = q :: (w ++ q :: rest) := by
    apply dropWhile_space_plain
    intro c hc
    simp only [List.head?_cons, Option.some.injEq] at hc
    subst hc
    exact quote_not_space _ hq
  unfold parse_opts
  simp only [Bool.true_eq_false, if_false]
  rw [hd]
  exact parse_opts_loop_quoted_token ((w ++ q :: rest).length + 1) q hq w rest hw hr _ ctx

/-- A token `key=value` enclosed in double quotes is not parsed like the token
itself: `"levels=4"` is rejected as an unknown option and sets nothing, while
`levels=4` is accepted and sets `levels` to 4. -/
theorem quoted_token_counterexample :
    (parse_opts true zero_opts full_ctx
      (some (DQUOTE :: ("levels=4".toList ++ [DQUOTE])))).map
        (fun r => (r.1, r.2.1.levels, r.2.1.isset .OPT_levels, r.2.2.err.head?))
      = some (.ERR_NOTIMPL, 0, false, some "Unknown option: levels=4") ∧
    (parse_opts true zero_opts full_ctx (some "levels=4".toList)).map
        (fun r => (r.1, r.2.1.levels, r.2.1.isset .OPT_levels, r.2.2.err.head?))
      = some (.OK, 4, true, none) := by
  decide

/-- C22 (amended): enclosing an entire token `key=value` in matching single or
double quotes makes `=` an ordinary character of the token.  For every key and
value without the quote character, the text `key=value` becomes the key of a
token without value; it is no option name, so `parse_opts` returns NOTIMPL with
the message `Unknown option: key=value` and no option is set, whatever the
unquoted token gives.  A token without `=` made of plain characters is parsed the
same with and without the quotes around it. -/
theorem quoted_token_unknown (q : Char) (k v rest : List Char) (popt : parsed_opts)
    (ctx : addrxlat_ctx_t) (hq : q = SQUOTE ∨ q = DQUOTE)
    (hk : ∀ c ∈ k, c ≠ NUL ∧ c ≠ q) (hv : ∀ c ∈ v, c ≠ NUL ∧ c ≠ q)
    (hr : ∀ c, rest.head? = some c → c = NUL ∨ is_posix_space c = true) :
    parse_opts true popt ctx (some (q :: ((k ++ '=' :: v) ++ q :: rest)))
      = some (.ERR_NOTIMPL, { popt with isset := fun _ => false },
          { ctx with err := ("Unknown option: " ++ String.mk (k ++ '=' :: v)) :: ctx.err }) ∧
    ((∀ c ∈ k, is_plain c = true) → k ≠ [] →
      parse_opts true popt ctx (some (q :: (k ++ [q])))
        = parse_opts true popt ctx (some k)) := by
  have hq1 : ('=' : Char) ≠ q := by
    rcases hq with e | e <;> subst e <;> decide
  have hw : ∀ c ∈ k ++ '=' :: v, c ≠ NUL ∧ c ≠ q := by
    intro c hc
    simp only [List.mem_append, List.mem_cons] at hc
    rcases hc with h | h | h
    · exact hk c h
    · subst h
      exact ⟨by decide, hq1⟩
    · exact hv c h
  constructor
  · rw [parse_opts_quoted_token q hq _ rest hw hr,
      parse_opt_unknown _ ctx _ _ _ (key_unknown_options _ (key_with_eq_unknown k v) _)]
    simp
  · intro hp hne
    rw [parse_opts_quoted_token q hq k [] hk (by simp), parse_opts_single_bare popt ctx k hp hne]
    by_cases ho : (parse_opt { popt with isset := fun _ => false } ctx k k.length none).1 = .OK
    · rw [if_neg (not_not.mpr ho)]
      show some (addrxlat_status.OK, _, _) = _
      rw [← ho]
    · rw [if_pos ho]

/-- Witness for C22: `"levels=4"` and `'levels=4'` followed by another token are
rejected as the unknown option `levels=4`. -/
theorem quoted_token_unknown_witness :
    parse_opts true zero_opts full_ctx
        (some (DQUOTE :: (("levels".toList ++ '=' :: "4".toList) ++ DQUOTE :: [])))
      = some (.ERR_NOTIMPL, { zero_opts with isset := fun _ => false },
          { full_ctx with
            err := ("Unknown option: " ++ String.mk ("levels".toList ++ '=' :: "4".toList))
              :: full_ctx.err }) ∧
    parse_opts true zero_opts full_ctx
        (some (SQUOTE :: (("levels".toList ++ '=' :: "4".toList) ++
          SQUOTE :: " pagesize=4096".toList)))
      = some (.ERR_NOTIMPL, { zero_opts with isset := fun _ => false },
          { full_ctx with
            err := ("Unknown option: " ++ String.mk ("levels".toList ++ '=' :: "4".toList))
              :: full_ctx.err }) :=
  ⟨(quoted_token_unknown DQUOTE "levels".toList "4".toList [] zero_opts full_ctx
      (Or.inr rfl) (by decide) (by decide) (by decide)).1,
   (quoted_token_unknown SQUOTE "levels".toList "4".toList " pagesize=4096".toList
      zero_opts full_ctx (Or.inl rfl) (by decide) (by decide) (by decide)).1⟩

/-! ## The outer loop of `parse_opts` on arbitrary option strings -/

theorem scan_token_length : ∀ (p : List Char) (st : tok_state),
    (scan_token p st).2.length ≤ p.length
  | [], st => by simp [scan_token]
  | c :: rest, st => by
    unfold scan_token
    by_cases h0 : c = NUL
    · rw [if_pos h0]
    · rw [if_neg h0]
      cases hq : st.quot with
      | some q =>
        simp only
        split_ifs
        · exact Nat.le_succ_of_le (scan_token_length rest _)
        · exact Nat.le_succ_of_le (scan_token_length rest _)
      | none =>
        simp only
        split_ifs
        · exact Nat.le_succ_of_le (scan_token_length rest _)
        · exact le_refl _
        · exact Nat.le_succ_of_le (scan_token_length rest _)
        · exact Nat.le_succ_of_le (scan_token_length rest _)

theorem scan_token_progress (c : Char) (rest : List Char) (st : tok_state) (h0 : c ≠ NUL)
    (h : st.quot ≠ none ∨ is_posix_space c = false) :
    (scan_token (c :: rest) st).2.length ≤ rest.length := by
  unfold scan_token
  rw [if_neg h0]
  cases hq : st.quot with
  | some q =>
    simp only
    split_ifs
    · exact scan_token_length rest _
    · exact scan_token_length rest _
  | none =>
    simp only
    split_ifs with h1 h2 h3
    · exact scan_token_length rest _
    · rcases h with h | h
      · exact absurd hq h
      · rw [h] at h2
        exact Bool.noConfusion h2
    · exact scan_token_length rest _
    · exact scan_token_length rest _

theorem dropWhile_length_le (p : List Char) :
    (p.dropWhile is_posix_space).length ≤ p.length :=
  (List.dropWhile_suffix is_posix_space).length_le

theorem parse_opts_loop_end (f : Nat) (p : List Char) (popt : parsed_opts)
    (ctx : addrxlat_ctx_t) (h : p = [] ∨ p.head? = some NUL) :
    parse_opts_loop (f + 1) p popt ctx = some (.OK, popt, ctx) := by
  rw [parse_opts_loop]
  have : (p.isEmpty || p.head? = some NUL) = true := by
    rcases h with h | h
    · subst h
      rfl
    · simp [h]
  rw [this]
  rfl

theorem parse_opts_loop_step (f : Nat) (c : Char) (rest : List Char) (popt : parsed_opts)
    (ctx : addrxlat_ctx_t) (hc : c ≠ NUL) :
    parse_opts_loop (f + 1) (c :: rest) popt ctx
      = if (token_result (scan_token (c :: rest) { quot := none, buf := [], val := none }).1
            popt ctx).1 ≠ .OK then
          some (token_result (scan_token (c :: rest)
            { quot := none, buf := [], val := none }).1 popt ctx)
        else
          parse_opts_loop f
            ((scan_token (c :: rest) { quot := none, buf := [], val := none }).2.dropWhile
              is_posix_space)
            (token_result (scan_token (c :: rest)
              { quot := none, buf := [], val := none }).1 popt ctx).2.1
            (token_result (scan_token (c :: rest)
              { quot := none, buf := [], val := none }).1 popt ctx).2.2 := by
  have hhead : ((c :: rest).isEmpty || (c :: rest).head? = some NUL) = false := by
    simp [hc]
  rw [parse_opts_loop, hhead]
  simp only [Bool.false_eq_true, if_false]
  unfold token_result
  cases hq : (scan_token (c :: rest) { quot := none, buf := [], val := none }).1.quot with
  | some q =>
    have hne : ∀ m, (set_error ctx .ERR_INVALID m).1 ≠ .OK := fun m h => by cases h
    dsimp only
    rw [if_pos (hne _)]
  | none => rfl

theorem token_result_empty (popt : parsed_opts) (ctx : addrxlat_ctx_t) :
    (token_result { quot := none, buf := [], val := none } popt ctx).1 ≠ .OK := by
  have h : token_result { quot := none, buf := [], val := none } popt ctx
      = parse_opt popt ctx (cstr [NUL]) 0 none := rfl
  rw [h, parse_opt_unknown popt ctx _ 0 none (by simp [options])]
  simp

theorem loop_progress (c : Char) (rest : List Char) (hc : c ≠ NUL) :
    (∀ popt ctx, (token_result
      (scan_token (c :: rest) { quot := none, buf := [], val := none }).1 popt ctx).1 ≠ .OK) ∨
    ((scan_token (c :: rest) { quot := none, buf := [], val := none }).2.dropWhile
      is_posix_space).length < (c :: rest).length := by
  by_cases hs : is_posix_space c = true
  · left
    intro popt ctx
    rw [scan_token_stop (c :: rest) _ rfl (fun x hx => by
      simp only [List.head?_cons, Option.some.injEq] at hx
      subst hx
      exact Or.inr hs)]
    exact token_result_empty popt ctx
  · right
    have h1 := scan_token_progress c rest { quot := none, buf := [], val := none } hc
      (Or.inr (by simpa using hs))
    have h2 := dropWhile_length_le
      (scan_token (c :: rest) { quot := none, buf := [], val := none }).2
    simp only [List.length_cons]
    omega

theorem parse_opts_loop_fuel : ∀ (f g : Nat) (p : List Char) (popt : parsed_opts)
    (ctx : addrxlat_ctx_t), p.length < f → p.length < g →
    parse_opts_loop f p popt ctx = parse_opts_loop g p popt ctx := by
  intro f
  induction f with
  | zero => intro g p popt ctx h; exact absurd h (Nat.not_lt_zero _)
  | succ f ih =>
    intro g p popt ctx hf hg
    obtain ⟨g, rfl⟩ : ∃ g1, g = g1 + 1 := ⟨g - 1, by omega⟩
    cases p with
    | nil => rw [parse_opts_loop_end f [] popt ctx (Or.inl rfl),
        parse_opts_loop_end g [] popt ctx (Or.inl rfl)]
    | cons c rest =>
      by_cases hc : c = NUL
      · rw [parse_opts_loop_end f _ popt ctx (Or.inr (by simp [hc])),
          parse_opts_loop_end g _ popt ctx (Or.inr (by simp [hc]))]
      · rw [parse_opts_loop_step f c rest popt ctx hc, parse_opts_loop_step g c rest popt ctx hc]
        by_cases ho : (token_result (scan_token (c :: rest)
            { quot := none, buf := [], val := none }).1 popt ctx).1 = .OK
        · rw [if_neg (not_not.mpr ho), if_neg (not_not.mpr ho)]
          rcases loop_progress c rest hc with hp | hp
          · exact absurd ho (hp popt ctx)
          · simp only [List.length_cons] at hf hg hp
            exact ih g _ _ _ (by omega) (by omega)
        · rw [if_pos ho, if_pos ho]

theorem parse_opts_loop_total : ∀ (f : Nat) (p : List Char) (popt : parsed_opts)
    (ctx : addrxlat_ctx_t), p.length < f → ∃ r, parse_opts_loop f p popt ctx = some r := by
  intro f
  induction f with
  | zero => intro p popt ctx h; exact absurd h (Nat.not_lt_zero _)
  | succ f ih =>
    intro p popt ctx hf
    cases p with
    | nil => exact ⟨_, parse_opts_loop_end f [] popt ctx (Or.inl rfl)⟩
    | cons c rest =>
      by_cases hc : c = NUL
      · exact ⟨_, parse_opts_loop_end f _ popt ctx (Or.inr (by simp [hc]))⟩
      · rw [parse_opts_loop_step f c rest popt ctx hc]
        by_cases ho : (token_result (scan_token (c :: rest)
            { quot := none, buf := [], val := none }).1 popt ctx).1 = .OK
        · rw [if_neg (not_not.mpr ho)]
          rcases loop_progress c rest hc with hp | hp
          · exact absurd ho (hp popt ctx)
          · simp only [List.length_cons] at hf hp
            exact ih _ _ _ (by omega)
        · rw [if_pos ho]
          exact ⟨_, rfl⟩

theorem loop_congr (c1 c2 : Char) (r1 r2 : List Char) (hc1 : c1 ≠ NUL) (hc2 : c2 ≠ NUL)
    (hs : (scan_token (c1 :: r1) { quot := none, buf := [], val := none }).1
      = (scan_token (c2 :: r2) { quot := none, buf := [], val := none }).1)
    (hn : ∀ f1 f2 popt ctx,
      ((scan_token (c1 :: r1) { quot := none, buf := [], val := none }).2.dropWhile
        is_posix_space).length < f1 →
      ((scan_token (c2 :: r2) { quot := none, buf := [], val := none }).2.dropWhile
        is_posix_space).length < f2 →
      parse_opts_loop f1
        ((scan_token (c1 :: r1) { quot := none, buf := [], val := none }).2.dropWhile
          is_posix_space) popt ctx
      = parse_opts_loop f2
        ((scan_token (c2 :: r2) { quot := none, buf := [], val := none }).2.dropWhile
          is_posix_space) popt ctx) :
    ∀ f1 f2 popt ctx, (c1 :: r1).length < f1 → (c2 :: r2).length < f2 →
      parse_opts_loop f1 (c1 :: r1) popt ctx = parse_opts_loop f2 (c2 :: r2) popt ctx := by
  intro f1 f2 popt ctx h1 h2
  obtain ⟨f1, rfl⟩ : ∃ g, f1 = g + 1 := ⟨f1 - 1, by omega⟩
  obtain ⟨f2, rfl⟩ : ∃ g, f2 = g + 1 := ⟨f2 - 1, by omega⟩
  rw [parse_opts_loop_step f1 c1 r1 popt ctx hc1, parse_opts_loop_step f2 c2 r2 popt ctx hc2,
    ← hs]
  by_cases ho : (token_result (scan_token (c1 :: r1)
      { quot := none, buf := [], val := none }).1 popt ctx).1 = .OK
  · rw [if_neg (not_not.mpr ho), if_neg (not_not.mpr ho)]
    have p1 : ((scan_token (c1 :: r1) { quot := none, buf := [], val := none }).2.dropWhile
        is_posix_space).length < (c1 :: r1).length := by
      rcases loop_progress c1 r1 hc1 with hp | hp
      · exact absurd ho (hp popt ctx)
      · exact hp
    have p2 : ((scan_token (c2 :: r2) { quot := none, buf := [], val := none }).2.dropWhile
        is_posix_space).length < (c2 :: r2).length := by
      rcases loop_progress c2 r2 hc2 with hp | hp
      · rw [← hs] at hp
        exact absurd ho (hp popt ctx)
      · exact hp
    simp only [List.length_cons] at h1 h2 p1 p2
    exact hn f1 f2 _ _ (by omega) (by omega)
  · rw [if_pos ho, if_pos ho]
theorem quote_state_nil (q : Option Char) : quote_state q [] = q := by
  cases q <;> rfl

theorem quote_state_space (c : Char) (A : List Char) (hs : is_posix_space c = true) :
    quote_state none (c :: A) = quote_state none A := by
  obtain ⟨_, h1, h2⟩ := space_facts c hs
  show (if c = SQUOTE ∨ c = DQUOTE then quote_state (some c) A else quote_state none A) = _
  rw [if_neg (by simp [h1, h2])]

theorem quote_state_plain (w : List Char) (hw : ∀ c ∈ w, is_plain c = true) :
    ∀ A : List Char, quote_state none (w ++ A) = quote_state none A := by
  induction w with
  | nil => intro A; rfl
  | cons c w ih =>
    intro A
    obtain ⟨_, h1, h2, _⟩ := plain_facts c (hw c (by simp))
    show (if c = SQUOTE ∨ c = DQUOTE then quote_state (some c) (w ++ A)
      else quote_state none (w ++ A)) = _
    rw [if_neg (by simp [h1, h2])]
    exact ih (fun x hx => hw x (by simp [hx])) A

theorem quote_state_append : ∀ (A B : List Char) (q : Option Char),
    quote_state q (A ++ B) = quote_state (quote_state q A) B
  | [], B, q => by cases q <;> rfl
  | c :: A, B, some q => by
    show (if c = q then quote_state none (A ++ B) else quote_state (some q) (A ++ B))
      = quote_state (if c = q then quote_state none A else quote_state (some q) A) B
    split_ifs
    · exact quote_state_append A B none
    · exact quote_state_append A B (some q)
  | c :: A, B, none => by
    show (if c = SQUOTE ∨ c = DQUOTE then quote_state (some c) (A ++ B)
        else quote_state none (A ++ B))
      = quote_state (if c = SQUOTE ∨ c = DQUOTE then quote_state (some c) A
        else quote_state none A) B
    split_ifs
    · exact quote_state_append A B (some c)
    · exact quote_state_append A B none

theorem dropWhile_space_cons (c : Char) (p : List Char) (hs : is_posix_space c = true) :
    (c :: p).dropWhile is_posix_space = p.dropWhile is_posix_space := by
  simp [List.dropWhile, hs]

theorem dropWhile_space_run (sep p : List Char) (hs : ∀ c ∈ sep, is_posix_space c = true) :
    (sep ++ p).dropWhile is_posix_space = p.dropWhile is_posix_space := by
  induction sep with
  | nil => rfl
  | cons c t ih =>
    rw [List.cons_append, dropWhile_space_cons c _ (hs c (by simp))]
    exact ih (fun x hx => hs x (by simp [hx]))

/-- Scanning a common prefix `A`, which ends outside quotes, in front of two
continuations that the inner loop cannot tell apart: the inner loop either
passes `A` and gives the same token and the same next token start, or it stops
at a white space of `A` outside quotes. -/
theorem scan_sim (P Q : List Char)
    (H1 : ∀ st : tok_state, st.quot = none →
      (scan_token P st).1 = (scan_token Q st).1 ∧
      (scan_token P st).2.dropWhile is_posix_space
        = (scan_token Q st).2.dropWhile is_posix_space) :
    ∀ (A : List Char) (st : tok_state), (∀ c ∈ A, c ≠ NUL) →
      quote_state st.quot A = none →
      (scan_token (A ++ P) st).1 = (scan_token (A ++ Q) st).1 ∧
      ((scan_token (A ++ P) st).2.dropWhile is_posix_space
          = (scan_token (A ++ Q) st).2.dropWhile is_posix_space ∨
        ∃ A0 s A1, A = A0 ++ s :: A1 ∧ is_posix_space s = true ∧
          quote_state none A1 = none ∧
          (scan_token (A ++ P) st).2 = s :: (A1 ++ P) ∧
          (scan_token (A ++ Q) st).2 = s :: (A1 ++ Q)) := by
  intro A
  induction A with
  | nil =>
    intro st _ hq
    rw [quote_state_nil] at hq
    exact ⟨(H1 st hq).1, Or.inl (H1 st hq).2⟩
  | cons c A ih =>
    intro st hA hq
    have h0 : c ≠ NUL := hA c (by simp)
    have hA1 : ∀ x ∈ A, x ≠ NUL := fun x hx => hA x (by simp [hx])
    have lift : ∀ st1 : tok_state, quote_state st1.quot A = none →
        scan_token (c :: (A ++ P)) st = scan_token (A ++ P) st1 →
        scan_token (c :: (A ++ Q)) st = scan_token (A ++ Q) st1 →
        (scan_token (c :: A ++ P) st).1 = (scan_token (c :: A ++ Q) st).1 ∧
        ((scan_token (c :: A ++ P) st).2.dropWhile is_posix_space
            = (scan_token (c :: A ++ Q) st).2.dropWhile is_posix_space ∨
          ∃ A0 s A1, c :: A = A0 ++ s :: A1 ∧ is_posix_space s = true ∧
            quote_state none A1 = none ∧
            (scan_token (c :: A ++ P) st).2 = s :: (A1 ++ P) ∧
            (scan_token (c :: A ++ Q) st).2 = s :: (A1 ++ Q)) := by
      intro st1 hq1 e1 e2
      rw [List.cons_append, List.cons_append, e1, e2]
      obtain ⟨a, b⟩ := ih st1 hA1 hq1
      refine ⟨a, ?_⟩
      rcases b with b | ⟨A0, s, A1, b1, b2, b3, b4, b5⟩
      · exact Or.inl b
      · exact Or.inr ⟨c :: A0, s, A1, by rw [b1]; rfl, b2, b3, b4, b5⟩
    cases hsq : st.quot with
    | some q =>
      rw [hsq] at hq
      by_cases hcq : c = q
      · have hq1 : quote_state none A = none := by
          have : quote_state (some q) (c :: A) = quote_state none A := by
            show (if c = q then _ else _) = _
            rw [if_pos hcq]
          rw [← this]
          exact hq
        apply lift { st with quot := none } hq1
        · conv_lhs => unfold scan_token
          rw [if_neg h0, hsq]
          simp only
          rw [if_pos hcq]
        · conv_lhs => unfold scan_token
          rw [if_neg h0, hsq]
          simp only
          rw [if_pos hcq]
      · have hq1 : quote_state (some q) A = none := by
          have : quote_state (some q) (c :: A) = quote_state (some q) A := by
            show (if c = q then _ else _) = _
            rw [if_neg hcq]
          rw [← this]
          exact hq
        apply lift { st with buf := st.buf ++ [c] } (by rw [← hq1]; show quote_state st.quot A = _; rw [hsq])
        · conv_lhs => unfold scan_token
          rw [if_neg h0, hsq]
          simp only
          rw [if_neg hcq]
        · conv_lhs => unfold scan_token
          rw [if_neg h0, hsq]
          simp only
          rw [if_neg hcq]
    | none =>
      rw [hsq] at hq
      by_cases hquote : c = SQUOTE ∨ c = DQUOTE
      · have hq1 : quote_state (some c) A = none := by
          have : quote_state none (c :: A) = quote_state (some c) A := by
            show (if c = SQUOTE ∨ c = DQUOTE then _ else _) = _
            rw [if_pos hquote]
          rw [← this]
          exact hq
        apply lift { st with quot := some c } hq1
        · conv_lhs => unfold scan_token
          rw [if_neg h0, hsq]
          simp only
          rw [if_pos hquote]
        · conv_lhs => unfold scan_token
          rw [if_neg h0, hsq]
          simp only
          rw [if_pos hquote]
      · have hq1 : quote_state none A = none := by
          have : quote_state none (c :: A) = quote_state none A := by
            show (if c = SQUOTE ∨ c = DQUOTE then _ else _) = _
            rw [if_neg hquote]
          rw [← this]
          exact hq
        by_cases hsp : is_posix_space c = true
        · have e1 : ∀ R : List Char, scan_token (c :: A ++ R) st = (st, c :: (A ++ R)) := by
            intro R
            exact scan_token_stop _ st hsq (fun x hx => by
              simp only [List.cons_append, List.head?_cons, Option.some.injEq] at hx
              subst hx
              exact Or.inr hsp)
          rw [e1 P, e1 Q]
          exact ⟨rfl, Or.inr ⟨[], c, A, rfl, hsp, hq1, rfl, rfl⟩⟩
        · by_cases heq : c = '='
          · apply lift { st with buf := st.buf ++ [NUL], val := some (st.buf.length + 1) }
              (by show quote_state st.quot A = _; rw [hsq]; exact hq1)
            · subst heq
              exact scan_token_eq _ st hsq
            · subst heq
              exact scan_token_eq _ st hsq
          · apply lift { st with buf := st.buf ++ [c] }
              (by show quote_state st.quot A = _; rw [hsq]; exact hq1)
            · conv_lhs => unfold scan_token
              rw [if_neg h0, hsq]
              simp only
              rw [if_neg hquote, if_neg hsp, if_neg heq]
            · conv_lhs => unfold scan_token
              rw [if_neg h0, hsq]
              simp only
              rw [if_neg hquote, if_neg hsp, if_neg heq]

/-- Two option strings with a common prefix `A`, which ends outside quotes, and
continuations that the loops of `parse_opts` cannot tell apart are parsed with
the same result. -/
theorem loop_sim (P Q : List Char)
    (H1 : ∀ st : tok_state, st.quot = none →
      (scan_token P st).1 = (scan_token Q st).1 ∧
      (scan_token P st).2.dropWhile is_posix_space
        = (scan_token Q st).2.dropWhile is_posix_space)
    (Hbase : ∀ f1 f2 popt ctx, (P.dropWhile is_posix_space).length < f1 →
      (Q.dropWhile is_posix_space).length < f2 →
      parse_opts_loop f1 (P.dropWhile is_posix_space) popt ctx
        = parse_opts_loop f2 (Q.dropWhile is_posix_space) popt ctx) :
    ∀ (n : Nat) (A : List Char), A.length ≤ n → (∀ c ∈ A, c ≠ NUL) →
      quote_state none A = none →
      ∀ f1 f2 popt ctx, ((A ++ P).dropWhile is_posix_space).length < f1 →
        ((A ++ Q).dropWhile is_posix_space).length < f2 →
        parse_opts_loop f1 ((A ++ P).dropWhile is_posix_space) popt ctx
          = parse_opts_loop f2 ((A ++ Q).dropWhile is_posix_space) popt ctx := by
  intro n
  induction n with
  | zero =>
    intro A hl _ _
    have : A = [] := List.length_eq_zero.mp (Nat.le_zero.mp hl)
    subst this
    exact Hbase
  | succ n ih =>
    intro A hl hA hq
    cases A with
    | nil => exact Hbase
    | cons c A =>
      have hA1 : ∀ x ∈ A, x ≠ NUL := fun x hx => hA x (by simp [hx])
      have hc : c ≠ NUL := hA c (by simp)
      simp only [List.length_cons] at hl
      by_cases hsp : is_posix_space c = true
      · intro f1 f2 popt ctx
        rw [List.cons_append, List.cons_append, dropWhile_space_cons c _ hsp,
          dropWhile_space_cons c _ hsp]
        rw [quote_state_space c A hsp] at hq
        exact ih A (by omega) hA1 hq f1 f2 popt ctx
      · have hd : ∀ R : List Char,
            (c :: A ++ R).dropWhile is_posix_space = c :: (A ++ R) := by
          intro R
          simp [List.dropWhile, hsp]
        rw [hd P, hd Q]
        obtain ⟨s1, s2⟩ := scan_sim P Q H1 (c :: A)
          { quot := none, buf := [], val := none } hA hq
        apply loop_congr c c (A ++ P) (A ++ Q) hc hc s1
        rcases s2 with s2 | ⟨A0, s, A1, b1, b2, b3, b4, b5⟩
        · intro f1 f2 popt ctx h1 h2
          have e1 : (scan_token (c :: (A ++ P))
              { quot := none, buf := [], val := none }).2.dropWhile is_posix_space
              = (scan_token (c :: (A ++ Q))
              { quot := none, buf := [], val := none }).2.dropWhile is_posix_space := s2
          rw [e1] at h1 ⊢
          exact parse_opts_loop_fuel f1 f2 _ popt ctx h1 h2
        · have e1 : (scan_token (c :: (A ++ P))
              { quot := none, buf := [], val := none }).2 = s :: (A1 ++ P) := b4
          have e2 : (scan_token (c :: (A ++ Q))
              { quot := none, buf := [], val := none }).2 = s :: (A1 ++ Q) := b5
          rw [e1, e2, dropWhile_space_cons s _ b2, dropWhile_space_cons s _ b2]
          have hlen : A1.length ≤ n := by
            have := congrArg List.length b1
            simp only [List.length_cons, List.length_append] at this
            cases A0 with
            | nil =>
              simp only [List.nil_append, List.cons.injEq] at b1
              rw [b1.1] at hsp
              exact absurd b2 hsp
            | cons a A0 =>
              simp only [List.length_cons] at this
              omega
          have hA2 : ∀ x ∈ A1, x ≠ NUL := by
            intro x hx
            apply hA x
            rw [b1]
            simp [hx]
          exact ih A1 hlen hA2 b3
theorem parse_opts_some (popt : parsed_opts) (ctx : addrxlat_ctx_t) (s : List Char) :
    parse_opts true popt ctx (some s)
      = parse_opts_loop (s.length + 1) (s.dropWhile is_posix_space)
          { popt with isset := fun _ => false } ctx := by
  unfold parse_opts
  simp only [Bool.true_eq_false, if_false]

theorem parse_opts_total (popt : parsed_opts) (ctx : addrxlat_ctx_t) (s : List Char) :
    ∃ r, parse_opts true popt ctx (some s) = some r := by
  rw [parse_opts_some]
  exact parse_opts_loop_total _ _ _ _ (Nat.lt_succ_of_le (dropWhile_length_le s))

theorem parse_opts_sim (P Q : List Char)
    (H1 : ∀ st : tok_state, st.quot = none →
      (scan_token P st).1 = (scan_token Q st).1 ∧
      (scan_token P st).2.dropWhile is_posix_space
        = (scan_token Q st).2.dropWhile is_posix_space)
    (Hbase : ∀ f1 f2 popt ctx, (P.dropWhile is_posix_space).length < f1 →
      (Q.dropWhile is_posix_space).length < f2 →
      parse_opts_loop f1 (P.dropWhile is_posix_space) popt ctx
        = parse_opts_loop f2 (Q.dropWhile is_posix_space) popt ctx)
    (A : List Char) (hA : ∀ c ∈ A, c ≠ NUL) (hq : quote_state none A = none)
    (popt : parsed_opts) (ctx : addrxlat_ctx_t) :
    parse_opts true popt ctx (some (A ++ P)) = parse_opts true popt ctx (some (A ++ Q)) := by
  rw [parse_opts_some, parse_opts_some]
  exact loop_sim P Q H1 Hbase A.length A (le_refl _) hA hq _ _ _ _
    (Nat.lt_succ_of_le (dropWhile_length_le _)) (Nat.lt_succ_of_le (dropWhile_length_le _))

theorem quoted_sim (q : Char) (hq : q = SQUOTE ∨ q = DQUOTE) (w B : List Char)
    (hw : ∀ c ∈ w, is_plain c = true) (hne : w ≠ []) :
    (∀ st : tok_state, st.quot = none →
      (scan_token (w ++ B) st).1 = (scan_token (q :: (w ++ q :: B)) st).1 ∧
      (scan_token (w ++ B) st).2.dropWhile is_posix_space
        = (scan_token (q :: (w ++ q :: B)) st).2.dropWhile is_posix_space) ∧
    (∀ f1 f2 popt ctx, ((w ++ B).dropWhile is_posix_space).length < f1 →
      ((q :: (w ++ q :: B)).dropWhile is_posix_space).length < f2 →
      parse_opts_loop f1 ((w ++ B).dropWhile is_posix_space) popt ctx
        = parse_opts_loop f2 ((q :: (w ++ q :: B)).dropWhile is_posix_space) popt ctx) := by
  have hwq : ∀ c ∈ w, c ≠ NUL ∧ c ≠ q := by
    intro c hc
    obtain ⟨h0, h1, h2, _⟩ := plain_facts c (hw c hc)
    refine ⟨h0, ?_⟩
    rcases hq with e | e <;> subst e
    · exact h1
    · exact h2
  have hscan : ∀ st : tok_state, st.quot = none →
      scan_token (w ++ B) st = scan_token (q :: (w ++ q :: B)) st := by
    intro st hs
    rw [scan_token_plain w hw B st hs, scan_token_quoted q hq w B hwq st hs]
  refine ⟨fun st hs => by rw [hscan st hs]; exact ⟨rfl, rfl⟩, ?_⟩
  obtain ⟨c, t, rfl⟩ : ∃ c t, w = c :: t := by
    cases w with
    | nil => exact absurd rfl hne
    | cons c t => exact ⟨c, t, rfl⟩
  obtain ⟨hc0, _, _, hcs, _⟩ := plain_facts c (hw c (by simp))
  have d1 : ((c :: t) ++ B).dropWhile is_posix_space = c :: (t ++ B) := by
    simp [List.dropWhile, hcs]
  have d2 : (q :: ((c :: t) ++ q :: B)).dropWhile is_posix_space
      = q :: ((c :: t) ++ q :: B) := by
    simp [List.dropWhile, quote_not_space q hq]
  rw [d1, d2]
  have e : scan_token (c :: (t ++ B)) { quot := none, buf := [], val := none }
      = scan_token (q :: ((c :: t) ++ q :: B)) { quot := none, buf := [], val := none } :=
    hscan { quot := none, buf := [], val := none } rfl
  apply loop_congr c q (t ++ B) ((c :: t) ++ q :: B) hc0 (quote_not_nul q hq)
    (congrArg Prod.fst e)
  intro f1 f2 popt ctx h1 h2
  rw [e] at h1 ⊢
  exact parse_opts_loop_fuel f1 f2 _ popt ctx h1 h2

theorem space_run_sim (sep1 sep2 B : List Char) (h1 : sep1 ≠ []) (h2 : sep2 ≠ [])
    (hs1 : ∀ c ∈ sep1, is_posix_space c = true) (hs2 : ∀ c ∈ sep2, is_posix_space c = true) :
    (∀ st : tok_state, st.quot = none →
      (scan_token (sep1 ++ B) st).1 = (scan_token (sep2 ++ B) st).1 ∧
      (scan_token (sep1 ++ B) st).2.dropWhile is_posix_space
        = (scan_token (sep2 ++ B) st).2.dropWhile is_posix_space) ∧
    (∀ f1 f2 popt ctx, ((sep1 ++ B).dropWhile is_posix_space).length < f1 →
      ((sep2 ++ B).dropWhile is_posix_space).length < f2 →
      parse_opts_loop f1 ((sep1 ++ B).dropWhile is_posix_space) popt ctx
        = parse_opts_loop f2 ((sep2 ++ B).dropWhile is_posix_space) popt ctx) := by
  have stop : ∀ sep : List Char, sep ≠ [] → (∀ c ∈ sep, is_posix_space c = true) →
      ∀ st : tok_state, st.quot = none → scan_token (sep ++ B) st = (st, sep ++ B) := by
    intro sep hne hs st hq
    cases sep with
    | nil => exact absurd rfl hne
    | cons c t =>
      exact scan_token_stop _ st hq (fun x hx => by
        simp only [List.cons_append, List.head?_cons, Option.some.injEq] at hx
        subst hx
        exact Or.inr (hs _ (by simp)))
  constructor
  · intro st hq
    rw [stop sep1 h1 hs1 st hq, stop sep2 h2 hs2 st hq]
    exact ⟨rfl, by rw [dropWhile_space_run sep1 B hs1, dropWhile_space_run sep2 B hs2]⟩
  · intro f1 f2 popt ctx
    rw [dropWhile_space_run sep1 B hs1, dropWhile_space_run sep2 B hs2]
    exact parse_opts_loop_fuel f1 f2 _ popt ctx

theorem trailing_sim (trail : List Char) (hs : ∀ c ∈ trail, is_posix_space c = true) :
    (∀ st : tok_state, st.quot = none →
      (scan_token trail st).1 = (scan_token [] st).1 ∧
      (scan_token trail st).2.dropWhile is_posix_space
        = (scan_token [] st).2.dropWhile is_posix_space) ∧
    (∀ f1 f2 popt ctx, (trail.dropWhile is_posix_space).length < f1 →
      (([] : List Char).dropWhile is_posix_space).length < f2 →
      parse_opts_loop f1 (trail.dropWhile is_posix_space) popt ctx
        = parse_opts_loop f2 (([] : List Char).dropWhile is_posix_space) popt ctx) := by
  have hd : trail.dropWhile is_posix_space = [] := by
    have := dropWhile_space_run trail [] hs
    rw [List.append_nil] at this
    exact this
  constructor
  · intro st hq
    rw [scan_token_stop trail st hq (fun x hx =>
      Or.inr (hs x (List.mem_of_mem_head? hx)))]
    exact ⟨rfl, hd⟩
  · intro f1 f2 popt ctx
    rw [hd]
    exact parse_opts_loop_fuel f1 f2 _ popt ctx

theorem parse_opts_leading (lead s : List Char) (hs : ∀ c ∈ lead, is_posix_space c = true)
    (popt : parsed_opts) (ctx : addrxlat_ctx_t) :
    parse_opts true popt ctx (some (lead ++ s)) = parse_opts true popt ctx (some s) := by
  rw [parse_opts_some, parse_opts_some, dropWhile_space_run lead s hs]
  exact parse_opts_loop_fuel _ _ _ _ _
    (by have := dropWhile_length_le s; simp only [List.length_append]; omega)
    (Nat.lt_succ_of_le (dropWhile_length_le s))
/-- Enclosing a value in quotes can change the result of `parse_opts`.  The token
`levels=4=5` is rejected with NOTIMPL (its key is unknown for its length), and
with its value `4=5` in single quotes it is rejected with INVALID (a bad value
of `levels`).  The token `levels="4"` is accepted and sets `levels` to 4, and
with its value `"4"` in single quotes it is rejected with INVALID. -/
theorem quoted_value_counterexample :
    (parse_opts true zero_opts full_ctx (some "levels=4=5".toList)).map (fun r => r.1)
      = some .ERR_NOTIMPL ∧
    (parse_opts true zero_opts full_ctx
      (some ("levels=".toList ++ SQUOTE :: ("4=5".toList ++ [SQUOTE])))).map (fun r => r.1)
      = some .ERR_INVALID ∧
    (parse_opts true zero_opts full_ctx
      (some ("levels=".toList ++ DQUOTE :: ("4".toList ++ [DQUOTE])))).map
        (fun r => (r.1, r.2.1.levels))
      = some (.OK, 4) ∧
    (parse_opts true zero_opts full_ctx
      (some ("levels=".toList ++
        SQUOTE :: ((DQUOTE :: ("4".toList ++ [DQUOTE])) ++ [SQUOTE])))).map
        (fun r => (r.1, r.2.1.levels))
      = some (.ERR_INVALID, 0) := by
  decide

/-- C21 (amended): quotes and white space in an option string.  Let `A` be the
text in front of a position outside quotes.  Enclosing a following non-empty text
`w` of plain characters (no quote, `=`, white space or NUL), such as a key or a
value, in matching single or double quotes does not change the result of
`parse_opts`, whatever follows; `parse_opts` returns a result for every option
string.  The inner loop removes the quote characters and copies the text between
them to the token as it is, white space and `=` included, while white space
outside quotes ends the token.  Any non-empty run of white space outside quotes
can be replaced by any other, and leading and trailing white space is
ignored. -/
theorem quoted_text_same (q : Char) (A w B : List Char) (popt : parsed_opts)
    (ctx : addrxlat_ctx_t) (hq : q = SQUOTE ∨ q = DQUOTE) (hA : ∀ c ∈ A, c ≠ NUL)
    (hqs : quote_state none A = none) (hw : ∀ c ∈ w, is_plain c = true) (hne : w ≠ []) :
    parse_opts true popt ctx (some (A ++ q :: (w ++ q :: B)))
      = parse_opts true popt ctx (some (A ++ (w ++ B))) ∧
    (∀ s : List Char, ∃ r, parse_opts true popt ctx (some s) = some r) ∧
    (∀ (t rest : List Char) (st : tok_state), st.quot = none →
      (∀ c ∈ t, c ≠ NUL ∧ c ≠ q) →
      scan_token (q :: (t ++ q :: rest)) st
        = scan_token rest { st with buf := st.buf ++ t }) ∧
    (∀ (s : Char) (rest : List Char) (st : tok_state), st.quot = none →
      is_posix_space s = true → scan_token (s :: rest) st = (st, s :: rest)) ∧
    (∀ sep1 sep2 : List Char, sep1 ≠ [] → sep2 ≠ [] →
      (∀ c ∈ sep1, is_posix_space c = true) → (∀ c ∈ sep2, is_posix_space c = true) →
      parse_opts true popt ctx (some (A ++ (sep1 ++ B)))
        = parse_opts true popt ctx (some (A ++ (sep2 ++ B)))) ∧
    (∀ lead trail : List Char,
      (∀ c ∈ lead, is_posix_space c = true) → (∀ c ∈ trail, is_posix_space c = true) →
      parse_opts true popt ctx (some (lead ++ (A ++ trail)))
        = parse_opts true popt ctx (some A)) := by
  refine ⟨?_, parse_opts_total popt ctx, ?_, ?_, ?_, ?_⟩
  · obtain ⟨H1, Hb⟩ := quoted_sim q hq w B hw hne
    exact (parse_opts_sim _ _ H1 Hb A hA hqs popt ctx).symm
  · intro t rest st hs ht
    exact scan_token_quoted q hq t rest ht st hs
  · intro s rest st hs hsp
    exact scan_token_stop _ st hs (fun x hx => by
      simp only [List.head?_cons, Option.some.injEq] at hx
      subst hx
      exact Or.inr hsp)
  · intro sep1 sep2 h1 h2 hs1 hs2
    obtain ⟨H1, Hb⟩ := space_run_sim sep1 sep2 B h1 h2 hs1 hs2
    exact parse_opts_sim _ _ H1 Hb A hA hqs popt ctx
  · intro lead trail hl ht
    obtain ⟨H1, Hb⟩ := trailing_sim trail ht
    rw [parse_opts_leading lead _ hl, parse_opts_sim _ _ H1 Hb A hA hqs popt ctx,
      List.append_nil]

/-- Witness for C21: in `pagesize=0x1000 levels=4 xen_xlat=yes` the value `4`
stands outside quotes after `pagesize=0x1000 levels=`; with the value in double
quotes the result is the same, and it sets all three options. -/
theorem quoted_text_same_witness :
    parse_opts true zero_opts full_ctx
        (some ("pagesize=0x1000 levels=".toList ++
          DQUOTE :: ("4".toList ++ DQUOTE :: " xen_xlat=yes".toList)))
      = parse_opts true zero_opts full_ctx
        (some ("pagesize=0x1000 levels=".toList ++ ("4".toList ++ " xen_xlat=yes".toList))) ∧
    (parse_opts true zero_opts full_ctx
        (some ("pagesize=0x1000 levels=".toList ++
          ("4".toList ++ " xen_xlat=yes".toList)))).map
        (fun r => (r.1, r.2.1.pagesize, r.2.1.levels, r.2.1.xen_xlat))
      = some (.OK, 4096, 4, true) :=
  ⟨(quoted_text_same DQUOTE "pagesize=0x1000 levels=".toList "4".toList
      " xen_xlat=yes".toList zero_opts full_ctx (Or.inr rfl) (by decide) (by decide)
      (by decide) (by decide)).1, by decide⟩

/-! ## A failed refill of a cache slot -/

/-- C32: a failed refill.  When `get_page` fails with the status `s` on a cache
miss, `get_cache_buf` returns exactly `s` and does not write `*pbuf`.  The victim
slot `cache.mru->prev` is left empty (`buffer.size == 0`), so no lookup hits it,
and neither the next miss, which finds it as the LRU slot again, nor
`cleanup_cache` issues a `put_page` for it.  `cache.mru`, the links of the ring
and so the ring order, and the buffer of every other slot are unchanged; the
callback history has the one `get_page` call added. -/
theorem failed_refill (ctx : addrxlat_ctx_t) (addr : addrxlat_fulladdr_t)
    (gp : List cb_event → addrxlat_buffer_t → addrxlat_status × addrxlat_buffer_t)
    (hmiss : cache_scan ctx.cache addr = none) (hgp : ctx.cb.get_page = some gp)
    (hne : (gp (miss_log ctx) (miss_req ctx addr)).1 ≠ .OK) :
    ∃ g, get_cache_buf ctx addr = some g ∧
      g.status = (gp (miss_log ctx) (miss_req ctx addr)).1 ∧ g.pbuf = none ∧
      (g.ctx.cache.buffer (ctx.cache.prev ctx.cache.mru)).size = 0 ∧
      g.ctx.cache.mru = ctx.cache.mru ∧ g.ctx.cache.next = ctx.cache.next ∧
      g.ctx.cache.prev = ctx.cache.prev ∧ ring_order g.ctx.cache = ring_order ctx.cache ∧
      (∀ s, s ≠ ctx.cache.prev ctx.cache.mru →
        g.ctx.cache.buffer s = ctx.cache.buffer s) ∧
      (∀ a, buf_contains (g.ctx.cache.buffer (ctx.cache.prev ctx.cache.mru)) a = false) ∧
      (∀ a, cache_scan g.ctx.cache a ≠ some (ctx.cache.prev ctx.cache.mru)) ∧
      miss_log g.ctx = g.ctx.log ∧
      (∀ log, cleanup_cache_iter g.ctx.cache log (ctx.cache.prev ctx.cache.mru) = log) ∧
      g.ctx.log = miss_log ctx ++
        [cb_event.get_page (miss_req ctx addr) (gp (miss_log ctx) (miss_req ctx addr)).1
          (gp (miss_log ctx) (miss_req ctx addr)).2] ∧
      g.ctx.cb = ctx.cb := by
  refine ⟨_, get_cache_buf_miss_err ctx addr gp hmiss hgp hne, rfl, rfl, ?_, rfl, rfl, rfl,
    rfl, ?_, ?_, ?_, ?_, ?_, rfl, rfl⟩
  · simp [read_cache.set_buffer]
  · intro s hs
    simp [read_cache.set_buffer, hs]
  · intro a
    apply buf_contains_empty
    simp [read_cache.set_buffer]
  · intro a h
    have := ((cache_scan_some _ a _).mp h).1
    rw [buf_contains_empty _ a (by simp [read_cache.set_buffer])] at this
    exact Bool.noConfusion this
  · simp [miss_log, read_cache.set_buffer]
  · intro log
    simp [cleanup_cache_iter, read_cache.set_buffer]

/-- Witness for C32: on a fresh context whose `get_page` fails with NOMEM, a read
of address 0x1000 misses; `get_cache_buf` returns NOMEM, and the ring order is
still 0, 1, 2, 3. -/
theorem failed_refill_witness :
    ∃ g, get_cache_buf nomem_ctx { addr := 0x1000, as := .KPHYSADDR } = some g ∧
      g.status = .ERR_NOMEM ∧ g.pbuf = none ∧ ring_order g.ctx.cache = [0, 1, 2, 3] := by
  obtain ⟨g, h1, h2, h3, _, _, _, _, h8, _⟩ := failed_refill nomem_ctx
    { addr := 0x1000, as := .KPHYSADDR } nomem_host (by decide) rfl (by decide)
  exact ⟨g, h1, h2.trans rfl, h3, h8.trans (by decide)⟩

/-! ## Reads and the end of the cached buffer -/

theorem decode32_bytes (hb : Bool) (mem1 mem2 : Nat → Nat) (buf : addrxlat_buffer_t)
    (addr : addrxlat_fulladdr_t)
    (h : ∀ o ∈ read_offsets 4 buf addr,
      load_byte mem1 (buf.ptr + o) = load_byte mem2 (buf.ptr + o)) :
    decode32 hb mem1 buf addr = decode32 hb mem2 buf addr := by
  have e : ∀ i, i < 4 → load_byte mem1 (buf.ptr + u64_sub addr.addr buf.addr.addr + i)
      = load_byte mem2 (buf.ptr + u64_sub addr.addr buf.addr.addr + i) := by
    intro i hi
    have := h (u64_sub addr.addr buf.addr.addr + i)
      (List.mem_map.mpr ⟨i, List.mem_range.mpr hi, rfl⟩)
    rw [← Nat.add_assoc] at this
    exact this
  have e0 := e 0 (by decide)
  have e1 := e 1 (by decide)
  have e2 := e 2 (by decide)
  have e3 := e 3 (by decide)
  rw [Nat.add_zero] at e0
  have hl : load32 hb mem1 (buf.ptr + u64_sub addr.addr buf.addr.addr)
      = load32 hb mem2 (buf.ptr + u64_sub addr.addr buf.addr.addr) := by
    unfold load32
    rw [e0, e1, e2, e3]
  unfold decode32
  simp only [hl]

theorem decode64_bytes (hb : Bool) (mem1 mem2 : Nat → Nat) (buf : addrxlat_buffer_t)
    (addr : addrxlat_fulladdr_t)
    (h : ∀ o ∈ read_offsets 8 buf addr,
      load_byte mem1 (buf.ptr + o) = load_byte mem2 (buf.ptr + o)) :
    decode64 hb mem1 buf addr = decode64 hb mem2 buf addr := by
  have e : ∀ i, i < 8 → load_byte mem1 (buf.ptr + u64_sub addr.addr buf.addr.addr + i)
      = load_byte mem2 (buf.ptr + u64_sub addr.addr buf.addr.addr + i) := by
    intro i hi
    have := h (u64_sub addr.addr buf.addr.addr + i)
      (List.mem_map.mpr ⟨i, List.mem_range.mpr hi, rfl⟩)
    rw [← Nat.add_assoc] at this
    exact this
  have e0 := e 0 (by decide)
  have e1 := e 1 (by decide)
  have e2 := e 2 (by decide)
  have e3 := e 3 (by decide)
  have e4 := e 4 (by decide)
  have e5 := e 5 (by decide)
  have e6 := e 6 (by decide)
  have e7 := e 7 (by decide)
  rw [Nat.add_zero] at e0
  have hl : load64 hb mem1 (buf.ptr + u64_sub addr.addr buf.addr.addr)
      = load64 hb mem2 (buf.ptr + u64_sub addr.addr buf.addr.addr) := by
    unfold load64
    rw [e0, e1, e2, e3, e4, e5, e6, e7]
  unfold decode64
  simp only [hl]

theorem cache_scan_first_byte (c : read_cache) (addr : addrxlat_fulladdr_t) (s : slot_ptr)
    (h : cache_scan c addr = some s) :
    u64_sub addr.addr (c.buffer s).addr.addr < (c.buffer s).size := by
  have := ((cache_scan_some c addr s).mp h).1
  simp only [buf_contains, Bool.and_eq_true, decide_eq_true_eq] at this
  exact this.1

/-- C31: the raw reads and the end of the buffer.  `do_read32` and `do_read64`
load the 4 or 8 bytes at the offsets `(addr.addr - buffer.addr.addr) + i` from
`buffer.ptr`.  On a hit the scan of `get_cache_buf` guarantees that the first of
them is below `buffer.size`, and the whole word is inside when the offset and the
size are multiples of the width; nothing else is checked.  With the 4096-byte
page at 0 in the cache, `do_read64` at 0xffc hits that page and loads the
offsets 4092 to 4099: two host memories that are equal on the whole buffer give
different values.  The same holds on a miss, for `do_read32` at 0xffe with the
page that `get_page` returns. -/
theorem read_past_buffer_end :
    (∀ (hb : Bool) (mem1 mem2 : Nat → Nat) (buf : addrxlat_buffer_t)
      (addr : addrxlat_fulladdr_t),
      (∀ o ∈ read_offsets 4 buf addr,
        load_byte mem1 (buf.ptr + o) = load_byte mem2 (buf.ptr + o)) →
      decode32 hb mem1 buf addr = decode32 hb mem2 buf addr) ∧
    (∀ (hb : Bool) (mem1 mem2 : Nat → Nat) (buf : addrxlat_buffer_t)
      (addr : addrxlat_fulladdr_t),
      (∀ o ∈ read_offsets 8 buf addr,
        load_byte mem1 (buf.ptr + o) = load_byte mem2 (buf.ptr + o)) →
      decode64 hb mem1 buf addr = decode64 hb mem2 buf addr) ∧
    (∀ (c : read_cache) (addr : addrxlat_fulladdr_t) (s : slot_ptr) (w : Nat),
      cache_scan c addr = some s →
      u64_sub addr.addr (c.buffer s).addr.addr < (c.buffer s).size ∧
      (0 < w → u64_sub addr.addr (c.buffer s).addr.addr % w = 0 →
        (c.buffer s).size % w = 0 →
        ∀ o ∈ read_offsets w (c.buffer s) addr, o < (c.buffer s).size)) ∧
    (∃ g, get_cache_buf full_ctx { addr := 0xffc, as := .KPHYSADDR } = some g ∧
      g.status = .OK ∧ g.pbuf = some 0 ∧ g.ctx.log = [] ∧
      g.ctx.cache.buffer 0 = kphys_page 0 ∧ (kphys_page 0).size = 4096 ∧
      read_offsets 8 (g.ctx.cache.buffer 0) { addr := 0xffc, as := .KPHYSADDR }
        = [4092, 4093, 4094, 4095, 4096, 4097, 4098, 4099]) ∧
    (∀ p, p < (kphys_page 0).ptr + (kphys_page 0).size → zero_mem p = mem_beyond p) ∧
    (do_read64 false zero_mem full_ctx { addr := 0xffc, as := .KPHYSADDR }).map
        (fun r => (r.status, r.val)) = some (.OK, some 0) ∧
    (do_read64 false mem_beyond full_ctx { addr := 0xffc, as := .KPHYSADDR }).map
        (fun r => (r.status, r.val)) = some (.OK, some (2 ^ 32)) ∧
    (∃ g, get_cache_buf fresh_page_ctx { addr := 0xffe, as := .KPHYSADDR } = some g ∧
      g.status = .OK ∧ g.pbuf = some 3 ∧
      g.ctx.cache.buffer 3 = kphys_page 0 ∧
      read_offsets 4 (g.ctx.cache.buffer 3) { addr := 0xffe, as := .KPHYSADDR }
        = [4094, 4095, 4096, 4097]) ∧
    (do_read32 false zero_mem fresh_page_ctx { addr := 0xffe, as := .KPHYSADDR }).map
        (fun r => (r.status, r.val)) = some (.OK, some 0) ∧
    (do_read32 false mem_beyond fresh_page_ctx { addr := 0xffe, as := .KPHYSADDR }).map
        (fun r => (r.status, r.val)) = some (.OK, some (2 ^ 16)) := by
  refine ⟨decode32_bytes, decode64_bytes, ?_, ?_, ?_, ?_, ?_, ?_, ?_, ?_⟩
  · intro c addr s w h
    have h1 := cache_scan_first_byte c addr s h
    refine ⟨h1, fun hw ho hs o hmem => ?_⟩
    obtain ⟨i, hi, rfl⟩ := List.mem_map.mp hmem
    have hi := List.mem_range.mp hi
    obtain ⟨a, ha⟩ := Nat.dvd_of_mod_eq_zero ho
    obtain ⟨b, hb⟩ := Nat.dvd_of_mod_eq_zero hs
    rw [ha, hb] at h1 ⊢
    have hab : a < b := lt_of_mul_lt_mul_left h1 (Nat.zero_le w)
    calc w * a + i < w * a + w := by omega
      _ = w * (a + 1) := by ring
      _ ≤ w * b := Nat.mul_le_mul_left w hab
  · exact ⟨_, rfl, rfl, rfl, rfl, rfl, rfl, by decide⟩
  · intro p hp
    have : p ≠ 4096 := by
      intro e
      rw [e] at hp
      exact absurd hp (by decide)
    simp [zero_mem, mem_beyond, this]
  · decide
  · decide
  · exact ⟨_, rfl, rfl, rfl, rfl, by decide⟩
  · decide
  · decide

/-! ## The first resolvable symbol -/

theorem get_first_sym_loop_query
    (cb : List addrxlat_sym_t → addrxlat_sym_t → addrxlat_status × Nat)
    (r : addrxlat_sym_type_t × addrxlat_addrspace_t × String) (rest : List sym_spec)
    (ctx : addrxlat_ctx_t) (st : addrxlat_status) :
    get_first_sym_loop cb (mk_spec r :: rest) ctx st
      = if (cb ctx.symlog (mk_req r)).1 = .OK then
          some { status := (cb ctx.symlog (mk_req r)).1
                 addr := some { addr := (cb ctx.symlog (mk_req r)).2, as := r.2.1 }
                 ctx := { ctx with symlog := ctx.symlog ++ [mk_req r] } }
        else if (cb ctx.symlog (mk_req r)).1 ≠ .ERR_NODATA then
          some { status := (cb ctx.symlog (mk_req r)).1
                 addr := none
                 ctx := (set_error { ctx with symlog := ctx.symlog ++ [mk_req r] }
                   (cb ctx.symlog (mk_req r)).1
                   ("Cannot resolve " ++ String.singleton DQUOTE ++ r.2.2 ++
                     String.singleton DQUOTE)).2 }
        else get_first_sym_loop cb rest
          (clear_error { ctx with symlog := ctx.symlog ++ [mk_req r] })
          (cb ctx.symlog (mk_req r)).1 := rfl

theorem get_first_sym_loop_end
    (cb : List addrxlat_sym_t → addrxlat_sym_t → addrxlat_status × Nat)
    (t : sym_spec) (rest : List sym_spec) (ctx : addrxlat_ctx_t) (st : addrxlat_status)
    (ht : t.type = none) :
    get_first_sym_loop cb (t :: rest) ctx st
      = some { status := st, addr := none
               ctx := (set_error ctx st ("Cannot resolve " ++ String.singleton DQUOTE ++
                 t.name ++ String.singleton DQUOTE)).2 } := by
  unfold get_first_sym_loop
  simp only [ht]
  rfl

theorem get_first_sym_loop_skip
    (cb : List addrxlat_sym_t → addrxlat_sym_t → addrxlat_status × Nat)
    (tail : List sym_spec) :
    ∀ (pre : List (addrxlat_sym_type_t × addrxlat_addrspace_t × String))
      (ctx : addrxlat_ctx_t),
      (∀ a ∈ sym_answers cb ctx.symlog (pre.map mk_req), a.1 = .ERR_NODATA) →
      ∃ ctx1, get_first_sym_loop cb (pre.map mk_spec ++ tail) ctx .ERR_NODATA
          = get_first_sym_loop cb tail ctx1 .ERR_NODATA ∧
        ctx1.symlog = ctx.symlog ++ pre.map mk_req ∧ ctx1.log = ctx.log ∧
        ctx1.cache = ctx.cache ∧ ctx1.cb = ctx.cb ∧ (pre ≠ [] → ctx1.err = []) ∧
        (pre = [] → ctx1 = ctx) := by
  intro pre
  induction pre with
  | nil =>
    intro ctx _
    exact ⟨ctx, rfl, by simp, rfl, rfl, rfl, fun h => absurd rfl h, fun _ => rfl⟩
  | cons r pre ih =>
    intro ctx h
    have h0 : (cb ctx.symlog (mk_req r)).1 = .ERR_NODATA :=
      h _ (by simp [sym_answers])
    have h1 : ∀ a ∈ sym_answers cb (ctx.symlog ++ [mk_req r]) (pre.map mk_req),
        a.1 = .ERR_NODATA := by
      intro a ha
      exact h a (by simp [sym_answers, ha])
    have step : get_first_sym_loop cb (mk_spec r :: (pre.map mk_spec ++ tail)) ctx .ERR_NODATA
        = get_first_sym_loop cb (pre.map mk_spec ++ tail)
            (clear_error { ctx with symlog := ctx.symlog ++ [mk_req r] }) .ERR_NODATA := by
      rw [get_first_sym_loop_query, h0, if_neg (by decide), if_neg (by simp)]
    obtain ⟨ctx1, e1, e2, e3, e4, e5, e6, e7⟩ :=
      ih (clear_error { ctx with symlog := ctx.symlog ++ [mk_req r] }) h1
    refine ⟨ctx1, ?_, ?_, e3, e4, e5, fun _ => ?_, fun h => absurd h (by simp)⟩
    · rw [List.map_cons, List.cons_append, step, e1]
    · rw [e2]
      show ctx.symlog ++ [mk_req r] ++ pre.map mk_req = _
      simp
    · cases pre with
      | nil => rw [e7 rfl]; rfl
      | cons a t => exact e6 (by simp)

/-- C33: `get_first_sym` returns the first resolvable specifier.  Let the
callback answer NODATA to the first `k` specifiers of a list, queried in order.
If it answers OK to specifier `k+1`, the result is OK with `addr` made of the
value of the callback and the address space of that specifier, and no later
specifier is queried.  If it answers another status than OK and NODATA, that
status is returned, `addr` is not written and the search stops.  If the list ends
there (type NONE), which includes the empty list, the result is NODATA and `addr`
is not written.  Without a `sym` callback the result is NODATA, `addr` is not
written and nothing is queried. -/
theorem first_sym_resolves (ctx : addrxlat_ctx_t)
    (cb : List addrxlat_sym_t → addrxlat_sym_t → addrxlat_status × Nat)
    (pre : List (addrxlat_sym_type_t × addrxlat_addrspace_t × String)) (rest : List sym_spec)
    (hcb : ctx.cb.sym = some cb)
    (hpre : ∀ a ∈ sym_answers cb ctx.symlog (pre.map mk_req), a.1 = .ERR_NODATA) :
    (∀ r, (cb (ctx.symlog ++ pre.map mk_req) (mk_req r)).1 = .OK →
      ∃ res, get_first_sym ctx (pre.map mk_spec ++ mk_spec r :: rest) = some res ∧
        res.status = .OK ∧
        res.addr = some { addr := (cb (ctx.symlog ++ pre.map mk_req) (mk_req r)).2,
                          as := r.2.1 } ∧
        res.ctx.symlog = ctx.symlog ++ pre.map mk_req ++ [mk_req r]) ∧
    (∀ r, (cb (ctx.symlog ++ pre.map mk_req) (mk_req r)).1 ≠ .OK →
      (cb (ctx.symlog ++ pre.map mk_req) (mk_req r)).1 ≠ .ERR_NODATA →
      ∃ res, get_first_sym ctx (pre.map mk_spec ++ mk_spec r :: rest) = some res ∧
        res.status = (cb (ctx.symlog ++ pre.map mk_req) (mk_req r)).1 ∧
        res.addr = none ∧
        res.ctx.symlog = ctx.symlog ++ pre.map mk_req ++ [mk_req r]) ∧
    (∀ t : sym_spec, t.type = none →
      ∃ res, get_first_sym ctx (pre.map mk_spec ++ t :: rest) = some res ∧
        res.status = .ERR_NODATA ∧ res.addr = none ∧
        res.ctx.symlog = ctx.symlog ++ pre.map mk_req) ∧
    (∀ (ctx0 : addrxlat_ctx_t) (specs : List sym_spec), ctx0.cb.sym = none →
      ∃ res, get_first_sym ctx0 specs = some res ∧ res.status = .ERR_NODATA ∧
        res.addr = none ∧ res.ctx.symlog = ctx0.symlog) := by
  have hfs : ∀ specs, get_first_sym ctx specs = get_first_sym_loop cb specs ctx .ERR_NODATA := by
    intro specs
    unfold get_first_sym
    rw [hcb]
  refine ⟨fun r hr => ?_, fun r h1 h2 => ?_, fun t ht => ?_, fun ctx0 specs h0 => ?_⟩
  · obtain ⟨ctx1, e1, e2, _⟩ := get_first_sym_loop_skip cb (mk_spec r :: rest) pre ctx hpre
    rw [hfs, e1, get_first_sym_loop_query]
    rw [← e2] at hr ⊢
    rw [if_pos hr]
    exact ⟨_, rfl, hr, rfl, rfl⟩
  · obtain ⟨ctx1, e1, e2, _⟩ := get_first_sym_loop_skip cb (mk_spec r :: rest) pre ctx hpre
    rw [hfs, e1, get_first_sym_loop_query]
    rw [← e2] at h1 h2 ⊢
    rw [if_neg h1, if_pos h2]
    exact ⟨_, rfl, rfl, rfl, rfl⟩
  · obtain ⟨ctx1, e1, e2, _⟩ := get_first_sym_loop_skip cb (t :: rest) pre ctx hpre
    rw [hfs, e1, get_first_sym_loop_end cb t rest ctx1 _ ht]
    exact ⟨_, rfl, rfl, rfl, e2⟩
  · unfold get_first_sym
    rw [h0]
    exact ⟨_, rfl, rfl, rfl, rfl⟩

/-- Witness for C33: with a callback that knows only the value of `_stext`, the
list `(REG pc, VALUE _stext, VALUE _text)` resolves to the value of `_stext` in
its address space KVADDR after two requests. -/
theorem first_sym_resolves_witness :
    (get_first_sym stext_ctx
      ([(.SYM_REG, .KPHYSADDR, "pc")].map mk_spec ++
        mk_spec (.SYM_VALUE, .KVADDR, "_stext") ::
        [mk_spec (.SYM_VALUE, .KVADDR, "_text"),
         { type := none, as := .NOADDR, name := "" }])).map
      (fun r => (r.status, r.addr, r.ctx.symlog))
      = some (.OK, some { addr := 0xc000000000000000, as := .KVADDR },
          [{ type := .SYM_REG, args := ["pc"] }, { type := .SYM_VALUE, args := ["_stext"] }]) := by
  obtain ⟨res, h1, h2, h3, h4⟩ := (first_sym_resolves stext_ctx stext_cb
    [(.SYM_REG, .KPHYSADDR, "pc")]
    [mk_spec (.SYM_VALUE, .KVADDR, "_text"), { type := none, as := .NOADDR, name := "" }]
    rfl (by decide)).1 (.SYM_VALUE, .KVADDR, "_stext") (by decide)
  rw [h1]
  show some (res.status, res.addr, res.ctx.symlog) = _
  rw [h2, h3, h4]
  rfl

/-! ## Initialisation without symbol data -/

theorem get_symval_nodata (ctx : addrxlat_ctx_t) (name : String)
    (h : ∀ cb, ctx.cb.sym = some cb → ∀ log req, (cb log req).1 = .ERR_NODATA) :
    (get_symval ctx name).status = .ERR_NODATA ∧ (get_symval ctx name).val = none ∧
    (get_symval ctx name).ctx.cb = ctx.cb := by
  unfold get_symval
  cases hs : ctx.cb.sym with
  | none => exact ⟨rfl, rfl, rfl⟩
  | some cb =>
    have e := h cb hs ctx.symlog { type := .SYM_VALUE, args := [name] }
    dsimp only
    rw [if_pos (by rw [e]; decide)]
    exact ⟨e, rfl, rfl⟩

theorem get_symval_cb (ctx : addrxlat_ctx_t) (name : String) :
    (get_symval ctx name).ctx.cb = ctx.cb := by
  unfold get_symval
  cases hs : ctx.cb.sym with
  | none => rfl
  | some cb =>
    dsimp only
    split_ifs <;> rfl

theorem ppc64_vmemmap_ctx_cb (ctx : addrxlat_ctx_t) : (ppc64_vmemmap_ctx ctx).cb = ctx.cb := by
  unfold ppc64_vmemmap_ctx
  split_ifs
  · exact get_symval_cb ctx _
  · exact get_symval_cb ctx _

theorem get_vmemmap_param_nodata (env : read_env) (malloc_ok : Bool) (fuel : Nat)
    (ctx : addrxlat_ctx_t) (param : addrxlat_param_lookup_t)
    (h : ∀ cb, ctx.cb.sym = some cb → ∀ log req, (cb log req).1 = .ERR_NODATA) :
    get_vmemmap_param env malloc_ok fuel ctx param
      = some (.ERR_NODATA, param, (get_symval ctx "vmemmap_list").ctx) := by
  obtain ⟨e, _, _⟩ := get_symval_nodata ctx "vmemmap_list" h
  unfold get_vmemmap_param get_vmemmap_param_with
  dsimp only
  rw [if_pos (by rw [e]; decide), e]

theorem map_linux_ppc64_tail (ops : sys_ops) (env : read_env) (malloc_ok : Bool) (fuel : Nat)
    (ctl : os_init_data)
    (hps : opt_num_default ctl.popt .OPT_pagesize _64K = _64K)
    (h1 : (ops.sys_set_physmaps ctl (2 ^ 50 - 1)).1 = .OK)
    (h2 : (ops.sys_set_layout (ops.sys_set_physmaps ctl (2 ^ 50 - 1)).2 linux_layout).1 = .OK)
    (st : addrxlat_status) (lk : addrxlat_param_lookup_t) (c4 : addrxlat_ctx_t)
    (hv : get_vmemmap_param env malloc_ok fuel
      (ppc64_vmemmap_ctx (ppc64_layout_ctl ops ctl).ctx)
      ((ppc64_layout_ctl ops ctl).sys.meth .SYS_METH_VMEMMAP).lookup = some (st, lk, c4)) :
    ∃ r, map_linux_ppc64 ops env malloc_ok fuel ctl
        = some (if st = .ERR_NODATA then .OK else st, r) ∧
      r.ctx = (if st = .ERR_NODATA then clear_error c4 else c4) ∧
      (r.sys.meth .SYS_METH_UPGT).kind = .PGT ∧
      (r.sys.meth .SYS_METH_UPGT).target_as = .MACHPHYSADDR ∧
      (r.sys.meth .SYS_METH_UPGT).pgt.root.as = .NOADDR ∧
      (r.sys.meth .SYS_METH_UPGT).pgt.root.addr
        = ((ppc64_layout_ctl ops ctl).sys.meth .SYS_METH_UPGT).pgt.root.addr ∧
      (r.sys.meth .SYS_METH_UPGT).pgt.pf = ppc64_pf_64k ∧
      ((get_symval (ppc64_layout_ctl ops ctl).ctx "swapper_pg_dir").status = .OK →
        r.sys.meth .SYS_METH_PGT
          = { r.sys.meth .SYS_METH_UPGT with
              pgt := { (r.sys.meth .SYS_METH_UPGT).pgt with
                root := { addr := (get_symval (ppc64_layout_ctl ops ctl).ctx
                            "swapper_pg_dir").val.getD 0,
                          as := .KVADDR } } }) ∧
      ((get_symval (ppc64_layout_ctl ops ctl).ctx "swapper_pg_dir").status ≠ .OK →
        r.sys.meth .SYS_METH_PGT = r.sys.meth .SYS_METH_UPGT) ∧
      (st ≠ .OK →
        (r.sys.meth .SYS_METH_VMEMMAP).kind
          = ((ppc64_layout_ctl ops ctl).sys.meth .SYS_METH_VMEMMAP).kind ∧
        (r.sys.meth .SYS_METH_VMEMMAP).target_as
          = ((ppc64_layout_ctl ops ctl).sys.meth .SYS_METH_VMEMMAP).target_as ∧
        (r.sys.meth .SYS_METH_VMEMMAP).pgt
          = ((ppc64_layout_ctl ops ctl).sys.meth .SYS_METH_VMEMMAP).pgt ∧
        (r.sys.meth .SYS_METH_VMEMMAP).lookup = lk) ∧
      (st = .OK → (r.sys.meth .SYS_METH_VMEMMAP).kind = .LOOKUP ∧
        (r.sys.meth .SYS_METH_VMEMMAP).target_as = .KPHYSADDR) ∧
      (∀ i, i ≠ .SYS_METH_UPGT → i ≠ .SYS_METH_PGT → i ≠ .SYS_METH_VMEMMAP →
        r.sys.meth i = (ppc64_layout_ctl ops ctl).sys.meth i) ∧
      r.sys.kv_phys = (ppc64_layout_ctl ops ctl).sys.kv_phys ∧
      r.sys.physmax = (ppc64_layout_ctl ops ctl).sys.physmax ∧
      r.popt = (ppc64_layout_ctl ops ctl).popt := by
  have hmax : (1 <<< (64 - 30 + 16)) - 1 = 2 ^ 50 - 1 := by decide
  unfold ppc64_layout_ctl ppc64_vmemmap_ctx at hv
  rw [hmax] at hv
  unfold map_linux_ppc64 ppc64_layout_ctl
  simp only [hmax, hps, h1, h2, ne_eq, not_true_eq_false, if_false]
  simp only [addrxlat_sys_t.set_meth, reduceCtorEq, if_false] at hv ⊢
  rw [hv]
  dsimp only
  by_cases hn : st = .ERR_NODATA
  · subst hn
    simp only [if_true]
    refine ⟨_, rfl, rfl, ?_⟩
    simp +contextual
  · by_cases ho : st = .OK
    · subst ho
      simp only [reduceCtorEq, if_false, ne_eq, not_true_eq_false]
      refine ⟨_, rfl, rfl, ?_⟩
      simp +contextual
    · simp only [hn, ho, if_false, ne_eq, not_false_eq_true, if_true]
      refine ⟨_, rfl, rfl, ?_⟩
      simp +contextual [ho]
theorem addrxlat_meth_ext (a b : addrxlat_meth_t) (h1 : a.kind = b.kind)
    (h2 : a.target_as = b.target_as) (h3 : a.pgt = b.pgt) (h4 : a.lookup = b.lookup) :
    a = b := by
  cases a
  cases b
  simp only at h1 h2 h3 h4
  subst h1 h2 h3 h4
  rfl

/-- C35: the initialisation for Linux/ppc64 tolerates missing symbol data.  Let
the page size be 64 KB and let `sys_set_physmaps` and `sys_set_layout` succeed.
If the `sym` callback answers NODATA to every query or is absent,
`map_linux_ppc64` returns OK with an empty error message; the user page table
method has kind PGT, target MACHPHYSADDR and root address space NOADDR, the
kernel page table method is equal to it, and the VMEMMAP method, like every other
method, is as `sys_set_layout` left it.  In general, whatever the callbacks
answer: the kernel page table method is a copy of the user page table method
whose root is `(swapper_pg_dir, KVADDR)` exactly when that symbol resolves; a
status of `get_vmemmap_param` other than OK and NODATA is returned to the caller,
NODATA is turned into OK, and only on OK the VMEMMAP method becomes a LOOKUP. -/
theorem ppc64_init_without_symbols (ops : sys_ops) (env : read_env) (malloc_ok : Bool)
    (fuel : Nat) (ctl : os_init_data)
    (hps : opt_num_default ctl.popt .OPT_pagesize _64K = _64K)
    (h1 : (ops.sys_set_physmaps ctl (2 ^ 50 - 1)).1 = .OK)
    (h2 : (ops.sys_set_layout (ops.sys_set_physmaps ctl (2 ^ 50 - 1)).2 linux_layout).1
      = .OK) :
    ((∀ cb, (ppc64_layout_ctl ops ctl).ctx.cb.sym = some cb →
        ∀ log req, (cb log req).1 = .ERR_NODATA) →
      ∃ r, map_linux_ppc64 ops env malloc_ok fuel ctl = some (.OK, r) ∧
        r.ctx.err = [] ∧
        (r.sys.meth .SYS_METH_UPGT).kind = .PGT ∧
        (r.sys.meth .SYS_METH_UPGT).target_as = .MACHPHYSADDR ∧
        (r.sys.meth .SYS_METH_UPGT).pgt.root.as = .NOADDR ∧
        (r.sys.meth .SYS_METH_UPGT).pgt.pf = ppc64_pf_64k ∧
        r.sys.meth .SYS_METH_PGT = r.sys.meth .SYS_METH_UPGT ∧
        (∀ i, i ≠ .SYS_METH_UPGT → i ≠ .SYS_METH_PGT →
          r.sys.meth i = (ppc64_layout_ctl ops ctl).sys.meth i) ∧
        r.sys.kv_phys = (ppc64_layout_ctl ops ctl).sys.kv_phys ∧
        r.sys.physmax = (ppc64_layout_ctl ops ctl).sys.physmax) ∧
    (∀ st lk c4, get_vmemmap_param env malloc_ok fuel
        (ppc64_vmemmap_ctx (ppc64_layout_ctl ops ctl).ctx)
        ((ppc64_layout_ctl ops ctl).sys.meth .SYS_METH_VMEMMAP).lookup = some (st, lk, c4) →
      ∃ r, map_linux_ppc64 ops env malloc_ok fuel ctl
          = some (if st = .ERR_NODATA then .OK else st, r) ∧
        (r.sys.meth .SYS_METH_UPGT).kind = .PGT ∧
        (r.sys.meth .SYS_METH_UPGT).target_as = .MACHPHYSADDR ∧
        (r.sys.meth .SYS_METH_UPGT).pgt.root.as = .NOADDR ∧
        ((get_symval (ppc64_layout_ctl ops ctl).ctx "swapper_pg_dir").status = .OK →
          r.sys.meth .SYS_METH_PGT
            = { r.sys.meth .SYS_METH_UPGT with
                pgt := { (r.sys.meth .SYS_METH_UPGT).pgt with
                  root := { addr := (get_symval (ppc64_layout_ctl ops ctl).ctx
                              "swapper_pg_dir").val.getD 0,
                            as := .KVADDR } } }) ∧
        ((get_symval (ppc64_layout_ctl ops ctl).ctx "swapper_pg_dir").status ≠ .OK →
          r.sys.meth .SYS_METH_PGT = r.sys.meth .SYS_METH_UPGT) ∧
        (st ≠ .OK →
          (r.sys.meth .SYS_METH_VMEMMAP).kind
            = ((ppc64_layout_ctl ops ctl).sys.meth .SYS_METH_VMEMMAP).kind ∧
          (r.sys.meth .SYS_METH_VMEMMAP).target_as
            = ((ppc64_layout_ctl ops ctl).sys.meth .SYS_METH_VMEMMAP).target_as) ∧
        (st = .OK → (r.sys.meth .SYS_METH_VMEMMAP).kind = .LOOKUP ∧
          (r.sys.meth .SYS_METH_VMEMMAP).target_as = .KPHYSADDR)) := by
  constructor
  · intro hsym
    have hsym3 : ∀ cb, (ppc64_vmemmap_ctx (ppc64_layout_ctl ops ctl).ctx).cb.sym = some cb →
        ∀ log req, (cb log req).1 = .ERR_NODATA := by
      rw [ppc64_vmemmap_ctx_cb]
      exact hsym
    have hv := get_vmemmap_param_nodata env malloc_ok fuel
      (ppc64_vmemmap_ctx (ppc64_layout_ctl ops ctl).ctx)
      ((ppc64_layout_ctl ops ctl).sys.meth .SYS_METH_VMEMMAP).lookup hsym3
    obtain ⟨r, e, a1, a2, a3, a4, _, a6, _, a8, a9, _, a11, a12, a13, _⟩ :=
      map_linux_ppc64_tail ops env malloc_ok fuel ctl hps h1 h2 _ _ _ hv
    rw [if_pos rfl] at e a1
    obtain ⟨b1, b2, b3, b4⟩ := a9 (by decide)
    have hs := (get_symval_nodata (ppc64_layout_ctl ops ctl).ctx "swapper_pg_dir" hsym).1
    refine ⟨r, e, by rw [a1]; rfl, a2, a3, a4, a6, a8 (by rw [hs]; decide), ?_, a12, a13⟩
    intro i hi1 hi2
    by_cases hi3 : i = .SYS_METH_VMEMMAP
    · subst hi3
      exact addrxlat_meth_ext _ _ b1 b2 b3 b4
    · exact a11 i hi1 hi2 hi3
  · intro st lk c4 hv
    obtain ⟨r, e, _, a2, a3, a4, _, _, a7, a8, a9, a10, _⟩ :=
      map_linux_ppc64_tail ops env malloc_ok fuel ctl hps h1 h2 st lk c4 hv
    exact ⟨r, e, a2, a3, a4, a7, a8, fun h => ⟨(a9 h).1, (a9 h).2.1⟩, a10⟩

/-- Witness for C35: Linux initialisation data whose `sym` callback answers NODATA
to everything and whose context holds an old error message. -/
theorem ppc64_init_without_symbols_witness :
    (map_linux_ppc64 plain_ops plain_env true 1 nodata_ctl).map
      (fun r => (r.1, r.2.ctx.err, (r.2.sys.meth .SYS_METH_UPGT).kind,
        (r.2.sys.meth .SYS_METH_UPGT).target_as,
        (r.2.sys.meth .SYS_METH_UPGT).pgt.root.as,
        (r.2.sys.meth .SYS_METH_VMEMMAP).kind))
      = some (.OK, [], .PGT, .MACHPHYSADDR, .NOADDR, .NOMETH) := by
  obtain ⟨r, e, a1, a2, a3, a4, _, _, a7, _⟩ :=
    (ppc64_init_without_symbols plain_ops plain_env true 1 nodata_ctl (by decide) rfl rfl).1
      (fun cb h log req => by
        have : cb = nodata_cb := (Option.some.inj h).symm
        rw [this]
        rfl)
  rw [e]
  show some (addrxlat_status.OK, r.ctx.err, (r.sys.meth .SYS_METH_UPGT).kind,
    (r.sys.meth .SYS_METH_UPGT).target_as, (r.sys.meth .SYS_METH_UPGT).pgt.root.as,
    (r.sys.meth .SYS_METH_VMEMMAP).kind) = _
  rw [a1, a2, a3, a4, a7 .SYS_METH_VMEMMAP (by decide) (by decide)]
  rfl

/-! ## Page bitmaps of `mkdiskdump.c` -/

theorem markpage_accept (sizeof_pd : Nat) (st : bitmap_state) (addr : Nat) (exclude : Bool) :
    (markpage sizeof_pd st addr exclude).1 = true ↔
      addr / st.block_size / st.block_size / 8 < st.bitmap_blocks / 2 := by
  unfold markpage
  simp only [Nat.shiftRight_eq_div_pow]
  have e : (2 : Nat) ^ 3 = 8 := by norm_num
  rw [e]
  by_cases h : addr / st.block_size / st.block_size / 8 ≥ st.bitmap_blocks / 2
  · rw [if_pos h]
    constructor
    · intro h1
      exact absurd h1 (by simp)
    · intro h1
      omega
  · rw [if_neg h]
    constructor
    · intro _
      omega
    · intro _
      rfl

theorem accept_iff_index (pfn bs b : Nat) (hbs : 0 < bs) :
    pfn / bs / 8 < b ↔ pfn / 8 < b * bs := by
  rw [Nat.div_div_eq_div_mul, Nat.div_lt_iff_lt_mul (by omega),
    Nat.div_lt_iff_lt_mul (by omega)]
  constructor <;> intro h <;> nlinarith

/-- An automatically computed bitmap can be too small: with `block_size` 4096 and
`max_mapnr` `2^64 - 1` the sum `max_mapnr + 7` wraps to 6, `writedata` computes 0
bitmap blocks, and `markpage` rejects the page at address 0, whose PFN 0 is below
`max_mapnr`. -/
theorem markpage_counterexample :
    (writedata_bitmap_blocks (empty_bitmaps 4096 0 (2 ^ 64 - 1))).1 = 0 ∧
    (writedata_bitmap_blocks (empty_bitmaps 4096 0 (2 ^ 64 - 1))).2.bitmap_blocks = 0 ∧
    (markpage 24 (writedata_bitmap_blocks (empty_bitmaps 4096 0 (2 ^ 64 - 1))).2 0 false).1
      = false ∧
    0 / 4096 < 2 ^ 64 - 1 := by
  decide
theorem auto_bmp_blocks_lt (m bs : Nat) (hbs : 0 < bs) : auto_bmp_blocks m bs < 2 ^ 63 := by
  unfold auto_bmp_blocks
  generalize hX : (((m + 7) % 2 ^ 64 / 8 + bs) % 2 ^ 64 + (2 ^ 64 - 1)) % 2 ^ 64 = X
  have hXlt : X < 2 ^ 64 := by
    rw [← hX]
    exact Nat.mod_lt _ (by norm_num)
  by_cases h1 : bs = 1
  · rw [h1, Nat.div_one]
    rw [h1] at hX
    omega
  · have h2 : 2 ≤ bs := by omega
    calc X / bs ≤ X / 2 := Nat.div_le_div_left h2 (by norm_num)
      _ < 2 ^ 63 := by omega

theorem writedata_bitmap_blocks_auto (st : bitmap_state) (h0 : st.bitmap_blocks = 0) :
    writedata_bitmap_blocks st
      = (auto_bmp_blocks st.max_mapnr st.block_size,
         { st with
           bitmap_blocks := auto_bmp_blocks st.max_mapnr st.block_size * 2 % 2 ^ 64 }) := by
  unfold writedata_bitmap_blocks
  rewrite [if_pos h0]
  exact rfl

theorem writedata_bitmap_blocks_given (st : bitmap_state) (h0 : st.bitmap_blocks ≠ 0) :
    writedata_bitmap_blocks st = (st.bitmap_blocks / 2, st) := by
  unfold writedata_bitmap_blocks
  rewrite [if_neg h0]
  exact rfl

theorem bmp_blocks_size (st : bitmap_state) :
    (writedata_bitmap_blocks st).2.block_size = st.block_size := by
  by_cases h0 : st.bitmap_blocks = 0
  · rewrite [writedata_bitmap_blocks_auto st h0]
    cases st
    exact rfl
  · rewrite [writedata_bitmap_blocks_given st h0]
    exact rfl

theorem bmp_blocks_half (st : bitmap_state) (hbs : 0 < st.block_size) :
    (writedata_bitmap_blocks st).2.bitmap_blocks / 2 = (writedata_bitmap_blocks st).1 := by
  by_cases h0 : st.bitmap_blocks = 0
  · rewrite [writedata_bitmap_blocks_auto st h0]
    have := auto_bmp_blocks_lt st.max_mapnr st.block_size hbs
    generalize auto_bmp_blocks st.max_mapnr st.block_size = b at this ⊢
    cases st
    show b * 2 % 2 ^ 64 / 2 = b
    omega
  · rewrite [writedata_bitmap_blocks_given st h0]
    exact rfl

theorem u64_add_sub_one (c bs : Nat) (h2 : c + bs - 1 < 2 ^ 64) (hbs : 0 < bs) :
    ((c + bs) % 2 ^ 64 + (2 ^ 64 - 1)) % 2 ^ 64 = c + bs - 1 := by
  have e64 : (2 : Nat) ^ 64 = 18446744073709551616 := by norm_num
  rw [e64] at h2 ⊢
  omega

theorem auto_bmp_blocks_eq (m bs : Nat) (hbs : 0 < bs) (h1 : m + 7 < 2 ^ 64)
    (h2 : (m + 7) / 8 + bs - 1 < 2 ^ 64) :
    auto_bmp_blocks m bs = ((m + 7) / 8 + bs - 1) / bs := by
  unfold auto_bmp_blocks
  rw [Nat.mod_eq_of_lt h1, u64_add_sub_one _ _ h2 hbs]

theorem auto_bitmap_accepts (sizeof_pd : Nat) (st : bitmap_state) (a : Nat) (e : Bool)
    (h0 : st.bitmap_blocks = 0) (hbs : 0 < st.block_size)
    (h1 : st.max_mapnr + 7 < 2 ^ 64)
    (h2 : (st.max_mapnr + 7) / 8 + st.block_size - 1 < 2 ^ 64)
    (ha : a / st.block_size < st.max_mapnr) :
    (markpage sizeof_pd (writedata_bitmap_blocks st).2 a e).1 = true := by
  have hb1 : (writedata_bitmap_blocks st).1
      = ((st.max_mapnr + 7) / 8 + st.block_size - 1) / st.block_size := by
    rewrite [writedata_bitmap_blocks_auto st h0]
    exact auto_bmp_blocks_eq _ _ hbs h1 h2
  rw [markpage_accept, bmp_blocks_half st hbs, bmp_blocks_size, accept_iff_index _ _ _ hbs, hb1]
  have hdm := Nat.div_add_mod ((st.max_mapnr + 7) / 8 + st.block_size - 1) st.block_size
  have hml := Nat.mod_lt ((st.max_mapnr + 7) / 8 + st.block_size - 1) hbs
  rw [Nat.mul_comm]
  generalize st.block_size * (((st.max_mapnr + 7) / 8 + st.block_size - 1) / st.block_size)
    = P at hdm ⊢
  generalize ((st.max_mapnr + 7) / 8 + st.block_size - 1) % st.block_size = R at hdm hml
  generalize a / st.block_size = pfn at ha ⊢
  clear h1 h2 hb1
  omega

/-- C38 (amended): bitmap writes are in bounds.  For every `block_size > 0` and
page address, `markpage` accepts the page exactly when
`((pfn / block_size) >> 3) < bitmap_blocks / 2` with `pfn = addr / block_size`,
and then the byte index `pfn >> 3`, the only index at which it changes the
bitmaps, is strictly below `(bitmap_blocks / 2) * block_size`.  After the start of
`writedata` the number `bitmap_blocks / 2` is the number of blocks allocated for
each bitmap, whether `bitmap_blocks` was given or computed.  With the computed
`bitmap_blocks` every `pfn < max_mapnr` is accepted, provided that the sums
`max_mapnr + 7` and `(max_mapnr + 7) / 8 + block_size - 1` do not exceed the range
of 64 bits. -/
theorem markpage_in_bounds (sizeof_pd : Nat) (st : bitmap_state) (addr : Nat)
    (exclude : Bool) (hbs : 0 < st.block_size)
    (hok : (markpage sizeof_pd st addr exclude).1 = true) :
    (addr / st.block_size / st.block_size) >>> 3 < st.bitmap_blocks / 2 ∧
    (addr / st.block_size) >>> 3 < st.bitmap_blocks / 2 * st.block_size ∧
    (∀ i, i ≠ (addr / st.block_size) >>> 3 →
      (markpage sizeof_pd st addr exclude).2.bitmap1 i = st.bitmap1 i ∧
      (markpage sizeof_pd st addr exclude).2.bitmap2 i = st.bitmap2 i) ∧
    (∀ i, st.bitmap_blocks / 2 * st.block_size ≤ i →
      (markpage sizeof_pd st addr exclude).2.bitmap1 i = st.bitmap1 i ∧
      (markpage sizeof_pd st addr exclude).2.bitmap2 i = st.bitmap2 i) ∧
    (∀ st0 : bitmap_state, 0 < st0.block_size →
      (writedata_bitmap_blocks st0).2.bitmap_blocks / 2 = (writedata_bitmap_blocks st0).1 ∧
      (writedata_bitmap_blocks st0).2.block_size = st0.block_size) ∧
    (∀ (st0 : bitmap_state) (a : Nat) (e : Bool), st0.bitmap_blocks = 0 →
      0 < st0.block_size → st0.max_mapnr + 7 < 2 ^ 64 →
      (st0.max_mapnr + 7) / 8 + st0.block_size - 1 < 2 ^ 64 →
      a / st0.block_size < st0.max_mapnr →
      (markpage sizeof_pd (writedata_bitmap_blocks st0).2 a e).1 = true) := by
  have hacc := (markpage_accept sizeof_pd st addr exclude).mp hok
  have hidx : addr / st.block_size / 8 < st.bitmap_blocks / 2 * st.block_size :=
    (accept_iff_index _ _ _ hbs).mp hacc
  have e8 : ∀ x : Nat, x >>> 3 = x / 8 := by
    intro x
    rw [Nat.shiftRight_eq_div_pow]
  have hch : ∀ i, i ≠ (addr / st.block_size) >>> 3 →
      (markpage sizeof_pd st addr exclude).2.bitmap1 i = st.bitmap1 i ∧
      (markpage sizeof_pd st addr exclude).2.bitmap2 i = st.bitmap2 i := by
    intro i hi
    unfold markpage
    dsimp only
    split_ifs <;> simp [hi]
  refine ⟨by rw [e8]; exact hacc, by rw [e8]; exact hidx, hch, ?_, ?_, ?_⟩
  · intro i hi
    apply hch
    rw [e8]
    omega
  · intro st0 h0
    exact ⟨bmp_blocks_half st0 h0, bmp_blocks_size st0⟩
  · intro st0 a e h0 h1 h2 h3 ha
    exact auto_bitmap_accepts sizeof_pd st0 a e h0 h1 h2 h3 ha

/-- Witness for C38: with `block_size` 4096 and 2 bitmap blocks, the page at
address 0x7fff000 (PFN 32767) is accepted and the byte index 4095 is below the
bitmap size 4096. -/
theorem markpage_in_bounds_witness :
    (0x7fff000 / 4096) >>> 3 < 2 / 2 * 4096 ∧
    (markpage 24 (empty_bitmaps 4096 2 0) 0x7fff000 false).2.bitmap1 4095 = 128 :=
  ⟨(markpage_in_bounds 24 (empty_bitmaps 4096 2 0) 0x7fff000 false (by decide)
      (by decide)).2.1, by decide⟩

/-! ## The rank function of the page bitmap -/

set_option maxRecDepth 100000 in
theorem bitcount_byte : ∀ x, x < 256 → bitcount x = byte_bits x := by
  decide

theorem bits_below_succ (bmp : Nat → Nat) (n : Nat) :
    bits_below bmp (n + 1) = bits_below bmp n + (if bit_set bmp n = true then 1 else 0) := by
  unfold bits_below
  rw [List.range_succ, List.filter_append, List.length_append]
  by_cases h : bit_set bmp n = true
  · simp [h]
  · simp [h]

theorem bits_below_le (bmp : Nat → Nat) (n : Nat) : bits_below bmp n ≤ n := by
  induction n with
  | zero => simp [bits_below]
  | succ n ih =>
    rw [bits_below_succ]
    split <;> omega

theorem bits_below_mono (bmp : Nat → Nat) {n m : Nat} (h : n ≤ m) :
    bits_below bmp n ≤ bits_below bmp m := by
  induction m with
  | zero =>
    have : n = 0 := by omega
    subst this
    exact Nat.le_refl _
  | succ m ih =>
    by_cases hm : n = m + 1
    · subst hm
      exact Nat.le_refl _
    · have := ih (by omega)
      rw [bits_below_succ]
      omega

theorem bits_below_lt (bmp : Nat → Nat) {n m : Nat} (h : n < m)
    (hs : bit_set bmp n = true) : bits_below bmp n < bits_below bmp m := by
  have h1 := bits_below_mono bmp (show n + 1 ≤ m from h)
  rw [bits_below_succ, if_pos hs] at h1
  omega

theorem bit_set_byte (bmp : Nat → Nat) (k j : Nat) (hj : j < 8) :
    bit_set bmp (8 * k + j) = (bmp k % 256).testBit j := by
  unfold bit_set
  have h1 : (8 * k + j) / 8 = k := by omega
  have h2 : (8 * k + j) % 8 = j := by omega
  rw [h1, h2]

theorem bits_below_part (bmp : Nat → Nat) (k j : Nat) (hj : j ≤ 8) :
    bits_below bmp (8 * k + j)
      = bits_below bmp (8 * k)
        + ((List.range j).filter (fun i => (bmp k % 256).testBit i)).length := by
  induction j with
  | zero => simp
  | succ j ih =>
    rw [← Nat.add_assoc, bits_below_succ, ih (by omega), bit_set_byte bmp k j (by omega),
      List.range_succ, List.filter_append, List.length_append]
    by_cases h : (bmp k % 256).testBit j = true
    · simp [h, Nat.add_assoc]
    · simp [h]

theorem bits_below_byte (bmp : Nat → Nat) (k : Nat) :
    bits_below bmp (8 * (k + 1)) = bits_below bmp (8 * k) + bitcount (bmp k % 256) := by
  rw [bitcount_byte _ (Nat.mod_lt _ (by decide)), Nat.mul_add, Nat.mul_one,
    bits_below_part bmp k 8 (Nat.le_refl _)]
  rfl

theorem bitmap_index_while_spec (bmp : Nat → Nat) :
    ∀ fuel p bit, bit / 8 ≤ fuel → 8 * p + bit < 2 ^ 64 →
      bitmap_index_while bmp fuel p bit (bits_below bmp (8 * p))
        = (p + bit / 8, bit % 8, bits_below bmp (8 * (p + bit / 8))) := by
  intro fuel
  induction fuel with
  | zero =>
    intro p bit hf _
    have h0 : bit / 8 = 0 := by omega
    have h1 : bit % 8 = bit := by omega
    simp only [bitmap_index_while, h0, h1, Nat.add_zero]
  | succ f ih =>
    intro p bit hf hlt
    unfold bitmap_index_while
    by_cases h8 : bit ≥ 8
    · rw [if_pos h8]
      have hle := bits_below_le bmp (8 * (p + 1))
      have hb := bits_below_byte bmp p
      have hm : (bits_below bmp (8 * p) + bitcount (bmp p % 256)) % 2 ^ 64
          = bits_below bmp (8 * (p + 1)) := by
        rw [← hb]
        exact Nat.mod_eq_of_lt (by omega)
      rw [hm, ih (p + 1) (bit - 8) (by omega) (by omega)]
      have e1 : p + 1 + (bit - 8) / 8 = p + bit / 8 := by omega
      have e2 : (bit - 8) % 8 = bit % 8 := by omega
      rw [e1, e2]
    · rw [if_neg h8]
      have h0 : bit / 8 = 0 := by omega
      have h1 : bit % 8 = bit := by omega
      simp only [h0, h1, Nat.add_zero]

theorem and_mask_ne_zero (byte j : Nat) (hj : j < 8) :
    (byte &&& 2 ^ j % 256 ≠ 0) ↔ byte.testBit j = true := by
  have hlt : 2 ^ j < 256 := by
    have : 2 ^ j < 2 ^ 8 := Nat.pow_lt_pow_right (by decide) hj
    simpa using this
  rw [Nat.mod_eq_of_lt hlt, Nat.and_two_pow]
  cases byte.testBit j
  · simp
  · simp

theorem mask_shift (j : Nat) : ((2 ^ j % 256) <<< 1) % 256 = 2 ^ (j + 1) % 256 := by
  rw [Nat.shiftLeft_eq, Nat.pow_succ]
  omega

theorem bitmap_index_for_spec (bmp : Nat → Nat) (k : Nat) :
    ∀ fuel j bit, bit ≤ fuel → j + bit ≤ 8 → 8 * k + j + bit < 2 ^ 64 →
      bitmap_index_for (bmp k % 256) fuel (2 ^ j % 256) bit (bits_below bmp (8 * k + j))
        = bits_below bmp (8 * k + j + bit) := by
  intro fuel
  induction fuel with
  | zero =>
    intro j bit hf _ _
    have : bit = 0 := by omega
    subst this
    rfl
  | succ f ih =>
    intro j bit hf hj hlt
    unfold bitmap_index_for
    by_cases hb : bit ≠ 0
    · rw [if_pos hb, mask_shift]
      have hle := bits_below_le bmp (8 * k + j + 1)
      have hs := bits_below_succ bmp (8 * k + j)
      rw [bit_set_byte bmp k j (by omega)] at hs
      have hr : (if bmp k % 256 &&& 2 ^ j % 256 ≠ 0
            then (bits_below bmp (8 * k + j) + 1) % 2 ^ 64
            else bits_below bmp (8 * k + j))
          = bits_below bmp (8 * k + (j + 1)) := by
        rw [← Nat.add_assoc, hs]
        by_cases ht : (bmp k % 256).testBit j = true
        · rw [if_pos ((and_mask_ne_zero _ j (by omega)).mpr ht), if_pos ht]
          rw [if_pos ht] at hs
          exact Nat.mod_eq_of_lt (by omega)
        · rw [if_neg (fun h => ht ((and_mask_ne_zero _ j (by omega)).mp h)), if_neg ht]
          rfl
      rw [hr, ih (j + 1) (bit - 1) (by omega) (by omega) (by omega)]
      congr 1
      omega
    · rw [if_neg hb]
      have : bit = 0 := by omega
      subst this
      rfl

theorem bitmap_index_eq (bmp : Nat → Nat) (n : Nat) (hn : n < 2 ^ 64) :
    bitmap_index bmp n = bits_below bmp n := by
  unfold bitmap_index
  have hw := bitmap_index_while_spec bmp n 0 n (by omega) (by omega)
  have h0 : bits_below bmp (8 * 0) = 0 := rfl
  rw [h0] at hw
  simp only [hw, Nat.zero_add]
  have hf := bitmap_index_for_spec bmp (n / 8) (n % 8) 0 (n % 8) (Nat.le_refl _)
    (by omega) (by omega)
  have e0 : (2 : Nat) ^ 0 % 256 = 1 := rfl
  rw [e0, Nat.add_zero] at hf
  rw [hf]
  congr 1
  omega

theorem u64_sub_inj (a b s : Nat) (ha : a < 2 ^ 64) (hb : b < 2 ^ 64)
    (h : u64_sub a s = u64_sub b s) : a = b := by
  unfold u64_sub at h
  have hs : s % 2 ^ 64 < 2 ^ 64 := Nat.mod_lt _ (by decide)
  generalize s % 2 ^ 64 = t at h hs
  omega

/-- Claim C37: `bitcount` gives the number of set bits of every byte value;
for a bit position `n` of the range of `unsigned long`, `bitmap_index` gives
the number of set bits at positions strictly below `n`, bit `j` of byte `i`
being position `8 * i + j`; it is non-decreasing, takes distinct values on
distinct set positions, and so do the descriptor indices of `writepage`. -/
theorem bitmap_index_rank (bmp : Nat → Nat) (n : Nat) (hn : n < 2 ^ 64) :
    (∀ x, x < 256 → bitcount x = byte_bits x) ∧
    bitmap_index bmp n = bits_below bmp n ∧
    bitmap_index bmp n ≤ n ∧
    (∀ m, m ≤ n → bitmap_index bmp m ≤ bitmap_index bmp n) ∧
    (∀ m, m < n → bit_set bmp m = true → bitmap_index bmp m < bitmap_index bmp n) ∧
    (∀ m, m < 2 ^ 64 → m ≠ n → bit_set bmp m = true → bit_set bmp n = true →
      bitmap_index bmp m ≠ bitmap_index bmp n) ∧
    (∀ m start_pdidx, m < 2 ^ 64 → m ≠ n → bit_set bmp m = true → bit_set bmp n = true →
      writepage_pdidx bmp start_pdidx m ≠ writepage_pdidx bmp start_pdidx n) := by
  have hd : ∀ m, m < 2 ^ 64 → m ≠ n → bit_set bmp m = true → bit_set bmp n = true →
      bitmap_index bmp m ≠ bitmap_index bmp n := by
    intro m hm hne h1 h2
    rw [bitmap_index_eq bmp m hm, bitmap_index_eq bmp n hn]
    rcases Nat.lt_or_gt_of_ne hne with h | h
    · exact Nat.ne_of_lt (bits_below_lt bmp h h1)
    · exact Nat.ne_of_gt (bits_below_lt bmp h h2)
  refine ⟨bitcount_byte, bitmap_index_eq bmp n hn, ?_, ?_, ?_, hd, ?_⟩
  · rw [bitmap_index_eq bmp n hn]
    exact bits_below_le bmp n
  · intro m hm
    rw [bitmap_index_eq bmp m (by omega), bitmap_index_eq bmp n hn]
    exact bits_below_mono bmp hm
  · intro m hm hs
    rw [bitmap_index_eq bmp m (by omega), bitmap_index_eq bmp n hn]
    exact bits_below_lt bmp hm hs
  · intro m s hm hne h1 h2 he
    have hm1 : bitmap_index bmp m < 2 ^ 64 := by
      rw [bitmap_index_eq bmp m hm]
      exact Nat.lt_of_le_of_lt (bits_below_le bmp m) hm
    have hn1 : bitmap_index bmp n < 2 ^ 64 := by
      rw [bitmap_index_eq bmp n hn]
      exact Nat.lt_of_le_of_lt (bits_below_le bmp n) hn
    exact hd m hm hne h1 h2 (u64_sub_inj _ _ s hm1 hn1 he)

/-- Witness for C37: in the bitmap with bytes 0xa5 and 0x81 the set positions
are 0, 2, 5, 7, 8 and 15, and position 15 has five set bits below it. -/
theorem bitmap_index_rank_witness :
    15 < 2 ^ 64 ∧ bitmap_index sample_bitmap 15 = bits_below sample_bitmap 15 ∧
    bitmap_index sample_bitmap 15 = 5 ∧
    writepage_pdidx sample_bitmap 2 15 = 3 :=
  ⟨by decide, (bitmap_index_rank sample_bitmap 15 (by decide)).2.1, by decide, by decide⟩

/-! ## The blobs after the sub-header -/

/-- Claim C39: when eraseinfo is supplied, `writeheader_32` and `writeheader_64`
record its length in the sub-header and advance `pos` by it, but the chunk
written at `offset_eraseinfo` is taken from the ELF notes: it has the length
and the bytes of the notes blob, and without notes the code dereferences a NULL
pointer.  The VMCOREINFO and ELF notes chunks are the blobs of their own. -/
theorem eraseinfo_chunk_is_notes (env : header_env) (e : blob)
    (he : env.eraseinfo = some e) :
    (env.notes = none → writeheader_32 env = none ∧ writeheader_64 env = none) ∧
    (∀ n, env.notes = some n →
      ∃ r32 r64, writeheader_32 env = some r32 ∧ writeheader_64 env = some r64 ∧
        chunks_named r32 "eraseinfo"
          = [{ off := r32.subhdr.offset_eraseinfo, sz := n.length,
               data := .bytes (fwrite_bytes n.data n.length), what := "eraseinfo" }] ∧
        chunks_named r64 "eraseinfo"
          = [{ off := r64.subhdr.offset_eraseinfo, sz := n.length,
               data := .bytes (fwrite_bytes n.data n.length), what := "eraseinfo" }] ∧
        r32.subhdr.size_eraseinfo = e.length % 2 ^ 32 ∧
        r64.subhdr.size_eraseinfo = e.length % 2 ^ 64 ∧
        r32.pos = (r32.subhdr.offset_eraseinfo + e.length) % 2 ^ 64 ∧
        r64.pos = (r64.subhdr.offset_eraseinfo + e.length) % 2 ^ 64 ∧
        chunks_named r32 "ELF notes"
          = [{ off := r32.subhdr.offset_note, sz := n.length,
               data := .bytes (fwrite_bytes n.data n.length), what := "ELF notes" }] ∧
        chunks_named r64 "ELF notes"
          = [{ off := r64.subhdr.offset_note, sz := n.length,
               data := .bytes (fwrite_bytes n.data n.length), what := "ELF notes" }] ∧
        r32.subhdr.size_note = n.length % 2 ^ 32 ∧
        r64.subhdr.size_note = n.length % 2 ^ 64 ∧
        r32.subhdr.offset_eraseinfo = (r32.subhdr.offset_note + n.length) % 2 ^ 64 ∧
        r64.subhdr.offset_eraseinfo = (r64.subhdr.offset_note + n.length) % 2 ^ 64 ∧
        ∀ v, env.vmcoreinfo = some v →
          chunks_named r32 "VMCOREINFO"
            = [{ off := r32.subhdr.offset_vmcoreinfo, sz := v.length,
                 data := .bytes (fwrite_bytes v.data v.length), what := "VMCOREINFO" }] ∧
          chunks_named r64 "VMCOREINFO"
            = [{ off := r64.subhdr.offset_vmcoreinfo, sz := v.length,
                 data := .bytes (fwrite_bytes v.data v.length), what := "VMCOREINFO" }] ∧
          r32.subhdr.size_vmcoreinfo = v.length % 2 ^ 32 ∧
          r64.subhdr.size_vmcoreinfo = v.length % 2 ^ 64 ∧
          r32.subhdr.offset_note = (r32.subhdr.offset_vmcoreinfo + v.length) % 2 ^ 64 ∧
          r64.subhdr.offset_note = (r64.subhdr.offset_vmcoreinfo + v.length) % 2 ^ 64) := by
  refine ⟨?_, ?_⟩
  · intro hn
    simp only [writeheader_32, writeheader_64, he, hn, and_self]
  · intro n hn
    cases hv : env.vmcoreinfo with
    | none =>
      simp [writeheader_32, writeheader_64, he, hn, hv, chunks_named, write_chunk,
        sub_header_zero]
    | some v =>
      simp [writeheader_32, writeheader_64, he, hn, hv, chunks_named, write_chunk,
        sub_header_zero]

/-- Witness for C39: with ELF notes `[1, 2, 3]` and eraseinfo `[9, 9]` after a
header block of 4096 bytes and a sub-header of 128 bytes, the chunk written at
`offset_eraseinfo` = 4227 holds the three bytes of the notes, the recorded
size is 2 and `pos` ends at 4229; without notes the code dereferences NULL. -/
theorem eraseinfo_chunk_is_notes_witness :
    (writeheader_32 erase_only_env = none ∧ writeheader_64 erase_only_env = none) ∧
    (writeheader_32 erase_env).map
        (fun r => (chunks_named r "eraseinfo", r.subhdr.offset_eraseinfo,
          r.subhdr.size_eraseinfo, r.pos))
      = some ([{ off := 4227, sz := 3, data := .bytes [1, 2, 3], what := "eraseinfo" }],
          4227, 2, 4229) ∧
    (writeheader_64 erase_env).map
        (fun r => (chunks_named r "eraseinfo", r.subhdr.offset_eraseinfo,
          r.subhdr.size_eraseinfo, r.pos))
      = some ([{ off := 4227, sz := 3, data := .bytes [1, 2, 3], what := "eraseinfo" }],
          4227, 2, 4229) ∧
    fwrite_bytes (blob_of [9, 9]).data (blob_of [9, 9]).length = [9, 9] :=
  ⟨(eraseinfo_chunk_is_notes erase_only_env (blob_of [9, 9]) rfl).1 rfl, by decide, by decide,
    by decide⟩

/-! ## The kernel code resource in `/proc/iomem` -/

theorem rtrim_length_le (s : List Char) : (rtrim s).length ≤ s.length := by
  unfold rtrim
  rw [List.length_reverse]
  have h := (List.dropWhile_suffix is_posix_space (l := s.reverse)).length_le
  rw [List.length_reverse] at h
  exact h

theorem rtrim_append (a b : List Char) (c : Char) (hc : c ∈ b)
    (hn : is_posix_space c = false) : rtrim (a ++ b) = a ++ rtrim b := by
  unfold rtrim
  rw [List.reverse_append, List.dropWhile_append]
  have hne : (List.dropWhile is_posix_space b.reverse).isEmpty = false := by
    cases hd : List.dropWhile is_posix_space b.reverse with
    | nil =>
      rw [List.dropWhile_eq_nil_iff] at hd
      have := hd c (List.mem_reverse.mpr hc)
      rw [hn] at this
      exact absurd this (by decide)
    | cons x xs => rfl
  rw [hne]
  simp

theorem kcode_name_eq (line : List Char) :
    (rtrim line).drop
        (line.length
          - (((line.dropWhile (fun c => c != ':')).drop 1).dropWhile is_posix_space).length)
      = rtrim (((line.dropWhile (fun c => c != ':')).drop 1).dropWhile is_posix_space) := by
  generalize hp : ((line.dropWhile (fun c => c != ':')).drop 1).dropWhile is_posix_space = p
  have hsuf : p <:+ line := by
    rw [← hp]
    exact (List.dropWhile_suffix _).trans
      ((List.drop_suffix _ _).trans (List.dropWhile_suffix _))
  obtain ⟨a, ha⟩ := hsuf
  cases p with
  | nil =>
    have h1 := rtrim_length_le line
    rw [List.length_nil, Nat.sub_zero, List.drop_eq_nil_of_le h1]
    rfl
  | cons c p' =>
    have hc : is_posix_space c = false := by
      cases h : is_posix_space c with
      | false => rfl
      | true =>
        have := List.head_dropWhile_not is_posix_space
          ((line.dropWhile (fun c => c != ':')).drop 1) (by rw [hp]; exact List.cons_ne_nil _ _)
        simp only [hp, List.head_cons] at this
        rw [h] at this
        exact absurd this (by decide)
    rw [← ha, rtrim_append a (c :: p') c (List.mem_cons_self _ _) hc, List.length_append,
      Nat.add_sub_cancel, List.drop_left]

theorem check_kcode_other (buf : List Char) (paddr : Nat) (h : is_kcode_line buf = false) :
    check_kcode buf paddr = { status := .ERR_NOKEY, err := none, paddr := paddr } := by
  unfold check_kcode
  by_cases hc : ':' ∈ cstr buf
  · simp only [hc, not_true_eq_false, if_false]
    rw [kcode_name_eq, if_pos]
    intro hn
    unfold is_kcode_line resource_name at h
    rw [if_pos hc, hn] at h
    simp at h
  · simp only [hc, not_false_eq_true, if_true]

theorem check_kcode_named (buf : List Char) (paddr : Nat) (h : is_kcode_line buf = true) :
    check_kcode buf paddr
      = if ((strtoull16 (rtrim (cstr buf))).2.dropWhile is_posix_space).length
            = (rtrim (cstr buf)).length
          ∨ ((strtoull16 (rtrim (cstr buf))).2.dropWhile is_posix_space).head? ≠ some '-'
        then { status := .ERR_CORRUPT,
               err := some ("Invalid iomem format: ".toList ++ rtrim (cstr buf)),
               paddr := paddr }
        else { status := .OK, err := none, paddr := (strtoull16 (rtrim (cstr buf))).1 } := by
  unfold is_kcode_line resource_name at h
  by_cases hc : ':' ∈ cstr buf
  · rw [if_pos hc] at h
    have hn := Option.some.inj (eq_of_beq h)
    unfold check_kcode
    simp only [hc, not_true_eq_false, if_false]
    rw [kcode_name_eq, if_neg (not_not.mpr hn)]
  · rw [if_neg hc] at h
    exact absurd h (by decide)

theorem hex_not_special (c : Char) (h : is_digit_of 16 c = true) :
    c ≠ 'x' ∧ c ≠ 'X' ∧ c ≠ '-' ∧ c ≠ '+' ∧ c_isspace c = false := by
  refine ⟨?_, ?_, ?_, ?_, ?_⟩
  · rintro rfl
    exact absurd h (by decide)
  · rintro rfl
    exact absurd h (by decide)
  · rintro rfl
    exact absurd h (by decide)
  · rintro rfl
    exact absurd h (by decide)
  · cases hs : c_isspace c with
    | false => rfl
    | true =>
      unfold c_isspace at hs
      simp only [Bool.or_eq_true, beq_iff_eq] at hs
      rcases hs with ((((rfl | rfl) | rfl) | rfl) | rfl) | rfl <;> exact absurd h (by decide)

theorem strto_digits16_suffix (ds r : List Char) (hne : ds ≠ [])
    (hds : ∀ c ∈ ds, is_digit_of 16 c = true) :
    ∃ m rest, strto_digits16 (ds ++ r) = some (m, rest) ∧ rest <:+ r := by
  unfold strto_digits16
  obtain ⟨d, ds', rfl⟩ := List.exists_cons_of_ne_nil hne
  have hd : is_digit_of 16 d = true := hds d (List.mem_cons_self _ _)
  by_cases hs : strip_0x (d :: ds' ++ r) = d :: ds' ++ r
  · simp only [hs]
    have ht : List.takeWhile (is_digit_of 16) (d :: ds' ++ r)
        = d :: ds' ++ List.takeWhile (is_digit_of 16) r :=
      List.takeWhile_append_of_pos hds
    have hdr : List.dropWhile (is_digit_of 16) (d :: ds' ++ r)
        = List.dropWhile (is_digit_of 16) r :=
      List.dropWhile_append_of_pos hds
    rw [ht, hdr]
    exact ⟨_, _, rfl, List.dropWhile_suffix _⟩
  · -- the prefix 0x was skipped: the digits are the single character 0
    cases ds' with
    | nil =>
      cases r with
      | nil => exact absurd rfl hs
      | cons x r1 =>
        cases r1 with
        | nil => exact absurd rfl hs
        | cons h t =>
          by_cases hc : (d == '0' && (x == 'x' || x == 'X') && is_digit_of 16 h) = true
          · have e : strip_0x ([d] ++ x :: h :: t) = h :: t := by
              show (if (d == '0' && (x == 'x' || x == 'X') && is_digit_of 16 h) = true
                then h :: t else _) = _
              rw [if_pos hc]
            simp only [e]
            have hh : is_digit_of 16 h = true := by
              simp only [Bool.and_eq_true] at hc
              exact hc.2
            have hne2 : (List.takeWhile (is_digit_of 16) (h :: t)).isEmpty = false := by
              rw [List.takeWhile_cons_of_pos hh]
              rfl
            rw [hne2]
            refine ⟨_, _, rfl, ?_⟩
            exact (List.dropWhile_suffix _).trans (List.suffix_cons x (h :: t))
          · exfalso
            apply hs
            show (if (d == '0' && (x == 'x' || x == 'X') && is_digit_of 16 h) = true
                then h :: t else _) = _
            rw [if_neg hc]
    | cons d2 ds2 =>
      exfalso
      apply hs
      have hd2 : is_digit_of 16 d2 = true :=
        hds d2 (List.mem_cons_of_mem _ (List.mem_cons_self _ _))
      have hx := hex_not_special d2 hd2
      cases hl : ds2 ++ r with
      | nil =>
        show strip_0x (d :: d2 :: (ds2 ++ r)) = d :: d2 :: (ds2 ++ r)
        rw [hl]
        rfl
      | cons h t =>
        show strip_0x (d :: d2 :: (ds2 ++ r)) = d :: d2 :: (ds2 ++ r)
        rw [hl]
        show (if (d == '0' && (d2 == 'x' || d2 == 'X') && is_digit_of 16 h) = true
                then h :: t else _) = _
        rw [if_neg]
        simp [hx.1, hx.2.1]

theorem strto_digits16_exact (ds r : List Char) (hne : ds ≠ [])
    (hds : ∀ c ∈ ds, is_digit_of 16 c = true)
    (hr : ∀ c, r.head? = some c → is_digit_of 16 c = false ∧ c ≠ 'x' ∧ c ≠ 'X') :
    strto_digits16 (ds ++ r) = some (digits_value 16 ds, r) := by
  obtain ⟨d, ds', rfl⟩ := List.exists_cons_of_ne_nil hne
  have hs : strip_0x (d :: ds' ++ r) = d :: ds' ++ r := by
    cases ds' with
    | nil =>
      cases r with
      | nil => rfl
      | cons x r1 =>
        cases r1 with
        | nil => rfl
        | cons h t =>
          have hx := hr x rfl
          show (if (d == '0' && (x == 'x' || x == 'X') && is_digit_of 16 h) = true
                then h :: t else _) = _
          rw [if_neg]
          simp [hx.2.1, hx.2.2]
    | cons d2 ds2 =>
      have hd2 : is_digit_of 16 d2 = true :=
        hds d2 (List.mem_cons_of_mem _ (List.mem_cons_self _ _))
      have hx := hex_not_special d2 hd2
      cases hl : ds2 ++ r with
      | nil =>
        show strip_0x (d :: d2 :: (ds2 ++ r)) = d :: d2 :: (ds2 ++ r)
        rw [hl]
        rfl
      | cons h t =>
        show strip_0x (d :: d2 :: (ds2 ++ r)) = d :: d2 :: (ds2 ++ r)
        rw [hl]
        show (if (d == '0' && (d2 == 'x' || d2 == 'X') && is_digit_of 16 h) = true
                then h :: t else _) = _
        rw [if_neg]
        simp [hx.1, hx.2.1]
  have htr : List.takeWhile (is_digit_of 16) r = [] ∧ List.dropWhile (is_digit_of 16) r = r := by
    cases r with
    | nil => exact ⟨rfl, rfl⟩
    | cons x r1 =>
      have hx := (hr x rfl).1
      exact ⟨List.takeWhile_cons_of_neg (by rw [hx]; decide),
        List.dropWhile_cons_of_neg (by rw [hx]; decide)⟩
  have ht : List.takeWhile (is_digit_of 16) (d :: ds' ++ r) = d :: ds' := by
    rw [List.takeWhile_append_of_pos hds, htr.1, List.append_nil]
  have hdr : List.dropWhile (is_digit_of 16) (d :: ds' ++ r) = r := by
    rw [List.dropWhile_append_of_pos hds, htr.2]
  unfold strto_digits16
  simp only [hs]
  rw [ht, hdr]
  rfl

theorem strto_signed16_digit (d : Char) (t : List Char) (hd : is_digit_of 16 d = true) :
    strto_signed16 (d :: t) = (strto_digits16 (d :: t)).map (fun r => (false, r.1, r.2)) := by
  have hx := hex_not_special d hd
  unfold strto_signed16
  have h1 : (d == '-') = false := by simp [hx.2.2.1]
  have h2 : (d == '+') = false := by simp [hx.2.2.2.1]
  simp only [h1, h2, Bool.false_eq_true, if_false]

theorem drop_space_digits (ws ds r : List Char) (hws : ∀ c ∈ ws, is_posix_space c = true)
    (hne : ds ≠ []) (hds : ∀ c ∈ ds, is_digit_of 16 c = true) :
    (ws ++ ds ++ r).dropWhile c_isspace = ds ++ r := by
  obtain ⟨d, ds', rfl⟩ := List.exists_cons_of_ne_nil hne
  have hd := hex_not_special d (hds d (List.mem_cons_self _ _))
  rw [List.append_assoc,
    List.dropWhile_append_of_pos (show ∀ c ∈ ws, c_isspace c = true from hws)]
  exact List.dropWhile_cons_of_neg (by rw [hd.2.2.2.2]; decide)

theorem strtoull16_suffix (ws ds r : List Char) (hws : ∀ c ∈ ws, is_posix_space c = true)
    (hne : ds ≠ []) (hds : ∀ c ∈ ds, is_digit_of 16 c = true) :
    (strtoull16 (ws ++ ds ++ r)).2 <:+ r := by
  unfold strtoull16
  rw [drop_space_digits ws ds r hws hne hds]
  obtain ⟨m, rest, hm, hsuf⟩ := strto_digits16_suffix ds r hne hds
  obtain ⟨d, ds', rfl⟩ := List.exists_cons_of_ne_nil hne
  rw [show d :: ds' ++ r = d :: (ds' ++ r) from rfl,
    strto_signed16_digit d _ (hds d (List.mem_cons_self _ _)),
    show d :: (ds' ++ r) = d :: ds' ++ r from rfl, hm]
  simp only [Option.map_some', Bool.false_eq_true, if_false]
  split <;> exact hsuf

theorem strtoull16_exact (ws ds r : List Char) (hws : ∀ c ∈ ws, is_posix_space c = true)
    (hne : ds ≠ []) (hds : ∀ c ∈ ds, is_digit_of 16 c = true)
    (hr : ∀ c, r.head? = some c → is_digit_of 16 c = false ∧ c ≠ 'x' ∧ c ≠ 'X') :
    strtoull16 (ws ++ ds ++ r)
      = (if digits_value 16 ds > 2 ^ 64 - 1 then 2 ^ 64 - 1 else digits_value 16 ds, r) := by
  unfold strtoull16
  rw [drop_space_digits ws ds r hws hne hds]
  have hm := strto_digits16_exact ds r hne hds hr
  obtain ⟨d, ds', rfl⟩ := List.exists_cons_of_ne_nil hne
  rw [show d :: ds' ++ r = d :: (ds' ++ r) from rfl,
    strto_signed16_digit d _ (hds d (List.mem_cons_self _ _)),
    show d :: (ds' ++ r) = d :: ds' ++ r from rfl, hm]
  simp only [Option.map_some', Bool.false_eq_true, if_false]
  split <;> rfl

theorem linux_iomem_kcode_loop_skip (pre rest : List (List Char)) (ret : kcode_result)
    (hpre : ∀ l ∈ pre, is_kcode_line l = false) :
    linux_iomem_kcode_loop (pre ++ rest) ret
      = linux_iomem_kcode_loop rest
          (if pre = [] then ret else { status := .ERR_NOKEY, err := none, paddr := ret.paddr }) := by
  induction pre generalizing ret with
  | nil => rfl
  | cons l pre ih =>
    have hl := check_kcode_other l ret.paddr (hpre l (List.mem_cons_self _ _))
    rw [show linux_iomem_kcode_loop (l :: pre ++ rest) ret
        = (if (check_kcode l ret.paddr).status = .ERR_NOKEY
            then linux_iomem_kcode_loop (pre ++ rest) (check_kcode l ret.paddr)
            else check_kcode l ret.paddr) from rfl,
      hl, if_pos rfl, ih _ (fun x hx => hpre x (List.mem_cons_of_mem _ hx)),
      if_neg (List.cons_ne_nil _ _)]
    by_cases hp : pre = []
    · rw [if_pos hp]
    · rw [if_neg hp]

theorem space_not_digit (c : Char) (h : is_posix_space c = true) :
    is_digit_of 16 c = false ∧ c ≠ 'x' ∧ c ≠ 'X' ∧ c ≠ '-' := by
  refine ⟨?_, ?_, ?_, ?_⟩
  · cases hd : is_digit_of 16 c with
    | false => rfl
    | true =>
      have := (hex_not_special c hd).2.2.2.2
      rw [show c_isspace c = is_posix_space c from rfl, h] at this
      exact absurd this (by decide)
  · rintro rfl
    exact absurd h (by decide)
  · rintro rfl
    exact absurd h (by decide)
  · rintro rfl
    exact absurd h (by decide)

theorem check_kcode_start (l ws ds ws' rest : List Char) (paddr : Nat)
    (hk : is_kcode_line l = true)
    (hform : rtrim (cstr l) = ws ++ ds ++ (ws' ++ '-' :: rest))
    (hws : ∀ c ∈ ws, is_posix_space c = true) (hws' : ∀ c ∈ ws', is_posix_space c = true)
    (hne : ds ≠ []) (hds : ∀ c ∈ ds, is_digit_of 16 c = true) :
    check_kcode l paddr
      = { status := .OK, err := none,
          paddr := if digits_value 16 ds > 2 ^ 64 - 1 then 2 ^ 64 - 1
                   else digits_value 16 ds } := by
  have hr : ∀ c, (ws' ++ '-' :: rest).head? = some c →
      is_digit_of 16 c = false ∧ c ≠ 'x' ∧ c ≠ 'X' := by
    intro c hc
    cases ws' with
    | nil =>
      have : c = '-' := (Option.some.inj hc).symm
      subst this
      exact ⟨by decide, by decide, by decide⟩
    | cons w ws2 =>
      have : c = w := (Option.some.inj hc).symm
      subst this
      have := space_not_digit c (hws' c (List.mem_cons_self _ _))
      exact ⟨this.1, this.2.1, this.2.2.1⟩
  have hp : (ws' ++ '-' :: rest).dropWhile is_posix_space = '-' :: rest := by
    rw [List.dropWhile_append_of_pos hws']
    exact List.dropWhile_cons_of_neg (by decide)
  rw [check_kcode_named l paddr hk, hform, strtoull16_exact ws ds _ hws hne hds hr]
  simp only [hp]
  rw [if_neg]
  intro h
  rcases h with h | h
  · have hl : 0 < ds.length := List.length_pos.mpr hne
    simp only [List.length_append, List.length_cons] at h
    omega
  · exact h rfl

theorem check_kcode_no_dash (l ws ds r : List Char) (paddr : Nat)
    (hk : is_kcode_line l = true) (hform : rtrim (cstr l) = ws ++ ds ++ r)
    (hws : ∀ c ∈ ws, is_posix_space c = true)
    (hne : ds ≠ []) (hds : ∀ c ∈ ds, is_digit_of 16 c = true) (hr : ¬ ('-' ∈ r)) :
    check_kcode l paddr
      = { status := .ERR_CORRUPT,
          err := some ("Invalid iomem format: ".toList ++ rtrim (cstr l)),
          paddr := paddr } := by
  rw [check_kcode_named l paddr hk, if_pos]
  right
  rw [hform]
  have hs := strtoull16_suffix ws ds r hws hne hds
  have hs2 : (strtoull16 (ws ++ ds ++ r)).2.dropWhile is_posix_space <:+ r :=
    (List.dropWhile_suffix _).trans hs
  intro hh
  cases hp : (strtoull16 (ws ++ ds ++ r)).2.dropWhile is_posix_space with
  | nil =>
    rw [hp] at hh
    exact absurd hh (by simp)
  | cons c t =>
    rw [hp] at hh hs2
    have hc : c = '-' := Option.some.inj hh
    subst hc
    exact hr (hs2.subset (List.mem_cons_self _ _))

/-- Claim C36: `linux_iomem_kcode` stops at the first line whose resource name
is `Kernel code`: it returns OK with the start number when the line has the
form start `-` end, CORRUPT when the text after the start number holds no `-`,
and NOKEY with `*paddr` unchanged when the file has lines but none has that
name.  For an empty file the variable `ret` is returned as it was before the
loop, where nothing has assigned it: the status is whatever value it holds,
which can be OK, with `*paddr` unchanged. -/
theorem iomem_kcode_lookup (uninit : kdump_status) (paddr : Nat) :
    linux_iomem_kcode uninit (.lines [] false) paddr
      = { status := uninit, err := none, paddr := paddr } ∧
    (∀ ls, ls ≠ [] → (∀ l ∈ ls, is_kcode_line l = false) →
      linux_iomem_kcode uninit (.lines ls false) paddr
        = { status := .ERR_NOKEY, err := none, paddr := paddr }) ∧
    (∀ pre l post ws ds ws1 rest, (∀ x ∈ pre, is_kcode_line x = false) →
      is_kcode_line l = true →
      rtrim (cstr l) = ws ++ ds ++ (ws1 ++ '-' :: rest) →
      (∀ c ∈ ws, is_posix_space c = true) → (∀ c ∈ ws1, is_posix_space c = true) →
      ds ≠ [] → (∀ c ∈ ds, is_digit_of 16 c = true) →
      linux_iomem_kcode uninit (.lines (pre ++ l :: post) false) paddr
        = { status := .OK, err := none,
            paddr := if digits_value 16 ds > 2 ^ 64 - 1 then 2 ^ 64 - 1
                     else digits_value 16 ds }) ∧
    (∀ pre l post ws ds r, (∀ x ∈ pre, is_kcode_line x = false) →
      is_kcode_line l = true →
      rtrim (cstr l) = ws ++ ds ++ r →
      (∀ c ∈ ws, is_posix_space c = true) →
      ds ≠ [] → (∀ c ∈ ds, is_digit_of 16 c = true) → ¬ ('-' ∈ r) →
      linux_iomem_kcode uninit (.lines (pre ++ l :: post) false) paddr
        = { status := .ERR_CORRUPT,
            err := some ("Invalid iomem format: ".toList ++ rtrim (cstr l)),
            paddr := paddr }) := by
  refine ⟨rfl, ?_, ?_, ?_⟩
  · intro ls hne hls
    have h := linux_iomem_kcode_loop_skip ls []
      { status := uninit, err := none, paddr := paddr } hls
    rw [List.append_nil, if_neg hne] at h
    show linux_iomem_kcode_loop ls { status := uninit, err := none, paddr := paddr } = _
    rw [h]
    rfl
  · intro pre l post ws ds ws1 rest hpre hk hform hws hws1 hne hds
    have h := linux_iomem_kcode_loop_skip pre (l :: post)
      { status := uninit, err := none, paddr := paddr } hpre
    show linux_iomem_kcode_loop (pre ++ l :: post)
      { status := uninit, err := none, paddr := paddr } = _
    rw [h]
    generalize (if pre = [] then ({ status := uninit, err := none, paddr := paddr } : kcode_result)
      else { status := .ERR_NOKEY, err := none, paddr := paddr }) = ret
    rw [show linux_iomem_kcode_loop (l :: post) ret
        = (if (check_kcode l ret.paddr).status = .ERR_NOKEY
            then linux_iomem_kcode_loop post (check_kcode l ret.paddr)
            else check_kcode l ret.paddr) from rfl,
      check_kcode_start l ws ds ws1 rest ret.paddr hk hform hws hws1 hne hds]
    rw [if_neg (fun h => kdump_status.noConfusion h)]
  · intro pre l post ws ds r hpre hk hform hws hne hds hr
    have h := linux_iomem_kcode_loop_skip pre (l :: post)
      { status := uninit, err := none, paddr := paddr } hpre
    show linux_iomem_kcode_loop (pre ++ l :: post)
      { status := uninit, err := none, paddr := paddr } = _
    rw [h]
    have hp : (if pre = [] then ({ status := uninit, err := none, paddr := paddr } : kcode_result)
      else { status := .ERR_NOKEY, err := none, paddr := paddr }).paddr = paddr := by
      split <;> rfl
    generalize (if pre = [] then ({ status := uninit, err := none, paddr := paddr } : kcode_result)
      else { status := .ERR_NOKEY, err := none, paddr := paddr }) = ret at hp
    rw [show linux_iomem_kcode_loop (l :: post) ret
        = (if (check_kcode l ret.paddr).status = .ERR_NOKEY
            then linux_iomem_kcode_loop post (check_kcode l ret.paddr)
            else check_kcode l ret.paddr) from rfl,
      check_kcode_no_dash l ws ds r ret.paddr hk hform hws hne hds hr]
    rw [if_neg (fun h => kdump_status.noConfusion h), hp]

/-- Witness for C36: on an empty file whose `ret` happens to hold OK the
function returns OK and leaves `*paddr` at 7; on a file whose third line is
`  01000000-01c031d0 : Kernel code` it returns OK with 0x1000000. -/
theorem iomem_kcode_lookup_witness :
    linux_iomem_kcode .OK (.lines [] false) 7 = { status := .OK, err := none, paddr := 7 } ∧
    linux_iomem_kcode .ERR_NODATA (.lines sample_iomem false) 7
      = { status := .OK, err := none, paddr := 0x1000000 } :=
  ⟨(iomem_kcode_lookup .OK 7).1,
   (iomem_kcode_lookup .ERR_NODATA 7).2.2.1
     ["00000000-00000fff : Reserved\n".toList, "00100000-bfffffff : System RAM\n".toList]
     "  01000000-01c031d0 : Kernel code\n".toList
     ["  01c031d1-0266f3bf : Kernel data\n".toList]
     "  ".toList "01000000".toList [] "01c031d0 : Kernel code".toList
     (by decide) (by decide) (by decide) (by decide) (by decide) (by decide) (by decide)⟩

/-! ## The order of the tokens of an option string -/

/-- Exchanging the first and the last token of `levels=1 levels=2 pagesize=4096`,
whose keys differ, changes the parsed options: `levels` is 2 before and 1 after. -/
theorem swap_tokens_counterexample :
    (parse_opts true zero_opts full_ctx (some "levels=1 levels=2 pagesize=4096".toList)).map
        (fun r => (r.1, r.2.1.levels, r.2.1.pagesize, r.2.1.isset .OPT_levels,
          r.2.1.isset .OPT_pagesize))
      = some (.OK, 2, 4096, true, true) ∧
    (parse_opts true zero_opts full_ctx (some "pagesize=4096 levels=2 levels=1".toList)).map
        (fun r => (r.1, r.2.1.levels, r.2.1.pagesize, r.2.1.isset .OPT_levels,
          r.2.1.isset .OPT_pagesize))
      = some (.OK, 1, 4096, true, true) := by
  decide

theorem store_option_isSome (p q : parsed_opts) (idx : optidx) (v : List Char) :
    (store_option p idx v).isSome = (store_option q idx v).isSome := by
  cases idx <;> simp [store_option]

theorem store_tokens_accepted (ts : List opt_token) :
    ∀ popt, (store_tokens popt ts).isSome = ts.all token_accepted := by
  induction ts with
  | nil => intro _; rfl
  | cons t rest ih =>
    intro popt
    rw [List.all_cons]
    cases hk : key_option t.key with
    | none =>
      have e1 : store_tokens popt (t :: rest) = none := by
        unfold store_tokens
        simp only [hk]
      have e2 : token_accepted t = false := by
        unfold token_accepted
        simp only [hk]
      rw [e1, e2]
      rfl
    | some idx =>
      cases hv : t.val with
      | none =>
        have e1 : store_tokens popt (t :: rest) = none := by
          unfold store_tokens
          simp only [hk, hv]
        have e2 : token_accepted t = false := by
          unfold token_accepted
          simp only [hk, hv]
        rw [e1, e2]
        rfl
      | some v =>
        have e2 : token_accepted t = (store_option zero_opts idx v).isSome := by
          unfold token_accepted
          simp only [hk, hv]
        have e := store_option_isSome popt zero_opts idx v
        rw [e2, ← e]
        cases hs : store_option popt idx v with
        | none =>
          have e1 : store_tokens popt (t :: rest) = none := by
            unfold store_tokens
            simp only [hk, hv, hs]
          rw [e1]
          rfl
        | some p1 =>
          have e1 : store_tokens popt (t :: rest) = store_tokens p1 rest := by
            rw [store_tokens]
            simp only [hk, hv, hs]
          rw [e1, ih p1]
          rfl

theorem last_value_cons (t : opt_token) (rest : List opt_token) (i : optidx) :
    last_value (t :: rest) i
      = match last_value rest i with
        | some v => some v
        | none => if key_option t.key = some i then t.val else none := rfl

theorem last_value_append (x y : List opt_token) (i : optidx) :
    last_value (x ++ y) i
      = match last_value y i with
        | some v => some v
        | none => last_value x i := by
  induction x with
  | nil =>
    cases h : last_value y i <;> simp [last_value, h]
  | cons t x ih =>
    rw [List.cons_append, last_value_cons, ih, last_value_cons]
    cases h : last_value y i <;> rfl

theorem last_value_none (m : List opt_token) (i : optidx)
    (h : ∀ t ∈ m, key_option t.key ≠ some i) : last_value m i = none := by
  induction m with
  | nil => rfl
  | cons t m ih =>
    rw [last_value_cons, ih (fun x hx => h x (List.mem_cons_of_mem _ hx))]
    exact if_neg (h t (List.mem_cons_self _ _))

theorem same_fields_eq (popt p q : parsed_opts) (ts ts1 : List opt_token)
    (hp : store_tokens popt ts = some p) (hq : store_tokens popt ts1 = some q)
    (hl : ∀ i, last_value ts1 i = last_value ts i) : q = p := by
  have ep := store_tokens_effect ts popt p hp
  have eq := store_tokens_effect ts1 popt q hq
  have key : ∀ i, field_same q p i ∧ q.isset i = p.isset i := by
    intro i
    have a := ep i
    have b := eq i
    rw [hl i] at b
    cases hv : last_value ts i with
    | none =>
      rw [hv] at a b
      refine ⟨?_, by rw [a.2, b.2]⟩
      cases i <;> exact Eq.trans b.1 a.1.symm
    | some v =>
      rw [hv] at a b
      refine ⟨?_, by rw [a.2, b.2]⟩
      cases i
      case OPT_pte_mask => exact absurd a.1 (by simp [field_holds])
      all_goals
        have a1 := a.1
        have b1 := b.1
        simp only [field_holds] at a1 b1
        rw [a1] at b1
        exact (Option.some.inj b1).symm
  have h1 := (key .OPT_levels).1
  have h2 := (key .OPT_pagesize).1
  have h3 := (key .OPT_phys_base).1
  have h4 := (key .OPT_rootpgt).1
  have h5 := (key .OPT_xen_p2m_mfn).1
  have h6 := (key .OPT_xen_xlat).1
  have h7 := (key .OPT_pte_mask).1
  have h8 : q.isset = p.isset := funext (fun i => (key i).2)
  simp only [field_same] at h1 h2 h3 h4 h5 h6 h7
  cases p
  cases q
  simp only at h1 h2 h3 h4 h5 h6 h7 h8
  subst h1 h2 h3 h4 h5 h6 h7 h8
  rfl

theorem tokens_plain_step (t : opt_token) (rest : List opt_token) :
    tokens_plain (t :: rest)
      = (word_plain t && t.sep.all is_posix_space && (!t.sep.isEmpty || rest.isEmpty)
          && tokens_plain rest) := rfl

theorem tokens_plain_word (ts : List opt_token) (h : tokens_plain ts = true) :
    ∀ t ∈ ts, word_plain t = true := by
  induction ts with
  | nil => intro t ht; simp at ht
  | cons t rest ih =>
    rw [tokens_plain_step] at h
    simp only [Bool.and_eq_true] at h
    intro x hx
    rcases List.mem_cons.mp hx with e | e
    · rw [e]
      exact h.1.1.1
    · exact ih h.2 x e

theorem tokens_plain_rel (ts ts1 : List opt_token)
    (hr : List.Forall₂ (fun t t1 => t1.sep = t.sep ∧ word_plain t1 = true) ts ts1)
    (h : tokens_plain ts = true) : tokens_plain ts1 = true := by
  induction hr with
  | nil => rfl
  | cons hab hrest ih =>
    rename_i t t1 rest rest1
    rw [tokens_plain_step] at h ⊢
    simp only [Bool.and_eq_true] at h ⊢
    have hlen := hrest.length_eq
    have he : rest1.isEmpty = rest.isEmpty := by
      cases rest <;> cases rest1 <;> first | rfl | simp at hlen
    rw [hab.1, he]
    exact ⟨⟨⟨hab.2, h.1.1.2⟩, h.1.2⟩, ih h.2⟩

theorem swap_tokens_plain (a : List opt_token) (t1 : opt_token) (m : List opt_token)
    (t2 : opt_token) (b : List opt_token)
    (h : tokens_plain (a ++ t1 :: (m ++ t2 :: b)) = true) :
    tokens_plain (swap_tokens a t1 m t2 b) = true := by
  have hw := tokens_plain_word _ h
  have refl : ∀ l : List opt_token, (∀ t ∈ l, word_plain t = true) →
      List.Forall₂ (fun t t1 => t1.sep = t.sep ∧ word_plain t1 = true) l l :=
    fun l hl => List.forall₂_same.mpr (fun t ht => ⟨rfl, hl t ht⟩)
  apply tokens_plain_rel _ _ _ h
  unfold swap_tokens
  apply List.rel_append
  · exact refl a (fun t ht => hw t (by simp [ht]))
  · refine List.Forall₂.cons ⟨rfl, hw t2 (by simp)⟩ ?_
    apply List.rel_append
    · exact refl m (fun t ht => hw t (by simp [ht]))
    · refine List.Forall₂.cons ⟨rfl, hw t1 (by simp)⟩ ?_
      exact refl b (fun t ht => hw t (by simp [ht]))

theorem swap_tokens_accepted (a : List opt_token) (t1 : opt_token) (m : List opt_token)
    (t2 : opt_token) (b : List opt_token) :
    (swap_tokens a t1 m t2 b).all token_accepted
      = (a ++ t1 :: (m ++ t2 :: b)).all token_accepted := by
  unfold swap_tokens
  have e1 : token_accepted { t2 with sep := t1.sep } = token_accepted t2 := rfl
  have e2 : token_accepted { t1 with sep := t2.sep } = token_accepted t1 := rfl
  simp only [List.all_append, List.all_cons, e1, e2]
  cases a.all token_accepted <;> cases token_accepted t1 <;> cases token_accepted t2 <;>
    cases m.all token_accepted <;> rfl

theorem swap_tokens_last (a : List opt_token) (t1 : opt_token) (m : List opt_token)
    (t2 : opt_token) (b : List opt_token)
    (hk : key_option t1.key ≠ key_option t2.key)
    (hm : ∀ t ∈ m, key_option t.key ≠ key_option t1.key ∧
      key_option t.key ≠ key_option t2.key) (i : optidx) :
    last_value (swap_tokens a t1 m t2 b) i = last_value (a ++ t1 :: (m ++ t2 :: b)) i := by
  unfold swap_tokens
  rw [last_value_append, last_value_append a]
  have e : last_value ({ t2 with sep := t1.sep } :: (m ++ { t1 with sep := t2.sep } :: b)) i
      = last_value (t1 :: (m ++ t2 :: b)) i := by
    rw [last_value_cons, last_value_cons, last_value_append, last_value_append,
      last_value_cons, last_value_cons]
    cases hb : last_value b i with
    | some v => rfl
    | none =>
      show (match (match (if key_option t1.key = some i then t1.val else none) with
              | some v => some v
              | none => last_value m i) with
            | some v => some v
            | none => if key_option t2.key = some i then t2.val else none)
          = (match (match (if key_option t2.key = some i then t2.val else none) with
              | some v => some v
              | none => last_value m i) with
            | some v => some v
            | none => if key_option t1.key = some i then t1.val else none)
      by_cases h1 : key_option t1.key = some i
      · have h2 : key_option t2.key ≠ some i := fun h => hk (h1.trans h.symm)
        have hmi : last_value m i = none :=
          last_value_none m i (fun t ht => h1 ▸ (hm t ht).1)
        rw [if_pos h1, if_neg h2, hmi]
        cases t1.val <;> rfl
      · by_cases h2 : key_option t2.key = some i
        · have hmi : last_value m i = none :=
            last_value_none m i (fun t ht => h2 ▸ (hm t ht).2)
          rw [if_neg h1, if_pos h2, hmi]
          cases t2.val <;> rfl
        · rw [if_neg h1, if_neg h2]
  rw [e]

/-- Claim C34 (amended): for an option string of white-space separated tokens
`key=value` with recognised keys and well-formed values, `parse_opts` returns OK,
the field of each key holds the value of the last token with that key and
`isset` is true exactly for the keys that occur.  The parsed options depend on
the last values only: every other such string with the same last value for every
option gives the same result.  Exchanging two tokens with different keys gives
the same result when no token between them has the key of one of them, which
holds for adjacent tokens. -/
theorem last_occurrence_wins (popt : parsed_opts) (ctx : addrxlat_ctx_t)
    (lead : List Char) (ts : List opt_token) (p : parsed_opts)
    (hl : ∀ c ∈ lead, is_posix_space c = true) (hp : tokens_plain ts = true)
    (hs : store_tokens { popt with isset := fun _ => false } ts = some p) :
    parse_opts true popt ctx (some (lead ++ render ts)) = some (.OK, p, ctx) ∧
    (∀ i, p.isset i = true ↔ ∃ t ∈ ts, key_option t.key = some i) ∧
    (∀ i, match last_value ts i with
          | some v => field_holds p i v
          | none => field_same p popt i) ∧
    (∀ lead1 ts1, (∀ c ∈ lead1, is_posix_space c = true) → tokens_plain ts1 = true →
      ts1.all token_accepted = true → (∀ i, last_value ts1 i = last_value ts i) →
      parse_opts true popt ctx (some (lead1 ++ render ts1)) = some (.OK, p, ctx)) ∧
    (∀ a t1 m t2 b, ts = a ++ t1 :: (m ++ t2 :: b) →
      key_option t1.key ≠ key_option t2.key →
      (∀ t ∈ m, key_option t.key ≠ key_option t1.key ∧
        key_option t.key ≠ key_option t2.key) →
      parse_opts true popt ctx (some (lead ++ render (swap_tokens a t1 m t2 b)))
        = some (.OK, p, ctx)) ∧
    (∀ a t1 t2 b, ts = a ++ t1 :: t2 :: b → key_option t1.key ≠ key_option t2.key →
      parse_opts true popt ctx (some (lead ++ render (swap_tokens a t1 [] t2 b)))
        = some (.OK, p, ctx)) := by
  have heff := store_tokens_effect ts _ p hs
  have hvals := store_tokens_vals ts _ p hs
  have gen : ∀ lead1 ts1, (∀ c ∈ lead1, is_posix_space c = true) → tokens_plain ts1 = true →
      ts1.all token_accepted = true → (∀ i, last_value ts1 i = last_value ts i) →
      parse_opts true popt ctx (some (lead1 ++ render ts1)) = some (.OK, p, ctx) := by
    intro lead1 ts1 hl1 hp1 hacc hlast
    have hsome := store_tokens_accepted ts1 { popt with isset := fun _ => false }
    rw [hacc] at hsome
    obtain ⟨q, hq⟩ := Option.isSome_iff_exists.mp hsome
    have e := same_fields_eq _ p q ts ts1 hs hq hlast
    rw [e] at hq
    exact parse_opts_tokens popt ctx lead1 ts1 p hl1 hp1 hq
  have hall : ts.all token_accepted = true := by
    rw [← store_tokens_accepted ts { popt with isset := fun _ => false }, hs]
    rfl
  have swap : ∀ a t1 m t2 b, ts = a ++ t1 :: (m ++ t2 :: b) →
      key_option t1.key ≠ key_option t2.key →
      (∀ t ∈ m, key_option t.key ≠ key_option t1.key ∧
        key_option t.key ≠ key_option t2.key) →
      parse_opts true popt ctx (some (lead ++ render (swap_tokens a t1 m t2 b)))
        = some (.OK, p, ctx) := by
    intro a t1 m t2 b hts hk hm
    subst hts
    exact gen lead _ hl (swap_tokens_plain a t1 m t2 b hp)
      (by rw [swap_tokens_accepted]; exact hall)
      (fun i => swap_tokens_last a t1 m t2 b hk hm i)
  refine ⟨parse_opts_tokens popt ctx lead ts p hl hp hs, ?_, ?_, gen, swap, ?_⟩
  · intro i
    rw [← last_value_some_iff ts i hvals]
    have := heff i
    cases hlv : last_value ts i with
    | some v =>
      rw [hlv] at this
      simp [this.2]
    | none =>
      rw [hlv] at this
      simp [this.2]
  · intro i
    have := heff i
    cases hlv : last_value ts i with
    | some v =>
      rw [hlv] at this
      exact this.1
    | none =>
      rw [hlv] at this
      exact this.1
  · intro a t1 t2 b hts hk
    exact swap a t1 [] t2 b hts hk (fun t ht => absurd ht (List.not_mem_nil t))

/-- Witness for C34: `levels=1 pagesize=4096  levels=2` gives `levels` = 2 and
`pagesize` = 4096, and so does `pagesize=4096 levels=1  levels=2`, in which the
first two tokens are exchanged. -/
theorem last_occurrence_wins_witness :
    parse_opts true zero_opts full_ctx (some "levels=1 pagesize=4096  levels=2".toList)
      = some (.OK, sample_opts, full_ctx) ∧
    parse_opts true zero_opts full_ctx (some "pagesize=4096 levels=1  levels=2".toList)
      = some (.OK, sample_opts, full_ctx) ∧
    sample_opts.levels = 2 ∧ sample_opts.pagesize = 4096 := by
  have h := last_occurrence_wins zero_opts full_ctx [] sample_tokens sample_opts
    (by simp) (by decide) (by rfl)
  have e1 : "levels=1 pagesize=4096  levels=2".toList = [] ++ render sample_tokens := by
    decide
  have e2 : "pagesize=4096 levels=1  levels=2".toList
      = [] ++ render (swap_tokens []
          { key := "levels".toList, val := some "1".toList, sep := " ".toList } []
          { key := "pagesize".toList, val := some "4096".toList, sep := "  ".toList }
          [{ key := "levels".toList, val := some "2".toList, sep := [] }]) := by
    decide
  rw [e1, e2]
  exact ⟨h.1, h.2.2.2.2.2 [] _ _ _ rfl (by decide), rfl, rfl⟩

end Kdumpfile
